import Mathlib

/-!
# Tegra I2C master controller driver (`drivers/i2c/busses/i2c-tegra.c`)

A shallow embedding of the driver's transfer path and of the properties its
specification states about it.

Build configuration embedded here: `CONFIG_ARCH_ACER_T30` and
`CONFIG_I2C_ACER_ENABLE` defined, `CONFIG_ARCH_ACER_T20` and `DEBUG` not
defined.  Hence the `#if !defined(CONFIG_ARCH_ACER_T20)` branches are the
live ones (pluggable `arb_recovery`, `scl_gpio`/`sda_gpio` on the bus), and
`dev_dbg` arguments are not evaluated.

Conventions.
* C unsigned 32-bit values are `Nat`, reduced with `u32` where a value is
  produced by the environment or may wrap.  `int` results are `Int`.
* The driver's own data is `tegra_i2c_dev`, the C structure.  Everything
  outside it is `Machine`: the register window, kernel memory, the clock, the
  global `finished` flag, and the trace of actions.
* The register window is `regs : Nat → Nat`, keyed by the physical byte
  offset from `base`.  It holds the value last written to each offset; it is
  what configuration registers read back.  Hardware-driven registers
  (interrupt status, controller status, FIFO status, the receive FIFO port)
  are read from an explicit environment argument instead.
* Kernel memory holding message buffers is `mem : Nat → Nat` (one byte per
  address); `msg_buf` is an address into it.
* Every externally visible action is appended to `trace` in program order.
* `BUG()` / `BUG_ON(true)` stop the kernel: a function that can reach one
  returns `Option`, with `none` for the stop.
* The interrupt handler runs concurrently with the waiting caller in the
  kernel; here the handler invocations that happen during one wait are a list
  the environment supplies, applied in order while the caller is blocked.
* Delays (`mdelay`, `udelay`, `msleep`) and log messages have no counterpart;
  a register read made for a `dev_warn` argument is recorded as a read.
-/

namespace TegraI2c

/-! ## Constants of the source file -/

def BYTES_PER_FIFO_WORD : Nat := 4

def I2C_CNFG : Nat := 0x000
def I2C_CNFG_DEBOUNCE_CNT_SHIFT : Nat := 12
def I2C_CNFG_PACKET_MODE_EN : Nat := 1 <<< 10
def I2C_CNFG_NEW_MASTER_FSM : Nat := 1 <<< 11
def I2C_STATUS : Nat := 0x01C
def I2C_STATUS_BUSY : Nat := 1 <<< 8
def I2C_SL_CNFG : Nat := 0x020
def I2C_SL_CNFG_NACK : Nat := 1 <<< 1
def I2C_SL_CNFG_NEWSL : Nat := 1 <<< 2
def I2C_SL_ADDR1 : Nat := 0x02c
def I2C_SL_ADDR2 : Nat := 0x030
def I2C_TX_FIFO : Nat := 0x050
def I2C_RX_FIFO : Nat := 0x054
def I2C_PACKET_TRANSFER_STATUS : Nat := 0x058
def I2C_FIFO_CONTROL : Nat := 0x05c
def I2C_FIFO_CONTROL_TX_FLUSH : Nat := 1 <<< 1
def I2C_FIFO_CONTROL_RX_FLUSH : Nat := 1 <<< 0
def I2C_FIFO_CONTROL_TX_TRIG_SHIFT : Nat := 5
def I2C_FIFO_CONTROL_RX_TRIG_SHIFT : Nat := 2
def I2C_FIFO_STATUS : Nat := 0x060
def I2C_FIFO_STATUS_TX_MASK : Nat := 0xF0
def I2C_FIFO_STATUS_TX_SHIFT : Nat := 4
def I2C_FIFO_STATUS_RX_MASK : Nat := 0x0F
def I2C_FIFO_STATUS_RX_SHIFT : Nat := 0
def I2C_INT_MASK : Nat := 0x064
def I2C_INT_STATUS : Nat := 0x068
def I2C_INT_PACKET_XFER_COMPLETE : Nat := 1 <<< 7
def I2C_INT_ALL_PACKETS_XFER_COMPLETE : Nat := 1 <<< 6
def I2C_INT_TX_FIFO_OVERFLOW : Nat := 1 <<< 5
def I2C_INT_RX_FIFO_UNDERFLOW : Nat := 1 <<< 4
def I2C_INT_NO_ACK : Nat := 1 <<< 3
def I2C_INT_ARBITRATION_LOST : Nat := 1 <<< 2
def I2C_INT_TX_FIFO_DATA_REQ : Nat := 1 <<< 1
def I2C_INT_RX_FIFO_DATA_REQ : Nat := 1 <<< 0
def I2C_CLK_DIVISOR : Nat := 0x06c

def DVC_CTRL_REG1 : Nat := 0x000
def DVC_CTRL_REG1_INTR_EN : Nat := 1 <<< 10
def DVC_CTRL_REG2 : Nat := 0x004
def DVC_CTRL_REG3 : Nat := 0x008
def DVC_CTRL_REG3_SW_PROG : Nat := 1 <<< 26
def DVC_CTRL_REG3_I2C_DONE_INTR_EN : Nat := 1 <<< 30
def DVC_STATUS : Nat := 0x00c
def DVC_STATUS_I2C_DONE_INTR : Nat := 1 <<< 30

def I2C_ERR_NONE : Nat := 0x00
def I2C_ERR_NO_ACK : Nat := 0x01
def I2C_ERR_ARBITRATION_LOST : Nat := 0x02
def I2C_ERR_UNKNOWN_INTERRUPT : Nat := 0x04
def I2C_ERR_UNEXPECTED_STATUS : Nat := 0x08

def PACKET_HEADER0_HEADER_SIZE_SHIFT : Nat := 28
def PACKET_HEADER0_PACKET_ID_SHIFT : Nat := 16
def PACKET_HEADER0_CONT_ID_SHIFT : Nat := 12
def PACKET_HEADER0_PROTOCOL_I2C : Nat := 1 <<< 4

def I2C_HEADER_HIGHSPEED_MODE : Nat := 1 <<< 22
def I2C_HEADER_CONT_ON_NAK : Nat := 1 <<< 21
def I2C_HEADER_SEND_START_BYTE : Nat := 1 <<< 20
def I2C_HEADER_READ : Nat := 1 <<< 19
def I2C_HEADER_10BIT_ADDR : Nat := 1 <<< 18
def I2C_HEADER_IE_ENABLE : Nat := 1 <<< 17
def I2C_HEADER_REPEAT_START : Nat := 1 <<< 16
def I2C_HEADER_MASTER_ADDR_SHIFT : Nat := 12
def I2C_HEADER_SLAVE_ADDR_SHIFT : Nat := 1

/-! ## Constants of kernel headers the source includes -/

/-- Modelled from the spec: the "read" direction flag of a message.  The
header `include/linux/i2c.h` is not among the sources; the value is the one
of the Linux kernel header. -/
def I2C_M_RD : Nat := 0x0001

/-- Modelled from the spec: the "10-bit address" flag of a message
(`include/linux/i2c.h`, not among the sources). -/
def I2C_M_TEN : Nat := 0x0010

/-- Modelled from the spec: the "NACK tolerant" flag of a message
(`include/linux/i2c.h`, not among the sources). -/
def I2C_M_IGNORE_NAK : Nat := 0x1000

/-- Modelled from the spec: the generic I/O error number
(`include/asm-generic/errno-base.h`, not among the sources). -/
def EIO : Int := 5

/-- Modelled from the spec: the transient "try again" error number
(`include/asm-generic/errno-base.h`, not among the sources). -/
def EAGAIN : Int := 11

/-- Modelled from the spec: the "controller busy / suspended" error number
(`include/asm-generic/errno-base.h`, not among the sources). -/
def EBUSY : Int := 16

/-- Modelled from the spec: the "invalid argument" error number
(`include/asm-generic/errno-base.h`, not among the sources). -/
def EINVAL : Int := 22

/-- Modelled from the spec: the timeout error number
(`include/asm-generic/errno.h`, not among the sources). -/
def ETIMEDOUT : Int := 110

/-- Modelled from the spec: the remote-device error number
(`include/asm-generic/errno.h`, not among the sources). -/
def EREMOTEIO : Int := 121

/-- Reduction of a value to an unsigned 32-bit machine word (`u32`, and
`unsigned long` / `size_t` on the 32-bit ARM target). -/
def u32 (x : Nat) : Nat := x % 4294967296

/-- Bitwise complement of a `u32`, the C `~x`. -/
def not32 (x : Nat) : Nat := 4294967295 ^^^ u32 x

/-! ## Observable actions -/

/-- One externally visible action of the driver.  Register addresses are
physical byte offsets from `base`. -/
inductive Event where
  /-- `readl(base + addr)` -/
  | readl (addr : Nat)
  /-- `writel(val, base + addr)`; `writesl` is recorded as one per word -/
  | writel (val : Nat) (addr : Nat)
  /-- a read of `len` bytes of kernel memory starting at `addr` -/
  | mem_read (addr : Nat) (len : Nat)
  /-- a write of `len` bytes of kernel memory starting at `addr` -/
  | mem_write (addr : Nat) (len : Nat)
  | periph_reset_assert
  | periph_reset_deassert
  | clk_set_rate (rate : Nat)
  | pinmux_set_safe_pinmux_table (mux : Nat) (len : Int)
  | pinmux_config_pinmux_table (mux : Nat) (len : Int)
  | disable_irq_nosync
  | enable_irq
  | complete
  | arb_recovery (scl_gpio : Int) (sda_gpio : Int)
  | rt_mutex_lock
  | rt_mutex_unlock
  | spin_lock_irqsave
  | spin_unlock_irqrestore
  | pm_runtime_get_sync
  | pm_runtime_put_sync
  deriving DecidableEq, Repr

/-! ## Data model -/

/-- The kernel's `struct i2c_msg`: `addr`, `flags` and `len` are `__u16`,
`buf` is the address of the first data byte. -/
structure i2c_msg where
  addr : Nat
  flags : Nat
  len : Nat
  buf : Nat
  deriving DecidableEq, Repr

/-- The source's `struct tegra_i2c_bus`, without the back pointer `dev` (the
shared controller state is passed alongside) and the `adapter`.  `mux` is the
address of the pin-group table. -/
structure tegra_i2c_bus where
  mux : Nat
  mux_len : Int
  bus_clk_rate : Nat
  scl_gpio : Int
  sda_gpio : Int

/-- The source's `struct tegra_i2c_dev`, without the kernel handles (`dev`,
`clk`, `iomem`, `base`, `irq`, the two locks) and the bus array.
`msg_complete` is the `done` counter of the completion, `msg_buf` an address,
`last_mux` the address of the last applied pin-group table. -/
structure tegra_i2c_dev where
  cont_id : Nat
  irq_disabled : Bool
  is_dvc : Bool
  is_slave : Bool
  msg_complete : Nat
  msg_err : Nat
  msg_buf : Nat
  packet_header : Nat
  payload_size : Nat
  io_header : Nat
  msg_buf_remaining : Nat
  msg_read : Nat
  msgs : Option (List i2c_msg)
  msg_add : Nat
  msgs_num : Int
  is_suspended : Bool
  bus_count : Int
  last_mux : Nat
  last_mux_len : Int
  last_bus_clk_rate : Nat
  slave_addr : Nat
  is_clkon_always : Bool
  is_high_speed_enable : Bool
  hs_master_code : Nat
  arb_recovery : Option (Int → Int → Int)

/-- Everything outside the driver's structure that the driver acts on. -/
structure Machine where
  /-- value last written to each physical register offset -/
  regs : Nat → Nat
  /-- rate last requested from the controller clock -/
  clk_rate : Nat
  /-- kernel memory, one byte per address -/
  mem : Nat → Nat
  /-- the global `atomic_t finished` -/
  finished : Int
  /-- the actions so far, in program order -/
  trace : List Event

/-! ## Environment of one call -/

/-- What the hardware does during one `tegra_i2c_flush_fifos`: the number of
polls of `I2C_FIFO_CONTROL` that still show a flush bit before the deadline,
and whether the bits are then seen clear (`true`) or the one-second deadline
passes first (`false`). -/
structure FlushEnv where
  busy_polls : Nat
  completes : Bool
  deriving DecidableEq, Repr

/-- What the hardware presents to one invocation of the interrupt handler:
the interrupt status word, the controller status word, the FIFO status word
and the words the receive FIFO port delivers, in order. -/
structure IrqEnv where
  int_status : Nat
  i2c_status : Nat
  fifo_status : Nat
  rx_words : List Nat
  deriving DecidableEq, Repr

/-- What the hardware does during one `tegra_i2c_init`: the values the
registers take on the peripheral reset, and the FIFO flush. -/
structure InitEnv where
  reset_regs : Nat → Nat
  flush : FlushEnv

/-- What the environment does during one `tegra_i2c_xfer_msg`: the FIFO flush
at entry, the FIFO status word read by the priming fill of a write, the
handler invocations during the wait, and the environment of a re-init if one
is run. -/
structure XferMsgEnv where
  flush : FlushEnv
  fifo_status : Nat
  irqs : List IrqEnv
  init : InitEnv

/-! ## Register access layer -/

/-- Append one action to the trace. -/
def log (e : Event) (m : Machine) : Machine :=
  { m with trace := m.trace ++ [e] }

/-- `writel(val, base + addr)`. -/
def hw_writel (val : Nat) (addr : Nat) (m : Machine) : Machine :=
  { m with regs := fun a => if a = addr then u32 val else m.regs a,
           trace := m.trace ++ [Event.writel (u32 val) addr] }

/-- `readl(base + addr)` of a register that holds what was written to it:
the machine after the access, and the value. -/
def hw_readl (addr : Nat) (m : Machine) : Machine × Nat :=
  (log (Event.readl addr) m, m.regs addr)

/-- `readl(base + addr)` of a hardware-driven register: the access is
recorded, the value `v` comes from the environment. -/
def hw_readl_env (addr : Nat) (v : Nat) (m : Machine) : Machine × Nat :=
  (log (Event.readl addr) m, u32 v)

def dvc_writel (val : Nat) (reg : Nat) (m : Machine) : Machine :=
  hw_writel val reg m

def dvc_readl (reg : Nat) (m : Machine) : Machine × Nat :=
  hw_readl reg m

def dvc_i2c_mask_irq (mask : Nat) (m : Machine) : Machine :=
  let (m, int_mask) := dvc_readl DVC_CTRL_REG3 m
  dvc_writel (int_mask &&& not32 mask) DVC_CTRL_REG3 m

def dvc_i2c_unmask_irq (mask : Nat) (m : Machine) : Machine :=
  let (m, int_mask) := dvc_readl DVC_CTRL_REG3 m
  dvc_writel (int_mask ||| mask) DVC_CTRL_REG3 m

def tegra_i2c_reg_addr (i2c_dev : tegra_i2c_dev) (reg : Nat) : Nat :=
  if i2c_dev.is_dvc then u32 (reg + (if reg ≥ I2C_TX_FIFO then 0x10 else 0x40)) else reg

def i2c_writel (i2c_dev : tegra_i2c_dev) (val : Nat) (reg : Nat) (m : Machine) : Machine :=
  hw_writel val (tegra_i2c_reg_addr i2c_dev reg) m

def i2c_readl (i2c_dev : tegra_i2c_dev) (reg : Nat) (m : Machine) : Machine × Nat :=
  hw_readl (tegra_i2c_reg_addr i2c_dev reg) m

/-- An `i2c_readl` of a hardware-driven register, with the value `v` the
hardware presents. -/
def i2c_readl_env (i2c_dev : tegra_i2c_dev) (reg : Nat) (v : Nat) (m : Machine) :
    Machine × Nat :=
  hw_readl_env (tegra_i2c_reg_addr i2c_dev reg) v m

def tegra_i2c_mask_irq (i2c_dev : tegra_i2c_dev) (mask : Nat) (m : Machine) : Machine :=
  let (m, int_mask) := i2c_readl i2c_dev I2C_INT_MASK m
  i2c_writel i2c_dev (int_mask &&& not32 mask) I2C_INT_MASK m

def tegra_i2c_unmask_irq (i2c_dev : tegra_i2c_dev) (mask : Nat) (m : Machine) : Machine :=
  let (m, int_mask) := i2c_readl i2c_dev I2C_INT_MASK m
  i2c_writel i2c_dev (int_mask ||| mask) I2C_INT_MASK m

/-- The value of the `n` bytes of memory at address `a`, read as a
little-endian number. -/
def le_bytes (mem : Nat → Nat) (a : Nat) : Nat → Nat
  | 0 => 0
  | n + 1 => mem a % 256 + 256 * le_bytes mem (a + 1) n

/-- Store the `n` low bytes of `v` at address `a`, little-endian. -/
def store_bytes (mem : Nat → Nat) (a : Nat) (v : Nat) : Nat → (Nat → Nat)
  | 0 => mem
  | n + 1 => store_bytes (fun x => if x = a then v % 256 else mem x) (a + 1) (v / 256) n

/-- `memcpy(&val, buf, n)` on the little-endian target: the `n` low bytes of
`val` are replaced by the bytes at `buf`, the remaining bytes are kept. -/
def memcpy_to_word (val : Nat) (mem : Nat → Nat) (buf : Nat) (n : Nat) : Nat :=
  u32 ((val / 256 ^ n) * 256 ^ n + le_bytes mem buf n)

/-- The bus-side write of `len` words from memory at `data` to one register
(`writesl`); each word is read from memory in little-endian byte order. -/
def i2c_writesl (i2c_dev : tegra_i2c_dev) (data : Nat) (reg : Nat) : Nat → Machine → Machine
  | 0, m => m
  | len + 1, m =>
    let m1 := log (Event.mem_read data 4) m
    let m2 := i2c_writel i2c_dev (le_bytes m.mem data 4) reg m1
    i2c_writesl i2c_dev (data + 4) reg len m2

/-- The bus-side read of `len` words from one register into memory at `data`
(`readsl`); `ws` are the words the port delivers. -/
def i2c_readsl (i2c_dev : tegra_i2c_dev) (data : Nat) (reg : Nat) :
    List Nat → Nat → Machine → Machine
  | _, 0, m => m
  | ws, len + 1, m =>
    let (m1, w) := i2c_readl_env i2c_dev reg (ws.headD 0) m
    let m2 := log (Event.mem_write data 4) m1
    let m3 := { m2 with mem := store_bytes m2.mem data w 4 }
    i2c_readsl i2c_dev (data + 4) reg ws.tail len m3

/-! ## FIFO transfer engine -/

/-- Hardware model of the flush: `I2C_FIFO_CONTROL` reads back what was
written, and the hardware clears the two flush bits when the flush is done.
The polls of the `while` loop are `f.busy_polls + 1` reads. -/
def tegra_i2c_flush_fifos (f : FlushEnv) (i2c_dev : tegra_i2c_dev) (m : Machine) :
    Machine × Int :=
  let (m, val) := i2c_readl i2c_dev I2C_FIFO_CONTROL m
  let val := val ||| (I2C_FIFO_CONTROL_TX_FLUSH ||| I2C_FIFO_CONTROL_RX_FLUSH)
  let m := i2c_writel i2c_dev val I2C_FIFO_CONTROL m
  let a := tegra_i2c_reg_addr i2c_dev I2C_FIFO_CONTROL
  let m := { m with trace := m.trace ++ List.replicate (f.busy_polls + 1) (Event.readl a) }
  if f.completes then
    ({ m with regs := fun x =>
        if x = a then
          m.regs a &&& not32 (I2C_FIFO_CONTROL_TX_FLUSH ||| I2C_FIFO_CONTROL_RX_FLUSH)
        else m.regs x }, 0)
  else
    (m, - ETIMEDOUT)

def tegra_i2c_empty_rx_fifo (fifo_status : Nat) (rx_words : List Nat)
    (i2c_dev : tegra_i2c_dev) (m : Machine) : Option (tegra_i2c_dev × Machine) :=
  let buf := i2c_dev.msg_buf
  let buf_remaining := i2c_dev.msg_buf_remaining
  let (m, val) := i2c_readl_env i2c_dev I2C_FIFO_STATUS fifo_status m
  let rx_fifo_avail := (val &&& I2C_FIFO_STATUS_RX_MASK) >>> I2C_FIFO_STATUS_RX_SHIFT
  let words_to_transfer := buf_remaining / BYTES_PER_FIFO_WORD
  let words_to_transfer :=
    if words_to_transfer > rx_fifo_avail then rx_fifo_avail else words_to_transfer
  let m := i2c_readsl i2c_dev buf I2C_RX_FIFO rx_words words_to_transfer m
  let buf := buf + words_to_transfer * BYTES_PER_FIFO_WORD
  let buf_remaining := buf_remaining - words_to_transfer * BYTES_PER_FIFO_WORD
  let rx_fifo_avail := rx_fifo_avail - words_to_transfer
  let tail : Option (Machine × Nat × Nat) :=
    if rx_fifo_avail > 0 ∧ buf_remaining > 0 then
      if buf_remaining > 3 then none
      else
        let (m, val) :=
          i2c_readl_env i2c_dev I2C_RX_FIFO ((rx_words.drop words_to_transfer).headD 0) m
        let m := log (Event.mem_write buf buf_remaining) m
        let m := { m with mem := store_bytes m.mem buf val buf_remaining }
        some (m, 0, rx_fifo_avail - 1)
    else some (m, buf_remaining, rx_fifo_avail)
  match tail with
  | none => none
  | some (m, buf_remaining, rx_fifo_avail) =>
    if rx_fifo_avail > 0 ∧ buf_remaining > 0 then none
    else some ({ i2c_dev with msg_buf_remaining := buf_remaining, msg_buf := buf }, m)

def tegra_i2c_fill_tx_fifo (fifo_status : Nat) (i2c_dev : tegra_i2c_dev) (m : Machine) :
    Option (tegra_i2c_dev × Machine) :=
  let buf := i2c_dev.msg_buf
  let buf_remaining := i2c_dev.msg_buf_remaining
  let m := log Event.spin_lock_irqsave m
  let (m, val) := i2c_readl_env i2c_dev I2C_FIFO_STATUS fifo_status m
  let tx_fifo_avail := (val &&& I2C_FIFO_STATUS_TX_MASK) >>> I2C_FIFO_STATUS_TX_SHIFT
  let words_to_transfer := buf_remaining / BYTES_PER_FIFO_WORD
  let words_to_transfer :=
    if words_to_transfer > tx_fifo_avail then tx_fifo_avail else words_to_transfer
  let m := i2c_writesl i2c_dev buf I2C_TX_FIFO words_to_transfer m
  let buf := buf + words_to_transfer * BYTES_PER_FIFO_WORD
  let buf_remaining := buf_remaining - words_to_transfer * BYTES_PER_FIFO_WORD
  let tx_fifo_avail := tx_fifo_avail - words_to_transfer
  let i2c_dev := { i2c_dev with msg_buf_remaining := buf_remaining, msg_buf := buf }
  let tail : Option (tegra_i2c_dev × Machine × Nat × Nat) :=
    if tx_fifo_avail > 0 ∧ buf_remaining > 0 then
      if buf_remaining > 3 then none
      else
        let m := log (Event.mem_read buf buf_remaining) m
        let val := memcpy_to_word val m.mem buf buf_remaining
        let i2c_dev := { i2c_dev with msg_buf_remaining := 0, msg_buf := buf }
        let m := i2c_writel i2c_dev val I2C_TX_FIFO m
        some (i2c_dev, m, 0, tx_fifo_avail - 1)
    else some (i2c_dev, m, buf_remaining, tx_fifo_avail)
  match tail with
  | none => none
  | some (i2c_dev, m, buf_remaining, tx_fifo_avail) =>
    if tx_fifo_avail > 0 ∧ buf_remaining > 0 then none
    else
      some ({ i2c_dev with msg_buf_remaining := buf_remaining, msg_buf := buf },
        log Event.spin_unlock_irqrestore m)

/-! ## Controller lifecycle -/

def tegra_dvc_init (m : Machine) : Machine :=
  let (m, val) := dvc_readl DVC_CTRL_REG3 m
  let m := dvc_writel (val ||| DVC_CTRL_REG3_SW_PROG) DVC_CTRL_REG3 m
  let (m, val) := dvc_readl DVC_CTRL_REG1 m
  dvc_writel (val ||| DVC_CTRL_REG1_INTR_EN) DVC_CTRL_REG1 m

def SL_ADDR1 (addr : Nat) : Nat := addr &&& 0xff

def SL_ADDR2 (addr : Nat) : Nat := (addr >>> 8) &&& 0xff

def tegra_i2c_slave_init (i2c_dev : tegra_i2c_dev) (m : Machine) : Machine :=
  let val := I2C_SL_CNFG_NEWSL ||| I2C_SL_CNFG_NACK
  let m := i2c_writel i2c_dev val I2C_SL_CNFG m
  if i2c_dev.slave_addr ≠ 0 then
    let addr := i2c_dev.slave_addr
    let m := i2c_writel i2c_dev (SL_ADDR1 addr) I2C_SL_ADDR1 m
    i2c_writel i2c_dev (SL_ADDR2 addr) I2C_SL_ADDR2 m
  else m

/-- `clk_set_rate(i2c_dev->clk, rate)`; `rate` is an `unsigned long`. -/
def clk_set_rate (rate : Nat) (m : Machine) : Machine :=
  { m with clk_rate := u32 rate, trace := m.trace ++ [Event.clk_set_rate (u32 rate)] }

/-- `tegra_periph_reset_assert(i2c_dev->clk)`: the block's registers take
their reset values `reset_regs`. -/
def tegra_periph_reset_assert (reset_regs : Nat → Nat) (m : Machine) : Machine :=
  { m with regs := reset_regs, trace := m.trace ++ [Event.periph_reset_assert] }

/-- The register programming of `tegra_i2c_init` (source lines 517-550). -/
def tegra_i2c_init_hw (e : InitEnv) (i2c_dev : tegra_i2c_dev) (m : Machine) : Machine × Int :=
  let m := log Event.pm_runtime_get_sync m
  let m := tegra_periph_reset_assert e.reset_regs m
  let m := log Event.periph_reset_deassert m
  let m := if i2c_dev.is_dvc then tegra_dvc_init m else m
  let val := I2C_CNFG_NEW_MASTER_FSM ||| I2C_CNFG_PACKET_MODE_EN |||
    (0x2 <<< I2C_CNFG_DEBOUNCE_CNT_SHIFT)
  let m := i2c_writel i2c_dev val I2C_CNFG m
  let m := i2c_writel i2c_dev 0 I2C_INT_MASK m
  let m := clk_set_rate (i2c_dev.last_bus_clk_rate * 8) m
  let m := i2c_writel i2c_dev 0x3 I2C_CLK_DIVISOR m
  let val := (7 <<< I2C_FIFO_CONTROL_TX_TRIG_SHIFT) ||| (0 <<< I2C_FIFO_CONTROL_RX_TRIG_SHIFT)
  let m := i2c_writel i2c_dev val I2C_FIFO_CONTROL m
  let m := if i2c_dev.is_slave then tegra_i2c_slave_init i2c_dev m else m
  let flushed := tegra_i2c_flush_fifos e.flush i2c_dev m
  let err : Int := if flushed.2 ≠ 0 then - ETIMEDOUT else 0
  (log Event.pm_runtime_put_sync flushed.1, err)

def tegra_i2c_init (e : InitEnv) (i2c_dev : tegra_i2c_dev) (m : Machine) :
    (tegra_i2c_dev × Machine) × Int :=
  let r := tegra_i2c_init_hw e i2c_dev m
  if i2c_dev.irq_disabled then
    (({ i2c_dev with irq_disabled := false }, log Event.enable_irq r.1), r.2)
  else ((i2c_dev, r.1), r.2)

/-! ## Interrupt handler -/

/-- `complete(&i2c_dev->msg_complete)`. -/
def complete (i2c_dev : tegra_i2c_dev) (m : Machine) : tegra_i2c_dev × Machine :=
  ({ i2c_dev with msg_complete := i2c_dev.msg_complete + 1 }, log Event.complete m)

/-- The handler's `if (!i2c_dev->irq_disabled) { disable_irq_nosync(...);
i2c_dev->irq_disabled = 1; }`. -/
def isr_disable_irq (i2c_dev : tegra_i2c_dev) (m : Machine) : tegra_i2c_dev × Machine :=
  if !i2c_dev.irq_disabled then
    ({ i2c_dev with irq_disabled := true }, log Event.disable_irq_nosync m)
  else (i2c_dev, m)

/-- The handler's `err:` exit (source lines 660-696). -/
def tegra_i2c_isr_err (status : Nat) (i2c_dev : tegra_i2c_dev) (m : Machine) :
    tegra_i2c_dev × Machine :=
  let m := tegra_i2c_mask_irq i2c_dev (I2C_INT_NO_ACK ||| I2C_INT_ARBITRATION_LOST |||
    I2C_INT_PACKET_XFER_COMPLETE ||| I2C_INT_TX_FIFO_DATA_REQ |||
    I2C_INT_RX_FIFO_DATA_REQ ||| I2C_INT_TX_FIFO_OVERFLOW) m
  let m := i2c_writel i2c_dev status I2C_INT_STATUS m
  let m := if i2c_dev.is_dvc then dvc_i2c_mask_irq DVC_CTRL_REG3_I2C_DONE_INTR_EN m else m
  let m := if i2c_dev.is_dvc then dvc_writel DVC_STATUS_I2C_DONE_INTR DVC_STATUS m else m
  complete i2c_dev m

/-- The flags the handler's error-status block (source lines 588-614) ORs
into `msg_err`: one per error bit of `status`. -/
def isr_status_err_flags (status : Nat) (msg_err : Nat) : Nat :=
  let msg_err := if status &&& I2C_INT_NO_ACK ≠ 0 then msg_err ||| I2C_ERR_NO_ACK else msg_err
  let msg_err :=
    if status &&& I2C_INT_ARBITRATION_LOST ≠ 0 then msg_err ||| I2C_ERR_ARBITRATION_LOST
    else msg_err
  if status &&& I2C_INT_TX_FIFO_OVERFLOW ≠ 0 then msg_err ||| I2C_INT_TX_FIFO_OVERFLOW
  else msg_err

/-- The register reads of the handler's error-status block: each `dev_warn`
of a set error bit reads the packet-transfer status. -/
def isr_status_err_reads (status : Nat) (i2c_dev : tegra_i2c_dev) (m : Machine) : Machine :=
  let a := tegra_i2c_reg_addr i2c_dev I2C_PACKET_TRANSFER_STATUS
  let m := if status &&& I2C_INT_NO_ACK ≠ 0 then log (Event.readl a) m else m
  let m := if status &&& I2C_INT_ARBITRATION_LOST ≠ 0 then log (Event.readl a) m else m
  if status &&& I2C_INT_TX_FIFO_OVERFLOW ≠ 0 then log (Event.readl a) m else m

def tegra_i2c_isr (e : IrqEnv) (i2c_dev : tegra_i2c_dev) (m : Machine) :
    Option (tegra_i2c_dev × Machine) :=
  let status_err := I2C_INT_NO_ACK ||| I2C_INT_ARBITRATION_LOST ||| I2C_INT_TX_FIFO_OVERFLOW
  let (m, status) := i2c_readl_env i2c_dev I2C_INT_STATUS e.int_status m
  if status = 0 then
    let i2c_dev := { i2c_dev with msg_err := i2c_dev.msg_err ||| I2C_ERR_UNKNOWN_INTERRUPT }
    let r := isr_disable_irq i2c_dev m
    some (tegra_i2c_isr_err status r.1 r.2)
  else if status &&& status_err ≠ 0 then
    let m := isr_status_err_reads status i2c_dev m
    let i2c_dev := { i2c_dev with msg_err := isr_status_err_flags status i2c_dev.msg_err }
    some (tegra_i2c_isr_err status i2c_dev m)
  else
    let (m, st) := i2c_readl_env i2c_dev I2C_STATUS e.i2c_status m
    if st &&& I2C_STATUS_BUSY ≠ 0 ∧ status = I2C_INT_TX_FIFO_DATA_REQ
        ∧ i2c_dev.msg_read ≠ 0 ∧ i2c_dev.msg_buf_remaining ≠ 0 then
      let i2c_dev := { i2c_dev with msg_err := i2c_dev.msg_err ||| I2C_ERR_UNEXPECTED_STATUS }
      let r := isr_disable_irq i2c_dev m
      some (tegra_i2c_isr_err status r.1 r.2)
    else
      let rx : Option (tegra_i2c_dev × Machine) :=
        if i2c_dev.msg_read ≠ 0 ∧ status &&& I2C_INT_RX_FIFO_DATA_REQ ≠ 0 then
          if i2c_dev.msg_buf_remaining ≠ 0 then
            tegra_i2c_empty_rx_fifo e.fifo_status e.rx_words i2c_dev m
          else none
        else some (i2c_dev, m)
      match rx with
      | none => none
      | some (i2c_dev, m) =>
        let tx : Option (tegra_i2c_dev × Machine) :=
          if i2c_dev.msg_read = 0 ∧ status &&& I2C_INT_TX_FIFO_DATA_REQ ≠ 0 then
            if i2c_dev.msg_buf_remaining ≠ 0 then tegra_i2c_fill_tx_fifo e.fifo_status i2c_dev m
            else some (i2c_dev, tegra_i2c_mask_irq i2c_dev I2C_INT_TX_FIFO_DATA_REQ m)
          else some (i2c_dev, m)
        match tx with
        | none => none
        | some (i2c_dev, m) =>
          let m := i2c_writel i2c_dev status I2C_INT_STATUS m
          let m := if i2c_dev.is_dvc then dvc_writel DVC_STATUS_I2C_DONE_INTR DVC_STATUS m else m
          if status &&& I2C_INT_PACKET_XFER_COMPLETE ≠ 0 ∧ i2c_dev.msg_buf_remaining = 0 then
            some (complete i2c_dev m)
          else some (i2c_dev, m)

/-! ## Transaction state machine -/

/-- The handler invocations that happen while the caller is blocked, in
order. -/
def run_isrs : List IrqEnv → tegra_i2c_dev → Machine → Option (tegra_i2c_dev × Machine)
  | [], d, m => some (d, m)
  | e :: es, d, m =>
    match tegra_i2c_isr e d m with
    | none => none
    | some (d1, m1) => run_isrs es d1 m1

/-- `wait_for_completion_timeout(&i2c_dev->msg_complete, TEGRA_I2C_TIMEOUT)`:
the handler invocations `irqs` run; the result is 0 when the completion was
not signalled before the deadline, and a positive number of remaining jiffies
(here 1; the caller only compares it with 0) when it was, in which case the
completion is consumed. -/
def wait_for_completion_timeout (irqs : List IrqEnv) (i2c_dev : tegra_i2c_dev) (m : Machine) :
    Option ((tegra_i2c_dev × Machine) × Nat) :=
  match run_isrs irqs i2c_dev m with
  | none => none
  | some (d, m) =>
    if d.msg_complete > 0 then some (({ d with msg_complete := d.msg_complete - 1 }, m), 1)
    else some ((d, m), 0)

/-- The interrupt set `tegra_i2c_xfer_msg` unmasks (source lines 758-762),
given the message flags and the bytes left after the priming fill. -/
def xfer_msg_int_mask (msg : i2c_msg) (msg_buf_remaining : Nat) : Nat :=
  let int_mask := I2C_INT_NO_ACK ||| I2C_INT_ARBITRATION_LOST ||| I2C_INT_TX_FIFO_OVERFLOW
  if msg.flags &&& I2C_M_RD ≠ 0 then int_mask ||| I2C_INT_RX_FIFO_DATA_REQ
  else if msg_buf_remaining ≠ 0 then int_mask ||| I2C_INT_TX_FIFO_DATA_REQ
  else int_mask

/-- The I2C header word `tegra_i2c_xfer_msg` builds (source lines 721 and
732-749). -/
def xfer_msg_io_header (i2c_dev : tegra_i2c_dev) (msg : i2c_msg) (stop : Int) : Nat :=
  let io_header := 0
  let io_header := io_header ||| I2C_HEADER_IE_ENABLE
  let io_header := if stop = 0 then io_header ||| I2C_HEADER_REPEAT_START else io_header
  let io_header :=
    if msg.flags &&& I2C_M_TEN ≠ 0 then
      (io_header ||| msg.addr) ||| I2C_HEADER_10BIT_ADDR
    else
      io_header ||| (msg.addr <<< I2C_HEADER_SLAVE_ADDR_SHIFT)
  let io_header :=
    if msg.flags &&& I2C_M_IGNORE_NAK ≠ 0 then io_header ||| I2C_HEADER_CONT_ON_NAK
    else io_header
  let io_header := if msg.flags &&& I2C_M_RD ≠ 0 then io_header ||| I2C_HEADER_READ else io_header
  if i2c_dev.is_high_speed_enable then
    (io_header ||| I2C_HEADER_HIGHSPEED_MODE) |||
      ((i2c_dev.hs_master_code &&& 0x7) <<< I2C_HEADER_MASTER_ADDR_SHIFT)
  else io_header

/-- The generic packet header word (source lines 723-726). -/
def xfer_msg_packet_header (i2c_dev : tegra_i2c_dev) : Nat :=
  u32 ((0 <<< PACKET_HEADER0_HEADER_SIZE_SHIFT) ||| PACKET_HEADER0_PROTOCOL_I2C |||
    (i2c_dev.cont_id <<< PACKET_HEADER0_CONT_ID_SHIFT) |||
    (1 <<< PACKET_HEADER0_PACKET_ID_SHIFT))

/-- Source lines 715-750 of `tegra_i2c_xfer_msg`: the bookkeeping is reset
and the three header words are written to the transmit FIFO. -/
def xfer_msg_headers (msg : i2c_msg) (stop : Int) (i2c_dev : tegra_i2c_dev) (m : Machine) :
    tegra_i2c_dev × Machine :=
  let i2c_dev := { i2c_dev with
    msg_buf := msg.buf, msg_buf_remaining := msg.len, msg_err := I2C_ERR_NONE,
    msg_read := msg.flags &&& I2C_M_RD, msg_complete := 0, msg_add := msg.addr,
    io_header := 0 }
  let i2c_dev := { i2c_dev with packet_header := xfer_msg_packet_header i2c_dev }
  let m := i2c_writel i2c_dev i2c_dev.packet_header I2C_TX_FIFO m
  let i2c_dev := { i2c_dev with payload_size := msg.len - 1 }
  let m := i2c_writel i2c_dev i2c_dev.payload_size I2C_TX_FIFO m
  let i2c_dev := { i2c_dev with io_header := xfer_msg_io_header i2c_dev msg stop }
  let m := i2c_writel i2c_dev i2c_dev.io_header I2C_TX_FIFO m
  (i2c_dev, m)

/-- Source lines 715-763 of `tegra_i2c_xfer_msg`, for a message of non-zero
length: `xfer_msg_headers`, the priming fill of a write, and the unmasking.
Returns the state and `int_mask`. -/
def xfer_msg_arm (msg : i2c_msg) (stop : Int) (env : XferMsgEnv)
    (i2c_dev : tegra_i2c_dev) (m : Machine) : Option ((tegra_i2c_dev × Machine) × Nat) :=
  let h := xfer_msg_headers msg stop i2c_dev m
  let primed : Option (tegra_i2c_dev × Machine) :=
    if msg.flags &&& I2C_M_RD = 0 then tegra_i2c_fill_tx_fifo env.fifo_status h.1 h.2
    else some h
  match primed with
  | none => none
  | some (i2c_dev, m) =>
    let m := if i2c_dev.is_dvc then dvc_i2c_unmask_irq DVC_CTRL_REG3_I2C_DONE_INTR_EN m else m
    let int_mask := xfer_msg_int_mask msg i2c_dev.msg_buf_remaining
    some ((i2c_dev, tegra_i2c_unmask_irq i2c_dev int_mask m), int_mask)

/-- Source lines 769-772 of `tegra_i2c_xfer_msg`: the masking after the
wait. -/
def xfer_msg_mask (int_mask : Nat) (i2c_dev : tegra_i2c_dev) (m : Machine) : Machine :=
  let m := tegra_i2c_mask_irq i2c_dev int_mask m
  if i2c_dev.is_dvc then dvc_i2c_mask_irq DVC_CTRL_REG3_I2C_DONE_INTR_EN m else m

/-- Source lines 715-772 of `tegra_i2c_xfer_msg`: `xfer_msg_arm`, the wait,
and the masking that follows it.  Returns the state and the result `ret` of
the wait. -/
def xfer_msg_wait (msg : i2c_msg) (stop : Int) (env : XferMsgEnv)
    (i2c_dev : tegra_i2c_dev) (m : Machine) : Option ((tegra_i2c_dev × Machine) × Nat) :=
  match xfer_msg_arm msg stop env i2c_dev m with
  | none => none
  | some ((d, m), int_mask) =>
    match wait_for_completion_timeout env.irqs d m with
    | none => none
    | some ((d, m), ret) => some ((d, xfer_msg_mask int_mask d m), ret)

/-- Source lines 803-809 of `tegra_i2c_xfer_msg`: on exactly the
arbitration-lost error, the configured recovery callback is called with the
bus's two line numbers.  Returns the machine and whether the function returns
`-EAGAIN` at once (the callback returned 0). -/
def xfer_msg_recover (i2c_bus : tegra_i2c_bus) (i2c_dev : tegra_i2c_dev) (m : Machine) :
    Machine × Bool :=
  if i2c_dev.msg_err = I2C_ERR_ARBITRATION_LOST then
    match i2c_dev.arb_recovery with
    | some recover =>
      let arb_stat := recover i2c_bus.scl_gpio i2c_bus.sda_gpio
      (log (Event.arb_recovery i2c_bus.scl_gpio i2c_bus.sda_gpio) m, decide (arb_stat = 0))
    | none => (m, false)
  else (m, false)

/-- Source lines 774-828 of `tegra_i2c_xfer_msg`: the classification of the
outcome once the wait has resolved with result `ret`. -/
def xfer_msg_result (i2c_bus : tegra_i2c_bus) (msg : i2c_msg) (env : XferMsgEnv)
    (ret : Nat) (i2c_dev : tegra_i2c_dev) (m : Machine) : (tegra_i2c_dev × Machine) × Int :=
  if ret = 0 then
    let m := log (Event.mem_read msg.buf 1) m
    ((tegra_i2c_init env.init i2c_dev m).1, - ETIMEDOUT)
  else if i2c_dev.msg_err = I2C_ERR_NONE then ((i2c_dev, m), 0)
  else
    let recovered := xfer_msg_recover i2c_bus i2c_dev m
    if recovered.2 then ((i2c_dev, recovered.1), - EAGAIN)
    else
      let r := (tegra_i2c_init env.init i2c_dev recovered.1).1
      if r.1.msg_err = I2C_ERR_NO_ACK then
        if msg.flags &&& I2C_M_IGNORE_NAK ≠ 0 then (r, 0)
        else (r, - EREMOTEIO)
      else if r.1.msg_err &&& I2C_ERR_UNEXPECTED_STATUS ≠ 0 then (r, - EAGAIN)
      else (r, - EIO)

def tegra_i2c_xfer_msg (i2c_bus : tegra_i2c_bus) (msg : i2c_msg) (stop : Int)
    (env : XferMsgEnv) (i2c_dev : tegra_i2c_dev) (m : Machine) :
    Option ((tegra_i2c_dev × Machine) × Int) :=
  let m := (tegra_i2c_flush_fifos env.flush i2c_dev m).1
  if msg.len = 0 then some ((i2c_dev, m), - EINVAL)
  else
    match xfer_msg_wait msg stop env i2c_dev m with
    | none => none
    | some ((d, m), ret) => some (xfer_msg_result i2c_bus msg env ret d m)

/-- One call of `tegra_i2c_xfer_msg` made by the loop of `tegra_i2c_xfer`:
the message index, the message passed, the `stop` argument and the value
returned. -/
structure XferCall where
  index : Nat
  msg : i2c_msg
  stop : Int
  ret : Int
  deriving DecidableEq, Repr

/-- The outcome of the loop of `tegra_i2c_xfer`: the state, `ret`, the final
`i`, and the calls made. -/
structure XferLoop where
  dev : tegra_i2c_dev
  m : Machine
  ret : Int
  i : Nat
  calls : List XferCall

/-- The `for` loop of `tegra_i2c_xfer` (source lines 866-871) from index `i`
on, over the messages not yet visited. -/
def xfer_loop (i2c_bus : tegra_i2c_bus) (num : Int) (env : Nat → XferMsgEnv) :
    List i2c_msg → Nat → tegra_i2c_dev → Machine → Option XferLoop
  | [], i, d, m => some ⟨d, m, 0, i, []⟩
  | msg :: rest, i, d, m =>
    let stop : Int := if (i : Int) = num - 1 then 1 else 0
    match tegra_i2c_xfer_msg i2c_bus msg stop (env i) d m with
    | none => none
    | some ((d1, m1), ret) =>
      if ret ≠ 0 then some ⟨d1, m1, ret, i, [⟨i, msg, stop, ret⟩]⟩
      else
        match xfer_loop i2c_bus num env rest (i + 1) d1 m1 with
        | none => none
        | some r => some { r with calls := ⟨i, msg, stop, ret⟩ :: r.calls }

/-- The outcome of one `tegra_i2c_xfer`: the state, the value returned, and
the calls of `tegra_i2c_xfer_msg` it made. -/
structure XferResult where
  dev : tegra_i2c_dev
  m : Machine
  ret : Int
  calls : List XferCall

/-- Source lines 847-859 of `tegra_i2c_xfer`: the pin configuration and the
clock rate are switched to those of the selected bus when they differ from
the cached ones. -/
def xfer_select_bus (i2c_bus : tegra_i2c_bus) (i2c_dev : tegra_i2c_dev) (m : Machine) :
    tegra_i2c_dev × Machine :=
  let r : tegra_i2c_dev × Machine :=
    if i2c_dev.last_mux ≠ i2c_bus.mux then
      let m := log (Event.pinmux_set_safe_pinmux_table i2c_dev.last_mux i2c_dev.last_mux_len) m
      let m := log (Event.pinmux_config_pinmux_table i2c_bus.mux i2c_bus.mux_len) m
      ({ i2c_dev with last_mux := i2c_bus.mux, last_mux_len := i2c_bus.mux_len }, m)
    else (i2c_dev, m)
  if r.1.last_bus_clk_rate ≠ i2c_bus.bus_clk_rate then
    ({ r.1 with last_bus_clk_rate := i2c_bus.bus_clk_rate },
      clk_set_rate (i2c_bus.bus_clk_rate * 8) r.2)
  else r

/-- The batch entry point.  `msgs` is the array of `num = msgs.length`
messages; `env i` is the environment of the transfer of message `i`. -/
def tegra_i2c_xfer (i2c_bus : tegra_i2c_bus) (msgs : List i2c_msg)
    (env : Nat → XferMsgEnv) (i2c_dev : tegra_i2c_dev) (m : Machine) : Option XferResult :=
  let num : Int := msgs.length
  let m := log Event.rt_mutex_lock m
  if i2c_dev.is_suspended then
    some ⟨i2c_dev, log Event.rt_mutex_unlock m, - EBUSY, []⟩
  else
    let m := { m with finished := 0 }
    let r := xfer_select_bus i2c_bus i2c_dev m
    let i2c_dev := { r.1 with msgs := some msgs, msgs_num := num }
    let m := log Event.pm_runtime_get_sync r.2
    match xfer_loop i2c_bus num env msgs 0 i2c_dev m with
    | none => none
    | some l =>
      let m := log Event.pm_runtime_put_sync l.m
      let i2c_dev := { l.dev with msgs := none, msgs_num := 0 }
      let m := { m with finished := 1 }
      let m := log Event.rt_mutex_unlock m
      some ⟨i2c_dev, m, if l.ret ≠ 0 then l.ret else (l.i : Int), l.calls⟩

/-! ## Observations used to state the properties -/

/-- The result `ret` of the wait inside `tegra_i2c_xfer_msg` and the value of
`msg_err` when the wait has resolved; `none` when the message has length 0
(no wait happens) or the kernel stopped before. -/
def xfer_msg_wait_outcome (msg : i2c_msg) (stop : Int) (env : XferMsgEnv)
    (i2c_dev : tegra_i2c_dev) (m : Machine) : Option (Nat × Nat) :=
  if msg.len = 0 then none
  else (xfer_msg_wait msg stop env i2c_dev (tegra_i2c_flush_fifos env.flush i2c_dev m).1).map
    (fun p => (p.2, p.1.1.msg_err))

/-- The value `tegra_i2c_xfer_msg` returns and the actions it appends to the
trace. -/
def xfer_msg_obs (i2c_bus : tegra_i2c_bus) (msg : i2c_msg) (stop : Int) (env : XferMsgEnv)
    (i2c_dev : tegra_i2c_dev) (m : Machine) : Option (Int × List Event) :=
  (tegra_i2c_xfer_msg i2c_bus msg stop env i2c_dev m).map
    (fun r => (r.2, r.1.2.trace.drop m.trace.length))

/-- Whether a recovery callback is configured and returns 0 for the bus's two
line numbers. -/
def recovery_reports_success (i2c_bus : tegra_i2c_bus) (i2c_dev : tegra_i2c_dev) : Bool :=
  match i2c_dev.arb_recovery with
  | some recover => decide (recover i2c_bus.scl_gpio i2c_bus.sda_gpio = 0)
  | none => false

/-- The fields of the driver structure that describe how the instance is
configured; no step of a message transfer changes them. -/
def cfg (d : tegra_i2c_dev) :
    Bool × Bool × Nat × Option (Int → Int → Int) × Nat × Nat × Bool × Nat :=
  (d.is_dvc, d.is_slave, d.slave_addr, d.arb_recovery, d.last_bus_clk_rate, d.cont_id,
    d.is_high_speed_enable, d.hs_master_code)

/-- The value `tegra_i2c_xfer` returns. -/
def xfer_ret (i2c_bus : tegra_i2c_bus) (msgs : List i2c_msg) (env : Nat → XferMsgEnv)
    (i2c_dev : tegra_i2c_dev) (m : Machine) : Option Int :=
  (tegra_i2c_xfer i2c_bus msgs env i2c_dev m).map (fun r => r.ret)

/-- The calls of `tegra_i2c_xfer_msg` that `tegra_i2c_xfer` makes. -/
def xfer_calls (i2c_bus : tegra_i2c_bus) (msgs : List i2c_msg) (env : Nat → XferMsgEnv)
    (i2c_dev : tegra_i2c_dev) (m : Machine) : Option (List XferCall) :=
  (tegra_i2c_xfer i2c_bus msgs env i2c_dev m).map (fun r => r.calls)

/-- The actions of the data path of a transfer: register and memory accesses,
the FIFO lock, the completion signal and the masking of the interrupt line. -/
def Event.is_transfer : Event → Bool
  | .readl _ => true
  | .writel _ _ => true
  | .mem_read _ _ => true
  | .mem_write _ _ => true
  | .spin_lock_irqsave => true
  | .spin_unlock_irqrestore => true
  | .complete => true
  | .disable_irq_nosync => true
  | _ => false

/-- Machine `m1` is `m` with further actions appended to the trace, all of
which satisfy `P`. -/
def appends (P : Event → Prop) (m m1 : Machine) : Prop :=
  ∃ evs, m1.trace = m.trace ++ evs ∧ ∀ e ∈ evs, P e

/-- The actions appended are all of the data path. -/
def transfer_step (m m1 : Machine) : Prop :=
  appends (fun e => e.is_transfer = true) m m1

/-- The value in the configuration, interrupt-mask or clock-divisor register
after the register programming of `tegra_i2c_init`. -/
def init_reg_value (r : Nat) : Nat :=
  if r = I2C_CNFG then
    I2C_CNFG_NEW_MASTER_FSM ||| I2C_CNFG_PACKET_MODE_EN ||| (0x2 <<< I2C_CNFG_DEBOUNCE_CNT_SHIFT)
  else if r = I2C_INT_MASK then 0
  else 0x3

/-! ## Concrete instances -/

/-- A controller as `tegra_i2c_probe` leaves it: zero-initialised, with the
default bus clock rate. -/
def dev0 : tegra_i2c_dev :=
  { cont_id := 0, irq_disabled := false, is_dvc := false, is_slave := false,
    msg_complete := 0, msg_err := 0, msg_buf := 0, packet_header := 0,
    payload_size := 0, io_header := 0, msg_buf_remaining := 0, msg_read := 0,
    msgs := none, msg_add := 0, msgs_num := 0, is_suspended := false, bus_count := 1,
    last_mux := 0, last_mux_len := 0, last_bus_clk_rate := 100000, slave_addr := 0,
    is_clkon_always := false, is_high_speed_enable := false, hs_master_code := 0,
    arb_recovery := none }

/-- A machine with all registers and memory zero and an empty trace. -/
def machine0 : Machine :=
  { regs := fun _ => 0, clk_rate := 800000, mem := fun _ => 0, finished := 1, trace := [] }

/-- A bus at 100 kHz. -/
def busA : tegra_i2c_bus :=
  { mux := 0, mux_len := 0, bus_clk_rate := 100000, scl_gpio := 20, sda_gpio := 21 }

/-- A one-byte write to address 0x50. -/
def msgW : i2c_msg := { addr := 0x50, flags := 0, len := 1, buf := 0x1000 }

/-- The flush completes at the first poll. -/
def flushOk : FlushEnv := { busy_polls := 0, completes := true }

/-- All registers reset to zero, and the flush completes at the first poll. -/
def initOk : InitEnv := { reset_regs := fun _ => 0, flush := flushOk }

/-- The environment of a transfer during which the handler runs once, with
interrupt status `status`; the transmit FIFO has 8 free words. -/
def envIrq (status : Nat) : XferMsgEnv :=
  { flush := flushOk, fifo_status := 0x80,
    irqs := [{ int_status := status, i2c_status := 0, fifo_status := 0x80, rx_words := [] }],
    init := initOk }

/-- A controller with a recovery callback that always reports success. -/
def devRecover : tegra_i2c_dev :=
  { dev0 with arb_recovery := some (fun _ _ => 0) }

/-- The environments of a batch in which the transfer of message `k` loses
arbitration and every other transfer completes. -/
def envArbLostAt (k : Nat) : Nat → XferMsgEnv :=
  fun i => if i = k then envIrq I2C_INT_ARBITRATION_LOST else envIrq I2C_INT_PACKET_XFER_COMPLETE

/-- The environment of a transfer during which no interrupt arrives. -/
def envSilent : XferMsgEnv :=
  { flush := flushOk, fifo_status := 0x80, irqs := [], init := initOk }

/-! ## Observations and instances for the FIFO, header, bus-selection and
initialisation properties -/

/-- A one-byte write to address 0x50 whose NACK the caller tolerates. -/
def msgNak : i2c_msg := { msgW with flags := I2C_M_IGNORE_NAK }

/-- A controller inside the DVC block. -/
def devDvc : tegra_i2c_dev := { dev0 with is_dvc := true }

/-- Byte `j` of a stream of 32-bit words that carries bytes in little-endian
order, as the FIFO ports do: byte `j % 4` of word `j / 4`. -/
def stream_byte (ws : List Nat) (j : Nat) : Nat :=
  (u32 (ws.getD (j / 4) 0) / 256 ^ (j % 4)) % 256

/-- The actions appended to the trace between machine `m` and a later machine
`m1`. -/
def new_events (m m1 : Machine) : List Event := m1.trace.drop m.trace.length

/-- The values written to the register at physical offset `a`, in order. -/
def writes_to (a : Nat) (evs : List Event) : List Nat :=
  evs.filterMap (fun e =>
    match e with
    | Event.writel v x => if x = a then some v else none
    | _ => none)

/-- The number of reads of the register at physical offset `a`. -/
def reads_of (a : Nat) (evs : List Event) : Nat := evs.count (Event.readl a)

/-- Repeated invocations of `tegra_i2c_fill_tx_fifo`, one per FIFO-status
reading of the list. -/
def fill_tx_fifo_repeat :
    List Nat → tegra_i2c_dev → Machine → Option (tegra_i2c_dev × Machine)
  | [], d, m => some (d, m)
  | s :: ss, d, m =>
    match tegra_i2c_fill_tx_fifo s d m with
    | none => none
    | some (d1, m1) => fill_tx_fifo_repeat ss d1 m1

/-- Repeated invocations of `tegra_i2c_empty_rx_fifo`, one per FIFO-status
reading of the list.  `fifo` is the content of the receive FIFO, oldest word
first; every read of the receive port pops one word. -/
def empty_rx_fifo_repeat :
    List Nat → List Nat → tegra_i2c_dev → Machine → Option (tegra_i2c_dev × Machine)
  | [], _, d, m => some (d, m)
  | s :: ss, fifo, d, m =>
    match tegra_i2c_empty_rx_fifo s fifo d m with
    | none => none
    | some (d1, m1) =>
      empty_rx_fifo_repeat ss
        (fifo.drop (reads_of (tegra_i2c_reg_addr d I2C_RX_FIFO) (new_events m m1))) d1 m1

/-- The number of free transmit-FIFO words a FIFO-status word reports
(source lines 350-351). -/
def tx_fifo_avail_of (fifo_status : Nat) : Nat :=
  (u32 fifo_status &&& I2C_FIFO_STATUS_TX_MASK) >>> I2C_FIFO_STATUS_TX_SHIFT

/-- The number of filled receive-FIFO words a FIFO-status word reports
(source lines 306-307). -/
def rx_fifo_avail_of (fifo_status : Nat) : Nat :=
  (u32 fifo_status &&& I2C_FIFO_STATUS_RX_MASK) >>> I2C_FIFO_STATUS_RX_SHIFT

/-- The whole words one invocation of the fill or drain routine moves, given
the bytes remaining and the words the FIFO offers (source lines 310-312 and
354-356). -/
def words_to_transfer (buf_remaining avail : Nat) : Nat :=
  if buf_remaining / BYTES_PER_FIFO_WORD > avail then avail
  else buf_remaining / BYTES_PER_FIFO_WORD

/-- A controller in the middle of a write: 5 bytes at address 0x1000 are
still to be sent. -/
def devTx5 : tegra_i2c_dev := { dev0 with msg_buf := 0x1000, msg_buf_remaining := 5 }

/-- A controller with one byte at address 0x1000 still to be sent. -/
def devTx1 : tegra_i2c_dev := { dev0 with msg_buf := 0x1000, msg_buf_remaining := 1 }

/-- A machine whose memory holds the bytes 0x11, 0x22, 0x33, 0x44, 0xAB from
address 0x1000 on. -/
def machineBuf : Machine :=
  { machine0 with mem := fun a =>
      if a = 0x1000 then 0x11 else if a = 0x1001 then 0x22 else if a = 0x1002 then 0x33
      else if a = 0x1003 then 0x44 else if a = 0x1004 then 0xAB else 0 }

/-- A machine whose memory holds the byte 0xAB at address 0x1000. -/
def machineAB : Machine :=
  { machine0 with mem := fun a => if a = 0x1000 then 0xAB else 0 }

/-- What the hardware presents to a handler invocation that reports a
transmit-FIFO data request with one free FIFO word. -/
def irqTxReq : IrqEnv :=
  { int_status := I2C_INT_TX_FIFO_DATA_REQ, i2c_status := 0, fifo_status := 0x10,
    rx_words := [] }

/-- The generic packet header word as the specification states it:
`PROTOCOL_I2C | cont_id << 12 | 1 << 16`. -/
def spec_packet_header (cont_id : Nat) : Nat :=
  PACKET_HEADER0_PROTOCOL_I2C ||| (cont_id <<< 12) ||| (1 <<< 16)

/-- The payload-size word as the specification states it: the byte length
minus one. -/
def spec_payload_size (len : Nat) : Nat := len - 1

/-- The I2C header word as the specification states it: the bitwise OR of
the interrupt-enable flag, the repeat-start flag unless the message is the
final one, the raw address with the 10-bit flag for a 10-bit message and the
address shifted left by one otherwise, the continue-on-NACK flag for a
NACK-tolerant message, the read flag for a read, and with high-speed mode
enabled the high-speed flag and the low three bits of the master code
shifted left by 12. -/
def spec_io_header (addr flags : Nat) (final : Bool) (high_speed : Bool) (master_code : Nat) :
    Nat :=
  I2C_HEADER_IE_ENABLE
    ||| (if final then 0 else I2C_HEADER_REPEAT_START)
    ||| (if flags &&& I2C_M_TEN ≠ 0 then addr ||| I2C_HEADER_10BIT_ADDR else addr <<< 1)
    ||| (if flags &&& I2C_M_IGNORE_NAK ≠ 0 then I2C_HEADER_CONT_ON_NAK else 0)
    ||| (if flags &&& I2C_M_RD ≠ 0 then I2C_HEADER_READ else 0)
    ||| (if high_speed then I2C_HEADER_HIGHSPEED_MODE ||| ((master_code &&& 7) <<< 12) else 0)

/-- A three-byte write to the 7-bit address 0x50, with its data at address
0x1000. -/
def msgW3 : i2c_msg := { addr := 0x50, flags := 0, len := 3, buf := 0x1000 }

/-- In a list of actions, the clock is programmed only if the peripheral is
reset: a `clk_set_rate` occurs only together with a `periph_reset_assert`,
the first hardware action of `tegra_i2c_init`. -/
def clk_only_on_reset (evs : List Event) : Prop :=
  (∃ rate, Event.clk_set_rate rate ∈ evs) → Event.periph_reset_assert ∈ evs

/-- The actions at batch entry as the specification states them: the pin
configuration is switched (the cached table made safe, the bus's table
applied) if and only if the bus's table differs from the cached one, and the
clock is set to 8 times the bus rate if and only if the bus rate differs from
the cached one. -/
def spec_select_events (i2c_bus : tegra_i2c_bus) (i2c_dev : tegra_i2c_dev) : List Event :=
  (if i2c_dev.last_mux ≠ i2c_bus.mux then
      [Event.pinmux_set_safe_pinmux_table i2c_dev.last_mux i2c_dev.last_mux_len,
        Event.pinmux_config_pinmux_table i2c_bus.mux i2c_bus.mux_len]
    else [])
  ++ (if i2c_dev.last_bus_clk_rate ≠ i2c_bus.bus_clk_rate then
      [Event.clk_set_rate (u32 (i2c_bus.bus_clk_rate * 8))]
    else [])

/-- The clock programmings among a list of actions. -/
def clk_events (evs : List Event) : List Event :=
  evs.filter (fun e =>
    match e with
    | Event.clk_set_rate _ => true
    | _ => false)

/-- The cached selection: the pin-group table and the bus clock rate last
applied. -/
def bus_cache (d : tegra_i2c_dev) : Nat × Int × Nat :=
  (d.last_mux, d.last_mux_len, d.last_bus_clk_rate)

/-- Successive calls of `tegra_i2c_xfer` on one controller, each with its
bus, its messages and its environment.  Returns, per call, the value
returned, the actions the call appended to the trace, and the cached
selection after the call. -/
def xfer_batches :
    List (tegra_i2c_bus × List i2c_msg × (Nat → XferMsgEnv)) → tegra_i2c_dev → Machine →
      Option (List (Int × List Event × (Nat × Int × Nat)))
  | [], _, _ => some []
  | (i2c_bus, msgs, env) :: rest, d, m =>
    match tegra_i2c_xfer i2c_bus msgs env d m with
    | none => none
    | some r =>
      (xfer_batches rest r.dev r.m).map
        (fun l => (r.ret, new_events m r.m, bus_cache r.dev) :: l)

/-- A second bus of the same controller, at 400 kHz, with its own pin-group
table. -/
def busB : tegra_i2c_bus :=
  { mux := 0x2000, mux_len := 2, bus_clk_rate := 400000, scl_gpio := 22, sda_gpio := 23 }

/-- What the specification observes of the controller after
`tegra_i2c_init`: the mode register, the interrupt mask, the clock divisor,
the transmit and the receive FIFO trigger level (bits 7:5 and bits 4:2 of the
FIFO-control register), and the rate of the controller clock. -/
def init_obs (d : tegra_i2c_dev) (m : Machine) : Nat × Nat × Nat × Nat × Nat × Nat :=
  (m.regs (tegra_i2c_reg_addr d I2C_CNFG),
    m.regs (tegra_i2c_reg_addr d I2C_INT_MASK),
    m.regs (tegra_i2c_reg_addr d I2C_CLK_DIVISOR),
    (m.regs (tegra_i2c_reg_addr d I2C_FIFO_CONTROL) >>> I2C_FIFO_CONTROL_TX_TRIG_SHIFT) &&& 7,
    (m.regs (tegra_i2c_reg_addr d I2C_FIFO_CONTROL) >>> I2C_FIFO_CONTROL_RX_TRIG_SHIFT) &&& 7,
    m.clk_rate)

/-- The value the register programming of `tegra_i2c_init` last writes to the
offset of the FIFO-control register before the flush: the trigger levels
(source lines 536-538), unless the controller is at once the DVC variant and
a slave with a non-zero slave address, where the write of `I2C_SL_ADDR1`
(source line 507) goes to the same offset. -/
def init_fifo_control_word (d : tegra_i2c_dev) : Nat :=
  if d.is_dvc = true ∧ d.is_slave = true ∧ d.slave_addr ≠ 0 then SL_ADDR1 d.slave_addr
  else (7 <<< I2C_FIFO_CONTROL_TX_TRIG_SHIFT) ||| (0 <<< I2C_FIFO_CONTROL_RX_TRIG_SHIFT)

/-- A machine whose registers all hold 0xFFFFFFFF and whose clock runs at
1 Hz. -/
def machineOnes : Machine :=
  { regs := fun _ => 0xFFFFFFFF, clk_rate := 1, mem := fun _ => 0, finished := 1, trace := [] }

/-! ## Instances for the header-decoding and interrupt-handler properties -/

/-- A controller with high-speed mode enabled and master code 0xD. -/
def devHs : tegra_i2c_dev := { dev0 with is_high_speed_enable := true, hs_master_code := 0xD }

/-- A two-byte NACK-tolerant read from the 10-bit address 0x2A5. -/
def msgTenRd : i2c_msg :=
  { addr := 0x2A5, flags := I2C_M_TEN ||| I2C_M_RD ||| I2C_M_IGNORE_NAK, len := 2,
    buf := 0x1000 }

/-- A handler invocation that finds the interrupt status 0. -/
def irqNone : IrqEnv := { int_status := 0, i2c_status := 0, fifo_status := 0, rx_words := [] }

/-- A handler invocation that finds NO_ACK and TX_FIFO_OVERFLOW set. -/
def irqNakOvf : IrqEnv :=
  { int_status := I2C_INT_NO_ACK ||| I2C_INT_TX_FIFO_OVERFLOW, i2c_status := 0,
    fifo_status := 0, rx_words := [] }

/-- A controller in the middle of a write with an arbitration loss already
recorded. -/
def devTx5Arb : tegra_i2c_dev := { devTx5 with msg_err := I2C_ERR_ARBITRATION_LOST }

/-- A handler invocation that finds RX_FIFO_DATA_REQ and
PACKET_XFER_COMPLETE set. -/
def irqRxDone : IrqEnv :=
  { int_status := I2C_INT_PACKET_XFER_COMPLETE ||| I2C_INT_RX_FIFO_DATA_REQ, i2c_status := 0,
    fifo_status := 0x01, rx_words := [0x44332211] }

/-- A handler invocation that finds TX_FIFO_DATA_REQ and PACKET_XFER_COMPLETE
set, with two free words in the transmit FIFO. -/
def irqTxDone : IrqEnv :=
  { int_status := I2C_INT_PACKET_XFER_COMPLETE ||| I2C_INT_TX_FIFO_DATA_REQ, i2c_status := 0,
    fifo_status := 0x20, rx_words := [] }

/-- A controller in a read of which no byte remains. -/
def devRdDone : tegra_i2c_dev := { dev0 with msg_read := 1, msg_buf := 0x1000 }

/-! ## Frame lemmas: the configuration is never changed -/

theorem fill_tx_fifo_dev {s : Nat} {d d1 : tegra_i2c_dev} {m m1 : Machine}
    (h : tegra_i2c_fill_tx_fifo s d m = some (d1, m1)) :
    ∃ r b, d1 = { d with msg_buf_remaining := r, msg_buf := b } := by
  unfold tegra_i2c_fill_tx_fifo at h
  simp only [i2c_readl_env, hw_readl_env] at h
  generalize (if d.msg_buf_remaining / BYTES_PER_FIFO_WORD >
      (u32 s &&& I2C_FIFO_STATUS_TX_MASK) >>> I2C_FIFO_STATUS_TX_SHIFT then
      (u32 s &&& I2C_FIFO_STATUS_TX_MASK) >>> I2C_FIFO_STATUS_TX_SHIFT
    else d.msg_buf_remaining / BYTES_PER_FIFO_WORD) = w at h
  by_cases hc : (u32 s &&& I2C_FIFO_STATUS_TX_MASK) >>> I2C_FIFO_STATUS_TX_SHIFT - w > 0 ∧
      d.msg_buf_remaining - w * BYTES_PER_FIFO_WORD > 0
  · rw [if_pos hc] at h
    by_cases h3 : d.msg_buf_remaining - w * BYTES_PER_FIFO_WORD > 3
    · rw [if_pos h3] at h
      exact absurd h (by simp)
    · rw [if_neg h3] at h
      simp only [] at h
      split at h
      · exact absurd h (by simp)
      · simp only [Option.some.injEq, Prod.mk.injEq] at h
        exact ⟨_, _, h.1.symm⟩
  · rw [if_neg hc] at h
    simp only [] at h
    split at h
    · exact absurd h (by simp)
    · simp only [Option.some.injEq, Prod.mk.injEq] at h
      exact ⟨_, _, h.1.symm⟩

theorem empty_rx_fifo_dev {s : Nat} {ws : List Nat} {d d1 : tegra_i2c_dev} {m m1 : Machine}
    (h : tegra_i2c_empty_rx_fifo s ws d m = some (d1, m1)) :
    ∃ r b, d1 = { d with msg_buf_remaining := r, msg_buf := b } := by
  unfold tegra_i2c_empty_rx_fifo at h
  simp only [i2c_readl_env, hw_readl_env] at h
  split at h
  · exact absurd h (by simp)
  · split at h
    · exact absurd h (by simp)
    · simp only [Option.some.injEq, Prod.mk.injEq] at h
      exact ⟨_, _, h.1.symm⟩

theorem fill_tx_fifo_cfg {s : Nat} {d d1 : tegra_i2c_dev} {m m1 : Machine}
    (h : tegra_i2c_fill_tx_fifo s d m = some (d1, m1)) : cfg d1 = cfg d := by
  obtain ⟨r, b, rfl⟩ := fill_tx_fifo_dev h
  rfl

theorem empty_rx_fifo_cfg {s : Nat} {ws : List Nat} {d d1 : tegra_i2c_dev} {m m1 : Machine}
    (h : tegra_i2c_empty_rx_fifo s ws d m = some (d1, m1)) : cfg d1 = cfg d := by
  obtain ⟨r, b, rfl⟩ := empty_rx_fifo_dev h
  rfl

theorem isr_err_cfg (status : Nat) (d : tegra_i2c_dev) (m : Machine) :
    cfg (tegra_i2c_isr_err status d m).1 = cfg d := rfl

theorem isr_disable_irq_cfg (d : tegra_i2c_dev) (m : Machine) :
    cfg (isr_disable_irq d m).1 = cfg d := by
  unfold isr_disable_irq
  split <;> rfl

theorem isr_cfg {e : IrqEnv} {d d1 : tegra_i2c_dev} {m m1 : Machine}
    (h : tegra_i2c_isr e d m = some (d1, m1)) : cfg d1 = cfg d := by
  unfold tegra_i2c_isr at h
  simp only [i2c_readl_env, hw_readl_env] at h
  split at h
  · simp only [Option.some.injEq] at h
    rw [← show _ = d1 from congrArg Prod.fst h, isr_err_cfg, isr_disable_irq_cfg]
    rfl
  · split at h
    · simp only [Option.some.injEq] at h
      rw [← show _ = d1 from congrArg Prod.fst h, isr_err_cfg]
      rfl
    · split at h
      · simp only [Option.some.injEq] at h
        rw [← show _ = d1 from congrArg Prod.fst h, isr_err_cfg, isr_disable_irq_cfg]
        rfl
      · split at h
        · exact absurd h (by simp)
        · rename_i d2 m2 hrx
          have h2 : cfg d2 = cfg d := by
            split at hrx
            · split at hrx
              · exact empty_rx_fifo_cfg hrx
              · exact absurd hrx (by simp)
            · simp only [Option.some.injEq, Prod.mk.injEq] at hrx
              rw [← hrx.1]
          split at h
          · exact absurd h (by simp)
          · rename_i d3 m3 htx
            have h3 : cfg d3 = cfg d2 := by
              split at htx
              · split at htx
                · exact fill_tx_fifo_cfg htx
                · simp only [Option.some.injEq, Prod.mk.injEq] at htx
                  rw [← htx.1]
              · simp only [Option.some.injEq, Prod.mk.injEq] at htx
                rw [← htx.1]
            split at h
            · simp only [Option.some.injEq] at h
              rw [← show _ = d1 from congrArg Prod.fst h]
              exact h3.trans h2
            · simp only [Option.some.injEq, Prod.mk.injEq] at h
              rw [← h.1]
              exact h3.trans h2

theorem run_isrs_cfg {es : List IrqEnv} {d d1 : tegra_i2c_dev} {m m1 : Machine}
    (h : run_isrs es d m = some (d1, m1)) : cfg d1 = cfg d := by
  induction es generalizing d m with
  | nil =>
    simp only [run_isrs, Option.some.injEq, Prod.mk.injEq] at h
    rw [← h.1]
  | cons e es ih =>
    simp only [run_isrs] at h
    split at h
    · exact absurd h (by simp)
    · rename_i d2 m2 he
      exact (ih h).trans (isr_cfg he)

theorem wait_cfg {es : List IrqEnv} {d d1 : tegra_i2c_dev} {m m1 : Machine} {ret : Nat}
    (h : wait_for_completion_timeout es d m = some ((d1, m1), ret)) : cfg d1 = cfg d := by
  unfold wait_for_completion_timeout at h
  split at h
  · exact absurd h (by simp)
  · rename_i d2 m2 hr
    have h2 := run_isrs_cfg hr
    split at h
    · simp only [Option.some.injEq, Prod.mk.injEq] at h
      rw [← h.1.1]
      exact h2
    · simp only [Option.some.injEq, Prod.mk.injEq] at h
      rw [← h.1.1]
      exact h2

theorem headers_cfg (msg : i2c_msg) (stop : Int) (d : tegra_i2c_dev) (m : Machine) :
    cfg (xfer_msg_headers msg stop d m).1 = cfg d := rfl

theorem arm_cfg {msg : i2c_msg} {stop : Int} {env : XferMsgEnv} {d d1 : tegra_i2c_dev}
    {m m1 : Machine} {int_mask : Nat}
    (h : xfer_msg_arm msg stop env d m = some ((d1, m1), int_mask)) : cfg d1 = cfg d := by
  unfold xfer_msg_arm at h
  simp only [] at h
  split at h
  · exact absurd h (by simp)
  · rename_i d2 m2 hp
    simp only [Option.some.injEq, Prod.mk.injEq] at h
    rw [← h.1.1]
    split at hp
    · exact (fill_tx_fifo_cfg hp).trans (headers_cfg msg stop d m)
    · simp only [Option.some.injEq] at hp
      have : d2 = (xfer_msg_headers msg stop d m).1 := by rw [hp]
      rw [this]
      exact headers_cfg msg stop d m

theorem xfer_msg_wait_cfg {msg : i2c_msg} {stop : Int} {env : XferMsgEnv}
    {d d1 : tegra_i2c_dev} {m m1 : Machine} {ret : Nat}
    (h : xfer_msg_wait msg stop env d m = some ((d1, m1), ret)) : cfg d1 = cfg d := by
  unfold xfer_msg_wait at h
  split at h
  · exact absurd h (by simp)
  · rename_i d2 m2 int_mask ha
    split at h
    · exact absurd h (by simp)
    · rename_i d3 m3 r hw
      simp only [Option.some.injEq, Prod.mk.injEq] at h
      rw [← h.1.1]
      exact (wait_cfg hw).trans (arm_cfg ha)

theorem init_dev (e : InitEnv) (d : tegra_i2c_dev) (m : Machine) :
    (tegra_i2c_init e d m).1.1 = { d with irq_disabled := false } := by
  unfold tegra_i2c_init
  simp only []
  split
  · rfl
  · rename_i h
    cases d
    simp only [Bool.not_eq_true] at h
    simp only [h]

/-! ## Trace lemmas -/

theorem appends_refl (P : Event → Prop) (m : Machine) : appends P m m :=
  ⟨[], by simp, by simp⟩

theorem appends_trans {P : Event → Prop} {m m1 m2 : Machine} (h1 : appends P m m1)
    (h2 : appends P m1 m2) : appends P m m2 := by
  obtain ⟨e1, ht1, hp1⟩ := h1
  obtain ⟨e2, ht2, hp2⟩ := h2
  refine ⟨e1 ++ e2, by rw [ht2, ht1, List.append_assoc], ?_⟩
  intro e he
  rcases List.mem_append.mp he with h | h
  · exact hp1 e h
  · exact hp2 e h

theorem appends_mono {P Q : Event → Prop} {m m1 : Machine} (hPQ : ∀ e, P e → Q e)
    (h : appends P m m1) : appends Q m m1 := by
  obtain ⟨evs, ht, hp⟩ := h
  exact ⟨evs, ht, fun e he => hPQ e (hp e he)⟩

theorem appends_of_trace_eq {P : Event → Prop} {m m1 m2 : Machine} (h : appends P m m1)
    (ht : m2.trace = m1.trace) : appends P m m2 := by
  obtain ⟨evs, ht1, hp⟩ := h
  exact ⟨evs, ht.trans ht1, hp⟩

theorem appends_log {P : Event → Prop} (e : Event) (m : Machine) (h : P e) :
    appends P m (log e m) :=
  ⟨[e], rfl, by simpa using h⟩

theorem appends_hw_writel {P : Event → Prop} (v a : Nat) (m : Machine)
    (h : P (Event.writel (u32 v) a)) : appends P m (hw_writel v a m) :=
  ⟨[Event.writel (u32 v) a], rfl, by simpa using h⟩

theorem step_refl (m : Machine) : transfer_step m m := appends_refl _ m

theorem step_trans {m m1 m2 : Machine} (h1 : transfer_step m m1) (h2 : transfer_step m1 m2) :
    transfer_step m m2 := appends_trans h1 h2

theorem step_readl (a : Nat) (m : Machine) : transfer_step m (log (Event.readl a) m) :=
  appends_log _ m rfl

theorem step_mem_read (a n : Nat) (m : Machine) :
    transfer_step m (log (Event.mem_read a n) m) :=
  appends_log _ m rfl

theorem step_mem_write (a n : Nat) (m : Machine) :
    transfer_step m (log (Event.mem_write a n) m) :=
  appends_log _ m rfl

theorem step_i2c_writel (d : tegra_i2c_dev) (v r : Nat) (m : Machine) :
    transfer_step m (i2c_writel d v r m) :=
  appends_hw_writel _ _ m rfl

theorem step_dvc_writel (v r : Nat) (m : Machine) : transfer_step m (dvc_writel v r m) :=
  appends_hw_writel _ _ m rfl

theorem step_i2c_readl_env (d : tegra_i2c_dev) (r v : Nat) (m : Machine) :
    transfer_step m (i2c_readl_env d r v m).1 :=
  step_readl _ m

theorem step_mask_irq (d : tegra_i2c_dev) (mask : Nat) (m : Machine) :
    transfer_step m (tegra_i2c_mask_irq d mask m) :=
  step_trans (step_readl _ m) (step_i2c_writel d _ _ _)

theorem step_unmask_irq (d : tegra_i2c_dev) (mask : Nat) (m : Machine) :
    transfer_step m (tegra_i2c_unmask_irq d mask m) :=
  step_trans (step_readl _ m) (step_i2c_writel d _ _ _)

theorem step_dvc_mask_irq (mask : Nat) (m : Machine) :
    transfer_step m (dvc_i2c_mask_irq mask m) :=
  step_trans (step_readl _ m) (step_dvc_writel _ _ _)

theorem step_dvc_unmask_irq (mask : Nat) (m : Machine) :
    transfer_step m (dvc_i2c_unmask_irq mask m) :=
  step_trans (step_readl _ m) (step_dvc_writel _ _ _)

theorem step_ite (c : Prop) [Decidable c] {m m1 : Machine} (h1 : transfer_step m m1) :
    transfer_step m (if c then m1 else m) := by
  split
  · exact h1
  · exact step_refl m

theorem step_spin_lock (m : Machine) : transfer_step m (log Event.spin_lock_irqsave m) :=
  appends_log _ m rfl

theorem step_spin_unlock (m : Machine) :
    transfer_step m (log Event.spin_unlock_irqrestore m) :=
  appends_log _ m rfl

theorem step_complete (m : Machine) : transfer_step m (log Event.complete m) :=
  appends_log _ m rfl

theorem step_disable_irq (m : Machine) : transfer_step m (log Event.disable_irq_nosync m) :=
  appends_log _ m rfl

theorem step_writesl (d : tegra_i2c_dev) (reg : Nat) (n : Nat) :
    ∀ (data : Nat) (m : Machine), transfer_step m (i2c_writesl d data reg n m) := by
  induction n with
  | zero =>
    intro data m
    exact step_refl m
  | succ n ih =>
    intro data m
    simp only [i2c_writesl]
    exact step_trans (step_trans (step_mem_read _ _ m) (step_i2c_writel d _ _ _)) (ih _ _)

theorem step_readsl (d : tegra_i2c_dev) (reg : Nat) (n : Nat) :
    ∀ (data : Nat) (ws : List Nat) (m : Machine),
      transfer_step m (i2c_readsl d data reg ws n m) := by
  induction n with
  | zero =>
    intro data ws m
    simp only [i2c_readsl]
    exact step_refl m
  | succ n ih =>
    intro data ws m
    simp only [i2c_readsl, i2c_readl_env, hw_readl_env]
    refine step_trans ?_ (ih _ _ _)
    exact appends_of_trace_eq (step_trans (step_readl _ m) (step_mem_write _ _ _)) rfl

theorem step_flush (f : FlushEnv) (d : tegra_i2c_dev) (m : Machine) :
    transfer_step m (tegra_i2c_flush_fifos f d m).1 := by
  have h1 : transfer_step m
      (i2c_writel d ((i2c_readl d I2C_FIFO_CONTROL m).2 |||
        (I2C_FIFO_CONTROL_TX_FLUSH ||| I2C_FIFO_CONTROL_RX_FLUSH)) I2C_FIFO_CONTROL
        (i2c_readl d I2C_FIFO_CONTROL m).1) :=
    step_trans (step_readl _ m) (step_i2c_writel d _ _ _)
  have h2 : ∀ e ∈ List.replicate (f.busy_polls + 1)
      (Event.readl (tegra_i2c_reg_addr d I2C_FIFO_CONTROL)), e.is_transfer = true := by
    intro e he
    rw [List.eq_of_mem_replicate he]
    rfl
  unfold tegra_i2c_flush_fifos
  simp only []
  split
  · exact step_trans h1 ⟨_, rfl, h2⟩
  · exact step_trans h1 ⟨_, rfl, h2⟩

theorem step_fill_tx_fifo {s : Nat} {d d1 : tegra_i2c_dev} {m m1 : Machine}
    (h : tegra_i2c_fill_tx_fifo s d m = some (d1, m1)) : transfer_step m m1 := by
  unfold tegra_i2c_fill_tx_fifo at h
  simp only [i2c_readl_env, hw_readl_env] at h
  generalize (if d.msg_buf_remaining / BYTES_PER_FIFO_WORD >
      (u32 s &&& I2C_FIFO_STATUS_TX_MASK) >>> I2C_FIFO_STATUS_TX_SHIFT then
      (u32 s &&& I2C_FIFO_STATUS_TX_MASK) >>> I2C_FIFO_STATUS_TX_SHIFT
    else d.msg_buf_remaining / BYTES_PER_FIFO_WORD) = w at h
  have h0 : transfer_step m (i2c_writesl d d.msg_buf I2C_TX_FIFO w
      (log (Event.readl (tegra_i2c_reg_addr d I2C_FIFO_STATUS))
        (log Event.spin_lock_irqsave m))) :=
    step_trans (step_trans (step_spin_lock m) (step_readl _ _)) (step_writesl d _ _ _ _)
  by_cases hc : (u32 s &&& I2C_FIFO_STATUS_TX_MASK) >>> I2C_FIFO_STATUS_TX_SHIFT - w > 0 ∧
      d.msg_buf_remaining - w * BYTES_PER_FIFO_WORD > 0
  · rw [if_pos hc] at h
    by_cases h3 : d.msg_buf_remaining - w * BYTES_PER_FIFO_WORD > 3
    · rw [if_pos h3] at h
      exact absurd h (by simp)
    · rw [if_neg h3] at h
      simp only [] at h
      split at h
      · exact absurd h (by simp)
      · simp only [Option.some.injEq, Prod.mk.injEq] at h
        rw [← h.2]
        exact step_trans (step_trans (step_trans h0 (step_mem_read _ _ _))
          (step_i2c_writel _ _ _ _)) (step_spin_unlock _)
  · rw [if_neg hc] at h
    simp only [] at h
    split at h
    · exact absurd h (by simp)
    · simp only [Option.some.injEq, Prod.mk.injEq] at h
      rw [← h.2]
      exact step_trans h0 (step_spin_unlock _)

theorem step_empty_rx_fifo {s : Nat} {ws : List Nat} {d d1 : tegra_i2c_dev} {m m1 : Machine}
    (h : tegra_i2c_empty_rx_fifo s ws d m = some (d1, m1)) : transfer_step m m1 := by
  unfold tegra_i2c_empty_rx_fifo at h
  simp only [i2c_readl_env, hw_readl_env] at h
  generalize (if d.msg_buf_remaining / BYTES_PER_FIFO_WORD >
      (u32 s &&& I2C_FIFO_STATUS_RX_MASK) >>> I2C_FIFO_STATUS_RX_SHIFT then
      (u32 s &&& I2C_FIFO_STATUS_RX_MASK) >>> I2C_FIFO_STATUS_RX_SHIFT
    else d.msg_buf_remaining / BYTES_PER_FIFO_WORD) = w at h
  have h0 : transfer_step m (i2c_readsl d d.msg_buf I2C_RX_FIFO ws w
      (log (Event.readl (tegra_i2c_reg_addr d I2C_FIFO_STATUS)) m)) :=
    step_trans (step_readl _ _) (step_readsl d _ _ _ _ _)
  by_cases hc : (u32 s &&& I2C_FIFO_STATUS_RX_MASK) >>> I2C_FIFO_STATUS_RX_SHIFT - w > 0 ∧
      d.msg_buf_remaining - w * BYTES_PER_FIFO_WORD > 0
  · rw [if_pos hc] at h
    by_cases h3 : d.msg_buf_remaining - w * BYTES_PER_FIFO_WORD > 3
    · rw [if_pos h3] at h
      exact absurd h (by simp)
    · rw [if_neg h3] at h
      simp only [] at h
      split at h
      · exact absurd h (by simp)
      · simp only [Option.some.injEq, Prod.mk.injEq] at h
        rw [← h.2]
        exact appends_of_trace_eq
          (step_trans (step_trans h0 (step_readl _ _)) (step_mem_write _ _ _)) rfl
  · rw [if_neg hc] at h
    simp only [] at h
    split at h
    · exact absurd h (by simp)
    · simp only [Option.some.injEq, Prod.mk.injEq] at h
      rw [← h.2]
      exact h0

theorem step_isr_disable_irq (d : tegra_i2c_dev) (m : Machine) :
    transfer_step m (isr_disable_irq d m).2 := by
  unfold isr_disable_irq
  split
  · exact step_disable_irq m
  · exact step_refl m

theorem step_isr_err (status : Nat) (d : tegra_i2c_dev) (m : Machine) :
    transfer_step m (tegra_i2c_isr_err status d m).2 := by
  unfold tegra_i2c_isr_err complete
  simp only []
  have h1 := step_mask_irq d (I2C_INT_NO_ACK ||| I2C_INT_ARBITRATION_LOST |||
    I2C_INT_PACKET_XFER_COMPLETE ||| I2C_INT_TX_FIFO_DATA_REQ |||
    I2C_INT_RX_FIFO_DATA_REQ ||| I2C_INT_TX_FIFO_OVERFLOW) m
  have h2 := step_trans h1 (step_i2c_writel d status I2C_INT_STATUS _)
  have h3 := step_trans h2 (step_ite (d.is_dvc = true)
    (step_dvc_mask_irq DVC_CTRL_REG3_I2C_DONE_INTR_EN _))
  have h4 := step_trans h3 (step_ite (d.is_dvc = true)
    (step_dvc_writel DVC_STATUS_I2C_DONE_INTR DVC_STATUS _))
  exact step_trans h4 (step_complete _)

theorem step_status_err_reads (status : Nat) (d : tegra_i2c_dev) (m : Machine) :
    transfer_step m (isr_status_err_reads status d m) := by
  unfold isr_status_err_reads
  simp only []
  have h1 : transfer_step m (if status &&& I2C_INT_NO_ACK ≠ 0 then
      log (Event.readl (tegra_i2c_reg_addr d I2C_PACKET_TRANSFER_STATUS)) m else m) :=
    step_ite _ (step_readl _ m)
  have h2 := step_trans h1 (step_ite (status &&& I2C_INT_ARBITRATION_LOST ≠ 0)
    (step_readl (tegra_i2c_reg_addr d I2C_PACKET_TRANSFER_STATUS) _))
  exact step_trans h2 (step_ite (status &&& I2C_INT_TX_FIFO_OVERFLOW ≠ 0)
    (step_readl (tegra_i2c_reg_addr d I2C_PACKET_TRANSFER_STATUS) _))

theorem step_isr {e : IrqEnv} {d d1 : tegra_i2c_dev} {m m1 : Machine}
    (h : tegra_i2c_isr e d m = some (d1, m1)) : transfer_step m m1 := by
  unfold tegra_i2c_isr at h
  simp only [i2c_readl_env, hw_readl_env] at h
  have hr : transfer_step m (log (Event.readl (tegra_i2c_reg_addr d I2C_INT_STATUS)) m) :=
    step_readl _ m
  split at h
  · simp only [Option.some.injEq] at h
    rw [← show _ = m1 from congrArg Prod.snd h]
    exact step_trans (step_trans hr (step_isr_disable_irq _ _)) (step_isr_err _ _ _)
  · split at h
    · simp only [Option.some.injEq] at h
      rw [← show _ = m1 from congrArg Prod.snd h]
      exact step_trans (step_trans hr (step_status_err_reads _ _ _)) (step_isr_err _ _ _)
    · have hr2 := step_trans hr (step_readl (tegra_i2c_reg_addr d I2C_STATUS) _)
      split at h
      · simp only [Option.some.injEq] at h
        rw [← show _ = m1 from congrArg Prod.snd h]
        exact step_trans (step_trans hr2 (step_isr_disable_irq _ _)) (step_isr_err _ _ _)
      · split at h
        · exact absurd h (by simp)
        · rename_i d2 m2 hrx
          have h2 : transfer_step m m2 := by
            split at hrx
            · split at hrx
              · exact step_trans hr2 (step_empty_rx_fifo hrx)
              · exact absurd hrx (by simp)
            · simp only [Option.some.injEq, Prod.mk.injEq] at hrx
              rw [← hrx.2]
              exact hr2
          split at h
          · exact absurd h (by simp)
          · rename_i d3 m3 htx
            have h3 : transfer_step m m3 := by
              split at htx
              · split at htx
                · exact step_trans h2 (step_fill_tx_fifo htx)
                · simp only [Option.some.injEq, Prod.mk.injEq] at htx
                  rw [← htx.2]
                  exact step_trans h2 (step_mask_irq _ _ _)
              · simp only [Option.some.injEq, Prod.mk.injEq] at htx
                rw [← htx.2]
                exact h2
            have h4 := step_trans (step_trans h3 (step_i2c_writel d3 (u32 e.int_status)
              I2C_INT_STATUS m3)) (step_ite (d3.is_dvc = true)
                (step_dvc_writel DVC_STATUS_I2C_DONE_INTR DVC_STATUS _))
            split at h
            · simp only [Option.some.injEq] at h
              rw [← show _ = m1 from congrArg Prod.snd h]
              exact step_trans h4 (step_complete _)
            · simp only [Option.some.injEq, Prod.mk.injEq] at h
              rw [← h.2]
              exact h4

theorem step_run_isrs {es : List IrqEnv} {d d1 : tegra_i2c_dev} {m m1 : Machine}
    (h : run_isrs es d m = some (d1, m1)) : transfer_step m m1 := by
  induction es generalizing d m with
  | nil =>
    simp only [run_isrs, Option.some.injEq, Prod.mk.injEq] at h
    rw [← h.2]
    exact step_refl m
  | cons e es ih =>
    simp only [run_isrs] at h
    split at h
    · exact absurd h (by simp)
    · rename_i d2 m2 he
      exact step_trans (step_isr he) (ih h)

theorem step_wait {es : List IrqEnv} {d d1 : tegra_i2c_dev} {m m1 : Machine} {ret : Nat}
    (h : wait_for_completion_timeout es d m = some ((d1, m1), ret)) : transfer_step m m1 := by
  unfold wait_for_completion_timeout at h
  split at h
  · exact absurd h (by simp)
  · rename_i d2 m2 hr
    have h2 := step_run_isrs hr
    split at h
    · simp only [Option.some.injEq, Prod.mk.injEq] at h
      rw [← h.1.2]
      exact h2
    · simp only [Option.some.injEq, Prod.mk.injEq] at h
      rw [← h.1.2]
      exact h2

theorem step_headers (msg : i2c_msg) (stop : Int) (d : tegra_i2c_dev) (m : Machine) :
    transfer_step m (xfer_msg_headers msg stop d m).2 := by
  unfold xfer_msg_headers
  simp only []
  exact step_trans (step_trans (step_i2c_writel _ _ _ _) (step_i2c_writel _ _ _ _))
    (step_i2c_writel _ _ _ _)

theorem step_arm {msg : i2c_msg} {stop : Int} {env : XferMsgEnv} {d d1 : tegra_i2c_dev}
    {m m1 : Machine} {int_mask : Nat}
    (h : xfer_msg_arm msg stop env d m = some ((d1, m1), int_mask)) : transfer_step m m1 := by
  unfold xfer_msg_arm at h
  simp only [] at h
  split at h
  · exact absurd h (by simp)
  · rename_i d2 m2 hp
    simp only [Option.some.injEq, Prod.mk.injEq] at h
    rw [← h.1.2]
    have h2 : transfer_step m m2 := by
      split at hp
      · exact step_trans (step_headers msg stop d m) (step_fill_tx_fifo hp)
      · simp only [Option.some.injEq] at hp
        rw [← show _ = m2 from congrArg Prod.snd hp]
        exact step_headers msg stop d m
    exact step_trans (step_trans h2 (step_ite (d2.is_dvc = true)
      (step_dvc_unmask_irq DVC_CTRL_REG3_I2C_DONE_INTR_EN _))) (step_unmask_irq _ _ _)

theorem step_xfer_msg_mask (int_mask : Nat) (d : tegra_i2c_dev) (m : Machine) :
    transfer_step m (xfer_msg_mask int_mask d m) := by
  unfold xfer_msg_mask
  simp only []
  exact step_trans (step_mask_irq d int_mask m) (step_ite (d.is_dvc = true)
    (step_dvc_mask_irq DVC_CTRL_REG3_I2C_DONE_INTR_EN _))

theorem step_xfer_msg_wait {msg : i2c_msg} {stop : Int} {env : XferMsgEnv}
    {d d1 : tegra_i2c_dev} {m m1 : Machine} {ret : Nat}
    (h : xfer_msg_wait msg stop env d m = some ((d1, m1), ret)) : transfer_step m m1 := by
  unfold xfer_msg_wait at h
  split at h
  · exact absurd h (by simp)
  · rename_i d2 m2 int_mask ha
    split at h
    · exact absurd h (by simp)
    · rename_i d3 m3 r hw
      simp only [Option.some.injEq, Prod.mk.injEq] at h
      rw [← h.1.2]
      exact step_trans (step_trans (step_arm ha) (step_wait hw)) (step_xfer_msg_mask _ _ _)

theorem reset_not_mem_of_step {m m1 : Machine} (h : transfer_step m m1) :
    ∃ evs, m1.trace = m.trace ++ evs ∧ Event.periph_reset_assert ∉ evs := by
  obtain ⟨evs, ht, hp⟩ := h
  refine ⟨evs, ht, fun hmem => ?_⟩
  exact absurd (hp _ hmem) (by decide)

theorem step_dvc_init (m : Machine) : transfer_step m (tegra_dvc_init m) := by
  unfold tegra_dvc_init
  simp only [dvc_readl, hw_readl]
  have h1 := step_trans (step_readl DVC_CTRL_REG3 m)
    (step_dvc_writel (m.regs DVC_CTRL_REG3 ||| DVC_CTRL_REG3_SW_PROG) DVC_CTRL_REG3 _)
  have h2 := step_trans h1 (step_readl DVC_CTRL_REG1 _)
  exact step_trans h2 (step_dvc_writel _ DVC_CTRL_REG1 _)

theorem step_slave_init (d : tegra_i2c_dev) (m : Machine) :
    transfer_step m (tegra_i2c_slave_init d m) := by
  unfold tegra_i2c_slave_init
  simp only []
  have h1 := step_i2c_writel d (I2C_SL_CNFG_NEWSL ||| I2C_SL_CNFG_NACK) I2C_SL_CNFG m
  split
  · exact step_trans (step_trans h1 (step_i2c_writel d _ I2C_SL_ADDR1 _))
      (step_i2c_writel d _ I2C_SL_ADDR2 _)
  · exact h1

theorem appends_of_step {m m1 : Machine} (h : transfer_step m m1) :
    appends (fun _ => True) m m1 :=
  appends_mono (fun _ _ => trivial) h

theorem init_hw_after_reset (e : InitEnv) (d : tegra_i2c_dev) (m : Machine) :
    appends (fun _ => True)
      (tegra_periph_reset_assert e.reset_regs (log Event.pm_runtime_get_sync m))
      (tegra_i2c_init_hw e d m).1 := by
  unfold tegra_i2c_init_hw
  simp only []
  have h1 : appends (fun _ => True)
      (tegra_periph_reset_assert e.reset_regs (log Event.pm_runtime_get_sync m))
      (log Event.periph_reset_deassert
        (tegra_periph_reset_assert e.reset_regs (log Event.pm_runtime_get_sync m))) :=
    appends_log _ _ trivial
  have h2 := appends_trans h1 (appends_of_step (step_ite (d.is_dvc = true) (step_dvc_init _)))
  have h3 := appends_trans h2 (appends_of_step (step_i2c_writel d (I2C_CNFG_NEW_MASTER_FSM |||
    I2C_CNFG_PACKET_MODE_EN ||| (0x2 <<< I2C_CNFG_DEBOUNCE_CNT_SHIFT)) I2C_CNFG _))
  have h4 := appends_trans h3 (appends_of_step (step_i2c_writel d 0 I2C_INT_MASK _))
  have h5 : appends (fun _ => True) _ (clk_set_rate (d.last_bus_clk_rate * 8) _) :=
    appends_trans h4 ⟨[Event.clk_set_rate (u32 (d.last_bus_clk_rate * 8))], rfl,
      fun _ _ => trivial⟩
  have h6 := appends_trans h5 (appends_of_step (step_i2c_writel d 0x3 I2C_CLK_DIVISOR _))
  have h7 := appends_trans h6 (appends_of_step (step_i2c_writel d
    ((7 <<< I2C_FIFO_CONTROL_TX_TRIG_SHIFT) ||| (0 <<< I2C_FIFO_CONTROL_RX_TRIG_SHIFT))
    I2C_FIFO_CONTROL _))
  have h8 := appends_trans h7 (appends_of_step (step_ite (d.is_slave = true)
    (step_slave_init d _)))
  have h9 := appends_trans h8 (appends_of_step (step_flush e.flush d _))
  exact appends_trans h9 (appends_log Event.pm_runtime_put_sync _ trivial)

theorem init_logs_reset (e : InitEnv) (d : tegra_i2c_dev) (m : Machine) :
    Event.periph_reset_assert ∈ (tegra_i2c_init e d m).1.2.trace := by
  obtain ⟨evs, ht, _⟩ := init_hw_after_reset e d m
  have h1 : Event.periph_reset_assert ∈ (tegra_i2c_init_hw e d m).1.trace := by
    rw [ht]
    simp [tegra_periph_reset_assert]
  unfold tegra_i2c_init
  simp only []
  split
  · simp only [log, List.mem_append]
    exact Or.inl h1
  · exact h1

/-! ## The outcome of one message -/

theorem init_msg_err (e : InitEnv) (d : tegra_i2c_dev) (m : Machine) :
    (tegra_i2c_init e d m).1.1.msg_err = d.msg_err := by
  rw [init_dev]

theorem wait_of_outcome {msg : i2c_msg} {stop : Int} {env : XferMsgEnv} {d : tegra_i2c_dev}
    {m : Machine} {ret err : Nat}
    (h : xfer_msg_wait_outcome msg stop env d m = some (ret, err)) :
    msg.len ≠ 0 ∧ ∃ dw mw,
      xfer_msg_wait msg stop env d (tegra_i2c_flush_fifos env.flush d m).1 = some ((dw, mw), ret)
      ∧ dw.msg_err = err := by
  unfold xfer_msg_wait_outcome at h
  split at h
  · exact absurd h (by simp)
  · rename_i hlen
    refine ⟨hlen, ?_⟩
    cases hw : xfer_msg_wait msg stop env d (tegra_i2c_flush_fifos env.flush d m).1 with
    | none =>
      rw [hw] at h
      exact absurd h (by simp)
    | some p =>
      rw [hw] at h
      simp only [Option.map_some', Option.some.injEq, Prod.mk.injEq] at h
      obtain ⟨⟨dw, mw⟩, r⟩ := p
      simp only at h
      exact ⟨dw, mw, by rw [h.1], h.2⟩

theorem xfer_msg_of_wait {msg : i2c_msg} {stop : Int} {env : XferMsgEnv} {d dw : tegra_i2c_dev}
    {m mw : Machine} {ret : Nat} (i2c_bus : tegra_i2c_bus) (hlen : msg.len ≠ 0)
    (hw : xfer_msg_wait msg stop env d (tegra_i2c_flush_fifos env.flush d m).1
      = some ((dw, mw), ret)) :
    tegra_i2c_xfer_msg i2c_bus msg stop env d m
      = some (xfer_msg_result i2c_bus msg env ret dw mw) := by
  unfold tegra_i2c_xfer_msg
  simp only [if_neg hlen, hw]

theorem recover_snd (i2c_bus : tegra_i2c_bus) (d : tegra_i2c_dev) (m : Machine) :
    (xfer_msg_recover i2c_bus d m).2
      = (decide (d.msg_err = I2C_ERR_ARBITRATION_LOST) && recovery_reports_success i2c_bus d) := by
  unfold xfer_msg_recover recovery_reports_success
  by_cases h : d.msg_err = I2C_ERR_ARBITRATION_LOST
  · rw [if_pos h]
    cases d.arb_recovery <;> simp [h]
  · rw [if_neg h]
    simp [h]

theorem recovery_reports_success_congr (i2c_bus : tegra_i2c_bus) {d d1 : tegra_i2c_dev}
    (h : cfg d1 = cfg d) : recovery_reports_success i2c_bus d1 = recovery_reports_success i2c_bus d := by
  have : d1.arb_recovery = d.arb_recovery := congrArg (fun c => c.2.2.2.1) h
  unfold recovery_reports_success
  rw [this]

/-- The result of `tegra_i2c_xfer_msg` once the wait was signalled with a
non-empty `msg_err` and no successful recovery happened: re-init, then the
classification. -/
theorem result_error_reinit (i2c_bus : tegra_i2c_bus) (msg : i2c_msg) (env : XferMsgEnv)
    (ret : Nat) (d : tegra_i2c_dev) (m : Machine) (hret : ret ≠ 0)
    (herr : d.msg_err ≠ I2C_ERR_NONE)
    (hrec : ¬ (d.msg_err = I2C_ERR_ARBITRATION_LOST ∧ recovery_reports_success i2c_bus d = true)) :
    xfer_msg_result i2c_bus msg env ret d m =
      ((tegra_i2c_init env.init d (xfer_msg_recover i2c_bus d m).1).1,
        if d.msg_err = I2C_ERR_NO_ACK then
          (if msg.flags &&& I2C_M_IGNORE_NAK ≠ 0 then 0 else - EREMOTEIO)
        else if d.msg_err &&& I2C_ERR_UNEXPECTED_STATUS ≠ 0 then - EAGAIN
        else - EIO) := by
  have h2 : (xfer_msg_recover i2c_bus d m).2 = false := by
    rw [recover_snd]
    by_cases h : d.msg_err = I2C_ERR_ARBITRATION_LOST
    · have : recovery_reports_success i2c_bus d = false := by
        cases hr : recovery_reports_success i2c_bus d
        · rfl
        · exact absurd ⟨h, hr⟩ hrec
      simp [this]
    · simp [h]
  unfold xfer_msg_result
  simp only [if_neg hret, if_neg herr, h2, init_msg_err, Bool.false_eq_true, if_false]
  split_ifs <;> rfl

theorem result_recovered (i2c_bus : tegra_i2c_bus) (msg : i2c_msg) (env : XferMsgEnv)
    (ret : Nat) (d : tegra_i2c_dev) (m : Machine) (hret : ret ≠ 0)
    (harb : d.msg_err = I2C_ERR_ARBITRATION_LOST)
    (hrec : recovery_reports_success i2c_bus d = true) :
    xfer_msg_result i2c_bus msg env ret d m =
      ((d, log (Event.arb_recovery i2c_bus.scl_gpio i2c_bus.sda_gpio) m), - EAGAIN) := by
  have h2 : (xfer_msg_recover i2c_bus d m).2 = true := by
    rw [recover_snd, hrec, harb]
    rfl
  have h1 : (xfer_msg_recover i2c_bus d m).1
      = log (Event.arb_recovery i2c_bus.scl_gpio i2c_bus.sda_gpio) m := by
    unfold recovery_reports_success at hrec
    unfold xfer_msg_recover
    rw [if_pos harb]
    cases hr : d.arb_recovery with
    | none =>
      rw [hr] at hrec
      exact absurd hrec (by simp)
    | some f => rfl
  have herr : d.msg_err ≠ I2C_ERR_NONE := by
    rw [harb]
    decide
  unfold xfer_msg_result
  simp only [if_neg hret, if_neg herr, h2, if_true, h1]

/-! ## Register contents -/

theorem xfer_msg_wait_inv {msg : i2c_msg} {stop : Int} {env : XferMsgEnv}
    {d dw : tegra_i2c_dev} {m mw : Machine} {ret : Nat}
    (h : xfer_msg_wait msg stop env d m = some ((dw, mw), ret)) :
    ∃ da ma int_mask mb,
      xfer_msg_arm msg stop env d m = some ((da, ma), int_mask)
      ∧ wait_for_completion_timeout env.irqs da ma = some ((dw, mb), ret)
      ∧ mw = xfer_msg_mask int_mask dw mb := by
  unfold xfer_msg_wait at h
  split at h
  · exact absurd h (by simp)
  · rename_i da ma int_mask ha
    split at h
    · exact absurd h (by simp)
    · rename_i db mb r hw
      simp only [Option.some.injEq, Prod.mk.injEq] at h
      obtain ⟨⟨h1, h2⟩, h3⟩ := h
      subst h1 h3
      exact ⟨da, ma, int_mask, mb, ha, hw, h2.symm⟩

theorem arm_unmasks {msg : i2c_msg} {stop : Int} {env : XferMsgEnv} {d da : tegra_i2c_dev}
    {m ma : Machine} {int_mask : Nat}
    (h : xfer_msg_arm msg stop env d m = some ((da, ma), int_mask)) :
    ∃ mp, ma = tegra_i2c_unmask_irq da int_mask mp := by
  unfold xfer_msg_arm at h
  simp only [] at h
  split at h
  · exact absurd h (by simp)
  · simp only [Option.some.injEq, Prod.mk.injEq] at h
    obtain ⟨⟨h1, h2⟩, h3⟩ := h
    subst h1 h3
    exact ⟨_, h2.symm⟩

theorem reg_addr_of_is_dvc {d d1 : tegra_i2c_dev} (h : d1.is_dvc = d.is_dvc) (r : Nat) :
    tegra_i2c_reg_addr d1 r = tegra_i2c_reg_addr d r := by
  unfold tegra_i2c_reg_addr
  rw [h]

theorem mask_irq_regs (d : tegra_i2c_dev) (mask : Nat) (m : Machine) (a : Nat)
    (h : a ≠ tegra_i2c_reg_addr d I2C_INT_MASK) :
    (tegra_i2c_mask_irq d mask m).regs a = m.regs a := by
  simp only [tegra_i2c_mask_irq, i2c_readl, hw_readl, i2c_writel, hw_writel, log, if_neg h]

theorem dvc_mask_irq_regs (mask : Nat) (m : Machine) (a : Nat) (h : a ≠ DVC_CTRL_REG3) :
    (dvc_i2c_mask_irq mask m).regs a = m.regs a := by
  simp only [dvc_i2c_mask_irq, dvc_readl, hw_readl, dvc_writel, hw_writel, log, if_neg h]

theorem xfer_msg_mask_regs (int_mask : Nat) (d : tegra_i2c_dev) (m : Machine) (a : Nat)
    (h1 : a ≠ tegra_i2c_reg_addr d I2C_INT_MASK) (h2 : a ≠ DVC_CTRL_REG3) :
    (xfer_msg_mask int_mask d m).regs a = m.regs a := by
  unfold xfer_msg_mask
  simp only []
  split
  · rw [dvc_mask_irq_regs _ _ _ h2, mask_irq_regs _ _ _ _ h1]
  · rw [mask_irq_regs _ _ _ _ h1]

theorem xfer_msg_mask_trace (int_mask : Nat) (d : tegra_i2c_dev) (m : Machine) :
    appends (fun e => ∃ a, (a = tegra_i2c_reg_addr d I2C_INT_MASK ∨ a = DVC_CTRL_REG3)
        ∧ (e = Event.readl a ∨ ∃ v, e = Event.writel v a))
      m (xfer_msg_mask int_mask d m) := by
  have h1 : appends (fun e => ∃ a, (a = tegra_i2c_reg_addr d I2C_INT_MASK ∨ a = DVC_CTRL_REG3)
        ∧ (e = Event.readl a ∨ ∃ v, e = Event.writel v a))
      m (tegra_i2c_mask_irq d int_mask m) :=
    appends_trans (appends_log _ m ⟨_, Or.inl rfl, Or.inl rfl⟩)
      (appends_hw_writel _ _ _ ⟨_, Or.inl rfl, Or.inr ⟨_, rfl⟩⟩)
  unfold xfer_msg_mask
  simp only []
  split
  · exact appends_trans h1 (appends_trans (appends_log _ _ ⟨_, Or.inr rfl, Or.inl rfl⟩)
      (appends_hw_writel _ _ _ ⟨_, Or.inr rfl, Or.inr ⟨_, rfl⟩⟩))
  · exact h1

/-- The physical offsets of the configuration, clock-divisor and FIFO-control
registers differ from those of the interrupt mask and of `DVC_CTRL_REG3`. -/
theorem config_regs_apart (d : tegra_i2c_dev) (r : Nat)
    (hr : r = I2C_CNFG ∨ r = I2C_CLK_DIVISOR ∨ r = I2C_FIFO_CONTROL) :
    tegra_i2c_reg_addr d r ≠ tegra_i2c_reg_addr d I2C_INT_MASK
    ∧ tegra_i2c_reg_addr d r ≠ DVC_CTRL_REG3 := by
  unfold tegra_i2c_reg_addr
  cases d.is_dvc <;> rcases hr with h | h | h <;> subst h <;> simp <;> decide

theorem i2c_writel_regs_congr {d d1 : tegra_i2c_dev} {m m1 : Machine} (v r : Nat)
    (hd : d1.is_dvc = d.is_dvc) (h : m1.regs = m.regs) :
    (i2c_writel d1 v r m1).regs = (i2c_writel d v r m).regs := by
  simp only [i2c_writel, hw_writel, reg_addr_of_is_dvc hd, h]

theorem dvc_init_regs_congr {m m1 : Machine} (h : m1.regs = m.regs) :
    (tegra_dvc_init m1).regs = (tegra_dvc_init m).regs := by
  simp only [tegra_dvc_init, dvc_readl, hw_readl, dvc_writel, hw_writel, log, h]

theorem slave_init_regs_congr {d d1 : tegra_i2c_dev} {m m1 : Machine}
    (hd : d1.is_dvc = d.is_dvc) (hs : d1.slave_addr = d.slave_addr) (h : m1.regs = m.regs) :
    (tegra_i2c_slave_init d1 m1).regs = (tegra_i2c_slave_init d m).regs := by
  unfold tegra_i2c_slave_init
  simp only [hs]
  have h1 := i2c_writel_regs_congr (I2C_SL_CNFG_NEWSL ||| I2C_SL_CNFG_NACK) I2C_SL_CNFG hd h
  split
  · exact i2c_writel_regs_congr _ _ hd (i2c_writel_regs_congr _ _ hd h1)
  · exact h1

theorem flush_regs_congr (f : FlushEnv) {d d1 : tegra_i2c_dev} {m m1 : Machine}
    (hd : d1.is_dvc = d.is_dvc) (h : m1.regs = m.regs) :
    (tegra_i2c_flush_fifos f d1 m1).1.regs = (tegra_i2c_flush_fifos f d m).1.regs := by
  unfold tegra_i2c_flush_fifos
  simp only [i2c_readl, hw_readl, i2c_writel, hw_writel, log, reg_addr_of_is_dvc hd, h]
  split <;> rfl

theorem ite_regs_congr (c : Prop) [Decidable c] {a a1 b b1 : Machine}
    (ha : a1.regs = a.regs) (hb : b1.regs = b.regs) :
    (if c then a1 else b1).regs = (if c then a else b).regs := by
  split
  · exact ha
  · exact hb

/-- The register window `tegra_i2c_init` leaves depends only on the
configuration of the controller and on what the hardware does during the
init, not on the state before. -/
theorem init_regs_congr (e : InitEnv) {d d1 : tegra_i2c_dev} (m m1 : Machine)
    (h : cfg d1 = cfg d) :
    (tegra_i2c_init e d1 m1).1.2.regs = (tegra_i2c_init e d m).1.2.regs := by
  have hd : d1.is_dvc = d.is_dvc := congrArg (fun c => c.1) h
  have hs : d1.is_slave = d.is_slave := congrArg (fun c => c.2.1) h
  have ha : d1.slave_addr = d.slave_addr := congrArg (fun c => c.2.2.1) h
  have hw : (tegra_i2c_init_hw e d1 m1).1.regs = (tegra_i2c_init_hw e d m).1.regs := by
    unfold tegra_i2c_init_hw
    simp only [hd, hs]
    show (tegra_i2c_flush_fifos e.flush d1 _).1.regs = (tegra_i2c_flush_fifos e.flush d _).1.regs
    refine flush_regs_congr e.flush hd (ite_regs_congr _ (slave_init_regs_congr hd ha ?_) ?_)
    all_goals
      refine i2c_writel_regs_congr _ _ hd ?_
      refine i2c_writel_regs_congr _ _ hd ?_
      show (i2c_writel d1 0 I2C_INT_MASK _).regs = (i2c_writel d 0 I2C_INT_MASK _).regs
      refine i2c_writel_regs_congr _ _ hd ?_
      refine i2c_writel_regs_congr _ _ hd ?_
      exact ite_regs_congr _ (dvc_init_regs_congr rfl) rfl
  unfold tegra_i2c_init
  simp only []
  split <;> split <;> exact hw

/-! ## The FIFO flush at entry -/

theorem flush_regs_other (f : FlushEnv) (d : tegra_i2c_dev) (m : Machine) (a : Nat)
    (h : a ≠ tegra_i2c_reg_addr d I2C_FIFO_CONTROL) :
    (tegra_i2c_flush_fifos f d m).1.regs a = m.regs a := by
  unfold tegra_i2c_flush_fifos
  simp only [i2c_readl, hw_readl, i2c_writel, hw_writel, log]
  split <;> simp only [if_neg h]

theorem flush_trace (f : FlushEnv) (d : tegra_i2c_dev) (m : Machine) :
    (tegra_i2c_flush_fifos f d m).1.trace = m.trace ++
      (Event.readl (tegra_i2c_reg_addr d I2C_FIFO_CONTROL)
        :: Event.writel (u32 (m.regs (tegra_i2c_reg_addr d I2C_FIFO_CONTROL) |||
            (I2C_FIFO_CONTROL_TX_FLUSH ||| I2C_FIFO_CONTROL_RX_FLUSH)))
            (tegra_i2c_reg_addr d I2C_FIFO_CONTROL)
        :: List.replicate (f.busy_polls + 1)
            (Event.readl (tegra_i2c_reg_addr d I2C_FIFO_CONTROL))) := by
  unfold tegra_i2c_flush_fifos
  simp only [i2c_readl, hw_readl, i2c_writel, hw_writel, log]
  split <;> simp

theorem fifo_control_apart (d : tegra_i2c_dev) :
    tegra_i2c_reg_addr d I2C_TX_FIFO ≠ tegra_i2c_reg_addr d I2C_FIFO_CONTROL
    ∧ tegra_i2c_reg_addr d I2C_INT_MASK ≠ tegra_i2c_reg_addr d I2C_FIFO_CONTROL := by
  unfold tegra_i2c_reg_addr
  cases d.is_dvc <;> simp <;> decide

/-! ## The batch loop -/

theorem xfer_of_suspended (i2c_bus : tegra_i2c_bus) (msgs : List i2c_msg)
    (env : Nat → XferMsgEnv) (d : tegra_i2c_dev) (m : Machine) (hs : d.is_suspended = true) :
    tegra_i2c_xfer i2c_bus msgs env d m
      = some ⟨d, { m with trace := m.trace ++ [Event.rt_mutex_lock, Event.rt_mutex_unlock] },
          - EBUSY, []⟩ := by
  unfold tegra_i2c_xfer
  simp only [hs, if_true, log, List.append_assoc, List.singleton_append]

theorem xfer_loop_calls (i2c_bus : tegra_i2c_bus) (num : Int) (env : Nat → XferMsgEnv) :
    ∀ (msgs : List i2c_msg) (i : Nat) (d : tegra_i2c_dev) (m : Machine) (l : XferLoop),
      xfer_loop i2c_bus num env msgs i d m = some l →
      l.calls.map (fun c => (c.index, c.stop))
          = (List.range' i l.calls.length).map
              (fun (k : Nat) => (k, if (k : Int) = num - 1 then (1 : Int) else 0))
        ∧ l.calls.map (fun c => c.msg) = msgs.take l.calls.length
        ∧ l.calls.length ≤ msgs.length
        ∧ (l.ret = 0 → l.calls.length = msgs.length ∧ l.i = i + msgs.length)
        ∧ (l.ret ≠ 0 → ∃ c, l.calls.getLast? = some c ∧ c.ret = l.ret ∧ l.i = c.index) := by
  intro msgs
  induction msgs with
  | nil =>
    intro i d m l h
    simp only [xfer_loop, Option.some.injEq] at h
    subst h
    simp
  | cons msg rest ih =>
    intro i d m l h
    simp only [xfer_loop] at h
    split at h
    · exact absurd h (by simp)
    · rename_i d1 m1 ret hx
      by_cases hr : ret ≠ 0
      · rw [if_pos hr] at h
        simp only [Option.some.injEq] at h
        subst h
        refine ⟨by simp [List.range'], by simp, by simp, fun h0 => absurd h0 hr, fun _ => ?_⟩
        exact ⟨_, rfl, rfl, rfl⟩
      · rw [if_neg hr] at h
        split at h
        · exact absurd h (by simp)
        · rename_i r hl
          simp only [Option.some.injEq] at h
          subst h
          obtain ⟨h1, hm, h2, h3, h4⟩ := ih (i + 1) d1 m1 r hl
          refine ⟨?_, ?_, ?_, ?_, ?_⟩
          · simp only [List.map_cons, List.length_cons, List.range'_succ, h1]
          · simp only [List.map_cons, List.length_cons, List.take_succ_cons, hm]
          · simp only [List.length_cons]
            omega
          · intro h0
            obtain ⟨h5, h6⟩ := h3 h0
            simp only [List.length_cons]
            omega
          · intro h0
            obtain ⟨c, hc1, hc2, hc3⟩ := h4 h0
            refine ⟨c, ?_, hc2, hc3⟩
            cases hcs : r.calls with
            | nil =>
              rw [hcs] at hc1
              exact absurd hc1 (by simp)
            | cons c0 cs =>
              rw [hcs] at hc1
              simpa [List.getLast?_cons_cons] using hc1

theorem xfer_loop_failure (i2c_bus : tegra_i2c_bus) (num : Int) (env : Nat → XferMsgEnv) :
    ∀ (msgs : List i2c_msg) (i : Nat) (d : tegra_i2c_dev) (m : Machine) (l : XferLoop)
      (k : Nat) (c : XferCall),
      xfer_loop i2c_bus num env msgs i d m = some l →
      l.calls.get? k = some c → c.ret ≠ 0 →
      l.calls.length = k + 1 ∧ l.ret = c.ret := by
  intro msgs
  induction msgs with
  | nil =>
    intro i d m l k c h hk _
    simp only [xfer_loop, Option.some.injEq] at h
    subst h
    exact absurd hk (by simp)
  | cons msg rest ih =>
    intro i d m l k c h hk hc
    simp only [xfer_loop] at h
    split at h
    · exact absurd h (by simp)
    · rename_i d1 m1 ret hx
      by_cases hr : ret ≠ 0
      · rw [if_pos hr] at h
        simp only [Option.some.injEq] at h
        subst h
        cases k with
        | zero =>
          simp only [List.get?_cons_zero, Option.some.injEq] at hk
          subst hk
          exact ⟨rfl, rfl⟩
        | succ k => exact absurd hk (by simp)
      · rw [if_neg hr] at h
        split at h
        · exact absurd h (by simp)
        · rename_i r hl
          simp only [Option.some.injEq] at h
          subst h
          cases k with
          | zero =>
            simp only [List.get?_cons_zero, Option.some.injEq] at hk
            subst hk
            exact absurd (not_not.mp hr) hc
          | succ k =>
            simp only [List.get?_cons_succ] at hk
            obtain ⟨h1, h2⟩ := ih (i + 1) d1 m1 r k c hl hk hc
            exact ⟨by simp only [List.length_cons, h1], h2⟩

theorem xfer_running {i2c_bus : tegra_i2c_bus} {msgs : List i2c_msg} {env : Nat → XferMsgEnv}
    {d : tegra_i2c_dev} {m : Machine} {r : XferResult} (hs : d.is_suspended = false)
    (h : tegra_i2c_xfer i2c_bus msgs env d m = some r) :
    ∃ d1 m1 l, xfer_loop i2c_bus (msgs.length : Int) env msgs 0 d1 m1 = some l
      ∧ r.calls = l.calls ∧ r.ret = (if l.ret ≠ 0 then l.ret else (l.i : Int)) := by
  unfold tegra_i2c_xfer at h
  simp only [hs, Bool.false_eq_true, if_false] at h
  split at h
  · exact absurd h (by simp)
  · rename_i l hl
    simp only [Option.some.injEq] at h
    subst h
    exact ⟨_, _, l, hl, rfl, rfl⟩

theorem xfer_calls_inv {i2c_bus : tegra_i2c_bus} {msgs : List i2c_msg} {env : Nat → XferMsgEnv}
    {d : tegra_i2c_dev} {m : Machine} {cs : List XferCall}
    (h : xfer_calls i2c_bus msgs env d m = some cs) :
    ∃ r, tegra_i2c_xfer i2c_bus msgs env d m = some r ∧ r.calls = cs := by
  unfold xfer_calls at h
  cases hx : tegra_i2c_xfer i2c_bus msgs env d m with
  | none =>
    rw [hx] at h
    exact absurd h (by simp)
  | some r =>
    rw [hx] at h
    simp only [Option.map_some', Option.some.injEq] at h
    exact ⟨r, rfl, h⟩

/-! ## The registers `tegra_i2c_init` programs -/

theorem i2c_writel_regs_same (d : tegra_i2c_dev) (v r : Nat) (m : Machine) :
    (i2c_writel d v r m).regs (tegra_i2c_reg_addr d r) = u32 v := by
  simp only [i2c_writel, hw_writel, if_true]

theorem i2c_writel_regs_other (d : tegra_i2c_dev) (v r : Nat) (m : Machine) (a : Nat)
    (h : a ≠ tegra_i2c_reg_addr d r) : (i2c_writel d v r m).regs a = m.regs a := by
  simp only [i2c_writel, hw_writel, if_neg h]

/-- The physical offsets of the configuration, interrupt-mask and
clock-divisor registers are pairwise distinct, and distinct from those of the
FIFO-control register and of the three slave registers. -/
theorem init_regs_apart (d : tegra_i2c_dev) (r s : Nat)
    (hr : r = I2C_CNFG ∨ r = I2C_INT_MASK ∨ r = I2C_CLK_DIVISOR)
    (hs : s = I2C_CNFG ∨ s = I2C_INT_MASK ∨ s = I2C_CLK_DIVISOR ∨ s = I2C_FIFO_CONTROL
      ∨ s = I2C_SL_CNFG ∨ s = I2C_SL_ADDR1 ∨ s = I2C_SL_ADDR2)
    (hne : r ≠ s) : tegra_i2c_reg_addr d r ≠ tegra_i2c_reg_addr d s := by
  unfold tegra_i2c_reg_addr
  cases d.is_dvc <;> rcases hr with h | h | h <;> subst h <;>
    rcases hs with h | h | h | h | h | h | h <;> subst h <;>
    first
      | exact absurd rfl hne
      | (simp only [Bool.false_eq_true, if_false, if_true]; decide)

theorem slave_init_regs_other (d : tegra_i2c_dev) (m : Machine) (a : Nat)
    (h1 : a ≠ tegra_i2c_reg_addr d I2C_SL_CNFG) (h2 : a ≠ tegra_i2c_reg_addr d I2C_SL_ADDR1)
    (h3 : a ≠ tegra_i2c_reg_addr d I2C_SL_ADDR2) :
    (tegra_i2c_slave_init d m).regs a = m.regs a := by
  unfold tegra_i2c_slave_init
  simp only []
  split
  · rw [i2c_writel_regs_other _ _ _ _ _ h3, i2c_writel_regs_other _ _ _ _ _ h2,
      i2c_writel_regs_other _ _ _ _ _ h1]
  · rw [i2c_writel_regs_other _ _ _ _ _ h1]

theorem flush_regs_fifo_control (f : FlushEnv) (d : tegra_i2c_dev) (m : Machine) :
    (tegra_i2c_flush_fifos f d m).1.regs (tegra_i2c_reg_addr d I2C_FIFO_CONTROL)
      = if f.completes then
          u32 (m.regs (tegra_i2c_reg_addr d I2C_FIFO_CONTROL) |||
            (I2C_FIFO_CONTROL_TX_FLUSH ||| I2C_FIFO_CONTROL_RX_FLUSH))
            &&& not32 (I2C_FIFO_CONTROL_TX_FLUSH ||| I2C_FIFO_CONTROL_RX_FLUSH)
        else
          u32 (m.regs (tegra_i2c_reg_addr d I2C_FIFO_CONTROL) |||
            (I2C_FIFO_CONTROL_TX_FLUSH ||| I2C_FIFO_CONTROL_RX_FLUSH)) := by
  unfold tegra_i2c_flush_fifos
  simp only [i2c_readl, hw_readl, i2c_writel, hw_writel, log]
  split <;> simp only [if_true]

theorem init_hw_regs (e : InitEnv) (d : tegra_i2c_dev) (m : Machine) (r : Nat)
    (hr : r = I2C_CNFG ∨ r = I2C_INT_MASK ∨ r = I2C_CLK_DIVISOR) :
    (tegra_i2c_init_hw e d m).1.regs (tegra_i2c_reg_addr d r) = init_reg_value r := by
  have hap := init_regs_apart d r
  unfold tegra_i2c_init_hw
  simp only []
  show (tegra_i2c_flush_fifos e.flush d _).1.regs _ = _
  rw [flush_regs_other _ _ _ _ (hap _ hr (by simp) (by
    rcases hr with h | h | h <;> subst h <;> decide))]
  have hsl : ∀ m0 : Machine,
      (if d.is_slave = true then tegra_i2c_slave_init d m0 else m0).regs (tegra_i2c_reg_addr d r)
        = m0.regs (tegra_i2c_reg_addr d r) := by
    intro m0
    split
    · exact slave_init_regs_other d m0 _
        (hap _ hr (by simp) (by rcases hr with h | h | h <;> subst h <;> decide))
        (hap _ hr (by simp) (by rcases hr with h | h | h <;> subst h <;> decide))
        (hap _ hr (by simp) (by rcases hr with h | h | h <;> subst h <;> decide))
    · rfl
  rw [hsl, i2c_writel_regs_other _ _ _ _ _ (hap _ hr (by simp) (by
    rcases hr with h | h | h <;> subst h <;> decide))]
  rcases hr with h | h | h
  · subst h
    rw [i2c_writel_regs_other _ _ _ _ _ (hap _ (Or.inl rfl) (by simp) (by decide))]
    show (i2c_writel d 0 I2C_INT_MASK _).regs _ = _
    rw [i2c_writel_regs_other _ _ _ _ _ (hap _ (Or.inl rfl) (by simp) (by decide)),
      i2c_writel_regs_same]
    decide
  · subst h
    rw [i2c_writel_regs_other _ _ _ _ _ (hap _ (Or.inr (Or.inl rfl)) (by simp) (by decide))]
    show (i2c_writel d 0 I2C_INT_MASK _).regs _ = _
    rw [i2c_writel_regs_same]
    decide
  · subst h
    rw [i2c_writel_regs_same]
    decide

theorem i2c_writel_regs_at_congr {d d1 : tegra_i2c_dev} {m m1 : Machine} (v r a : Nat)
    (hd : d1.is_dvc = d.is_dvc) (h : m1.regs a = m.regs a) :
    (i2c_writel d1 v r m1).regs a = (i2c_writel d v r m).regs a := by
  simp only [i2c_writel, hw_writel, reg_addr_of_is_dvc hd, h]

theorem slave_init_regs_at_congr {d d1 : tegra_i2c_dev} {m m1 : Machine} (a : Nat)
    (hd : d1.is_dvc = d.is_dvc) (hs : d1.slave_addr = d.slave_addr)
    (h : m1.regs a = m.regs a) :
    (tegra_i2c_slave_init d1 m1).regs a = (tegra_i2c_slave_init d m).regs a := by
  unfold tegra_i2c_slave_init
  simp only [hs]
  have h1 :=
    i2c_writel_regs_at_congr (I2C_SL_CNFG_NEWSL ||| I2C_SL_CNFG_NACK) I2C_SL_CNFG a hd h
  split
  · exact i2c_writel_regs_at_congr _ _ a hd (i2c_writel_regs_at_congr _ _ a hd h1)
  · exact h1

/-- The FIFO-control register after the register programming of
`tegra_i2c_init` depends only on the configuration of the controller and on
whether the flush completes. -/
theorem init_hw_regs_fifo_control_congr (e e1 : InitEnv) {d d1 : tegra_i2c_dev}
    (m m1 : Machine) (h : cfg d1 = cfg d) (hf : e1.flush.completes = e.flush.completes) :
    (tegra_i2c_init_hw e1 d1 m1).1.regs (tegra_i2c_reg_addr d I2C_FIFO_CONTROL)
      = (tegra_i2c_init_hw e d m).1.regs (tegra_i2c_reg_addr d I2C_FIFO_CONTROL) := by
  have hd : d1.is_dvc = d.is_dvc := congrArg (fun c => c.1) h
  have hs : d1.is_slave = d.is_slave := congrArg (fun c => c.2.1) h
  have ha : d1.slave_addr = d.slave_addr := congrArg (fun c => c.2.2.1) h
  have hfc : tegra_i2c_reg_addr d I2C_FIFO_CONTROL = tegra_i2c_reg_addr d1 I2C_FIFO_CONTROL :=
    (reg_addr_of_is_dvc hd _).symm
  unfold tegra_i2c_init_hw
  simp only [hs]
  show (tegra_i2c_flush_fifos e1.flush d1 _).1.regs _ = (tegra_i2c_flush_fifos e.flush d _).1.regs _
  rw [flush_regs_fifo_control e.flush d, hfc, flush_regs_fifo_control e1.flush d1, hf, ← hfc]
  have hw : ∀ mx my : Machine,
      (i2c_writel d1 ((7 <<< I2C_FIFO_CONTROL_TX_TRIG_SHIFT) |||
          (0 <<< I2C_FIFO_CONTROL_RX_TRIG_SHIFT)) I2C_FIFO_CONTROL mx).regs
          (tegra_i2c_reg_addr d I2C_FIFO_CONTROL)
        = (i2c_writel d ((7 <<< I2C_FIFO_CONTROL_TX_TRIG_SHIFT) |||
          (0 <<< I2C_FIFO_CONTROL_RX_TRIG_SHIFT)) I2C_FIFO_CONTROL my).regs
          (tegra_i2c_reg_addr d I2C_FIFO_CONTROL) := by
    intro mx my
    rw [i2c_writel_regs_same, hfc, i2c_writel_regs_same]
  have hpre : ∀ mx my : Machine,
      (if d.is_slave = true then tegra_i2c_slave_init d1
          (i2c_writel d1 ((7 <<< I2C_FIFO_CONTROL_TX_TRIG_SHIFT) |||
            (0 <<< I2C_FIFO_CONTROL_RX_TRIG_SHIFT)) I2C_FIFO_CONTROL mx)
        else i2c_writel d1 ((7 <<< I2C_FIFO_CONTROL_TX_TRIG_SHIFT) |||
            (0 <<< I2C_FIFO_CONTROL_RX_TRIG_SHIFT)) I2C_FIFO_CONTROL mx).regs
          (tegra_i2c_reg_addr d I2C_FIFO_CONTROL)
        = (if d.is_slave = true then tegra_i2c_slave_init d
          (i2c_writel d ((7 <<< I2C_FIFO_CONTROL_TX_TRIG_SHIFT) |||
            (0 <<< I2C_FIFO_CONTROL_RX_TRIG_SHIFT)) I2C_FIFO_CONTROL my)
        else i2c_writel d ((7 <<< I2C_FIFO_CONTROL_TX_TRIG_SHIFT) |||
            (0 <<< I2C_FIFO_CONTROL_RX_TRIG_SHIFT)) I2C_FIFO_CONTROL my).regs
          (tegra_i2c_reg_addr d I2C_FIFO_CONTROL) := by
    intro mx my
    split
    · exact slave_init_regs_at_congr _ hd ha (hw mx my)
    · exact hw mx my
  rw [hpre]

theorem init_regs_eq_hw (e : InitEnv) (d : tegra_i2c_dev) (m : Machine) :
    (tegra_i2c_init e d m).1.2.regs = (tegra_i2c_init_hw e d m).1.regs := by
  unfold tegra_i2c_init
  simp only []
  split <;> rfl

/-! ## The value one message returns -/

theorem result_ret (i2c_bus : tegra_i2c_bus) (msg : i2c_msg) (env : XferMsgEnv)
    (ret : Nat) (d : tegra_i2c_dev) (m : Machine) :
    (xfer_msg_result i2c_bus msg env ret d m).2 =
      if ret = 0 then - ETIMEDOUT
      else if d.msg_err = I2C_ERR_NONE then 0
      else if d.msg_err = I2C_ERR_ARBITRATION_LOST ∧ recovery_reports_success i2c_bus d = true
        then - EAGAIN
      else if d.msg_err = I2C_ERR_NO_ACK then
        (if msg.flags &&& I2C_M_IGNORE_NAK ≠ 0 then 0 else - EREMOTEIO)
      else if d.msg_err &&& I2C_ERR_UNEXPECTED_STATUS ≠ 0 then - EAGAIN
      else - EIO := by
  by_cases hret : ret = 0
  · rw [if_pos hret]
    unfold xfer_msg_result
    rw [if_pos hret]
  · rw [if_neg hret]
    by_cases herr : d.msg_err = I2C_ERR_NONE
    · rw [if_pos herr]
      unfold xfer_msg_result
      rw [if_neg hret, if_pos herr]
    · rw [if_neg herr]
      by_cases hrec : d.msg_err = I2C_ERR_ARBITRATION_LOST
          ∧ recovery_reports_success i2c_bus d = true
      · rw [if_pos hrec, result_recovered i2c_bus msg env ret d m hret hrec.1 hrec.2]
      · rw [if_neg hrec, result_error_reinit i2c_bus msg env ret d m hret herr hrec]

theorem neg_errno_ne_zero :
    - ETIMEDOUT ≠ 0 ∧ - EAGAIN ≠ 0 ∧ - EREMOTEIO ≠ 0 ∧ - EIO ≠ 0 ∧ - EINVAL ≠ 0
      ∧ - EBUSY ≠ 0 := by
  decide

/-! ## The value a batch returns -/

/-- The error codes `tegra_i2c_xfer_msg` can return. -/
theorem xfer_msg_ret_mem {i2c_bus : tegra_i2c_bus} {msg : i2c_msg} {stop : Int}
    {env : XferMsgEnv} {d : tegra_i2c_dev} {m : Machine} {r : (tegra_i2c_dev × Machine) × Int}
    (h : tegra_i2c_xfer_msg i2c_bus msg stop env d m = some r) :
    r.2 = 0 ∨ r.2 ∈ [- EINVAL, - ETIMEDOUT, - EAGAIN, - EREMOTEIO, - EIO] := by
  unfold tegra_i2c_xfer_msg at h
  simp only [] at h
  split at h
  · simp only [Option.some.injEq] at h
    rw [← h]
    right
    simp
  · split at h
    · exact absurd h (by simp)
    · simp only [Option.some.injEq] at h
      rw [← h, result_ret]
      split_ifs <;> simp

theorem xfer_loop_ret (i2c_bus : tegra_i2c_bus) (num : Int) (env : Nat → XferMsgEnv) :
    ∀ (msgs : List i2c_msg) (i : Nat) (d : tegra_i2c_dev) (m : Machine) (l : XferLoop),
      xfer_loop i2c_bus num env msgs i d m = some l →
      l.ret = 0 ∨ l.ret ∈ [- EINVAL, - ETIMEDOUT, - EAGAIN, - EREMOTEIO, - EIO] := by
  intro msgs
  induction msgs with
  | nil =>
    intro i d m l h
    simp only [xfer_loop, Option.some.injEq] at h
    subst h
    exact Or.inl rfl
  | cons msg rest ih =>
    intro i d m l h
    simp only [xfer_loop] at h
    split at h
    · exact absurd h (by simp)
    · rename_i d1 m1 ret hx
      by_cases hr : ret ≠ 0
      · rw [if_pos hr] at h
        simp only [Option.some.injEq] at h
        subst h
        exact xfer_msg_ret_mem hx
      · rw [if_neg hr] at h
        split at h
        · exact absurd h (by simp)
        · rename_i r hl
          simp only [Option.some.injEq] at h
          subst h
          exact ih (i + 1) d1 m1 r hl

/-! ## Bytes and words -/

theorem le_bytes_lt (mem : Nat → Nat) (n : Nat) : ∀ a, le_bytes mem a n < 256 ^ n := by
  induction n with
  | zero =>
    intro a
    simp [le_bytes]
  | succ n ih =>
    intro a
    have h1 := ih (a + 1)
    have h2 : mem a % 256 < 256 := Nat.mod_lt _ (by norm_num)
    simp only [le_bytes, pow_succ]
    omega

theorem le_bytes_byte (mem : Nat → Nat) (n : Nat) :
    ∀ a k, k < n → (le_bytes mem a n / 256 ^ k) % 256 = mem (a + k) % 256 := by
  induction n with
  | zero =>
    intro a k hk
    omega
  | succ n ih =>
    intro a k hk
    have h2 : mem a % 256 < 256 := Nat.mod_lt _ (by norm_num)
    cases k with
    | zero =>
      simp only [le_bytes, pow_zero, Nat.div_one, Nat.add_zero]
      omega
    | succ k =>
      have hdiv : (mem a % 256 + 256 * le_bytes mem (a + 1) n) / 256
          = le_bytes mem (a + 1) n := by omega
      simp only [le_bytes]
      rw [pow_succ', ← Nat.div_div_eq_div_mul, hdiv, ih (a + 1) k (by omega)]
      congr 2
      omega

theorem store_bytes_apply (n : Nat) :
    ∀ (mem : Nat → Nat) (a v x : Nat),
      store_bytes mem a v n x
        = if a ≤ x ∧ x < a + n then (v / 256 ^ (x - a)) % 256 else mem x := by
  induction n with
  | zero =>
    intro mem a v x
    simp only [store_bytes]
    rw [if_neg (by omega)]
  | succ n ih =>
    intro mem a v x
    simp only [store_bytes]
    rw [ih]
    by_cases h1 : a + 1 ≤ x ∧ x < a + 1 + n
    · rw [if_pos h1, if_pos (by omega)]
      have : x - a = (x - (a + 1)) + 1 := by omega
      rw [this, pow_succ', ← Nat.div_div_eq_div_mul]
    · rw [if_neg h1]
      by_cases h2 : x = a
      · rw [if_pos h2, if_pos (by omega)]
        subst h2
        simp
      · rw [if_neg h2, if_neg (by omega)]

theorem u32_of_lt {x : Nat} (h : x < 4294967296) : u32 x = x := by
  unfold u32
  exact Nat.mod_eq_of_lt h

theorem u32_lt (x : Nat) : u32 x < 4294967296 := by
  unfold u32
  exact Nat.mod_lt _ (by norm_num)

theorem u32_u32 (x : Nat) : u32 (u32 x) = u32 x := u32_of_lt (u32_lt x)

theorem u32_le_bytes4 (mem : Nat → Nat) (a : Nat) : u32 (le_bytes mem a 4) = le_bytes mem a 4 := by
  apply u32_of_lt
  have := le_bytes_lt mem 4 a
  norm_num at this
  exact this

theorem stream_byte_cons_lt (w : Nat) (ws : List Nat) (j : Nat) (h : j < 4) :
    stream_byte (w :: ws) j = (u32 w / 256 ^ j) % 256 := by
  unfold stream_byte
  have h1 : j / 4 = 0 := by omega
  have h2 : j % 4 = j := by omega
  rw [h1, h2]
  rfl

theorem stream_byte_cons_ge (w : Nat) (ws : List Nat) (j : Nat) (h : 4 ≤ j) :
    stream_byte (w :: ws) j = stream_byte ws (j - 4) := by
  unfold stream_byte
  have h1 : j / 4 = (j - 4) / 4 + 1 := by omega
  have h2 : j % 4 = (j - 4) % 4 := by omega
  rw [h1, h2]
  rfl

theorem stream_byte_append (ws1 ws2 : List Nat) :
    ∀ j, stream_byte (ws1 ++ ws2) j
      = if j < 4 * ws1.length then stream_byte ws1 j else stream_byte ws2 (j - 4 * ws1.length) := by
  induction ws1 with
  | nil =>
    intro j
    simp
  | cons w ws ih =>
    intro j
    by_cases h : j < 4
    · rw [List.cons_append, stream_byte_cons_lt _ _ _ h, stream_byte_cons_lt _ _ _ h,
        if_pos (by simp only [List.length_cons]; omega)]
    · rw [List.cons_append, stream_byte_cons_ge _ _ _ (by omega), ih]
      simp only [List.length_cons]
      by_cases h2 : j - 4 < 4 * ws.length
      · rw [if_pos h2, if_pos (by omega), stream_byte_cons_ge _ _ _ (by omega)]
      · rw [if_neg h2, if_neg (by omega)]
        congr 1
        omega

theorem stream_byte_drop (ws : List Nat) (k j : Nat) :
    stream_byte (ws.drop k) j = stream_byte ws (j + 4 * k) := by
  unfold stream_byte
  have h1 : (j + 4 * k) / 4 = k + j / 4 := by omega
  have h2 : (j + 4 * k) % 4 = j % 4 := by omega
  rw [h1, h2]
  congr 3
  simp [List.getD_eq_getElem?_getD, List.getElem?_drop]

theorem writes_to_append (a : Nat) (e1 e2 : List Event) :
    writes_to a (e1 ++ e2) = writes_to a e1 ++ writes_to a e2 := by
  unfold writes_to
  rw [List.filterMap_append]

theorem reads_of_append (a : Nat) (e1 e2 : List Event) :
    reads_of a (e1 ++ e2) = reads_of a e1 + reads_of a e2 := by
  unfold reads_of
  rw [List.count_append]

theorem new_events_of_trace {m m1 : Machine} {evs : List Event}
    (h : m1.trace = m.trace ++ evs) : new_events m m1 = evs := by
  unfold new_events
  rw [h, List.drop_left]

/-! ## One invocation of the fill and drain routines, in closed form -/

theorem words_to_transfer_facts (R A : Nat) :
    words_to_transfer R A ≤ A ∧ words_to_transfer R A * 4 ≤ R
      ∧ (words_to_transfer R A < A → R - words_to_transfer R A * 4 ≤ 3)
      ∧ (words_to_transfer R A = A ∨ R - words_to_transfer R A * 4 ≤ 3) := by
  unfold words_to_transfer BYTES_PER_FIFO_WORD
  split_ifs with h <;> omega

theorem fill_tx_fifo_eq (s : Nat) (d : tegra_i2c_dev) (m : Machine) :
    tegra_i2c_fill_tx_fifo s d m =
      if tx_fifo_avail_of s - words_to_transfer d.msg_buf_remaining (tx_fifo_avail_of s) > 0
          ∧ d.msg_buf_remaining
              - words_to_transfer d.msg_buf_remaining (tx_fifo_avail_of s) * 4 > 0 then
        some ({ d with msg_buf_remaining := 0,
                       msg_buf := d.msg_buf
                        + words_to_transfer d.msg_buf_remaining (tx_fifo_avail_of s) * 4 },
          log Event.spin_unlock_irqrestore
            (i2c_writel d
              (memcpy_to_word (u32 s)
                (i2c_writesl d d.msg_buf I2C_TX_FIFO
                  (words_to_transfer d.msg_buf_remaining (tx_fifo_avail_of s))
                  (log (Event.readl (tegra_i2c_reg_addr d I2C_FIFO_STATUS))
                    (log Event.spin_lock_irqsave m))).mem
                (d.msg_buf + words_to_transfer d.msg_buf_remaining (tx_fifo_avail_of s) * 4)
                (d.msg_buf_remaining
                  - words_to_transfer d.msg_buf_remaining (tx_fifo_avail_of s) * 4))
              I2C_TX_FIFO
              (log (Event.mem_read
                  (d.msg_buf + words_to_transfer d.msg_buf_remaining (tx_fifo_avail_of s) * 4)
                  (d.msg_buf_remaining
                    - words_to_transfer d.msg_buf_remaining (tx_fifo_avail_of s) * 4))
                (i2c_writesl d d.msg_buf I2C_TX_FIFO
                  (words_to_transfer d.msg_buf_remaining (tx_fifo_avail_of s))
                  (log (Event.readl (tegra_i2c_reg_addr d I2C_FIFO_STATUS))
                    (log Event.spin_lock_irqsave m))))))
      else
        some ({ d with msg_buf_remaining := d.msg_buf_remaining
                        - words_to_transfer d.msg_buf_remaining (tx_fifo_avail_of s) * 4,
                       msg_buf := d.msg_buf
                        + words_to_transfer d.msg_buf_remaining (tx_fifo_avail_of s) * 4 },
          log Event.spin_unlock_irqrestore
            (i2c_writesl d d.msg_buf I2C_TX_FIFO
              (words_to_transfer d.msg_buf_remaining (tx_fifo_avail_of s))
              (log (Event.readl (tegra_i2c_reg_addr d I2C_FIFO_STATUS))
                (log Event.spin_lock_irqsave m)))) := by
  obtain ⟨_, _, h3, _⟩ := words_to_transfer_facts d.msg_buf_remaining (tx_fifo_avail_of s)
  unfold tegra_i2c_fill_tx_fifo
  unfold words_to_transfer tx_fifo_avail_of at *
  simp only [i2c_readl_env, hw_readl_env, BYTES_PER_FIFO_WORD] at *
  generalize (if d.msg_buf_remaining / 4 >
      (u32 s &&& I2C_FIFO_STATUS_TX_MASK) >>> I2C_FIFO_STATUS_TX_SHIFT then
      (u32 s &&& I2C_FIFO_STATUS_TX_MASK) >>> I2C_FIFO_STATUS_TX_SHIFT
    else d.msg_buf_remaining / 4) = w at *
  by_cases hc : (u32 s &&& I2C_FIFO_STATUS_TX_MASK) >>> I2C_FIFO_STATUS_TX_SHIFT - w > 0
      ∧ d.msg_buf_remaining - w * 4 > 0
  · have h4 : ¬ d.msg_buf_remaining - w * 4 > 3 := by
      have := h3 (by omega)
      omega
    rw [if_pos hc, if_pos hc, if_neg h4]
    simp only []
    rw [if_neg (by omega)]
    rfl
  · rw [if_neg hc, if_neg hc]
    simp only []
    rw [if_neg hc]

theorem empty_rx_fifo_eq (s : Nat) (ws : List Nat) (d : tegra_i2c_dev) (m : Machine) :
    tegra_i2c_empty_rx_fifo s ws d m =
      if rx_fifo_avail_of s - words_to_transfer d.msg_buf_remaining (rx_fifo_avail_of s) > 0
          ∧ d.msg_buf_remaining
              - words_to_transfer d.msg_buf_remaining (rx_fifo_avail_of s) * 4 > 0 then
        some ({ d with msg_buf_remaining := 0,
                       msg_buf := d.msg_buf
                        + words_to_transfer d.msg_buf_remaining (rx_fifo_avail_of s) * 4 },
          { log (Event.mem_write
                (d.msg_buf + words_to_transfer d.msg_buf_remaining (rx_fifo_avail_of s) * 4)
                (d.msg_buf_remaining
                  - words_to_transfer d.msg_buf_remaining (rx_fifo_avail_of s) * 4))
              (log (Event.readl (tegra_i2c_reg_addr d I2C_RX_FIFO))
                (i2c_readsl d d.msg_buf I2C_RX_FIFO ws
                  (words_to_transfer d.msg_buf_remaining (rx_fifo_avail_of s))
                  (log (Event.readl (tegra_i2c_reg_addr d I2C_FIFO_STATUS)) m))) with
            mem := store_bytes
              (i2c_readsl d d.msg_buf I2C_RX_FIFO ws
                (words_to_transfer d.msg_buf_remaining (rx_fifo_avail_of s))
                (log (Event.readl (tegra_i2c_reg_addr d I2C_FIFO_STATUS)) m)).mem
              (d.msg_buf + words_to_transfer d.msg_buf_remaining (rx_fifo_avail_of s) * 4)
              (u32 ((ws.drop
                (words_to_transfer d.msg_buf_remaining (rx_fifo_avail_of s))).headD 0))
              (d.msg_buf_remaining
                - words_to_transfer d.msg_buf_remaining (rx_fifo_avail_of s) * 4) })
      else
        some ({ d with msg_buf_remaining := d.msg_buf_remaining
                        - words_to_transfer d.msg_buf_remaining (rx_fifo_avail_of s) * 4,
                       msg_buf := d.msg_buf
                        + words_to_transfer d.msg_buf_remaining (rx_fifo_avail_of s) * 4 },
          i2c_readsl d d.msg_buf I2C_RX_FIFO ws
            (words_to_transfer d.msg_buf_remaining (rx_fifo_avail_of s))
            (log (Event.readl (tegra_i2c_reg_addr d I2C_FIFO_STATUS)) m)) := by
  obtain ⟨_, _, h3, _⟩ := words_to_transfer_facts d.msg_buf_remaining (rx_fifo_avail_of s)
  unfold tegra_i2c_empty_rx_fifo
  unfold words_to_transfer rx_fifo_avail_of at *
  simp only [i2c_readl_env, hw_readl_env, BYTES_PER_FIFO_WORD] at *
  generalize (if d.msg_buf_remaining / 4 >
      (u32 s &&& I2C_FIFO_STATUS_RX_MASK) >>> I2C_FIFO_STATUS_RX_SHIFT then
      (u32 s &&& I2C_FIFO_STATUS_RX_MASK) >>> I2C_FIFO_STATUS_RX_SHIFT
    else d.msg_buf_remaining / 4) = w at *
  by_cases hc : (u32 s &&& I2C_FIFO_STATUS_RX_MASK) >>> I2C_FIFO_STATUS_RX_SHIFT - w > 0
      ∧ d.msg_buf_remaining - w * 4 > 0
  · have h4 : ¬ d.msg_buf_remaining - w * 4 > 3 := by
      have := h3 (by omega)
      omega
    rw [if_pos hc, if_pos hc, if_neg h4]
    simp only []
    rw [if_neg (by omega)]
    rfl
  · rw [if_neg hc, if_neg hc]
    simp only []
    rw [if_neg hc]

/-! ## The word-wise port accesses -/

theorem writes_to_writel_same (a v : Nat) : writes_to a [Event.writel v a] = [v] := by
  simp [writes_to]

theorem writes_to_mem_read (a x k : Nat) : writes_to a [Event.mem_read x k] = [] := rfl

theorem writesl_spec (d : tegra_i2c_dev) (reg : Nat) (n : Nat) :
    ∀ (data : Nat) (m : Machine), ∃ evs,
      (i2c_writesl d data reg n m).trace = m.trace ++ evs
      ∧ (i2c_writesl d data reg n m).mem = m.mem
      ∧ (writes_to (tegra_i2c_reg_addr d reg) evs).length = n
      ∧ (∀ j, j < 4 * n →
          stream_byte (writes_to (tegra_i2c_reg_addr d reg) evs) j = m.mem (data + j) % 256)
      ∧ (∀ a k, Event.mem_read a k ∈ evs → data ≤ a ∧ a + k ≤ data + 4 * n)
      ∧ (∀ e ∈ evs, (∃ a k, e = Event.mem_read a k)
          ∨ ∃ v, e = Event.writel v (tegra_i2c_reg_addr d reg)) := by
  induction n with
  | zero =>
    intro data m
    exact ⟨[], by simp [i2c_writesl], rfl, rfl, by intro j hj; omega, by simp, by simp⟩
  | succ n ih =>
    intro data m
    obtain ⟨evs, ht, hm, hl, hb, hr, hs⟩ := ih (data + 4)
      (i2c_writel d (le_bytes m.mem data 4) reg (log (Event.mem_read data 4) m))
    refine ⟨[Event.mem_read data 4,
      Event.writel (u32 (le_bytes m.mem data 4)) (tegra_i2c_reg_addr d reg)] ++ evs, ?_, ?_, ?_,
      ?_, ?_, ?_⟩
    · simp only [i2c_writesl]
      rw [ht]
      simp [i2c_writel, hw_writel, log]
    · simp only [i2c_writesl]
      rw [hm]
      rfl
    · rw [writes_to_append, List.length_append, hl]
      simp [writes_to]
      omega
    · intro j hj
      have hw : writes_to (tegra_i2c_reg_addr d reg) [Event.mem_read data 4,
          Event.writel (u32 (le_bytes m.mem data 4)) (tegra_i2c_reg_addr d reg)]
          = [u32 (le_bytes m.mem data 4)] := by
        simp [writes_to]
      rw [writes_to_append, hw, List.singleton_append]
      by_cases h4 : j < 4
      · rw [stream_byte_cons_lt _ _ _ h4, u32_u32, u32_le_bytes4, le_bytes_byte _ _ _ _ h4]
      · rw [stream_byte_cons_ge _ _ _ (by omega), hb (j - 4) (by omega)]
        have : (i2c_writel d (le_bytes m.mem data 4) reg (log (Event.mem_read data 4) m)).mem
            = m.mem := rfl
        rw [this]
        congr 2
        omega
    · intro a k hmem
      simp only [List.cons_append, List.nil_append, List.mem_cons, Event.mem_read.injEq,
        reduceCtorEq, false_or] at hmem
      rcases hmem with ⟨h1, h2⟩ | h
      · omega
      · have := hr a k h
        omega
    · intro e he
      simp only [List.cons_append, List.nil_append, List.mem_cons] at he
      rcases he with h | h | h
      · exact Or.inl ⟨_, _, h⟩
      · exact Or.inr ⟨_, h⟩
      · exact hs e h

theorem tail_getD (ws : List Nat) (i : Nat) : ws.tail.getD i 0 = ws.getD (i + 1) 0 := by
  cases ws <;> simp

theorem readsl_spec (d : tegra_i2c_dev) (reg : Nat) (n : Nat) :
    ∀ (data : Nat) (ws : List Nat) (m : Machine), ∃ evs,
      (i2c_readsl d data reg ws n m).trace = m.trace ++ evs
      ∧ (∀ x, (i2c_readsl d data reg ws n m).mem x
          = if data ≤ x ∧ x < data + 4 * n then stream_byte ws (x - data) else m.mem x)
      ∧ reads_of (tegra_i2c_reg_addr d reg) evs = n
      ∧ (∀ a k, Event.mem_write a k ∈ evs → data ≤ a ∧ a + k ≤ data + 4 * n)
      ∧ (∀ e ∈ evs, (∃ a k, e = Event.mem_write a k)
          ∨ e = Event.readl (tegra_i2c_reg_addr d reg)) := by
  induction n with
  | zero =>
    intro data ws m
    refine ⟨[], by simp [i2c_readsl], ?_, rfl, by simp, by simp⟩
    intro x
    rw [if_neg (by omega)]
    rfl
  | succ n ih =>
    intro data ws m
    obtain ⟨evs, ht, hm, hl, hw, hs⟩ := ih (data + 4) ws.tail
      { log (Event.mem_write data 4) (log (Event.readl (tegra_i2c_reg_addr d reg)) m) with
        mem := store_bytes m.mem data (u32 (ws.headD 0)) 4 }
    have hdef : i2c_readsl d data reg ws (n + 1) m
        = i2c_readsl d (data + 4) reg ws.tail n
          { log (Event.mem_write data 4) (log (Event.readl (tegra_i2c_reg_addr d reg)) m) with
            mem := store_bytes m.mem data (u32 (ws.headD 0)) 4 } := by
      simp only [i2c_readsl, i2c_readl_env, hw_readl_env]
      rfl
    refine ⟨[Event.readl (tegra_i2c_reg_addr d reg), Event.mem_write data 4] ++ evs, ?_, ?_, ?_,
      ?_, ?_⟩
    · rw [hdef, ht]
      simp [log]
    · intro x
      rw [hdef, hm x]
      by_cases h1 : data + 4 ≤ x ∧ x < data + 4 + 4 * n
      · rw [if_pos h1, if_pos (by omega)]
        unfold stream_byte
        have e1 : (x - data) / 4 = (x - (data + 4)) / 4 + 1 := by omega
        have e2 : (x - data) % 4 = (x - (data + 4)) % 4 := by omega
        rw [e1, e2, tail_getD]
      · rw [if_neg h1]
        simp only []
        rw [store_bytes_apply]
        by_cases h2 : data ≤ x ∧ x < data + 4
        · rw [if_pos h2, if_pos (by omega)]
          unfold stream_byte
          have e1 : (x - data) / 4 = 0 := by omega
          have e2 : (x - data) % 4 = x - data := by omega
          rw [e1, e2]
          cases ws <;> rfl
        · rw [if_neg h2, if_neg (by omega)]
    · rw [reads_of_append, hl]
      simp [reads_of]
      omega
    · intro a k hmem
      simp only [List.cons_append, List.nil_append, List.mem_cons, Event.mem_write.injEq,
        reduceCtorEq, false_or] at hmem
      rcases hmem with ⟨h1, h2⟩ | h
      · omega
      · have := hw a k h
        omega
    · intro e he
      simp only [List.cons_append, List.nil_append, List.mem_cons] at he
      rcases he with h | h | h
      · exact Or.inr h
      · exact Or.inl ⟨_, _, h⟩
      · exact hs e h

/-! ## What one invocation moves -/

theorem memcpy_to_word_parts (v : Nat) (mem : Nat → Nat) (a r : Nat) (hv : v < 4294967296)
    (hr : r ≤ 3) :
    memcpy_to_word v mem a r % 256 ^ r = le_bytes mem a r
      ∧ memcpy_to_word v mem a r / 256 ^ r = v / 256 ^ r := by
  have hL := le_bytes_lt mem r a
  unfold memcpy_to_word u32
  generalize le_bytes mem a r = L at *
  have h : r = 0 ∨ r = 1 ∨ r = 2 ∨ r = 3 := by omega
  rcases h with h | h | h | h <;> subst h <;> norm_num at * <;> omega

theorem memcpy_to_word_lt (v : Nat) (mem : Nat → Nat) (a r : Nat) :
    memcpy_to_word v mem a r < 4294967296 := by
  unfold memcpy_to_word
  exact u32_lt _

theorem memcpy_to_word_byte (v : Nat) (mem : Nat → Nat) (a r k : Nat) (hv : v < 4294967296)
    (hr : r ≤ 3) (hk : k < r) :
    (memcpy_to_word v mem a r / 256 ^ k) % 256 = mem (a + k) % 256 := by
  have h1 := (memcpy_to_word_parts v mem a r hv hr).1
  rw [← le_bytes_byte mem r a k hk, ← h1]
  generalize memcpy_to_word v mem a r = X
  have h : (r = 1 ∧ k = 0) ∨ (r = 2 ∧ k = 0) ∨ (r = 2 ∧ k = 1) ∨ (r = 3 ∧ k = 0)
      ∨ (r = 3 ∧ k = 1) ∨ (r = 3 ∧ k = 2) := by omega
  rcases h with ⟨h, h'⟩ | ⟨h, h'⟩ | ⟨h, h'⟩ | ⟨h, h'⟩ | ⟨h, h'⟩ | ⟨h, h'⟩ <;> subst h <;> subst h' <;>
    norm_num <;> omega

theorem fifo_status_ne_rx_fifo (d : tegra_i2c_dev) :
    tegra_i2c_reg_addr d I2C_FIFO_STATUS ≠ tegra_i2c_reg_addr d I2C_RX_FIFO := by
  unfold tegra_i2c_reg_addr
  cases d.is_dvc <;> decide

theorem fill_tx_fifo_spec (s : Nat) (d : tegra_i2c_dev) (m : Machine) :
    ∃ m1 evs,
      tegra_i2c_fill_tx_fifo s d m
        = some ({ d with
            msg_buf_remaining := d.msg_buf_remaining
              - min d.msg_buf_remaining (4 * tx_fifo_avail_of s),
            msg_buf := d.msg_buf
              + words_to_transfer d.msg_buf_remaining (tx_fifo_avail_of s) * 4 }, m1)
      ∧ m1.trace = m.trace ++ evs
      ∧ m1.mem = m.mem
      ∧ (writes_to (tegra_i2c_reg_addr d I2C_TX_FIFO) evs).length
          = (min d.msg_buf_remaining (4 * tx_fifo_avail_of s) + 3) / 4
      ∧ (∀ j, j < min d.msg_buf_remaining (4 * tx_fifo_avail_of s) →
          stream_byte (writes_to (tegra_i2c_reg_addr d I2C_TX_FIFO) evs) j
            = m.mem (d.msg_buf + j) % 256)
      ∧ (∀ a k, Event.mem_read a k ∈ evs →
          d.msg_buf ≤ a ∧ a + k ≤ d.msg_buf + min d.msg_buf_remaining (4 * tx_fifo_avail_of s))
      ∧ (∀ a k, Event.mem_write a k ∉ evs) := by
  obtain ⟨hf1, hf2, hf3, hf4⟩ :=
    words_to_transfer_facts d.msg_buf_remaining (tx_fifo_avail_of s)
  obtain ⟨evs, ht, hm, hl, hb, hr, hs⟩ := writesl_spec d I2C_TX_FIFO
    (words_to_transfer d.msg_buf_remaining (tx_fifo_avail_of s)) d.msg_buf
    (log (Event.readl (tegra_i2c_reg_addr d I2C_FIFO_STATUS)) (log Event.spin_lock_irqsave m))
  have hnw : ∀ a k, Event.mem_write a k ∉ evs := by
    intro a k hmem
    rcases hs _ hmem with ⟨_, _, h⟩ | ⟨_, h⟩ <;> exact absurd h (by simp)
  rw [fill_tx_fifo_eq]
  generalize words_to_transfer d.msg_buf_remaining (tx_fifo_avail_of s) = w at *
  generalize i2c_writesl d d.msg_buf I2C_TX_FIFO w
    (log (Event.readl (tegra_i2c_reg_addr d I2C_FIFO_STATUS))
      (log Event.spin_lock_irqsave m)) = m0 at *
  have hm0 : m0.mem = m.mem := hm
  have ht0 : m0.trace = m.trace
      ++ ([Event.spin_lock_irqsave, Event.readl (tegra_i2c_reg_addr d I2C_FIFO_STATUS)] ++ evs) := by
    rw [ht]
    simp [log]
  have hpre : ∀ l, writes_to (tegra_i2c_reg_addr d I2C_TX_FIFO)
      ([Event.spin_lock_irqsave, Event.readl (tegra_i2c_reg_addr d I2C_FIFO_STATUS)] ++ l)
      = writes_to (tegra_i2c_reg_addr d I2C_TX_FIFO) l := by
    intro l
    rw [writes_to_append]
    rfl
  by_cases hc : tx_fifo_avail_of s - w > 0 ∧ d.msg_buf_remaining - w * 4 > 0
  · rw [if_pos hc]
    have hR : min d.msg_buf_remaining (4 * tx_fifo_avail_of s) = d.msg_buf_remaining := by
      have := hf3 (by omega)
      omega
    have h3 : d.msg_buf_remaining - w * 4 ≤ 3 := hf3 (by omega)
    rw [hR]
    refine ⟨log Event.spin_unlock_irqrestore
        (i2c_writel d (memcpy_to_word (u32 s) m0.mem (d.msg_buf + w * 4)
          (d.msg_buf_remaining - w * 4)) I2C_TX_FIFO
          (log (Event.mem_read (d.msg_buf + w * 4) (d.msg_buf_remaining - w * 4)) m0)),
      [Event.spin_lock_irqsave, Event.readl (tegra_i2c_reg_addr d I2C_FIFO_STATUS)]
      ++ (evs ++ [Event.mem_read (d.msg_buf + w * 4) (d.msg_buf_remaining - w * 4),
        Event.writel (u32 (memcpy_to_word (u32 s) m0.mem (d.msg_buf + w * 4)
          (d.msg_buf_remaining - w * 4))) (tegra_i2c_reg_addr d I2C_TX_FIFO),
        Event.spin_unlock_irqrestore]), ?_, ?_, hm0, ?_, ?_, ?_, ?_⟩
    · rw [Nat.sub_self]
    · simp [log, i2c_writel, hw_writel, ht0]
    · rw [hpre, writes_to_append, List.length_append, hl]
      simp [writes_to]
      omega
    · intro j hj
      rw [hpre, writes_to_append, stream_byte_append, hl]
      by_cases h4 : j < 4 * w
      · rw [if_pos h4, hb j h4]
        rfl
      · rw [if_neg h4]
        have hw1 : writes_to (tegra_i2c_reg_addr d I2C_TX_FIFO)
            [Event.mem_read (d.msg_buf + w * 4) (d.msg_buf_remaining - w * 4),
              Event.writel (u32 (memcpy_to_word (u32 s) m0.mem (d.msg_buf + w * 4)
                (d.msg_buf_remaining - w * 4))) (tegra_i2c_reg_addr d I2C_TX_FIFO),
              Event.spin_unlock_irqrestore]
            = [u32 (memcpy_to_word (u32 s) m0.mem (d.msg_buf + w * 4)
                (d.msg_buf_remaining - w * 4))] := by
          simp [writes_to]
        rw [hw1, stream_byte_cons_lt _ _ _ (by omega), u32_u32,
          u32_of_lt (memcpy_to_word_lt _ _ _ _),
          memcpy_to_word_byte _ _ _ _ _ (u32_lt s) h3 (by omega), hm0]
        congr 2
        omega
    · intro a k hmem
      simp only [List.cons_append, List.nil_append, List.mem_cons, List.mem_append,
        Event.mem_read.injEq, reduceCtorEq, false_or, or_false, List.mem_singleton,
        List.not_mem_nil] at hmem
      rcases hmem with h | ⟨h1, h2⟩
      · have := hr a k h
        omega
      · omega
    · intro a k hmem
      simp only [List.cons_append, List.nil_append, List.mem_cons, List.mem_append,
        reduceCtorEq, false_or, or_false, List.not_mem_nil] at hmem
      exact hnw a k hmem
  · rw [if_neg hc]
    have hR : d.msg_buf_remaining - w * 4
        = d.msg_buf_remaining - min d.msg_buf_remaining (4 * tx_fifo_avail_of s) := by
      omega
    have hn : min d.msg_buf_remaining (4 * tx_fifo_avail_of s) = 4 * w := by omega
    refine ⟨log Event.spin_unlock_irqrestore m0,
      [Event.spin_lock_irqsave, Event.readl (tegra_i2c_reg_addr d I2C_FIFO_STATUS)]
      ++ (evs ++ [Event.spin_unlock_irqrestore]), ?_, ?_, hm0, ?_, ?_, ?_, ?_⟩
    · rw [hR]
    · simp [log, ht0]
    · rw [hpre, writes_to_append, List.length_append, hl, hn]
      simp [writes_to]
      omega
    · intro j hj
      rw [hpre, writes_to_append, stream_byte_append, hl, if_pos (by omega), hb j (by omega)]
      rfl
    · intro a k hmem
      simp only [List.cons_append, List.nil_append, List.mem_cons, List.mem_append,
        reduceCtorEq, false_or, or_false, List.mem_singleton, List.not_mem_nil] at hmem
      have := hr a k hmem
      omega
    · intro a k hmem
      simp only [List.cons_append, List.nil_append, List.mem_cons, List.mem_append,
        reduceCtorEq, false_or, or_false, List.not_mem_nil, List.mem_singleton] at hmem
      exact hnw a k hmem

theorem drop_headD (ws : List Nat) (w : Nat) : (ws.drop w).headD 0 = ws.getD w 0 := by
  simp [List.getD_eq_getElem?_getD, List.headD_eq_head?_getD]

theorem empty_rx_fifo_spec (s : Nat) (ws : List Nat) (d : tegra_i2c_dev) (m : Machine) :
    ∃ m1 evs,
      tegra_i2c_empty_rx_fifo s ws d m
        = some ({ d with
            msg_buf_remaining := d.msg_buf_remaining
              - min d.msg_buf_remaining (4 * rx_fifo_avail_of s),
            msg_buf := d.msg_buf
              + words_to_transfer d.msg_buf_remaining (rx_fifo_avail_of s) * 4 }, m1)
      ∧ m1.trace = m.trace ++ evs
      ∧ (∀ x, m1.mem x
          = if d.msg_buf ≤ x
              ∧ x < d.msg_buf + min d.msg_buf_remaining (4 * rx_fifo_avail_of s)
            then stream_byte ws (x - d.msg_buf) else m.mem x)
      ∧ reads_of (tegra_i2c_reg_addr d I2C_RX_FIFO) evs
          = (min d.msg_buf_remaining (4 * rx_fifo_avail_of s) + 3) / 4
      ∧ (∀ a k, Event.mem_write a k ∈ evs →
          d.msg_buf ≤ a ∧ a + k ≤ d.msg_buf + min d.msg_buf_remaining (4 * rx_fifo_avail_of s))
      ∧ (∀ a k, Event.mem_read a k ∉ evs) := by
  obtain ⟨hf1, hf2, hf3, hf4⟩ :=
    words_to_transfer_facts d.msg_buf_remaining (rx_fifo_avail_of s)
  obtain ⟨evs, ht, hm, hl, hw, hs⟩ := readsl_spec d I2C_RX_FIFO
    (words_to_transfer d.msg_buf_remaining (rx_fifo_avail_of s)) d.msg_buf ws
    (log (Event.readl (tegra_i2c_reg_addr d I2C_FIFO_STATUS)) m)
  have hnr : ∀ a k, Event.mem_read a k ∉ evs := by
    intro a k hmem
    rcases hs _ hmem with ⟨_, _, h⟩ | h <;> exact absurd h (by simp)
  rw [empty_rx_fifo_eq]
  generalize words_to_transfer d.msg_buf_remaining (rx_fifo_avail_of s) = w at *
  generalize i2c_readsl d d.msg_buf I2C_RX_FIFO ws w
    (log (Event.readl (tegra_i2c_reg_addr d I2C_FIFO_STATUS)) m) = m0 at *
  have hm0 : ∀ x, m0.mem x
      = if d.msg_buf ≤ x ∧ x < d.msg_buf + 4 * w then stream_byte ws (x - d.msg_buf)
        else m.mem x := hm
  have ht0 : m0.trace = m.trace
      ++ ([Event.readl (tegra_i2c_reg_addr d I2C_FIFO_STATUS)] ++ evs) := by
    rw [ht]
    simp [log]
  have hpre : ∀ l, reads_of (tegra_i2c_reg_addr d I2C_RX_FIFO)
      ([Event.readl (tegra_i2c_reg_addr d I2C_FIFO_STATUS)] ++ l)
      = reads_of (tegra_i2c_reg_addr d I2C_RX_FIFO) l := by
    intro l
    have h0 : reads_of (tegra_i2c_reg_addr d I2C_RX_FIFO)
        [Event.readl (tegra_i2c_reg_addr d I2C_FIFO_STATUS)] = 0 := by
      unfold reads_of
      rw [List.count_eq_zero]
      simp [(fifo_status_ne_rx_fifo d).symm]
    rw [reads_of_append, h0, Nat.zero_add]
  by_cases hc : rx_fifo_avail_of s - w > 0 ∧ d.msg_buf_remaining - w * 4 > 0
  · rw [if_pos hc]
    have hR : min d.msg_buf_remaining (4 * rx_fifo_avail_of s) = d.msg_buf_remaining := by
      have := hf3 (by omega)
      omega
    have h3 : d.msg_buf_remaining - w * 4 ≤ 3 := hf3 (by omega)
    rw [hR]
    refine ⟨{ log (Event.mem_write (d.msg_buf + w * 4) (d.msg_buf_remaining - w * 4))
          (log (Event.readl (tegra_i2c_reg_addr d I2C_RX_FIFO)) m0) with
        mem := store_bytes m0.mem (d.msg_buf + w * 4) (u32 ((ws.drop w).headD 0))
          (d.msg_buf_remaining - w * 4) },
      [Event.readl (tegra_i2c_reg_addr d I2C_FIFO_STATUS)]
      ++ (evs ++ [Event.readl (tegra_i2c_reg_addr d I2C_RX_FIFO),
        Event.mem_write (d.msg_buf + w * 4) (d.msg_buf_remaining - w * 4)]), ?_, ?_, ?_, ?_, ?_,
      ?_⟩
    · rw [Nat.sub_self]
    · simp [log, ht0]
    · intro x
      simp only []
      rw [store_bytes_apply, hm0 x]
      by_cases h1 : d.msg_buf + w * 4 ≤ x ∧ x < d.msg_buf + w * 4 + (d.msg_buf_remaining - w * 4)
      · rw [if_pos h1, if_pos (by omega)]
        unfold stream_byte
        have e1 : (x - d.msg_buf) / 4 = w := by omega
        have e2 : (x - d.msg_buf) % 4 = x - (d.msg_buf + w * 4) := by omega
        rw [e1, e2, drop_headD]
      · rw [if_neg h1]
        by_cases h2 : d.msg_buf ≤ x ∧ x < d.msg_buf + 4 * w
        · rw [if_pos h2, if_pos (by omega)]
        · rw [if_neg h2, if_neg (by omega)]
    · rw [hpre, reads_of_append, hl]
      simp [reads_of]
      omega
    · intro a k hmem
      simp only [List.cons_append, List.nil_append, List.mem_cons, List.mem_append,
        Event.mem_write.injEq, reduceCtorEq, false_or, or_false, List.mem_singleton,
        List.not_mem_nil] at hmem
      rcases hmem with h | ⟨h1, h2⟩
      · have := hw a k h
        omega
      · omega
    · intro a k hmem
      simp only [List.cons_append, List.nil_append, List.mem_cons, List.mem_append,
        reduceCtorEq, false_or, or_false, List.not_mem_nil] at hmem
      exact hnr a k hmem
  · rw [if_neg hc]
    have hR : d.msg_buf_remaining - w * 4
        = d.msg_buf_remaining - min d.msg_buf_remaining (4 * rx_fifo_avail_of s) := by
      omega
    have hn : min d.msg_buf_remaining (4 * rx_fifo_avail_of s) = 4 * w := by omega
    refine ⟨m0, [Event.readl (tegra_i2c_reg_addr d I2C_FIFO_STATUS)] ++ evs, ?_, ht0, ?_, ?_,
      ?_, ?_⟩
    · rw [hR]
    · intro x
      rw [hm0 x, hn]
    · rw [hpre, hl, hn]
      omega
    · intro a k hmem
      simp only [List.cons_append, List.nil_append, List.mem_cons, reduceCtorEq,
        false_or] at hmem
      have := hw a k hmem
      omega
    · intro a k hmem
      simp only [List.cons_append, List.nil_append, List.mem_cons, reduceCtorEq,
        false_or] at hmem
      exact hnr a k hmem

theorem tx_fifo_avail_of_le (s : Nat) : tx_fifo_avail_of s ≤ 15 := by
  unfold tx_fifo_avail_of I2C_FIFO_STATUS_TX_MASK I2C_FIFO_STATUS_TX_SHIFT
  have h : u32 s &&& 0xF0 ≤ 0xF0 := Nat.and_le_right
  rw [Nat.shiftRight_eq_div_pow]
  omega

theorem isr_disable_irq_remaining (d : tegra_i2c_dev) (m : Machine) :
    (isr_disable_irq d m).1.msg_buf_remaining = d.msg_buf_remaining := by
  unfold isr_disable_irq
  split <;> rfl

theorem isr_remaining {e : IrqEnv} {d d1 : tegra_i2c_dev} {m m1 : Machine}
    (h : tegra_i2c_isr e d m = some (d1, m1)) :
    d1.msg_buf_remaining ≤ d.msg_buf_remaining := by
  have herr : ∀ st (x : tegra_i2c_dev) (y : Machine),
      (tegra_i2c_isr_err st x y).1.msg_buf_remaining = x.msg_buf_remaining := fun _ _ _ => rfl
  unfold tegra_i2c_isr at h
  simp only [i2c_readl_env, hw_readl_env] at h
  split at h
  · simp only [Option.some.injEq] at h
    rw [← show _ = d1 from congrArg Prod.fst h, herr, isr_disable_irq_remaining]
  · split at h
    · simp only [Option.some.injEq] at h
      rw [← show _ = d1 from congrArg Prod.fst h, herr]
    · split at h
      · simp only [Option.some.injEq] at h
        rw [← show _ = d1 from congrArg Prod.fst h, herr, isr_disable_irq_remaining]
      · split at h
        · exact absurd h (by simp)
        · rename_i d2 m2 hrx
          have h2 : d2.msg_buf_remaining ≤ d.msg_buf_remaining := by
            split at hrx
            · split at hrx
              · obtain ⟨mx, evs, hx, _⟩ := empty_rx_fifo_spec e.fifo_status e.rx_words d
                  (log (Event.readl (tegra_i2c_reg_addr d I2C_STATUS))
                    (log (Event.readl (tegra_i2c_reg_addr d I2C_INT_STATUS)) m))
                rw [hx] at hrx
                simp only [Option.some.injEq, Prod.mk.injEq] at hrx
                rw [← hrx.1]
                exact Nat.sub_le _ _
              · exact absurd hrx (by simp)
            · simp only [Option.some.injEq, Prod.mk.injEq] at hrx
              rw [← hrx.1]
          split at h
          · exact absurd h (by simp)
          · rename_i d3 m3 htx
            have h3 : d3.msg_buf_remaining ≤ d2.msg_buf_remaining := by
              split at htx
              · split at htx
                · obtain ⟨mx, evs, hx, _⟩ := fill_tx_fifo_spec e.fifo_status d2 m2
                  rw [hx] at htx
                  simp only [Option.some.injEq, Prod.mk.injEq] at htx
                  rw [← htx.1]
                  exact Nat.sub_le _ _
                · simp only [Option.some.injEq, Prod.mk.injEq] at htx
                  rw [← htx.1]
              · simp only [Option.some.injEq, Prod.mk.injEq] at htx
                rw [← htx.1]
            split at h
            · simp only [Option.some.injEq] at h
              rw [← show _ = d1 from congrArg Prod.fst h]
              exact Nat.le_trans h3 h2
            · simp only [Option.some.injEq, Prod.mk.injEq] at h
              rw [← h.1]
              exact Nat.le_trans h3 h2

/-! ## Repeated invocations -/

theorem moved_facts (R A : Nat) (hA : 1 ≤ A) :
    words_to_transfer R A * 4 ≤ min R (4 * A)
    ∧ (R - min R (4 * A) ≠ 0 →
        words_to_transfer R A * 4 = min R (4 * A) ∧ (min R (4 * A) + 3) / 4 = words_to_transfer R A)
    ∧ R - min R (4 * A) ≤ R - 4
    ∧ min R (4 * A) ≤ R := by
  unfold words_to_transfer BYTES_PER_FIFO_WORD
  split_ifs with h <;> omega

theorem fill_tx_fifo_repeat_spec (ss : List Nat) :
    ∀ (d : tegra_i2c_dev) (m : Machine), (∀ s ∈ ss, 1 ≤ tx_fifo_avail_of s) →
      ∃ d1 m1 evs,
        fill_tx_fifo_repeat ss d m = some (d1, m1)
        ∧ m1.trace = m.trace ++ evs
        ∧ m1.mem = m.mem
        ∧ d1.is_dvc = d.is_dvc
        ∧ d1.msg_buf_remaining ≤ d.msg_buf_remaining - 4 * ss.length
        ∧ d1.msg_buf_remaining ≤ d.msg_buf_remaining
        ∧ (writes_to (tegra_i2c_reg_addr d I2C_TX_FIFO) evs).length * 4
            < d.msg_buf_remaining - d1.msg_buf_remaining + 4
        ∧ d.msg_buf_remaining - d1.msg_buf_remaining
            ≤ (writes_to (tegra_i2c_reg_addr d I2C_TX_FIFO) evs).length * 4
        ∧ (∀ j, j < d.msg_buf_remaining - d1.msg_buf_remaining →
            stream_byte (writes_to (tegra_i2c_reg_addr d I2C_TX_FIFO) evs) j
              = m.mem (d.msg_buf + j) % 256)
        ∧ (∀ a k, Event.mem_read a k ∈ evs →
            d.msg_buf ≤ a
              ∧ a + k ≤ d.msg_buf + (d.msg_buf_remaining - d1.msg_buf_remaining))
        ∧ (∀ a k, Event.mem_write a k ∉ evs) := by
  induction ss with
  | nil =>
    intro d m _
    refine ⟨d, m, [], rfl, by simp, rfl, rfl, by simp, Nat.le_refl _, by simp [writes_to],
      by simp, ?_, by simp, by simp⟩
    intro j hj
    omega
  | cons s ss ih =>
    intro d m hs
    have hA : 1 ≤ tx_fifo_avail_of s := hs s (List.mem_cons_self _ _)
    obtain ⟨mA, evsA, hx, htA, hmA, hlA, hbA, hrA, hwA⟩ := fill_tx_fifo_spec s d m
    obtain ⟨hq1, hq2, hq3, hq4⟩ := moved_facts d.msg_buf_remaining (tx_fifo_avail_of s) hA
    obtain ⟨d1, m1, evsB, hrun, htB, hmB, hdB, hremB, hleB, hlB, hlB2, hbB, hrB, hwB⟩ :=
      ih _ mA (fun s1 h1 => hs s1 (List.mem_cons_of_mem _ h1))
    have haddr : tegra_i2c_reg_addr
        { d with
          msg_buf_remaining := d.msg_buf_remaining
            - min d.msg_buf_remaining (4 * tx_fifo_avail_of s),
          msg_buf := d.msg_buf
            + words_to_transfer d.msg_buf_remaining (tx_fifo_avail_of s) * 4 } I2C_TX_FIFO
        = tegra_i2c_reg_addr d I2C_TX_FIFO := rfl
    rw [haddr] at hlB hlB2 hbB
    simp only [] at hremB hleB hlB hlB2 hbB hrB hdB
    generalize min d.msg_buf_remaining (4 * tx_fifo_avail_of s) = n at *
    generalize words_to_transfer d.msg_buf_remaining (tx_fifo_avail_of s) = w at *
    refine ⟨d1, m1, evsA ++ evsB, ?_, ?_, hmB.trans hmA, hdB, ?_, ?_, ?_, ?_, ?_, ?_, ?_⟩
    · simp only [fill_tx_fifo_repeat, hx, hrun]
    · rw [htB, htA, List.append_assoc]
    · simp only [List.length_cons]
      omega
    · omega
    · rw [writes_to_append, List.length_append, hlA]
      by_cases h0 : d.msg_buf_remaining - n - d1.msg_buf_remaining = 0
      · have : (writes_to (tegra_i2c_reg_addr d I2C_TX_FIFO) evsB).length = 0 := by omega
        omega
      · have := hq2 (by omega)
        omega
    · rw [writes_to_append, List.length_append, hlA]
      omega
    · intro j hj
      rw [writes_to_append, stream_byte_append, hlA]
      by_cases h4 : j < 4 * ((n + 3) / 4)
      · rw [if_pos h4]
        by_cases hjn : j < n
        · exact hbA j hjn
        · have h0 : d.msg_buf_remaining - n ≠ 0 := by omega
          have := hq2 h0
          omega
      · rw [if_neg h4]
        have h0 : d.msg_buf_remaining - n ≠ 0 := by omega
        obtain ⟨e1, e2⟩ := hq2 h0
        rw [hbB (j - 4 * ((n + 3) / 4)) (by omega), hmA]
        congr 2
        omega
    · intro a k hmem
      rcases List.mem_append.mp hmem with h | h
      · have := hrA a k h
        omega
      · have := hrB a k h
        by_cases h0 : d.msg_buf_remaining - n - d1.msg_buf_remaining = 0
        · omega
        · have := hq2 (by omega)
          omega
    · intro a k hmem
      rcases List.mem_append.mp hmem with h | h
      · exact hwA a k h
      · exact hwB a k h

theorem empty_rx_fifo_repeat_spec (ss : List Nat) :
    ∀ (fifo : List Nat) (d : tegra_i2c_dev) (m : Machine),
      (∀ s ∈ ss, 1 ≤ rx_fifo_avail_of s) →
      ∃ d1 m1 evs,
        empty_rx_fifo_repeat ss fifo d m = some (d1, m1)
        ∧ m1.trace = m.trace ++ evs
        ∧ d1.msg_buf_remaining ≤ d.msg_buf_remaining - 4 * ss.length
        ∧ d1.msg_buf_remaining ≤ d.msg_buf_remaining
        ∧ (∀ x, m1.mem x
            = if d.msg_buf ≤ x
                ∧ x < d.msg_buf + (d.msg_buf_remaining - d1.msg_buf_remaining)
              then stream_byte fifo (x - d.msg_buf) else m.mem x)
        ∧ (∀ a k, Event.mem_write a k ∈ evs →
            d.msg_buf ≤ a
              ∧ a + k ≤ d.msg_buf + (d.msg_buf_remaining - d1.msg_buf_remaining))
        ∧ (∀ a k, Event.mem_read a k ∉ evs) := by
  induction ss with
  | nil =>
    intro fifo d m _
    refine ⟨d, m, [], rfl, by simp, by simp, Nat.le_refl _, ?_, by simp, by simp⟩
    intro x
    rw [if_neg (by omega)]
  | cons s ss ih =>
    intro fifo d m hs
    have hA : 1 ≤ rx_fifo_avail_of s := hs s (List.mem_cons_self _ _)
    obtain ⟨mA, evsA, hx, htA, hmA, hlA, hwA, hrA⟩ := empty_rx_fifo_spec s fifo d m
    obtain ⟨hq1, hq2, hq3, hq4⟩ := moved_facts d.msg_buf_remaining (rx_fifo_avail_of s) hA
    obtain ⟨d1, m1, evsB, hrun, htB, hremB, hleB, hmB, hwB, hrB⟩ :=
      ih (fifo.drop ((min d.msg_buf_remaining (4 * rx_fifo_avail_of s) + 3) / 4))
        { d with
          msg_buf_remaining := d.msg_buf_remaining
            - min d.msg_buf_remaining (4 * rx_fifo_avail_of s),
          msg_buf := d.msg_buf
            + words_to_transfer d.msg_buf_remaining (rx_fifo_avail_of s) * 4 } mA
        (fun s1 h1 => hs s1 (List.mem_cons_of_mem _ h1))
    dsimp only at hremB hleB hmB hwB
    have hstep : empty_rx_fifo_repeat (s :: ss) fifo d m = some (d1, m1) := by
      simp only [empty_rx_fifo_repeat, hx, new_events_of_trace htA, hlA, hrun]
    generalize min d.msg_buf_remaining (4 * rx_fifo_avail_of s) = n at *
    generalize words_to_transfer d.msg_buf_remaining (rx_fifo_avail_of s) = w at *
    refine ⟨d1, m1, evsA ++ evsB, hstep, ?_, ?_, ?_, ?_, ?_, ?_⟩
    · rw [htB, htA, List.append_assoc]
    · simp only [List.length_cons]
      omega
    · omega
    · intro x
      rw [hmB x, hmA x]
      by_cases h0 : d.msg_buf_remaining - n - d1.msg_buf_remaining = 0
      · rw [if_neg (by omega)]
        by_cases h1 : d.msg_buf ≤ x ∧ x < d.msg_buf + n
        · rw [if_pos h1, if_pos (by omega)]
        · rw [if_neg h1, if_neg (by omega)]
      · obtain ⟨e1, e2⟩ := hq2 (by omega)
        by_cases h2 : d.msg_buf + w * 4 ≤ x
            ∧ x < d.msg_buf + w * 4 + (d.msg_buf_remaining - n - d1.msg_buf_remaining)
        · rw [if_pos h2, if_pos (by omega), stream_byte_drop, e2]
          congr 1
          omega
        · rw [if_neg h2]
          by_cases h1 : d.msg_buf ≤ x ∧ x < d.msg_buf + n
          · rw [if_pos h1, if_pos (by omega)]
          · rw [if_neg h1, if_neg (by omega)]
    · intro a k hmem
      rcases List.mem_append.mp hmem with h | h
      · have := hwA a k h
        omega
      · have := hwB a k h
        by_cases h0 : d.msg_buf_remaining - n - d1.msg_buf_remaining = 0
        · omega
        · have := hq2 (by omega)
          omega
    · intro a k hmem
      rcases List.mem_append.mp hmem with h | h
      · exact hrA a k h
      · exact hrB a k h

/-! ## The header words -/

theorem io_header_eq_spec (d : tegra_i2c_dev) (msg : i2c_msg) (stop : Int) :
    xfer_msg_io_header d msg stop
      = spec_io_header msg.addr msg.flags (decide (stop ≠ 0)) d.is_high_speed_enable
          d.hs_master_code := by
  unfold xfer_msg_io_header spec_io_header I2C_HEADER_SLAVE_ADDR_SHIFT
    I2C_HEADER_MASTER_ADDR_SHIFT
  by_cases h1 : stop = 0 <;> by_cases h2 : msg.flags &&& I2C_M_TEN ≠ 0 <;>
    by_cases h3 : msg.flags &&& I2C_M_IGNORE_NAK ≠ 0 <;>
    by_cases h4 : msg.flags &&& I2C_M_RD ≠ 0 <;>
    cases h5 : d.is_high_speed_enable <;>
    simp [h1, h2, h3, h4, Nat.lor_assoc]

theorem packet_header_eq_spec (d : tegra_i2c_dev) :
    xfer_msg_packet_header d = u32 (spec_packet_header d.cont_id) := by
  unfold xfer_msg_packet_header spec_packet_header PACKET_HEADER0_HEADER_SIZE_SHIFT
    PACKET_HEADER0_CONT_ID_SHIFT PACKET_HEADER0_PACKET_ID_SHIFT
  simp

theorem headers_trace (msg : i2c_msg) (stop : Int) (d : tegra_i2c_dev) (m : Machine) :
    (xfer_msg_headers msg stop d m).2.trace
      = m.trace ++ [Event.writel (u32 (spec_packet_header d.cont_id))
            (tegra_i2c_reg_addr d I2C_TX_FIFO),
          Event.writel (u32 (spec_payload_size msg.len)) (tegra_i2c_reg_addr d I2C_TX_FIFO),
          Event.writel (u32 (spec_io_header msg.addr msg.flags (decide (stop ≠ 0))
            d.is_high_speed_enable d.hs_master_code)) (tegra_i2c_reg_addr d I2C_TX_FIFO)] := by
  have h1 := packet_header_eq_spec d
  have h3 := io_header_eq_spec d msg stop
  unfold xfer_msg_headers
  simp only [i2c_writel, hw_writel, List.append_assoc, List.singleton_append]
  have e1 : xfer_msg_packet_header
      { d with msg_buf := msg.buf, msg_buf_remaining := msg.len, msg_err := I2C_ERR_NONE,
               msg_read := msg.flags &&& I2C_M_RD, msg_complete := 0, msg_add := msg.addr,
               io_header := 0 } = xfer_msg_packet_header d := rfl
  rw [e1, h1, u32_u32, ← h3]
  rfl

/-! ## The actions of one message and of the loop -/

theorem clk_only_on_reset_append {a b : List Event} (ha : clk_only_on_reset a)
    (hb : clk_only_on_reset b) : clk_only_on_reset (a ++ b) := by
  rintro ⟨rate, hmem⟩
  rcases List.mem_append.mp hmem with h | h
  · exact List.mem_append_left _ (ha ⟨rate, h⟩)
  · exact List.mem_append_right _ (hb ⟨rate, h⟩)

theorem clk_only_on_reset_of_mem {evs : List Event} (h : Event.periph_reset_assert ∈ evs) :
    clk_only_on_reset evs := fun _ => h

theorem clk_only_on_reset_of_transfer {evs : List Event}
    (h : ∀ e ∈ evs, e.is_transfer = true) : clk_only_on_reset evs := by
  rintro ⟨rate, hmem⟩
  exact absurd (h _ hmem) (by simp [Event.is_transfer])

theorem events_of_step {m m1 : Machine} (h : transfer_step m m1) :
    ∃ evs, m1.trace = m.trace ++ evs ∧ clk_only_on_reset evs := by
  obtain ⟨evs, ht, hp⟩ := h
  exact ⟨evs, ht, clk_only_on_reset_of_transfer hp⟩

theorem events_trans {m m1 m2 : Machine}
    (h1 : ∃ evs, m1.trace = m.trace ++ evs ∧ clk_only_on_reset evs)
    (h2 : ∃ evs, m2.trace = m1.trace ++ evs ∧ clk_only_on_reset evs) :
    ∃ evs, m2.trace = m.trace ++ evs ∧ clk_only_on_reset evs := by
  obtain ⟨e1, ht1, hp1⟩ := h1
  obtain ⟨e2, ht2, hp2⟩ := h2
  exact ⟨e1 ++ e2, by rw [ht2, ht1, List.append_assoc], clk_only_on_reset_append hp1 hp2⟩

theorem init_events (e : InitEnv) (d : tegra_i2c_dev) (m : Machine) :
    ∃ evs, (tegra_i2c_init e d m).1.2.trace = m.trace ++ evs
      ∧ Event.periph_reset_assert ∈ evs := by
  obtain ⟨evs, ht, _⟩ := init_hw_after_reset e d m
  have h1 : (tegra_i2c_init_hw e d m).1.trace
      = m.trace ++ ([Event.pm_runtime_get_sync, Event.periph_reset_assert] ++ evs) := by
    rw [ht]
    simp [tegra_periph_reset_assert, log]
  unfold tegra_i2c_init
  simp only []
  split
  · refine ⟨[Event.pm_runtime_get_sync, Event.periph_reset_assert] ++ evs
      ++ [Event.enable_irq], ?_, by simp⟩
    simp only [log, h1, List.append_assoc]
  · exact ⟨_, h1, by simp⟩

theorem recover_events (i2c_bus : tegra_i2c_bus) (d : tegra_i2c_dev) (m : Machine) :
    ∃ evs, (xfer_msg_recover i2c_bus d m).1.trace = m.trace ++ evs
      ∧ ∀ e ∈ evs, e = Event.arb_recovery i2c_bus.scl_gpio i2c_bus.sda_gpio := by
  unfold xfer_msg_recover
  split
  · cases d.arb_recovery with
    | none => exact ⟨[], by simp, by simp⟩
    | some f => exact ⟨[Event.arb_recovery i2c_bus.scl_gpio i2c_bus.sda_gpio], rfl, by simp⟩
  · exact ⟨[], by simp, by simp⟩

theorem result_events (i2c_bus : tegra_i2c_bus) (msg : i2c_msg) (env : XferMsgEnv)
    (ret : Nat) (d : tegra_i2c_dev) (m : Machine) :
    ∃ evs, (xfer_msg_result i2c_bus msg env ret d m).1.2.trace = m.trace ++ evs
      ∧ clk_only_on_reset evs := by
  by_cases hret : ret = 0
  · obtain ⟨evs, ht, hr⟩ := init_events env.init d (log (Event.mem_read msg.buf 1) m)
    refine ⟨[Event.mem_read msg.buf 1] ++ evs, ?_,
      clk_only_on_reset_of_mem (List.mem_append_right _ hr)⟩
    unfold xfer_msg_result
    rw [if_pos hret]
    simp only []
    rw [ht]
    simp [log]
  · by_cases herr : d.msg_err = I2C_ERR_NONE
    · refine ⟨[], ?_, clk_only_on_reset_of_transfer (by simp)⟩
      unfold xfer_msg_result
      rw [if_neg hret, if_pos herr]
      simp
    · by_cases hrec : d.msg_err = I2C_ERR_ARBITRATION_LOST
          ∧ recovery_reports_success i2c_bus d = true
      · rw [result_recovered i2c_bus msg env ret d m hret hrec.1 hrec.2]
        refine ⟨[Event.arb_recovery i2c_bus.scl_gpio i2c_bus.sda_gpio], rfl, ?_⟩
        rintro ⟨rate, hmem⟩
        simp at hmem
      · rw [result_error_reinit i2c_bus msg env ret d m hret herr hrec]
        obtain ⟨e0, ht0, _⟩ := recover_events i2c_bus d m
        obtain ⟨evs, ht, hr⟩ := init_events env.init d (xfer_msg_recover i2c_bus d m).1
        refine ⟨e0 ++ evs, ?_, clk_only_on_reset_of_mem (List.mem_append_right _ hr)⟩
        simp only []
        rw [ht, ht0, List.append_assoc]

theorem arm_after_headers {msg : i2c_msg} {stop : Int} {env : XferMsgEnv}
    {d d1 : tegra_i2c_dev} {m m1 : Machine} {int_mask : Nat}
    (h : xfer_msg_arm msg stop env d m = some ((d1, m1), int_mask)) :
    transfer_step (xfer_msg_headers msg stop d m).2 m1 := by
  unfold xfer_msg_arm at h
  simp only [] at h
  split at h
  · exact absurd h (by simp)
  · rename_i d2 m2 hp
    simp only [Option.some.injEq, Prod.mk.injEq] at h
    rw [← h.1.2]
    have h2 : transfer_step (xfer_msg_headers msg stop d m).2 m2 := by
      split at hp
      · exact step_fill_tx_fifo hp
      · simp only [Option.some.injEq] at hp
        rw [← show _ = m2 from congrArg Prod.snd hp]
        exact step_refl _
    exact step_trans (step_trans h2 (step_ite (d2.is_dvc = true)
      (step_dvc_unmask_irq DVC_CTRL_REG3_I2C_DONE_INTR_EN _))) (step_unmask_irq _ _ _)

theorem wait_after_headers {msg : i2c_msg} {stop : Int} {env : XferMsgEnv}
    {d d1 : tegra_i2c_dev} {m m1 : Machine} {ret : Nat}
    (h : xfer_msg_wait msg stop env d m = some ((d1, m1), ret)) :
    transfer_step (xfer_msg_headers msg stop d m).2 m1 := by
  unfold xfer_msg_wait at h
  split at h
  · exact absurd h (by simp)
  · rename_i d2 m2 int_mask ha
    split at h
    · exact absurd h (by simp)
    · rename_i d3 m3 r hw
      simp only [Option.some.injEq, Prod.mk.injEq] at h
      rw [← h.1.2]
      exact step_trans (step_trans (arm_after_headers ha) (step_wait hw))
        (step_xfer_msg_mask _ _ _)

theorem xfer_msg_events {i2c_bus : tegra_i2c_bus} {msg : i2c_msg} {stop : Int}
    {env : XferMsgEnv} {d : tegra_i2c_dev} {m : Machine} {r : (tegra_i2c_dev × Machine) × Int}
    (h : tegra_i2c_xfer_msg i2c_bus msg stop env d m = some r) :
    (∃ evs, r.1.2.trace = m.trace ++ evs ∧ clk_only_on_reset evs)
    ∧ (msg.len ≠ 0 → ∃ evs, r.1.2.trace
        = (xfer_msg_headers msg stop d (tegra_i2c_flush_fifos env.flush d m).1).2.trace ++ evs) := by
  unfold tegra_i2c_xfer_msg at h
  simp only [] at h
  split at h
  · rename_i hlen
    simp only [Option.some.injEq] at h
    rw [← h]
    exact ⟨events_of_step (step_flush env.flush d m), fun hne => absurd hlen hne⟩
  · split at h
    · exact absurd h (by simp)
    · rename_i dw mw ret hw
      simp only [Option.some.injEq] at h
      rw [← h]
      refine ⟨?_, fun _ => ?_⟩
      · exact events_trans
          (events_of_step (step_trans (step_flush env.flush d m) (step_xfer_msg_wait hw)))
          (result_events i2c_bus msg env ret dw mw)
      · obtain ⟨e1, ht1, _⟩ := wait_after_headers hw
        obtain ⟨e2, ht2, _⟩ := result_events i2c_bus msg env ret dw mw
        exact ⟨e1 ++ e2, by rw [ht2, ht1, List.append_assoc]⟩

theorem flush_writes_tx_fifo (f : FlushEnv) (d : tegra_i2c_dev) (m : Machine) :
    ∃ evs, (tegra_i2c_flush_fifos f d m).1.trace = m.trace ++ evs
      ∧ writes_to (tegra_i2c_reg_addr d I2C_TX_FIFO) evs = [] := by
  refine ⟨_, flush_trace f d m, ?_⟩
  have hne := (fifo_control_apart d).1
  unfold writes_to
  rw [List.filterMap_eq_nil_iff]
  intro e he
  simp only [List.mem_cons, List.mem_replicate] at he
  rcases he with h | h | ⟨_, h⟩
  · rw [h]
  · rw [h]
    simp only [ite_eq_right_iff, reduceCtorEq, imp_false]
    exact fun h2 => hne h2.symm
  · rw [h]

theorem u32_spec_words (cont_id addr flags len : Nat) (final high_speed : Bool)
    (master_code : Nat) (hc : cont_id < 2 ^ 20) (ha : addr < 2 ^ 16) (hl : len ≤ 2 ^ 16) :
    u32 (spec_packet_header cont_id) = spec_packet_header cont_id
    ∧ u32 (spec_payload_size len) = spec_payload_size len
    ∧ u32 (spec_io_header addr flags final high_speed master_code)
        = spec_io_header addr flags final high_speed master_code := by
  have two32 : (4294967296 : Nat) = 2 ^ 32 := by norm_num
  refine ⟨?_, ?_, ?_⟩
  · apply u32_of_lt
    unfold spec_packet_header PACKET_HEADER0_PROTOCOL_I2C
    rw [two32]
    refine Nat.or_lt_two_pow (Nat.or_lt_two_pow (by decide) ?_) (by decide)
    rw [Nat.shiftLeft_eq]
    calc cont_id * 2 ^ 12 < 2 ^ 20 * 2 ^ 12 := Nat.mul_lt_mul_of_pos_right hc (by norm_num)
      _ = 2 ^ 32 := by norm_num
  · apply u32_of_lt
    unfold spec_payload_size
    norm_num at hl
    omega
  · apply u32_of_lt
    unfold spec_io_header I2C_HEADER_IE_ENABLE I2C_HEADER_REPEAT_START I2C_HEADER_10BIT_ADDR
      I2C_HEADER_CONT_ON_NAK I2C_HEADER_READ I2C_HEADER_HIGHSPEED_MODE
    rw [two32]
    have hm : (master_code &&& 7) <<< 12 < 2 ^ 32 := by
      have h7 : master_code &&& 7 ≤ 7 := Nat.and_le_right
      rw [Nat.shiftLeft_eq]
      norm_num
      omega
    have has : addr <<< 1 < 2 ^ 32 := by
      rw [Nat.shiftLeft_eq]
      norm_num at ha ⊢
      omega
    have ha32 : addr < 2 ^ 32 := by
      norm_num at ha ⊢
      omega
    refine Nat.or_lt_two_pow (Nat.or_lt_two_pow (Nat.or_lt_two_pow (Nat.or_lt_two_pow
      (Nat.or_lt_two_pow (by decide) ?_) ?_) ?_) ?_) ?_
    · split <;> decide
    · split
      · exact Nat.or_lt_two_pow ha32 (by decide)
      · exact has
    · split <;> decide
    · split <;> decide
    · split
      · exact Nat.or_lt_two_pow (by decide) hm
      · decide

/-! ## Bus selection at batch entry -/

theorem select_bus_spec (i2c_bus : tegra_i2c_bus) (d : tegra_i2c_dev) (m : Machine) :
    (xfer_select_bus i2c_bus d m).2.trace = m.trace ++ spec_select_events i2c_bus d
    ∧ (xfer_select_bus i2c_bus d m).1.last_mux = i2c_bus.mux
    ∧ (xfer_select_bus i2c_bus d m).1.last_bus_clk_rate = i2c_bus.bus_clk_rate
    ∧ (xfer_select_bus i2c_bus d m).1.last_mux_len
        = (if d.last_mux ≠ i2c_bus.mux then i2c_bus.mux_len else d.last_mux_len)
    ∧ (xfer_select_bus i2c_bus d m).1.is_suspended = d.is_suspended
    ∧ (xfer_select_bus i2c_bus d m).2.clk_rate
        = (if d.last_bus_clk_rate ≠ i2c_bus.bus_clk_rate then u32 (i2c_bus.bus_clk_rate * 8)
          else m.clk_rate) := by
  unfold xfer_select_bus spec_select_events
  by_cases h1 : d.last_mux ≠ i2c_bus.mux <;>
    by_cases h2 : d.last_bus_clk_rate ≠ i2c_bus.bus_clk_rate
  · simp only [if_pos h1, if_pos h2]
    simp [log, clk_set_rate]
  · simp only [if_pos h1, if_neg h2]
    simp [log]
    exact (not_not.mp h2)
  · simp only [if_neg h1, if_pos h2]
    simp [clk_set_rate]
    exact (not_not.mp h1)
  · simp only [if_neg h1, if_neg h2]
    simp
    exact ⟨not_not.mp h1, not_not.mp h2⟩

/-! ## The cached selection is not changed by a transfer -/

theorem isr_disable_irq_bus_cache (d : tegra_i2c_dev) (m : Machine) :
    bus_cache (isr_disable_irq d m).1 = bus_cache d := by
  unfold isr_disable_irq
  split <;> rfl

theorem isr_bus_cache {e : IrqEnv} {d d1 : tegra_i2c_dev} {m m1 : Machine}
    (h : tegra_i2c_isr e d m = some (d1, m1)) : bus_cache d1 = bus_cache d := by
  have herr : ∀ st (x : tegra_i2c_dev) (y : Machine),
      bus_cache (tegra_i2c_isr_err st x y).1 = bus_cache x := fun _ _ _ => rfl
  unfold tegra_i2c_isr at h
  simp only [i2c_readl_env, hw_readl_env] at h
  split at h
  · simp only [Option.some.injEq] at h
    rw [← show _ = d1 from congrArg Prod.fst h, herr, isr_disable_irq_bus_cache]
    rfl
  · split at h
    · simp only [Option.some.injEq] at h
      rw [← show _ = d1 from congrArg Prod.fst h, herr]
      rfl
    · split at h
      · simp only [Option.some.injEq] at h
        rw [← show _ = d1 from congrArg Prod.fst h, herr, isr_disable_irq_bus_cache]
        rfl
      · split at h
        · exact absurd h (by simp)
        · rename_i d2 m2 hrx
          have h2 : bus_cache d2 = bus_cache d := by
            split at hrx
            · split at hrx
              · obtain ⟨r, b, rfl⟩ := empty_rx_fifo_dev hrx
                rfl
              · exact absurd hrx (by simp)
            · simp only [Option.some.injEq, Prod.mk.injEq] at hrx
              rw [← hrx.1]
          split at h
          · exact absurd h (by simp)
          · rename_i d3 m3 htx
            have h3 : bus_cache d3 = bus_cache d2 := by
              split at htx
              · split at htx
                · obtain ⟨r, b, rfl⟩ := fill_tx_fifo_dev htx
                  rfl
                · simp only [Option.some.injEq, Prod.mk.injEq] at htx
                  rw [← htx.1]
              · simp only [Option.some.injEq, Prod.mk.injEq] at htx
                rw [← htx.1]
            split at h
            · simp only [Option.some.injEq] at h
              rw [← show _ = d1 from congrArg Prod.fst h]
              exact h3.trans h2
            · simp only [Option.some.injEq, Prod.mk.injEq] at h
              rw [← h.1]
              exact h3.trans h2

theorem run_isrs_bus_cache {es : List IrqEnv} {d d1 : tegra_i2c_dev} {m m1 : Machine}
    (h : run_isrs es d m = some (d1, m1)) : bus_cache d1 = bus_cache d := by
  induction es generalizing d m with
  | nil =>
    simp only [run_isrs, Option.some.injEq, Prod.mk.injEq] at h
    rw [← h.1]
  | cons e es ih =>
    simp only [run_isrs] at h
    split at h
    · exact absurd h (by simp)
    · rename_i d2 m2 he
      exact (ih h).trans (isr_bus_cache he)

theorem wait_bus_cache {es : List IrqEnv} {d d1 : tegra_i2c_dev} {m m1 : Machine} {ret : Nat}
    (h : wait_for_completion_timeout es d m = some ((d1, m1), ret)) :
    bus_cache d1 = bus_cache d := by
  unfold wait_for_completion_timeout at h
  split at h
  · exact absurd h (by simp)
  · rename_i d2 m2 hr
    have h2 := run_isrs_bus_cache hr
    split at h
    · simp only [Option.some.injEq, Prod.mk.injEq] at h
      rw [← h.1.1]
      exact h2
    · simp only [Option.some.injEq, Prod.mk.injEq] at h
      rw [← h.1.1]
      exact h2

theorem arm_bus_cache {msg : i2c_msg} {stop : Int} {env : XferMsgEnv} {d d1 : tegra_i2c_dev}
    {m m1 : Machine} {int_mask : Nat}
    (h : xfer_msg_arm msg stop env d m = some ((d1, m1), int_mask)) :
    bus_cache d1 = bus_cache d := by
  have hh : bus_cache (xfer_msg_headers msg stop d m).1 = bus_cache d := rfl
  unfold xfer_msg_arm at h
  simp only [] at h
  split at h
  · exact absurd h (by simp)
  · rename_i d2 m2 hp
    simp only [Option.some.injEq, Prod.mk.injEq] at h
    rw [← h.1.1]
    split at hp
    · obtain ⟨r, b, hd⟩ := fill_tx_fifo_dev hp
      rw [hd]
      exact hh
    · simp only [Option.some.injEq] at hp
      have : d2 = (xfer_msg_headers msg stop d m).1 := by rw [hp]
      rw [this]
      exact hh

theorem xfer_msg_wait_bus_cache {msg : i2c_msg} {stop : Int} {env : XferMsgEnv}
    {d d1 : tegra_i2c_dev} {m m1 : Machine} {ret : Nat}
    (h : xfer_msg_wait msg stop env d m = some ((d1, m1), ret)) :
    bus_cache d1 = bus_cache d := by
  unfold xfer_msg_wait at h
  split at h
  · exact absurd h (by simp)
  · rename_i d2 m2 int_mask ha
    split at h
    · exact absurd h (by simp)
    · rename_i d3 m3 r hw
      simp only [Option.some.injEq, Prod.mk.injEq] at h
      rw [← h.1.1]
      exact (wait_bus_cache hw).trans (arm_bus_cache ha)

theorem result_bus_cache (i2c_bus : tegra_i2c_bus) (msg : i2c_msg) (env : XferMsgEnv)
    (ret : Nat) (d : tegra_i2c_dev) (m : Machine) :
    bus_cache (xfer_msg_result i2c_bus msg env ret d m).1.1 = bus_cache d := by
  have hi : ∀ e (x : tegra_i2c_dev) (y : Machine),
      bus_cache (tegra_i2c_init e x y).1.1 = bus_cache x := by
    intro e x y
    rw [init_dev]
    rfl
  by_cases hret : ret = 0
  · unfold xfer_msg_result
    rw [if_pos hret]
    exact hi _ _ _
  · by_cases herr : d.msg_err = I2C_ERR_NONE
    · unfold xfer_msg_result
      rw [if_neg hret, if_pos herr]
    · by_cases hrec : d.msg_err = I2C_ERR_ARBITRATION_LOST
          ∧ recovery_reports_success i2c_bus d = true
      · rw [result_recovered i2c_bus msg env ret d m hret hrec.1 hrec.2]
      · rw [result_error_reinit i2c_bus msg env ret d m hret herr hrec]
        exact hi _ _ _

theorem xfer_msg_bus_cache {i2c_bus : tegra_i2c_bus} {msg : i2c_msg} {stop : Int}
    {env : XferMsgEnv} {d : tegra_i2c_dev} {m : Machine} {r : (tegra_i2c_dev × Machine) × Int}
    (h : tegra_i2c_xfer_msg i2c_bus msg stop env d m = some r) :
    bus_cache r.1.1 = bus_cache d := by
  unfold tegra_i2c_xfer_msg at h
  simp only [] at h
  split at h
  · simp only [Option.some.injEq] at h
    rw [← h]
  · split at h
    · exact absurd h (by simp)
    · rename_i dw mw ret hw
      simp only [Option.some.injEq] at h
      rw [← h]
      exact (result_bus_cache i2c_bus msg env ret dw mw).trans (xfer_msg_wait_bus_cache hw)

theorem xfer_loop_events (i2c_bus : tegra_i2c_bus) (num : Int) (env : Nat → XferMsgEnv) :
    ∀ (msgs : List i2c_msg) (i : Nat) (d : tegra_i2c_dev) (m : Machine) (l : XferLoop),
      xfer_loop i2c_bus num env msgs i d m = some l →
      (∃ evs, l.m.trace = m.trace ++ evs ∧ clk_only_on_reset evs)
        ∧ bus_cache l.dev = bus_cache d := by
  intro msgs
  induction msgs with
  | nil =>
    intro i d m l h
    simp only [xfer_loop, Option.some.injEq] at h
    subst h
    exact ⟨⟨[], by simp, clk_only_on_reset_of_transfer (by simp)⟩, rfl⟩
  | cons msg rest ih =>
    intro i d m l h
    simp only [xfer_loop] at h
    split at h
    · exact absurd h (by simp)
    · rename_i d1 m1 ret hx
      have hev := (xfer_msg_events hx).1
      have hbc := xfer_msg_bus_cache hx
      by_cases hr : ret ≠ 0
      · rw [if_pos hr] at h
        simp only [Option.some.injEq] at h
        subst h
        exact ⟨hev, hbc⟩
      · rw [if_neg hr] at h
        split at h
        · exact absurd h (by simp)
        · rename_i r hl
          simp only [Option.some.injEq] at h
          subst h
          obtain ⟨h1, h2⟩ := ih (i + 1) d1 m1 r hl
          exact ⟨events_trans hev h1, h2.trans hbc⟩

/-- The shape of a batch on a controller that is not suspended: the lock, the
bus selection, the runtime-PM reference, then the actions of the message loop
and of the exit. -/
theorem xfer_events {i2c_bus : tegra_i2c_bus} {msgs : List i2c_msg} {env : Nat → XferMsgEnv}
    {d : tegra_i2c_dev} {m : Machine} {r : XferResult} (hs : d.is_suspended = false)
    (h : tegra_i2c_xfer i2c_bus msgs env d m = some r) :
    ∃ rest, new_events m r.m
        = [Event.rt_mutex_lock] ++ spec_select_events i2c_bus d
          ++ [Event.pm_runtime_get_sync] ++ rest
      ∧ clk_only_on_reset rest
      ∧ r.dev.last_mux = i2c_bus.mux
      ∧ r.dev.last_bus_clk_rate = i2c_bus.bus_clk_rate
      ∧ r.dev.last_mux_len
          = (if d.last_mux ≠ i2c_bus.mux then i2c_bus.mux_len else d.last_mux_len) := by
  unfold tegra_i2c_xfer at h
  simp only [hs, Bool.false_eq_true, if_false] at h
  split at h
  · exact absurd h (by simp)
  · rename_i l hl
    simp only [Option.some.injEq] at h
    subst h
    obtain ⟨⟨evs, ht, hp⟩, hbc⟩ := xfer_loop_events i2c_bus _ env msgs 0 _ _ l hl
    obtain ⟨hs1, hs2, hs3, hs4, _, _⟩ := select_bus_spec i2c_bus d
      { log Event.rt_mutex_lock m with finished := 0 }
    refine ⟨evs ++ [Event.pm_runtime_put_sync, Event.rt_mutex_unlock], ?_, ?_, ?_, ?_, ?_⟩
    · have hs1' := (select_bus_spec i2c_bus d
        { regs := m.regs, clk_rate := m.clk_rate, mem := m.mem, finished := 0,
          trace := m.trace ++ [Event.rt_mutex_lock] }).1
      apply new_events_of_trace
      simp only [log, ht, List.append_assoc]
      simp [hs1']
    · refine clk_only_on_reset_append hp ?_
      rintro ⟨rate, hmem⟩
      simp at hmem
    · have := congrArg (fun c => c.1) hbc
      simp only [bus_cache] at this
      exact this.trans hs2
    · have := congrArg (fun c => c.2.2) hbc
      simp only [bus_cache] at this
      exact this.trans hs3
    · have := congrArg (fun c => c.2.1) hbc
      simp only [bus_cache] at this
      exact this.trans hs4

theorem xfer_not_suspended {i2c_bus : tegra_i2c_bus} {msgs : List i2c_msg}
    {env : Nat → XferMsgEnv} {d : tegra_i2c_dev} {m : Machine} {r : XferResult}
    (h : tegra_i2c_xfer i2c_bus msgs env d m = some r) (hret : 0 ≤ r.ret) :
    d.is_suspended = false := by
  cases hs : d.is_suspended with
  | false => rfl
  | true =>
    rw [xfer_of_suspended i2c_bus msgs env d m hs] at h
    simp only [Option.some.injEq] at h
    rw [← h] at hret
    exact absurd hret (show ¬ (0 : Int) ≤ - EBUSY by decide)

theorem clk_events_of_no_reset {evs : List Event} (h : clk_only_on_reset evs)
    (hr : Event.periph_reset_assert ∉ evs) : clk_events evs = [] := by
  unfold clk_events
  rw [List.filter_eq_nil_iff]
  intro e he
  cases e with
  | clk_set_rate rate => exact absurd (h ⟨rate, he⟩) hr
  | _ => simp

theorem xfer_batches_cons_inv {b : tegra_i2c_bus × List i2c_msg × (Nat → XferMsgEnv)}
    {bs : List (tegra_i2c_bus × List i2c_msg × (Nat → XferMsgEnv))} {d : tegra_i2c_dev}
    {m : Machine} {v : Int} {vs : List Int}
    (h : (xfer_batches (b :: bs) d m).map (List.map (fun p => p.1)) = some (v :: vs)) :
    ∃ r l, tegra_i2c_xfer b.1 b.2.1 b.2.2 d m = some r ∧ r.ret = v
      ∧ xfer_batches bs r.dev r.m = some l
      ∧ (xfer_batches bs r.dev r.m).map (List.map (fun p => p.1)) = some vs
      ∧ xfer_batches (b :: bs) d m = some ((r.ret, new_events m r.m, bus_cache r.dev) :: l) := by
  obtain ⟨i2c_bus, msgs, env⟩ := b
  simp only [xfer_batches] at h ⊢
  cases hx : tegra_i2c_xfer i2c_bus msgs env d m with
  | none =>
    rw [hx] at h
    exact absurd h (by simp)
  | some r =>
    rw [hx] at h
    simp only [] at h
    cases hl : xfer_batches bs r.dev r.m with
    | none =>
      rw [hl] at h
      exact absurd h (by simp)
    | some l =>
      rw [hl] at h
      simp only [Option.map_some', Option.some.injEq, List.map_cons, List.cons.injEq] at h
      refine ⟨r, l, rfl, h.1, hl, ?_, ?_⟩
      · rw [hl]
        simp [h.2]
      · simp [hl]

/-! ## The values `tegra_i2c_init` leaves -/

theorem flush_clk_rate (f : FlushEnv) (d : tegra_i2c_dev) (m : Machine) :
    (tegra_i2c_flush_fifos f d m).1.clk_rate = m.clk_rate := by
  unfold tegra_i2c_flush_fifos
  simp only [i2c_readl, hw_readl, i2c_writel, hw_writel, log]
  split <;> rfl

theorem slave_init_clk_rate (d : tegra_i2c_dev) (m : Machine) :
    (tegra_i2c_slave_init d m).clk_rate = m.clk_rate := by
  unfold tegra_i2c_slave_init
  simp only []
  split <;> rfl

theorem init_hw_clk_rate (e : InitEnv) (d : tegra_i2c_dev) (m : Machine) :
    (tegra_i2c_init_hw e d m).1.clk_rate = u32 (d.last_bus_clk_rate * 8) := by
  unfold tegra_i2c_init_hw
  simp only []
  show (tegra_i2c_flush_fifos e.flush d _).1.clk_rate = _
  rw [flush_clk_rate]
  have hsl : ∀ m0 : Machine,
      (if d.is_slave = true then tegra_i2c_slave_init d m0 else m0).clk_rate = m0.clk_rate := by
    intro m0
    split
    · exact slave_init_clk_rate d m0
    · rfl
  rw [hsl]
  rfl

theorem fifo_control_ne_slave (d : tegra_i2c_dev) :
    tegra_i2c_reg_addr d I2C_FIFO_CONTROL ≠ tegra_i2c_reg_addr d I2C_SL_CNFG
    ∧ tegra_i2c_reg_addr d I2C_FIFO_CONTROL ≠ tegra_i2c_reg_addr d I2C_SL_ADDR2
    ∧ (d.is_dvc = false →
        tegra_i2c_reg_addr d I2C_FIFO_CONTROL ≠ tegra_i2c_reg_addr d I2C_SL_ADDR1) := by
  unfold tegra_i2c_reg_addr
  cases d.is_dvc <;> simp <;> decide

theorem sl_addr1_eq_fifo_control (d : tegra_i2c_dev) (hd : d.is_dvc = true) :
    tegra_i2c_reg_addr d I2C_SL_ADDR1 = tegra_i2c_reg_addr d I2C_FIFO_CONTROL := by
  unfold tegra_i2c_reg_addr
  rw [hd]
  decide

theorem init_fifo_control_word_lt (d : tegra_i2c_dev) : init_fifo_control_word d < 256 := by
  unfold init_fifo_control_word
  split
  · unfold SL_ADDR1
    have h : d.slave_addr &&& 0xff ≤ 0xff := Nat.and_le_right
    omega
  · decide

set_option maxRecDepth 100000 in
theorem trigger_levels_after_flush :
    ∀ (w : Fin 256) (b : Bool),
      ((if b = true then
            u32 (u32 w.val ||| (I2C_FIFO_CONTROL_TX_FLUSH ||| I2C_FIFO_CONTROL_RX_FLUSH))
              &&& not32 (I2C_FIFO_CONTROL_TX_FLUSH ||| I2C_FIFO_CONTROL_RX_FLUSH)
          else u32 (u32 w.val ||| (I2C_FIFO_CONTROL_TX_FLUSH ||| I2C_FIFO_CONTROL_RX_FLUSH)))
          >>> I2C_FIFO_CONTROL_TX_TRIG_SHIFT) &&& 7
        = (w.val >>> I2C_FIFO_CONTROL_TX_TRIG_SHIFT) &&& 7
      ∧ ((if b = true then
            u32 (u32 w.val ||| (I2C_FIFO_CONTROL_TX_FLUSH ||| I2C_FIFO_CONTROL_RX_FLUSH))
              &&& not32 (I2C_FIFO_CONTROL_TX_FLUSH ||| I2C_FIFO_CONTROL_RX_FLUSH)
          else u32 (u32 w.val ||| (I2C_FIFO_CONTROL_TX_FLUSH ||| I2C_FIFO_CONTROL_RX_FLUSH)))
          >>> I2C_FIFO_CONTROL_RX_TRIG_SHIFT) &&& 7
        = (w.val >>> I2C_FIFO_CONTROL_RX_TRIG_SHIFT) &&& 7 := by
  decide

/-- The FIFO-control register after the register programming of
`tegra_i2c_init`: the word last written before the flush, with the two flush
bits set by the flush and cleared again when it completes. -/
theorem init_hw_fifo_control (e : InitEnv) (d : tegra_i2c_dev) (m : Machine) :
    (tegra_i2c_init_hw e d m).1.regs (tegra_i2c_reg_addr d I2C_FIFO_CONTROL)
      = if e.flush.completes then
          u32 (u32 (init_fifo_control_word d)
              ||| (I2C_FIFO_CONTROL_TX_FLUSH ||| I2C_FIFO_CONTROL_RX_FLUSH))
            &&& not32 (I2C_FIFO_CONTROL_TX_FLUSH ||| I2C_FIFO_CONTROL_RX_FLUSH)
        else
          u32 (u32 (init_fifo_control_word d)
              ||| (I2C_FIFO_CONTROL_TX_FLUSH ||| I2C_FIFO_CONTROL_RX_FLUSH)) := by
  obtain ⟨hn1, hn2, hn3⟩ := fifo_control_ne_slave d
  unfold tegra_i2c_init_hw
  simp only []
  show (tegra_i2c_flush_fifos e.flush d _).1.regs _ = _
  rw [flush_regs_fifo_control]
  have hsl : ∀ m0 : Machine,
      (if d.is_slave = true then
          tegra_i2c_slave_init d
            (i2c_writel d ((7 <<< I2C_FIFO_CONTROL_TX_TRIG_SHIFT)
              ||| (0 <<< I2C_FIFO_CONTROL_RX_TRIG_SHIFT)) I2C_FIFO_CONTROL m0)
        else i2c_writel d ((7 <<< I2C_FIFO_CONTROL_TX_TRIG_SHIFT)
              ||| (0 <<< I2C_FIFO_CONTROL_RX_TRIG_SHIFT)) I2C_FIFO_CONTROL m0).regs
          (tegra_i2c_reg_addr d I2C_FIFO_CONTROL)
        = u32 (init_fifo_control_word d) := by
    intro m0
    unfold init_fifo_control_word
    by_cases hs : d.is_slave = true
    · rw [if_pos hs]
      cases hd : d.is_dvc with
      | false =>
        rw [if_neg (by simp), slave_init_regs_other d _ _ hn1 (hn3 hd) hn2,
          i2c_writel_regs_same]
      | true =>
        by_cases h0 : d.slave_addr ≠ 0
        · rw [if_pos ⟨rfl, hs, h0⟩]
          unfold tegra_i2c_slave_init
          simp only []
          rw [if_pos h0, i2c_writel_regs_other _ _ _ _ _ hn2, ← sl_addr1_eq_fifo_control d hd,
            i2c_writel_regs_same]
        · rw [if_neg (fun h => h0 h.2.2)]
          unfold tegra_i2c_slave_init
          simp only []
          rw [if_neg h0, i2c_writel_regs_other _ _ _ _ _ hn1, i2c_writel_regs_same]
    · rw [if_neg hs, if_neg (fun h => hs h.2.1), i2c_writel_regs_same]
  rw [hsl]

/-- What `tegra_i2c_init` leaves: the values depend on the controller's
`last_bus_clk_rate` and on the word last written to the FIFO-control offset,
and on nothing else. -/
theorem init_obs_after_init (e : InitEnv) (d : tegra_i2c_dev) (m : Machine) :
    init_obs d (tegra_i2c_init e d m).1.2
      = (I2C_CNFG_NEW_MASTER_FSM ||| I2C_CNFG_PACKET_MODE_EN
            ||| (0x2 <<< I2C_CNFG_DEBOUNCE_CNT_SHIFT),
          0, 3,
          (init_fifo_control_word d >>> I2C_FIFO_CONTROL_TX_TRIG_SHIFT) &&& 7,
          (init_fifo_control_word d >>> I2C_FIFO_CONTROL_RX_TRIG_SHIFT) &&& 7,
          u32 (d.last_bus_clk_rate * 8)) := by
  have hclk : (tegra_i2c_init e d m).1.2.clk_rate = u32 (d.last_bus_clk_rate * 8) := by
    rw [← init_hw_clk_rate e d m]
    unfold tegra_i2c_init
    simp only []
    split <;> rfl
  have hc : init_reg_value I2C_CNFG
        = (I2C_CNFG_NEW_MASTER_FSM ||| I2C_CNFG_PACKET_MODE_EN
            ||| (0x2 <<< I2C_CNFG_DEBOUNCE_CNT_SHIFT))
      ∧ init_reg_value I2C_INT_MASK = 0 ∧ init_reg_value I2C_CLK_DIVISOR = 3 := by
    decide
  have hw := trigger_levels_after_flush ⟨init_fifo_control_word d, init_fifo_control_word_lt d⟩
    e.flush.completes
  simp only [] at hw
  unfold init_obs
  rw [init_regs_eq_hw, init_hw_regs e d m I2C_CNFG (Or.inl rfl),
    init_hw_regs e d m I2C_INT_MASK (Or.inr (Or.inl rfl)),
    init_hw_regs e d m I2C_CLK_DIVISOR (Or.inr (Or.inr rfl)),
    init_hw_fifo_control e d m, hclk, hc.1, hc.2.1, hc.2.2, hw.1, hw.2]

/-! ## The fields of the I2C header word -/

theorem addr_testBit_of_fits (msg : i2c_msg)
    (haddr : if msg.flags &&& I2C_M_TEN ≠ 0 then msg.addr ≤ 0x3FF else msg.addr ≤ 0x7F) :
    ∀ i, 10 ≤ i → msg.addr.testBit i = false := by
  intro i hi
  apply Nat.testBit_lt_two_pow
  have : msg.addr < 2 ^ 10 := by split at haddr <;> omega
  exact lt_of_lt_of_le this (Nat.pow_le_pow_right (by norm_num) hi)

theorem master_code_testBit (c : Nat) : ∀ i, 3 ≤ i → (c &&& 7).testBit i = false := by
  intro i hi
  apply Nat.testBit_lt_two_pow
  have : c &&& 7 < 2 ^ 3 := Nat.lt_of_le_of_lt Nat.and_le_right (by norm_num)
  exact lt_of_lt_of_le this (Nat.pow_le_pow_right (by norm_num) hi)

theorem io_header_flag_bits (d : tegra_i2c_dev) (msg : i2c_msg) (stop : Int)
    (haddr : if msg.flags &&& I2C_M_TEN ≠ 0 then msg.addr ≤ 0x3FF else msg.addr ≤ 0x7F) :
    ((xfer_msg_io_header d msg stop).testBit 16 = true ↔ stop = 0)
    ∧ (xfer_msg_io_header d msg stop).testBit 17 = true
    ∧ ((xfer_msg_io_header d msg stop).testBit 18 = true ↔ msg.flags &&& I2C_M_TEN ≠ 0)
    ∧ ((xfer_msg_io_header d msg stop).testBit 19 = true ↔ msg.flags &&& I2C_M_RD ≠ 0)
    ∧ (xfer_msg_io_header d msg stop).testBit 20 = false
    ∧ ((xfer_msg_io_header d msg stop).testBit 21 = true
        ↔ msg.flags &&& I2C_M_IGNORE_NAK ≠ 0)
    ∧ ((xfer_msg_io_header d msg stop).testBit 22 = true ↔ d.is_high_speed_enable = true) := by
  rw [io_header_eq_spec]
  unfold spec_io_header I2C_HEADER_IE_ENABLE I2C_HEADER_REPEAT_START I2C_HEADER_10BIT_ADDR
    I2C_HEADER_CONT_ON_NAK I2C_HEADER_READ I2C_HEADER_HIGHSPEED_MODE
  have ha := addr_testBit_of_fits msg haddr
  have hm := master_code_testBit d.hs_master_code
  by_cases h1 : stop = 0 <;> by_cases h2 : msg.flags &&& I2C_M_TEN ≠ 0 <;>
    by_cases h3 : msg.flags &&& I2C_M_IGNORE_NAK ≠ 0 <;>
    by_cases h4 : msg.flags &&& I2C_M_RD ≠ 0 <;>
    cases h5 : d.is_high_speed_enable <;>
    simp [h1, h2, h3, h4, Nat.testBit_or, Nat.testBit_shiftLeft, Nat.one_shiftLeft,
      Nat.testBit_two_pow, ha, hm] <;> decide

theorem io_header_master_code (d : tegra_i2c_dev) (msg : i2c_msg) (stop : Int)
    (haddr : if msg.flags &&& I2C_M_TEN ≠ 0 then msg.addr ≤ 0x3FF else msg.addr ≤ 0x7F) :
    (xfer_msg_io_header d msg stop >>> 12) &&& 7
      = if d.is_high_speed_enable then d.hs_master_code &&& 7 else 0 := by
  rw [io_header_eq_spec]
  unfold spec_io_header I2C_HEADER_IE_ENABLE I2C_HEADER_REPEAT_START I2C_HEADER_10BIT_ADDR
    I2C_HEADER_CONT_ON_NAK I2C_HEADER_READ I2C_HEADER_HIGHSPEED_MODE
  have ha := addr_testBit_of_fits msg haddr
  have hm := master_code_testBit d.hs_master_code
  apply Nat.eq_of_testBit_eq
  intro i
  rw [Nat.testBit_and, Nat.testBit_shiftRight]
  by_cases hi : i < 3
  · have h7 : Nat.testBit 7 i = true := by interval_cases i <;> decide
    rw [h7, Bool.and_true]
    by_cases h1 : stop = 0 <;> by_cases h2 : msg.flags &&& I2C_M_TEN ≠ 0 <;>
      by_cases h3 : msg.flags &&& I2C_M_IGNORE_NAK ≠ 0 <;>
      by_cases h4 : msg.flags &&& I2C_M_RD ≠ 0 <;>
      cases h5 : d.is_high_speed_enable <;>
      interval_cases i <;>
      simp [h1, h2, h3, h4, Nat.testBit_or, Nat.testBit_shiftLeft, Nat.one_shiftLeft,
        Nat.testBit_two_pow, ha, hm] <;>
      simp [Nat.testBit_to_div_mod]
  · have h7 : Nat.testBit 7 i = false :=
      Nat.testBit_lt_two_pow (lt_of_lt_of_le (by norm_num : 7 < 2 ^ 3)
        (Nat.pow_le_pow_right (by norm_num) (by omega)))
    rw [h7, Bool.and_false]
    split
    · rw [Nat.testBit_and, h7, Bool.and_false]
    · simp

theorem testBit_false_of_mod (b k : Nat) (hb : b % 2 ^ k = 0) :
    ∀ i, i < k → b.testBit i = false := by
  intro i hi
  have h := Nat.testBit_mod_two_pow b k i
  rw [hb] at h
  simpa [hi] using h.symm

theorem testBit_false_of_lt (a k : Nat) (ha : a < 2 ^ k) :
    ∀ i, k ≤ i → a.testBit i = false := by
  intro i hi
  exact Nat.testBit_lt_two_pow (lt_of_lt_of_le ha (Nat.pow_le_pow_right (by norm_num) hi))

theorem and_eq_zero_of_lt_of_mod (a b k : Nat) (ha : a < 2 ^ k) (hb : b % 2 ^ k = 0) :
    a &&& b = 0 := by
  apply Nat.eq_of_testBit_eq
  intro i
  rw [Nat.testBit_and, Nat.zero_testBit]
  by_cases hi : i < k
  · rw [testBit_false_of_mod b k hb i hi, Bool.and_false]
  · rw [testBit_false_of_lt a k ha i (by omega), Bool.false_and]

theorem or_eq_add_of_lt_of_mod (a b k : Nat) (ha : a < 2 ^ k) (hb : b % 2 ^ k = 0) :
    a ||| b = a + b := by
  have h2 : b = 2 ^ k * (b / 2 ^ k) := (Nat.mul_div_cancel' (Nat.dvd_of_mod_eq_zero hb)).symm
  rw [Nat.lor_comm, Nat.add_comm, h2]
  exact (Nat.mul_add_lt_is_or ha _).symm

/-- The header word is the address field ORed with the header of the same
message with address 0. -/
theorem io_header_split (d : tegra_i2c_dev) (msg : i2c_msg) (stop : Int) :
    xfer_msg_io_header d msg stop
      = (if msg.flags &&& I2C_M_TEN ≠ 0 then msg.addr else msg.addr <<< 1)
          ||| xfer_msg_io_header d { msg with addr := 0 } stop := by
  rw [io_header_eq_spec, io_header_eq_spec]
  unfold spec_io_header
  by_cases h1 : stop = 0 <;> by_cases h2 : msg.flags &&& I2C_M_TEN ≠ 0 <;>
    by_cases h3 : msg.flags &&& I2C_M_IGNORE_NAK ≠ 0 <;>
    by_cases h4 : msg.flags &&& I2C_M_RD ≠ 0 <;>
    cases h5 : d.is_high_speed_enable <;>
    simp only [h1, h2, h3, h4, if_true, if_false, ne_eq, not_true_eq_false, not_false_eq_true,
      decide_True, decide_False, Nat.zero_or, Nat.or_zero, Nat.zero_shiftLeft, Bool.false_eq_true]
      <;> ac_rfl

theorem or_mod_zero (a b k : Nat) (ha : a % 2 ^ k = 0) (hb : b % 2 ^ k = 0) :
    (a ||| b) % 2 ^ k = 0 := by
  apply Nat.eq_of_testBit_eq
  intro i
  rw [Nat.testBit_mod_two_pow, Nat.zero_testBit, Nat.testBit_or]
  by_cases hi : i < k
  · rw [testBit_false_of_mod a k ha i hi, testBit_false_of_mod b k hb i hi]
    simp
  · simp [hi]

theorem io_header_rest_mod (d : tegra_i2c_dev) (msg : i2c_msg) (stop : Int) :
    xfer_msg_io_header d { msg with addr := 0 } stop % 2 ^ 12 = 0 := by
  rw [io_header_eq_spec]
  unfold spec_io_header I2C_HEADER_IE_ENABLE I2C_HEADER_REPEAT_START I2C_HEADER_10BIT_ADDR
    I2C_HEADER_CONT_ON_NAK I2C_HEADER_READ I2C_HEADER_HIGHSPEED_MODE
  dsimp only
  refine or_mod_zero _ _ _ (or_mod_zero _ _ _ (or_mod_zero _ _ _ (or_mod_zero _ _ _
    (or_mod_zero _ _ _ (by decide) ?_) ?_) ?_) ?_) ?_
  · split <;> decide
  · split <;> decide
  · split <;> decide
  · split <;> decide
  · split
    · refine or_mod_zero _ _ _ (by decide) ?_
      rw [Nat.shiftLeft_eq]
      exact Nat.mul_mod_left _ _
    · decide

theorem io_header_addr_field (d : tegra_i2c_dev) (msg : i2c_msg) (stop : Int)
    (haddr : if msg.flags &&& I2C_M_TEN ≠ 0 then msg.addr ≤ 0x3FF else msg.addr ≤ 0x7F) :
    (if msg.flags &&& I2C_M_TEN ≠ 0 then xfer_msg_io_header d msg stop &&& 0x3FF = msg.addr
      else (xfer_msg_io_header d msg stop >>> 1) &&& 0x7F = msg.addr)
    ∧ (if msg.flags &&& I2C_M_TEN ≠ 0 then msg.addr else msg.addr <<< 1) &&& 0x7F7000 = 0
    ∧ xfer_msg_io_header d { msg with addr := 0 } stop
        &&& (if msg.flags &&& I2C_M_TEN ≠ 0 then 0x3FF else 0xFE) = 0 := by
  have hs := io_header_split d msg stop
  have hr := io_header_rest_mod d msg stop
  generalize xfer_msg_io_header d { msg with addr := 0 } stop = rest at hs hr
  generalize xfer_msg_io_header d msg stop = h at hs
  have hf : (if msg.flags &&& I2C_M_TEN ≠ 0 then msg.addr else msg.addr <<< 1) < 2 ^ 12 := by
    split at haddr
    · rw [if_pos (by assumption)]
      norm_num
      omega
    · rw [if_neg (by assumption), Nat.shiftLeft_eq]
      norm_num
      omega
  rw [or_eq_add_of_lt_of_mod _ _ 12 hf hr] at hs
  refine ⟨?_, ?_, ?_⟩
  · split at haddr
    · rw [if_pos (by assumption)] at hs ⊢
      rw [show (0x3FF : Nat) = 2 ^ 10 - 1 by norm_num, Nat.and_pow_two_sub_one_eq_mod]
      norm_num at hr ⊢
      omega
    · rw [if_neg (by assumption)] at hs ⊢
      rw [show (0x7F : Nat) = 2 ^ 7 - 1 by norm_num, Nat.and_pow_two_sub_one_eq_mod,
        Nat.shiftRight_eq_div_pow]
      rw [Nat.shiftLeft_eq] at hs
      norm_num at hr hs ⊢
      omega
  · exact and_eq_zero_of_lt_of_mod _ _ 12 hf (by decide)
  · rw [Nat.and_comm]
    refine and_eq_zero_of_lt_of_mod _ _ 12 ?_ hr
    split <;> decide

/-! ## The error exit of the interrupt handler -/

theorem masked_bits_clear (x mask : Nat) : u32 (x &&& not32 mask) &&& mask = 0 := by
  apply Nat.eq_of_testBit_eq
  intro i
  unfold not32 u32
  rw [show (4294967296 : Nat) = 2 ^ 32 by norm_num, show (4294967295 : Nat) = 2 ^ 32 - 1 by norm_num]
  simp only [Nat.testBit_and, Nat.testBit_mod_two_pow, Nat.testBit_xor,
    Nat.testBit_two_pow_sub_one, Nat.zero_testBit]
  by_cases hi : i < 32 <;> cases x.testBit i <;> cases mask.testBit i <;> simp [hi]

/-- The physical offsets the handler touches, for either variant of the
controller. -/
theorem isr_reg_addrs (d : tegra_i2c_dev) :
    (d.is_dvc = false
      ∧ tegra_i2c_reg_addr d I2C_INT_MASK = 0x64 ∧ tegra_i2c_reg_addr d I2C_INT_STATUS = 0x68
      ∧ tegra_i2c_reg_addr d I2C_TX_FIFO = 0x50 ∧ tegra_i2c_reg_addr d I2C_RX_FIFO = 0x54
      ∧ tegra_i2c_reg_addr d I2C_PACKET_TRANSFER_STATUS = 0x58
      ∧ tegra_i2c_reg_addr d I2C_STATUS = 0x1c
      ∧ tegra_i2c_reg_addr d I2C_FIFO_STATUS = 0x60)
    ∨ (d.is_dvc = true
      ∧ tegra_i2c_reg_addr d I2C_INT_MASK = 0x74 ∧ tegra_i2c_reg_addr d I2C_INT_STATUS = 0x78
      ∧ tegra_i2c_reg_addr d I2C_TX_FIFO = 0x60 ∧ tegra_i2c_reg_addr d I2C_RX_FIFO = 0x64
      ∧ tegra_i2c_reg_addr d I2C_PACKET_TRANSFER_STATUS = 0x68
      ∧ tegra_i2c_reg_addr d I2C_STATUS = 0x5c
      ∧ tegra_i2c_reg_addr d I2C_FIFO_STATUS = 0x70) := by
  unfold tegra_i2c_reg_addr
  cases d.is_dvc
  · left
    decide
  · right
    decide

theorem isr_err_spec (status : Nat) (d : tegra_i2c_dev) (m : Machine) :
    ∃ evs,
      (tegra_i2c_isr_err status d m).1 = { d with msg_complete := d.msg_complete + 1 }
      ∧ (tegra_i2c_isr_err status d m).2.trace = m.trace ++ evs
      ∧ (tegra_i2c_isr_err status d m).2.mem = m.mem
      ∧ (tegra_i2c_isr_err status d m).2.regs (tegra_i2c_reg_addr d I2C_INT_MASK)
          = u32 (m.regs (tegra_i2c_reg_addr d I2C_INT_MASK)
              &&& not32 (I2C_INT_NO_ACK ||| I2C_INT_ARBITRATION_LOST |||
                I2C_INT_PACKET_XFER_COMPLETE ||| I2C_INT_TX_FIFO_DATA_REQ |||
                I2C_INT_RX_FIFO_DATA_REQ ||| I2C_INT_TX_FIFO_OVERFLOW))
      ∧ (tegra_i2c_isr_err status d m).2.regs (tegra_i2c_reg_addr d I2C_INT_STATUS) = u32 status
      ∧ writes_to (tegra_i2c_reg_addr d I2C_INT_STATUS) evs = [u32 status]
      ∧ writes_to (tegra_i2c_reg_addr d I2C_TX_FIFO) evs = []
      ∧ reads_of (tegra_i2c_reg_addr d I2C_RX_FIFO) evs = 0
      ∧ evs.count Event.complete = 1
      ∧ evs.count Event.disable_irq_nosync = 0 := by
  rcases isr_reg_addrs d with ⟨hd, a1, a2, a3, a4, -⟩ | ⟨hd, a1, a2, a3, a4, -⟩
  · refine ⟨[Event.readl 0x64,
      Event.writel (u32 (m.regs 0x64 &&& not32 (I2C_INT_NO_ACK ||| I2C_INT_ARBITRATION_LOST |||
        I2C_INT_PACKET_XFER_COMPLETE ||| I2C_INT_TX_FIFO_DATA_REQ |||
        I2C_INT_RX_FIFO_DATA_REQ ||| I2C_INT_TX_FIFO_OVERFLOW))) 0x64,
      Event.writel (u32 status) 0x68, Event.complete], ?_⟩
    rw [a1, a2, a3, a4]
    simp [tegra_i2c_isr_err, tegra_i2c_mask_irq, i2c_readl, hw_readl, i2c_writel, hw_writel,
      complete, log, hd, a1, a2, writes_to, reads_of]
  · refine ⟨[Event.readl 0x74,
      Event.writel (u32 (m.regs 0x74 &&& not32 (I2C_INT_NO_ACK ||| I2C_INT_ARBITRATION_LOST |||
        I2C_INT_PACKET_XFER_COMPLETE ||| I2C_INT_TX_FIFO_DATA_REQ |||
        I2C_INT_RX_FIFO_DATA_REQ ||| I2C_INT_TX_FIFO_OVERFLOW))) 0x74,
      Event.writel (u32 status) 0x78, Event.readl 0x08,
      Event.writel (u32 (m.regs 0x08 &&& not32 DVC_CTRL_REG3_I2C_DONE_INTR_EN)) 0x08,
      Event.writel (u32 DVC_STATUS_I2C_DONE_INTR) 0x0c, Event.complete], ?_⟩
    rw [a1, a2, a3, a4]
    simp [tegra_i2c_isr_err, tegra_i2c_mask_irq, i2c_readl, hw_readl, i2c_writel, hw_writel,
      dvc_i2c_mask_irq, dvc_readl, dvc_writel, DVC_CTRL_REG3, DVC_STATUS,
      complete, log, hd, a1, a2, writes_to, reads_of]

theorem isr_of_status_zero (e : IrqEnv) (d : tegra_i2c_dev) (m : Machine)
    (h0 : u32 e.int_status = 0) :
    tegra_i2c_isr e d m
      = some (tegra_i2c_isr_err 0
          (isr_disable_irq { d with msg_err := d.msg_err ||| I2C_ERR_UNKNOWN_INTERRUPT }
            (log (Event.readl (tegra_i2c_reg_addr d I2C_INT_STATUS)) m)).1
          (isr_disable_irq { d with msg_err := d.msg_err ||| I2C_ERR_UNKNOWN_INTERRUPT }
            (log (Event.readl (tegra_i2c_reg_addr d I2C_INT_STATUS)) m)).2) := by
  unfold tegra_i2c_isr
  simp only [i2c_readl_env, hw_readl_env, h0, if_true]

theorem isr_disable_irq_spec (d : tegra_i2c_dev) (m : Machine) :
    (isr_disable_irq d m).1 = { d with irq_disabled := true }
    ∧ (isr_disable_irq d m).2.trace
        = m.trace ++ (if d.irq_disabled then [] else [Event.disable_irq_nosync])
    ∧ (isr_disable_irq d m).2.mem = m.mem
    ∧ (isr_disable_irq d m).2.regs = m.regs := by
  unfold isr_disable_irq
  cases h : d.irq_disabled
  · simp [log]
  · simp only [Bool.not_true, Bool.false_eq_true, if_false, if_true, List.append_nil,
      and_true, true_and]
    cases d
    simp only at h
    rw [h]

/-! ## The error-status block of the interrupt handler -/

theorem isr_status_err_flags_eq (status msg_err : Nat) :
    isr_status_err_flags status msg_err
      = msg_err
        ||| (if status &&& I2C_INT_NO_ACK ≠ 0 then I2C_ERR_NO_ACK else 0)
        ||| (if status &&& I2C_INT_ARBITRATION_LOST ≠ 0 then I2C_ERR_ARBITRATION_LOST else 0)
        ||| (if status &&& I2C_INT_TX_FIFO_OVERFLOW ≠ 0 then I2C_INT_TX_FIFO_OVERFLOW else 0) := by
  unfold isr_status_err_flags
  by_cases h1 : status &&& I2C_INT_NO_ACK ≠ 0 <;>
    by_cases h2 : status &&& I2C_INT_ARBITRATION_LOST ≠ 0 <;>
    by_cases h3 : status &&& I2C_INT_TX_FIFO_OVERFLOW ≠ 0 <;>
    simp only [h1, h2, h3, ne_eq, if_true, if_false, not_false_eq_true, not_true_eq_false,
      Nat.or_zero]

theorem flag_testBit (c : Prop) [Decidable c] (k i : Nat) :
    (if c then 2 ^ k else 0).testBit i = (decide (i = k) && decide c) := by
  by_cases h : c <;> simp [h, Nat.testBit_two_pow, eq_comm]

theorem isr_status_err_flags_testBit (status msg_err i : Nat) :
    (isr_status_err_flags status msg_err).testBit i
      = (msg_err.testBit i
        || (decide (i = 0) && decide (status &&& I2C_INT_NO_ACK ≠ 0))
        || (decide (i = 1) && decide (status &&& I2C_INT_ARBITRATION_LOST ≠ 0))
        || (decide (i = 5) && decide (status &&& I2C_INT_TX_FIFO_OVERFLOW ≠ 0))) := by
  rw [isr_status_err_flags_eq, Nat.testBit_or, Nat.testBit_or, Nat.testBit_or]
  show (msg_err.testBit i
      || (if status &&& I2C_INT_NO_ACK ≠ 0 then 2 ^ 0 else 0).testBit i
      || (if status &&& I2C_INT_ARBITRATION_LOST ≠ 0 then 2 ^ 1 else 0).testBit i
      || (if status &&& I2C_INT_TX_FIFO_OVERFLOW ≠ 0 then 2 ^ 5 else 0).testBit i) = _
  rw [flag_testBit, flag_testBit, flag_testBit]

theorem isr_status_err_reads_spec (status : Nat) (d : tegra_i2c_dev) (m : Machine) :
    ∃ k, isr_status_err_reads status d m
      = { m with trace := m.trace
            ++ List.replicate k (Event.readl (tegra_i2c_reg_addr d I2C_PACKET_TRANSFER_STATUS)) } := by
  unfold isr_status_err_reads
  by_cases h1 : status &&& I2C_INT_NO_ACK ≠ 0 <;>
    by_cases h2 : status &&& I2C_INT_ARBITRATION_LOST ≠ 0 <;>
    by_cases h3 : status &&& I2C_INT_TX_FIFO_OVERFLOW ≠ 0 <;>
    simp only [h1, h2, h3, ne_eq, if_true, if_false, not_false_eq_true, not_true_eq_false, log]
  · exact ⟨3, by simp [List.replicate]⟩
  · exact ⟨2, by simp [List.replicate]⟩
  · exact ⟨2, by simp [List.replicate]⟩
  · exact ⟨1, by simp [List.replicate]⟩
  · exact ⟨2, by simp [List.replicate]⟩
  · exact ⟨1, by simp [List.replicate]⟩
  · exact ⟨1, by simp [List.replicate]⟩
  · exact ⟨0, by simp [List.replicate]⟩

theorem isr_of_status_err (e : IrqEnv) (d : tegra_i2c_dev) (m : Machine)
    (hse : u32 e.int_status
      &&& (I2C_INT_NO_ACK ||| I2C_INT_ARBITRATION_LOST ||| I2C_INT_TX_FIFO_OVERFLOW) ≠ 0) :
    tegra_i2c_isr e d m
      = some (tegra_i2c_isr_err (u32 e.int_status)
          { d with msg_err := isr_status_err_flags (u32 e.int_status) d.msg_err }
          (isr_status_err_reads (u32 e.int_status) d
            (log (Event.readl (tegra_i2c_reg_addr d I2C_INT_STATUS)) m))) := by
  have h0 : u32 e.int_status ≠ 0 := by
    intro h
    rw [h] at hse
    exact hse (Nat.zero_and _)
  unfold tegra_i2c_isr
  simp only [i2c_readl_env, hw_readl_env]
  rw [if_neg h0, if_pos hse]

/-! ## The data path of the interrupt handler -/

theorem writes_to_eq_nil (a : Nat) (evs : List Event) (h : ∀ v, Event.writel v a ∉ evs) :
    writes_to a evs = [] := by
  unfold writes_to
  rw [List.filterMap_eq_nil_iff]
  intro ev hev
  cases ev with
  | writel v x =>
    by_cases hx : x = a
    · subst hx
      exact absurd hev (h v)
    · simp [hx]
  | _ => rfl

/-- The actions of one fill: the two lock operations, one read of the FIFO
status, reads of memory, and writes to the transmit FIFO only. -/
theorem fill_tx_fifo_shapes (s : Nat) (d : tegra_i2c_dev) (m : Machine) :
    ∃ m1 evs,
      tegra_i2c_fill_tx_fifo s d m
        = some ({ d with
            msg_buf_remaining := d.msg_buf_remaining
              - min d.msg_buf_remaining (4 * tx_fifo_avail_of s),
            msg_buf := d.msg_buf
              + words_to_transfer d.msg_buf_remaining (tx_fifo_avail_of s) * 4 }, m1)
      ∧ m1.trace = m.trace ++ evs
      ∧ ∀ ev ∈ evs, ev = Event.spin_lock_irqsave ∨ ev = Event.spin_unlock_irqrestore
          ∨ ev = Event.readl (tegra_i2c_reg_addr d I2C_FIFO_STATUS)
          ∨ (∃ a k, ev = Event.mem_read a k)
          ∨ ∃ v, ev = Event.writel v (tegra_i2c_reg_addr d I2C_TX_FIFO) := by
  obtain ⟨m1, evs, hx, ht, -⟩ := fill_tx_fifo_spec s d m
  refine ⟨m1, evs, hx, ht, ?_⟩
  obtain ⟨evw, htw, -, -, -, -, hsw⟩ := writesl_spec d I2C_TX_FIFO
    (words_to_transfer d.msg_buf_remaining (tx_fifo_avail_of s)) d.msg_buf
    (log (Event.readl (tegra_i2c_reg_addr d I2C_FIFO_STATUS)) (log Event.spin_lock_irqsave m))
  rw [fill_tx_fifo_eq] at hx
  generalize i2c_writesl d d.msg_buf I2C_TX_FIFO
    (words_to_transfer d.msg_buf_remaining (tx_fifo_avail_of s))
    (log (Event.readl (tegra_i2c_reg_addr d I2C_FIFO_STATUS))
      (log Event.spin_lock_irqsave m)) = m0 at hx htw
  have ht0 : m0.trace = m.trace
      ++ ([Event.spin_lock_irqsave, Event.readl (tegra_i2c_reg_addr d I2C_FIFO_STATUS)]
        ++ evw) := by
    rw [htw]
    simp [log]
  split at hx
  · simp only [Option.some.injEq, Prod.mk.injEq] at hx
    have ht1 : m1.trace = m.trace
        ++ ([Event.spin_lock_irqsave, Event.readl (tegra_i2c_reg_addr d I2C_FIFO_STATUS)]
          ++ evw ++ [Event.mem_read (d.msg_buf
              + words_to_transfer d.msg_buf_remaining (tx_fifo_avail_of s) * 4)
            (d.msg_buf_remaining
              - words_to_transfer d.msg_buf_remaining (tx_fifo_avail_of s) * 4),
            Event.writel (u32 (memcpy_to_word (u32 s) m0.mem (d.msg_buf
              + words_to_transfer d.msg_buf_remaining (tx_fifo_avail_of s) * 4)
              (d.msg_buf_remaining
                - words_to_transfer d.msg_buf_remaining (tx_fifo_avail_of s) * 4)))
              (tegra_i2c_reg_addr d I2C_TX_FIFO),
            Event.spin_unlock_irqrestore]) := by
      rw [← hx.2]
      simp [log, i2c_writel, hw_writel, ht0]
    have he := List.append_cancel_left (ht.symm.trans ht1)
    rw [he]
    intro ev hev
    simp only [List.mem_append, List.mem_cons, List.mem_singleton, List.not_mem_nil,
      or_false] at hev
    rcases hev with (((h | h) | h) | h | h | h)
    · exact Or.inl h
    · exact Or.inr (Or.inr (Or.inl h))
    · rcases hsw ev h with h' | h'
      · exact Or.inr (Or.inr (Or.inr (Or.inl h')))
      · exact Or.inr (Or.inr (Or.inr (Or.inr h')))
    · exact Or.inr (Or.inr (Or.inr (Or.inl ⟨_, _, h⟩)))
    · exact Or.inr (Or.inr (Or.inr (Or.inr ⟨_, h⟩)))
    · exact Or.inr (Or.inl h)
  · simp only [Option.some.injEq, Prod.mk.injEq] at hx
    have ht1 : m1.trace = m.trace
        ++ ([Event.spin_lock_irqsave, Event.readl (tegra_i2c_reg_addr d I2C_FIFO_STATUS)]
          ++ evw ++ [Event.spin_unlock_irqrestore]) := by
      rw [← hx.2]
      simp [log, ht0]
    have he := List.append_cancel_left (ht.symm.trans ht1)
    rw [he]
    intro ev hev
    simp only [List.mem_append, List.mem_cons, List.mem_singleton, List.not_mem_nil,
      or_false] at hev
    rcases hev with (((h | h) | h) | h)
    · exact Or.inl h
    · exact Or.inr (Or.inr (Or.inl h))
    · rcases hsw ev h with h' | h'
      · exact Or.inr (Or.inr (Or.inr (Or.inl h')))
      · exact Or.inr (Or.inr (Or.inr (Or.inr h')))
    · exact Or.inr (Or.inl h)

/-- The actions of one drain: one read of the FIFO status, reads of the
receive FIFO, and writes of memory. -/
theorem empty_rx_fifo_shapes (s : Nat) (ws : List Nat) (d : tegra_i2c_dev) (m : Machine) :
    ∃ m1 evs,
      tegra_i2c_empty_rx_fifo s ws d m
        = some ({ d with
            msg_buf_remaining := d.msg_buf_remaining
              - min d.msg_buf_remaining (4 * rx_fifo_avail_of s),
            msg_buf := d.msg_buf
              + words_to_transfer d.msg_buf_remaining (rx_fifo_avail_of s) * 4 }, m1)
      ∧ m1.trace = m.trace ++ evs
      ∧ ∀ ev ∈ evs, ev = Event.readl (tegra_i2c_reg_addr d I2C_FIFO_STATUS)
          ∨ ev = Event.readl (tegra_i2c_reg_addr d I2C_RX_FIFO)
          ∨ ∃ a k, ev = Event.mem_write a k := by
  obtain ⟨m1, evs, hx, ht, -⟩ := empty_rx_fifo_spec s ws d m
  refine ⟨m1, evs, hx, ht, ?_⟩
  obtain ⟨evw, htw, -, -, -, hsw⟩ := readsl_spec d I2C_RX_FIFO
    (words_to_transfer d.msg_buf_remaining (rx_fifo_avail_of s)) d.msg_buf ws
    (log (Event.readl (tegra_i2c_reg_addr d I2C_FIFO_STATUS)) m)
  rw [empty_rx_fifo_eq] at hx
  generalize i2c_readsl d d.msg_buf I2C_RX_FIFO ws
    (words_to_transfer d.msg_buf_remaining (rx_fifo_avail_of s))
    (log (Event.readl (tegra_i2c_reg_addr d I2C_FIFO_STATUS)) m) = m0 at hx htw
  have ht0 : m0.trace = m.trace
      ++ ([Event.readl (tegra_i2c_reg_addr d I2C_FIFO_STATUS)] ++ evw) := by
    rw [htw]
    simp [log]
  split at hx
  · simp only [Option.some.injEq, Prod.mk.injEq] at hx
    have ht1 : m1.trace = m.trace
        ++ ([Event.readl (tegra_i2c_reg_addr d I2C_FIFO_STATUS)] ++ evw
          ++ [Event.readl (tegra_i2c_reg_addr d I2C_RX_FIFO),
            Event.mem_write (d.msg_buf
              + words_to_transfer d.msg_buf_remaining (rx_fifo_avail_of s) * 4)
            (d.msg_buf_remaining
              - words_to_transfer d.msg_buf_remaining (rx_fifo_avail_of s) * 4)]) := by
      rw [← hx.2]
      simp [log, ht0]
    have he := List.append_cancel_left (ht.symm.trans ht1)
    rw [he]
    intro ev hev
    simp only [List.mem_append, List.mem_cons, List.mem_singleton, List.not_mem_nil,
      or_false] at hev
    rcases hev with ((h | h) | h | h)
    · exact Or.inl h
    · rcases hsw ev h with h' | h'
      · exact Or.inr (Or.inr h')
      · exact Or.inr (Or.inl h')
    · exact Or.inr (Or.inl h)
    · exact Or.inr (Or.inr ⟨_, _, h⟩)
  · simp only [Option.some.injEq, Prod.mk.injEq] at hx
    have ht1 : m1.trace = m.trace
        ++ ([Event.readl (tegra_i2c_reg_addr d I2C_FIFO_STATUS)] ++ evw) := by
      rw [← hx.2]
      exact ht0
    have he := List.append_cancel_left (ht.symm.trans ht1)
    rw [he]
    intro ev hev
    simp only [List.mem_append, List.mem_cons, List.mem_singleton, List.not_mem_nil,
      or_false] at hev
    rcases hev with (h | h)
    · exact Or.inl h
    · rcases hsw ev h with h' | h'
      · exact Or.inr (Or.inr h')
      · exact Or.inr (Or.inl h')

/-- The handler on an invocation that takes none of its error exits and
does not stop at the `BUG()` for a receive request with no byte remaining:
it returns, and the state before the acknowledgement differs from `d` only in
the buffer cursor and count. -/
theorem isr_normal_path (e : IrqEnv) (d : tegra_i2c_dev) (m : Machine)
    (hs0 : u32 e.int_status ≠ 0)
    (hse : u32 e.int_status
      &&& (I2C_INT_NO_ACK ||| I2C_INT_ARBITRATION_LOST ||| I2C_INT_TX_FIFO_OVERFLOW) = 0)
    (hun : ¬ (u32 e.i2c_status &&& I2C_STATUS_BUSY ≠ 0
      ∧ u32 e.int_status = I2C_INT_TX_FIFO_DATA_REQ
      ∧ d.msg_read ≠ 0 ∧ d.msg_buf_remaining ≠ 0))
    (hbug : ¬ (d.msg_read ≠ 0 ∧ u32 e.int_status &&& I2C_INT_RX_FIFO_DATA_REQ ≠ 0
      ∧ d.msg_buf_remaining = 0)) :
    ∃ R b m3 evs,
      tegra_i2c_isr e d m
        = (if u32 e.int_status &&& I2C_INT_PACKET_XFER_COMPLETE ≠ 0 ∧ R = 0 then
            some (complete { d with msg_buf_remaining := R, msg_buf := b }
              (if d.is_dvc then
                dvc_writel DVC_STATUS_I2C_DONE_INTR DVC_STATUS
                  (i2c_writel d (u32 e.int_status) I2C_INT_STATUS m3)
              else i2c_writel d (u32 e.int_status) I2C_INT_STATUS m3))
          else
            some ({ d with msg_buf_remaining := R, msg_buf := b },
              (if d.is_dvc then
                dvc_writel DVC_STATUS_I2C_DONE_INTR DVC_STATUS
                  (i2c_writel d (u32 e.int_status) I2C_INT_STATUS m3)
              else i2c_writel d (u32 e.int_status) I2C_INT_STATUS m3)))
      ∧ m3.trace = m.trace ++ evs
      ∧ (∀ v, Event.writel v (tegra_i2c_reg_addr d I2C_INT_STATUS) ∉ evs)
      ∧ Event.complete ∉ evs
      ∧ R = (if d.msg_read ≠ 0 ∧ u32 e.int_status &&& I2C_INT_RX_FIFO_DATA_REQ ≠ 0 then
              d.msg_buf_remaining - min d.msg_buf_remaining (4 * rx_fifo_avail_of e.fifo_status)
            else if d.msg_read = 0 ∧ u32 e.int_status &&& I2C_INT_TX_FIFO_DATA_REQ ≠ 0 then
              d.msg_buf_remaining - min d.msg_buf_remaining (4 * tx_fifo_avail_of e.fifo_status)
            else d.msg_buf_remaining) := by
  have hadr : tegra_i2c_reg_addr d I2C_INT_STATUS ≠ tegra_i2c_reg_addr d I2C_TX_FIFO
      ∧ tegra_i2c_reg_addr d I2C_INT_STATUS ≠ tegra_i2c_reg_addr d I2C_INT_MASK := by
    rcases isr_reg_addrs d with ⟨-, a1, a2, a3, -⟩ | ⟨-, a1, a2, a3, -⟩ <;>
      rw [a1, a2, a3] <;> decide
  unfold tegra_i2c_isr
  simp only [i2c_readl_env, hw_readl_env]
  rw [if_neg hs0, if_neg (not_not.mpr hse), if_neg hun]
  by_cases hA : d.msg_read ≠ 0 ∧ u32 e.int_status &&& I2C_INT_RX_FIFO_DATA_REQ ≠ 0
  · have hR : d.msg_buf_remaining ≠ 0 := fun h => hbug ⟨hA.1, hA.2, h⟩
    obtain ⟨m2, evs, hx, ht, hsh⟩ := empty_rx_fifo_shapes e.fifo_status e.rx_words d
      (log (Event.readl (tegra_i2c_reg_addr d I2C_STATUS))
        (log (Event.readl (tegra_i2c_reg_addr d I2C_INT_STATUS)) m))
    rw [if_pos hA, if_pos hR, hx]
    simp only []
    rw [if_neg (fun h => hA.1 h.1)]
    refine ⟨_, _, m2, [Event.readl (tegra_i2c_reg_addr d I2C_INT_STATUS),
      Event.readl (tegra_i2c_reg_addr d I2C_STATUS)] ++ evs, rfl, ?_, ?_, ?_, ?_⟩
    · rw [ht]
      simp [log]
    · intro v hv
      simp only [List.mem_append, List.mem_cons, List.mem_singleton, List.not_mem_nil,
        or_false, reduceCtorEq, false_or] at hv
      rcases hsh _ hv with h | h | ⟨_, _, h⟩ <;> exact absurd h (by simp)
    · intro hv
      simp only [List.mem_append, List.mem_cons, List.mem_singleton, List.not_mem_nil,
        or_false, reduceCtorEq, false_or] at hv
      rcases hsh _ hv with h | h | ⟨_, _, h⟩ <;> exact absurd h (by simp)
    · rw [if_pos hA]
  · rw [if_neg hA]
    simp only []
    by_cases hB : d.msg_read = 0 ∧ u32 e.int_status &&& I2C_INT_TX_FIFO_DATA_REQ ≠ 0
    · rw [if_pos hB]
      by_cases hR : d.msg_buf_remaining ≠ 0
      · obtain ⟨m2, evs, hx, ht, hsh⟩ := fill_tx_fifo_shapes e.fifo_status d
          (log (Event.readl (tegra_i2c_reg_addr d I2C_STATUS))
            (log (Event.readl (tegra_i2c_reg_addr d I2C_INT_STATUS)) m))
        rw [if_pos hR, hx]
        simp only []
        refine ⟨_, _, m2, [Event.readl (tegra_i2c_reg_addr d I2C_INT_STATUS),
          Event.readl (tegra_i2c_reg_addr d I2C_STATUS)] ++ evs, rfl, ?_, ?_, ?_, ?_⟩
        · rw [ht]
          simp [log]
        · intro v hv
          simp only [List.mem_append, List.mem_cons, List.mem_singleton, List.not_mem_nil,
            or_false, reduceCtorEq, false_or] at hv
          rcases hsh _ hv with h | h | h | ⟨_, _, h⟩ | ⟨_, h⟩
          · exact absurd h (by simp)
          · exact absurd h (by simp)
          · exact absurd h (by simp)
          · exact absurd h (by simp)
          · simp only [Event.writel.injEq] at h
            exact hadr.1 h.2
        · intro hv
          simp only [List.mem_append, List.mem_cons, List.mem_singleton, List.not_mem_nil,
            or_false, reduceCtorEq, false_or] at hv
          rcases hsh _ hv with h | h | h | ⟨_, _, h⟩ | ⟨_, h⟩ <;> exact absurd h (by simp)
        · rw [if_neg hA, if_pos hB]
      · rw [if_neg hR]
        simp only []
        refine ⟨d.msg_buf_remaining, d.msg_buf,
          tegra_i2c_mask_irq d I2C_INT_TX_FIFO_DATA_REQ
            (log (Event.readl (tegra_i2c_reg_addr d I2C_STATUS))
              (log (Event.readl (tegra_i2c_reg_addr d I2C_INT_STATUS)) m)),
          [Event.readl (tegra_i2c_reg_addr d I2C_INT_STATUS),
            Event.readl (tegra_i2c_reg_addr d I2C_STATUS),
            Event.readl (tegra_i2c_reg_addr d I2C_INT_MASK),
            Event.writel (u32 (m.regs (tegra_i2c_reg_addr d I2C_INT_MASK)
              &&& not32 I2C_INT_TX_FIFO_DATA_REQ)) (tegra_i2c_reg_addr d I2C_INT_MASK)],
          rfl, ?_, ?_, ?_, ?_⟩
        · simp [tegra_i2c_mask_irq, i2c_readl, hw_readl, i2c_writel, hw_writel, log]
        · intro v hv
          simp only [List.mem_cons, List.mem_singleton, List.not_mem_nil,
            or_false, reduceCtorEq, false_or, Event.writel.injEq] at hv
          exact hadr.2 hv.2
        · simp
        · rw [if_neg hA, if_pos hB]
          have : d.msg_buf_remaining = 0 := not_not.mp hR
          omega
    · rw [if_neg hB]
      refine ⟨d.msg_buf_remaining, d.msg_buf,
        log (Event.readl (tegra_i2c_reg_addr d I2C_STATUS))
          (log (Event.readl (tegra_i2c_reg_addr d I2C_INT_STATUS)) m),
        [Event.readl (tegra_i2c_reg_addr d I2C_INT_STATUS),
          Event.readl (tegra_i2c_reg_addr d I2C_STATUS)], rfl, ?_, ?_, ?_, ?_⟩
      · simp [log]
      · simp
      · simp
      · rw [if_neg hA, if_neg hB]

/-- The acknowledgement at the end of the handler's normal path (source
lines 647-650). -/
theorem isr_ack_spec (d : tegra_i2c_dev) (status : Nat) (m3 : Machine) :
    ∃ aevs,
      (if d.is_dvc then
          dvc_writel DVC_STATUS_I2C_DONE_INTR DVC_STATUS
            (i2c_writel d status I2C_INT_STATUS m3)
        else i2c_writel d status I2C_INT_STATUS m3).trace = m3.trace ++ aevs
      ∧ (if d.is_dvc then
          dvc_writel DVC_STATUS_I2C_DONE_INTR DVC_STATUS
            (i2c_writel d status I2C_INT_STATUS m3)
        else i2c_writel d status I2C_INT_STATUS m3).regs (tegra_i2c_reg_addr d I2C_INT_STATUS)
          = u32 status
      ∧ writes_to (tegra_i2c_reg_addr d I2C_INT_STATUS) aevs = [u32 status]
      ∧ Event.complete ∉ aevs := by
  rcases isr_reg_addrs d with ⟨hd, -, a2, -⟩ | ⟨hd, -, a2, -⟩
  · refine ⟨[Event.writel (u32 status) 0x68], ?_⟩
    rw [a2]
    simp [i2c_writel, hw_writel, hd, a2, writes_to]
  · refine ⟨[Event.writel (u32 status) 0x78, Event.writel (u32 DVC_STATUS_I2C_DONE_INTR) 0x0c],
      ?_⟩
    rw [a2]
    simp [i2c_writel, hw_writel, dvc_writel, DVC_STATUS, hd, a2, writes_to]

/-! ## The masking after the wait -/

theorem mask_irq_spec (d : tegra_i2c_dev) (mask : Nat) (m : Machine) :
    (tegra_i2c_mask_irq d mask m).regs (tegra_i2c_reg_addr d I2C_INT_MASK)
        = u32 (m.regs (tegra_i2c_reg_addr d I2C_INT_MASK) &&& not32 mask)
    ∧ (tegra_i2c_mask_irq d mask m).trace
        = m.trace ++ [Event.readl (tegra_i2c_reg_addr d I2C_INT_MASK),
            Event.writel (u32 (m.regs (tegra_i2c_reg_addr d I2C_INT_MASK) &&& not32 mask))
              (tegra_i2c_reg_addr d I2C_INT_MASK)] := by
  simp [tegra_i2c_mask_irq, i2c_readl, hw_readl, i2c_writel, hw_writel, log]

theorem unmask_irq_spec (d : tegra_i2c_dev) (mask : Nat) (m : Machine) :
    (tegra_i2c_unmask_irq d mask m).regs (tegra_i2c_reg_addr d I2C_INT_MASK)
      = u32 (m.regs (tegra_i2c_reg_addr d I2C_INT_MASK) ||| mask) := by
  simp [tegra_i2c_unmask_irq, i2c_readl, hw_readl, i2c_writel, hw_writel, log]

/-- The masking after the wait (source lines 769-772): the interrupt mask
register is read and written back with the bits of `int_mask` cleared, and
on the DVC variant `DVC_CTRL_REG3` is read and written back with the
done-interrupt enable cleared. -/
theorem xfer_msg_mask_spec (int_mask : Nat) (d : tegra_i2c_dev) (m : Machine) :
    (xfer_msg_mask int_mask d m).regs (tegra_i2c_reg_addr d I2C_INT_MASK)
        = u32 (m.regs (tegra_i2c_reg_addr d I2C_INT_MASK) &&& not32 int_mask)
    ∧ (xfer_msg_mask int_mask d m).trace
        = m.trace ++ [Event.readl (tegra_i2c_reg_addr d I2C_INT_MASK),
            Event.writel (u32 (m.regs (tegra_i2c_reg_addr d I2C_INT_MASK) &&& not32 int_mask))
              (tegra_i2c_reg_addr d I2C_INT_MASK)]
          ++ (if d.is_dvc then
                [Event.readl DVC_CTRL_REG3,
                  Event.writel (u32 (m.regs DVC_CTRL_REG3
                    &&& not32 DVC_CTRL_REG3_I2C_DONE_INTR_EN)) DVC_CTRL_REG3]
              else [])
    ∧ (d.is_dvc = true →
        (xfer_msg_mask int_mask d m).regs DVC_CTRL_REG3
          = u32 (m.regs DVC_CTRL_REG3 &&& not32 DVC_CTRL_REG3_I2C_DONE_INTR_EN)) := by
  obtain ⟨h1, h2⟩ := mask_irq_spec d int_mask m
  rcases isr_reg_addrs d with ⟨hd, a1, -⟩ | ⟨hd, a1, -⟩
  · unfold xfer_msg_mask
    simp only [hd, Bool.false_eq_true, if_false, List.append_nil, false_implies, and_true]
    exact ⟨h1, h2⟩
  · have hne : tegra_i2c_reg_addr d I2C_INT_MASK ≠ DVC_CTRL_REG3 := by
      rw [a1]
      decide
    have hr8 : (tegra_i2c_mask_irq d int_mask m).regs DVC_CTRL_REG3 = m.regs DVC_CTRL_REG3 :=
      mask_irq_regs d int_mask m _ (Ne.symm hne)
    unfold xfer_msg_mask
    simp only [hd, if_true, true_implies]
    refine ⟨?_, ?_, ?_⟩
    · rw [dvc_mask_irq_regs _ _ _ hne, h1]
    · simp [dvc_i2c_mask_irq, dvc_readl, hw_readl, dvc_writel, hw_writel, log, h2, hr8]
    · simp [dvc_i2c_mask_irq, dvc_readl, hw_readl, dvc_writel, hw_writel, log, hr8]

/-- The set `xfer_msg_arm` unmasks is the one computed from the message flags
and the bytes left after the priming fill. -/
theorem arm_unmask_set {msg : i2c_msg} {stop : Int} {env : XferMsgEnv} {d da : tegra_i2c_dev}
    {m ma : Machine} {int_mask : Nat}
    (h : xfer_msg_arm msg stop env d m = some ((da, ma), int_mask)) :
    int_mask = xfer_msg_int_mask msg da.msg_buf_remaining := by
  unfold xfer_msg_arm at h
  simp only [] at h
  split at h
  · exact absurd h (by simp)
  · simp only [Option.some.injEq, Prod.mk.injEq] at h
    obtain ⟨⟨h1, h2⟩, h3⟩ := h
    subst h1
    exact h3.symm

/-- With no handler invocation during the wait, the wait returns 0 and
leaves the state as it was armed. -/
theorem wait_no_irqs {irqs : List IrqEnv} {da db : tegra_i2c_dev} {ma mb : Machine}
    (hi : irqs = [])
    (h : wait_for_completion_timeout irqs da ma = some ((db, mb), 0)) :
    db = da ∧ mb = ma := by
  subst hi
  unfold wait_for_completion_timeout run_isrs at h
  simp only [] at h
  split at h
  · simp at h
  · simp only [Option.some.injEq, Prod.mk.injEq, and_true] at h
    exact ⟨h.1.symm, h.2.symm⟩

theorem unmask_then_mask (x k : Nat) :
    u32 (u32 (x ||| k) &&& not32 k) = u32 (x &&& not32 k) := by
  apply Nat.eq_of_testBit_eq
  intro i
  unfold not32 u32
  rw [show (4294967296 : Nat) = 2 ^ 32 by norm_num, show (4294967295 : Nat) = 2 ^ 32 - 1 by norm_num]
  simp only [Nat.testBit_and, Nat.testBit_or, Nat.testBit_mod_two_pow, Nat.testBit_xor,
    Nat.testBit_two_pow_sub_one]
  by_cases hi : i < 32 <;> cases x.testBit i <;> cases k.testBit i <;> simp [hi]

/-! ## Initialisation twice in succession -/

/-- From every controller and machine state, and with every behaviour of
the reset and of the flush, `tegra_i2c_init` leaves the mode register at
new-master-FSM | packet-mode | debounce count 2 (0x2C00), the interrupt mask
at 0, the clock divisor at 3 and the controller clock at
`last_bus_clk_rate * 8` (in `unsigned long` arithmetic), and the FIFO trigger
levels at the corresponding bits of the word last written to the
FIFO-control offset; a second `tegra_i2c_init` right after the first leaves
exactly the same values and the same driver state.  On every controller that
is not at once the DVC variant and a slave with a non-zero slave address the
trigger levels are TX 7 and RX 0. -/
theorem init_values_fixed_and_idempotent (e1 e2 : InitEnv) (d : tegra_i2c_dev)
    (m : Machine) :
    init_obs d (tegra_i2c_init e1 d m).1.2
        = (I2C_CNFG_NEW_MASTER_FSM ||| I2C_CNFG_PACKET_MODE_EN
              ||| (0x2 <<< I2C_CNFG_DEBOUNCE_CNT_SHIFT),
            0, 3,
            (init_fifo_control_word d >>> I2C_FIFO_CONTROL_TX_TRIG_SHIFT) &&& 7,
            (init_fifo_control_word d >>> I2C_FIFO_CONTROL_RX_TRIG_SHIFT) &&& 7,
            u32 (d.last_bus_clk_rate * 8))
    ∧ init_obs (tegra_i2c_init e1 d m).1.1
          (tegra_i2c_init e2 (tegra_i2c_init e1 d m).1.1 (tegra_i2c_init e1 d m).1.2).1.2
        = init_obs d (tegra_i2c_init e1 d m).1.2
    ∧ (tegra_i2c_init e2 (tegra_i2c_init e1 d m).1.1 (tegra_i2c_init e1 d m).1.2).1.1
        = (tegra_i2c_init e1 d m).1.1
    ∧ (¬ (d.is_dvc = true ∧ d.is_slave = true ∧ d.slave_addr ≠ 0) →
        init_obs d (tegra_i2c_init e1 d m).1.2
          = (0x2C00, 0, 3, 7, 0, u32 (d.last_bus_clk_rate * 8)))
    ∧ (d.last_bus_clk_rate * 8 < 4294967296 →
        u32 (d.last_bus_clk_rate * 8) = 8 * d.last_bus_clk_rate) := by
  have hd1 : (tegra_i2c_init e1 d m).1.1 = { d with irq_disabled := false } := init_dev e1 d m
  refine ⟨init_obs_after_init e1 d m, ?_, ?_, ?_, ?_⟩
  · rw [init_obs_after_init e2, init_obs_after_init e1, hd1]
    rfl
  · rw [init_dev, hd1]
  · intro hcfg
    rw [init_obs_after_init e1 d m]
    unfold init_fifo_control_word
    rw [if_neg hcfg]
    rfl
  · intro hlt
    rw [u32_of_lt hlt, Nat.mul_comm]

/-! ## The claims -/

/-- C2, as stated, fails: the value `tegra_i2c_xfer` returns does not carry
the count of completed messages.  A batch of 3 whose 2nd message loses
arbitration (1 message completed) and a batch of 3 whose 1st message does
(none completed) both return `-EIO` and nothing else, so no function of the
returned value gives the count. -/
theorem C2_counterexample :
    xfer_calls busA [msgW, msgW, msgW] (envArbLostAt 1) dev0 machine0
        = some [⟨0, msgW, 0, 0⟩, ⟨1, msgW, 0, - EIO⟩]
    ∧ xfer_ret busA [msgW, msgW, msgW] (envArbLostAt 1) dev0 machine0 = some (- EIO)
    ∧ xfer_calls busA [msgW, msgW, msgW] (envArbLostAt 0) dev0 machine0
        = some [⟨0, msgW, 0, - EIO⟩]
    ∧ xfer_ret busA [msgW, msgW, msgW] (envArbLostAt 0) dev0 machine0 = some (- EIO)
    ∧ ¬ ∃ count : Option Int → Nat,
        count (xfer_ret busA [msgW, msgW, msgW] (envArbLostAt 1) dev0 machine0) = 1
        ∧ count (xfer_ret busA [msgW, msgW, msgW] (envArbLostAt 0) dev0 machine0) = 0 := by
  have h1 : xfer_ret busA [msgW, msgW, msgW] (envArbLostAt 1) dev0 machine0 = some (- EIO) := by
    decide
  have h0 : xfer_ret busA [msgW, msgW, msgW] (envArbLostAt 0) dev0 machine0 = some (- EIO) := by
    decide
  refine ⟨by decide, h1, by decide, h0, ?_⟩
  rintro ⟨count, hc1, hc0⟩
  rw [h1] at hc1
  rw [h0] at hc0
  omega

/-- C2, amended: when call `k` of `tegra_i2c_xfer_msg` is the first that
returns a non-zero value, `tegra_i2c_xfer` makes no further call (the calls
are those for indices `0 .. k`) and returns exactly that value, the error
code; the count `k` of completed messages is not part of what it returns. -/
theorem C2_first_failure_ends_batch_returns_error (i2c_bus : tegra_i2c_bus)
    (msgs : List i2c_msg) (env : Nat → XferMsgEnv) (d : tegra_i2c_dev) (m : Machine)
    (cs : List XferCall) (k : Nat) (c : XferCall)
    (hc : xfer_calls i2c_bus msgs env d m = some cs)
    (hk : cs.get? k = some c) (hfail : c.ret ≠ 0)
    (_hfirst : ∀ j c1, j < k → cs.get? j = some c1 → c1.ret = 0) :
    cs.length = k + 1
    ∧ cs.map (fun c => c.index) = List.range (k + 1)
    ∧ cs.map (fun c => c.msg) = msgs.take (k + 1)
    ∧ xfer_ret i2c_bus msgs env d m = some c.ret := by
  obtain ⟨r, hr, hrc⟩ := xfer_calls_inv hc
  cases hs : d.is_suspended with
  | true =>
    rw [xfer_of_suspended i2c_bus msgs env d m hs] at hr
    simp only [Option.some.injEq] at hr
    rw [← hrc, ← hr] at hk
    exact absurd hk (by simp)
  | false =>
    obtain ⟨d1, m1, l, hl, hlc, hlr⟩ := xfer_running hs hr
    rw [← hrc, hlc] at hk
    obtain ⟨h1, h2⟩ := xfer_loop_failure i2c_bus _ env msgs 0 d1 m1 l k c hl hk hfail
    obtain ⟨h3, hm, _, _, _⟩ := xfer_loop_calls i2c_bus _ env msgs 0 d1 m1 l hl
    refine ⟨by rw [← hrc, hlc, h1], ?_, ?_, ?_⟩
    · have h4 := congrArg (List.map Prod.fst) h3
      simp only [List.map_map] at h4
      rw [← hrc, hlc, List.range_eq_range', ← h1]
      simpa [Function.comp_def] using h4
    · rw [← hrc, hlc, hm, h1]
    · unfold xfer_ret
      rw [hr, Option.map_some', hlr, h2, if_pos hfail]

theorem C2_witness :
    xfer_calls busA [msgW, msgW, msgW] (envArbLostAt 1) dev0 machine0
        = some [⟨0, msgW, 0, 0⟩, ⟨1, msgW, 0, - EIO⟩]
    ∧ ([⟨0, msgW, 0, 0⟩, ⟨1, msgW, 0, - EIO⟩] : List XferCall).length = 1 + 1
    ∧ ([⟨0, msgW, 0, 0⟩, ⟨1, msgW, 0, - EIO⟩] : List XferCall).map (fun c => c.index)
        = List.range (1 + 1)
    ∧ ([⟨0, msgW, 0, 0⟩, ⟨1, msgW, 0, - EIO⟩] : List XferCall).map (fun c => c.msg)
        = [msgW, msgW, msgW].take (1 + 1)
    ∧ xfer_ret busA [msgW, msgW, msgW] (envArbLostAt 1) dev0 machine0
        = some (⟨1, msgW, 0, - EIO⟩ : XferCall).ret :=
  ⟨by decide,
    C2_first_failure_ends_batch_returns_error busA [msgW, msgW, msgW] (envArbLostAt 1) dev0
      machine0 [⟨0, msgW, 0, 0⟩, ⟨1, msgW, 0, - EIO⟩] 1 ⟨1, msgW, 0, - EIO⟩ (by decide)
      (by decide) (by decide)
      (by
        intro j c1 hj hget
        have hj0 : j = 0 := by omega
        subst hj0
        simp only [List.get?_cons_zero, Option.some.injEq] at hget
        rw [← hget])⟩

/-- C3: when the wait of a message was signalled with `msg_err` equal to the
NACK flag, `tegra_i2c_xfer_msg` runs `tegra_i2c_init` on the state the wait
left and returns 0 if the message has `I2C_M_IGNORE_NAK`, `-EREMOTEIO`
otherwise. -/
theorem C3_nack_reinit_then_tolerate_or_remoteio (i2c_bus : tegra_i2c_bus) (msg : i2c_msg)
    (stop : Int) (env : XferMsgEnv) (d : tegra_i2c_dev) (m : Machine) (ret : Nat)
    (hout : xfer_msg_wait_outcome msg stop env d m = some (ret, I2C_ERR_NO_ACK))
    (hret : ret ≠ 0) :
    ∃ dw mw,
      xfer_msg_wait msg stop env d (tegra_i2c_flush_fifos env.flush d m).1 = some ((dw, mw), ret)
      ∧ tegra_i2c_xfer_msg i2c_bus msg stop env d m
        = some ((tegra_i2c_init env.init dw mw).1,
            if msg.flags &&& I2C_M_IGNORE_NAK ≠ 0 then 0 else - EREMOTEIO) := by
  obtain ⟨hlen, dw, mw, hw, herr⟩ := wait_of_outcome hout
  refine ⟨dw, mw, hw, ?_⟩
  rw [xfer_msg_of_wait i2c_bus hlen hw]
  have hne : dw.msg_err ≠ I2C_ERR_NONE := by
    rw [herr]
    decide
  have hna : ¬ (dw.msg_err = I2C_ERR_ARBITRATION_LOST
      ∧ recovery_reports_success i2c_bus dw = true) := by
    rw [herr]
    intro h
    exact absurd h.1 (by decide)
  rw [result_error_reinit i2c_bus msg env ret dw mw hret hne hna]
  have hm : (xfer_msg_recover i2c_bus dw mw).1 = mw := by
    unfold xfer_msg_recover
    rw [if_neg (by rw [herr]; decide)]
  rw [hm, if_pos herr]

theorem C3_witness :
    xfer_msg_wait_outcome { msgW with flags := I2C_M_IGNORE_NAK } 1 (envIrq I2C_INT_NO_ACK)
        dev0 machine0 = some (1, I2C_ERR_NO_ACK)
    ∧ ∃ dw mw,
      xfer_msg_wait { msgW with flags := I2C_M_IGNORE_NAK } 1 (envIrq I2C_INT_NO_ACK) dev0
        (tegra_i2c_flush_fifos (envIrq I2C_INT_NO_ACK).flush dev0 machine0).1 = some ((dw, mw), 1)
      ∧ tegra_i2c_xfer_msg busA { msgW with flags := I2C_M_IGNORE_NAK } 1
          (envIrq I2C_INT_NO_ACK) dev0 machine0
        = some ((tegra_i2c_init (envIrq I2C_INT_NO_ACK).init dw mw).1,
            if ({ msgW with flags := I2C_M_IGNORE_NAK } : i2c_msg).flags &&& I2C_M_IGNORE_NAK ≠ 0
            then 0 else - EREMOTEIO) :=
  ⟨by decide, C3_nack_reinit_then_tolerate_or_remoteio busA _ 1 _ dev0 machine0 1
    (by decide) (by decide)⟩

/-- C4, as stated, fails: with a recovery callback that reports success, a
message that lost arbitration returns `-EAGAIN` and no peripheral reset, the
first action of every `tegra_i2c_init`, happens during the call. -/
theorem C4_counterexample :
    xfer_msg_wait_outcome msgW 1 (envIrq I2C_INT_ARBITRATION_LOST) devRecover machine0
        = some (1, I2C_ERR_ARBITRATION_LOST)
    ∧ (xfer_msg_obs busA msgW 1 (envIrq I2C_INT_ARBITRATION_LOST) devRecover machine0).map
        (fun o => (o.1, decide (Event.periph_reset_assert ∈ o.2))) = some (- EAGAIN, false)
    ∧ ¬ ∃ e d m ret, tegra_i2c_xfer_msg busA msgW 1 (envIrq I2C_INT_ARBITRATION_LOST)
        devRecover machine0 = some ((tegra_i2c_init e d m).1, ret) := by
  refine ⟨by decide, by decide, ?_⟩
  rintro ⟨e, d, m, ret, h⟩
  have h1 : (tegra_i2c_xfer_msg busA msgW 1 (envIrq I2C_INT_ARBITRATION_LOST)
      devRecover machine0).map (fun r => decide (Event.periph_reset_assert ∈ r.1.2.trace))
      = some true := by
    rw [h]
    simp [init_logs_reset]
  have h2 : (tegra_i2c_xfer_msg busA msgW 1 (envIrq I2C_INT_ARBITRATION_LOST)
      devRecover machine0).map (fun r => decide (Event.periph_reset_assert ∈ r.1.2.trace))
      = some false := by decide
  rw [h2] at h1
  exact absurd h1 (by decide)

/-- C4, amended: when the wait of a message was signalled with the
arbitration-lost flag in `msg_err`, `tegra_i2c_xfer_msg` runs
`tegra_i2c_init` before returning unless `msg_err` is exactly that flag and
the configured recovery callback reports success; in that one case it returns
`-EAGAIN` right after the callback, without `tegra_i2c_init`. -/
theorem C4_arbitration_lost_reinit_unless_recovered (i2c_bus : tegra_i2c_bus) (msg : i2c_msg)
    (stop : Int) (env : XferMsgEnv) (d : tegra_i2c_dev) (m : Machine) (ret err : Nat)
    (hout : xfer_msg_wait_outcome msg stop env d m = some (ret, err))
    (hret : ret ≠ 0) (harb : err &&& I2C_ERR_ARBITRATION_LOST ≠ 0) :
    ∃ dw mw,
      xfer_msg_wait msg stop env d (tegra_i2c_flush_fifos env.flush d m).1 = some ((dw, mw), ret)
      ∧ (¬ (err = I2C_ERR_ARBITRATION_LOST ∧ recovery_reports_success i2c_bus d = true) →
          ∃ r, tegra_i2c_xfer_msg i2c_bus msg stop env d m
            = some ((tegra_i2c_init env.init dw (xfer_msg_recover i2c_bus dw mw).1).1, r))
      ∧ (err = I2C_ERR_ARBITRATION_LOST ∧ recovery_reports_success i2c_bus d = true →
          tegra_i2c_xfer_msg i2c_bus msg stop env d m
            = some ((dw, log (Event.arb_recovery i2c_bus.scl_gpio i2c_bus.sda_gpio) mw),
                - EAGAIN)) := by
  obtain ⟨hlen, dw, mw, hw, herr⟩ := wait_of_outcome hout
  have hcfg := recovery_reports_success_congr i2c_bus (xfer_msg_wait_cfg hw)
  refine ⟨dw, mw, hw, ?_, ?_⟩
  · intro hno
    have hne : dw.msg_err ≠ I2C_ERR_NONE := by
      rw [herr]
      intro h0
      rw [h0] at harb
      exact harb (by decide)
    rw [xfer_msg_of_wait i2c_bus hlen hw,
      result_error_reinit i2c_bus msg env ret dw mw hret hne (by rw [herr, hcfg]; exact hno)]
    exact ⟨_, rfl⟩
  · intro hyes
    rw [xfer_msg_of_wait i2c_bus hlen hw,
      result_recovered i2c_bus msg env ret dw mw hret (by rw [herr]; exact hyes.1)
        (by rw [hcfg]; exact hyes.2)]

theorem C4_witness :
    xfer_msg_wait_outcome msgW 1 (envIrq I2C_INT_ARBITRATION_LOST) dev0 machine0
        = some (1, I2C_ERR_ARBITRATION_LOST)
    ∧ ∃ dw mw,
      xfer_msg_wait msgW 1 (envIrq I2C_INT_ARBITRATION_LOST) dev0
        (tegra_i2c_flush_fifos (envIrq I2C_INT_ARBITRATION_LOST).flush dev0 machine0).1
        = some ((dw, mw), 1)
      ∧ (¬ (I2C_ERR_ARBITRATION_LOST = I2C_ERR_ARBITRATION_LOST
            ∧ recovery_reports_success busA dev0 = true) →
          ∃ r, tegra_i2c_xfer_msg busA msgW 1 (envIrq I2C_INT_ARBITRATION_LOST) dev0 machine0
            = some ((tegra_i2c_init (envIrq I2C_INT_ARBITRATION_LOST).init dw
                (xfer_msg_recover busA dw mw).1).1, r))
      ∧ (I2C_ERR_ARBITRATION_LOST = I2C_ERR_ARBITRATION_LOST
            ∧ recovery_reports_success busA dev0 = true →
          tegra_i2c_xfer_msg busA msgW 1 (envIrq I2C_INT_ARBITRATION_LOST) dev0 machine0
            = some ((dw, log (Event.arb_recovery busA.scl_gpio busA.sda_gpio) mw), - EAGAIN)) :=
  ⟨by decide, C4_arbitration_lost_reinit_unless_recovered busA msgW 1 _ dev0 machine0 1 _
    (by decide) (by decide) (by decide)⟩

/-- C5: when the wait of a message was signalled with `msg_err` equal to the
arbitration-lost flag and a recovery callback is configured,
`tegra_i2c_xfer_msg` calls it with the bus's `scl_gpio` and `sda_gpio` right
after the wait; if it returns 0 the call returns `-EAGAIN` at once, otherwise
`tegra_i2c_init` is run and the call returns `-EIO`. -/
theorem C5_recovery_called_with_bus_lines (i2c_bus : tegra_i2c_bus) (msg : i2c_msg)
    (stop : Int) (env : XferMsgEnv) (d : tegra_i2c_dev) (m : Machine) (ret : Nat)
    (recover : Int → Int → Int)
    (hout : xfer_msg_wait_outcome msg stop env d m = some (ret, I2C_ERR_ARBITRATION_LOST))
    (hret : ret ≠ 0) (hcb : d.arb_recovery = some recover) :
    ∃ dw mw,
      xfer_msg_wait msg stop env d (tegra_i2c_flush_fifos env.flush d m).1 = some ((dw, mw), ret)
      ∧ (recover i2c_bus.scl_gpio i2c_bus.sda_gpio = 0 →
          tegra_i2c_xfer_msg i2c_bus msg stop env d m
            = some ((dw, log (Event.arb_recovery i2c_bus.scl_gpio i2c_bus.sda_gpio) mw),
                - EAGAIN))
      ∧ (recover i2c_bus.scl_gpio i2c_bus.sda_gpio ≠ 0 →
          tegra_i2c_xfer_msg i2c_bus msg stop env d m
            = some ((tegra_i2c_init env.init dw
                (log (Event.arb_recovery i2c_bus.scl_gpio i2c_bus.sda_gpio) mw)).1, - EIO)) := by
  obtain ⟨hlen, dw, mw, hw, herr⟩ := wait_of_outcome hout
  have hcfg : dw.arb_recovery = d.arb_recovery :=
    congrArg (fun c => c.2.2.2.1) (xfer_msg_wait_cfg hw)
  have hcb1 : dw.arb_recovery = some recover := hcfg.trans hcb
  have hm : (xfer_msg_recover i2c_bus dw mw).1
      = log (Event.arb_recovery i2c_bus.scl_gpio i2c_bus.sda_gpio) mw := by
    unfold xfer_msg_recover
    rw [if_pos herr, hcb1]
  refine ⟨dw, mw, hw, ?_, ?_⟩
  · intro h0
    have hs : recovery_reports_success i2c_bus dw = true := by
      unfold recovery_reports_success
      rw [hcb1]
      exact decide_eq_true h0
    rw [xfer_msg_of_wait i2c_bus hlen hw, result_recovered i2c_bus msg env ret dw mw hret herr hs]
  · intro h1
    have hs : ¬ (dw.msg_err = I2C_ERR_ARBITRATION_LOST
        ∧ recovery_reports_success i2c_bus dw = true) := by
      intro h
      have h2 := h.2
      unfold recovery_reports_success at h2
      rw [hcb1] at h2
      exact h1 (of_decide_eq_true h2)
    have hne : dw.msg_err ≠ I2C_ERR_NONE := by
      rw [herr]
      decide
    rw [xfer_msg_of_wait i2c_bus hlen hw,
      result_error_reinit i2c_bus msg env ret dw mw hret hne hs, hm, herr]
    rfl

theorem C5_witness :
    xfer_msg_wait_outcome msgW 1 (envIrq I2C_INT_ARBITRATION_LOST) devRecover machine0
        = some (1, I2C_ERR_ARBITRATION_LOST)
    ∧ ∃ dw mw,
      xfer_msg_wait msgW 1 (envIrq I2C_INT_ARBITRATION_LOST) devRecover
        (tegra_i2c_flush_fifos (envIrq I2C_INT_ARBITRATION_LOST).flush devRecover machine0).1
        = some ((dw, mw), 1)
      ∧ ((fun _ _ => (0 : Int)) busA.scl_gpio busA.sda_gpio = 0 →
          tegra_i2c_xfer_msg busA msgW 1 (envIrq I2C_INT_ARBITRATION_LOST) devRecover machine0
            = some ((dw, log (Event.arb_recovery busA.scl_gpio busA.sda_gpio) mw), - EAGAIN))
      ∧ ((fun _ _ => (0 : Int)) busA.scl_gpio busA.sda_gpio ≠ 0 →
          tegra_i2c_xfer_msg busA msgW 1 (envIrq I2C_INT_ARBITRATION_LOST) devRecover machine0
            = some ((tegra_i2c_init (envIrq I2C_INT_ARBITRATION_LOST).init dw
                (log (Event.arb_recovery busA.scl_gpio busA.sda_gpio) mw)).1, - EIO)) :=
  ⟨by decide, C5_recovery_called_with_bus_lines busA msgW 1 _ devRecover machine0 1
    (fun _ _ => 0) (by decide) (by decide) rfl⟩

/-- C6: when the wait of a message was signalled with a non-empty `msg_err`
that is not exactly the NACK flag, and not exactly the arbitration-lost flag
with a recovery callback that reports success, `tegra_i2c_xfer_msg` runs
`tegra_i2c_init` and returns `-EAGAIN` if the unexpected-status flag is set
and `-EIO` otherwise. -/
theorem C6_other_errors_reinit_then_eagain_or_eio (i2c_bus : tegra_i2c_bus) (msg : i2c_msg)
    (stop : Int) (env : XferMsgEnv) (d : tegra_i2c_dev) (m : Machine) (ret err : Nat)
    (hout : xfer_msg_wait_outcome msg stop env d m = some (ret, err))
    (hret : ret ≠ 0) (hne : err ≠ I2C_ERR_NONE) (hnack : err ≠ I2C_ERR_NO_ACK)
    (hrec : ¬ (err = I2C_ERR_ARBITRATION_LOST ∧ recovery_reports_success i2c_bus d = true)) :
    ∃ dw mw,
      xfer_msg_wait msg stop env d (tegra_i2c_flush_fifos env.flush d m).1 = some ((dw, mw), ret)
      ∧ tegra_i2c_xfer_msg i2c_bus msg stop env d m
        = some ((tegra_i2c_init env.init dw (xfer_msg_recover i2c_bus dw mw).1).1,
            if err &&& I2C_ERR_UNEXPECTED_STATUS ≠ 0 then - EAGAIN else - EIO) := by
  obtain ⟨hlen, dw, mw, hw, herr⟩ := wait_of_outcome hout
  have hcfg := recovery_reports_success_congr i2c_bus (xfer_msg_wait_cfg hw)
  refine ⟨dw, mw, hw, ?_⟩
  rw [xfer_msg_of_wait i2c_bus hlen hw,
    result_error_reinit i2c_bus msg env ret dw mw hret (by rw [herr]; exact hne)
      (by rw [herr, hcfg]; exact hrec),
    herr, if_neg hnack]

theorem C6_witness :
    xfer_msg_wait_outcome msgW 1 (envIrq (I2C_INT_NO_ACK ||| I2C_INT_TX_FIFO_OVERFLOW))
        dev0 machine0 = some (1, I2C_ERR_NO_ACK ||| I2C_INT_TX_FIFO_OVERFLOW)
    ∧ ∃ dw mw,
      xfer_msg_wait msgW 1 (envIrq (I2C_INT_NO_ACK ||| I2C_INT_TX_FIFO_OVERFLOW)) dev0
        (tegra_i2c_flush_fifos (envIrq (I2C_INT_NO_ACK ||| I2C_INT_TX_FIFO_OVERFLOW)).flush
          dev0 machine0).1 = some ((dw, mw), 1)
      ∧ tegra_i2c_xfer_msg busA msgW 1 (envIrq (I2C_INT_NO_ACK ||| I2C_INT_TX_FIFO_OVERFLOW))
          dev0 machine0
        = some ((tegra_i2c_init (envIrq (I2C_INT_NO_ACK ||| I2C_INT_TX_FIFO_OVERFLOW)).init dw
              (xfer_msg_recover busA dw mw).1).1,
            if (I2C_ERR_NO_ACK ||| I2C_INT_TX_FIFO_OVERFLOW) &&& I2C_ERR_UNEXPECTED_STATUS ≠ 0
            then - EAGAIN else - EIO) :=
  ⟨by decide, C6_other_errors_reinit_then_eagain_or_eio busA msgW 1 _ dev0 machine0 1 _
    (by decide) (by decide) (by decide) (by decide) (by decide)⟩

/-- C7: when the wait of a non-empty message times out (`ret = 0`),
`tegra_i2c_xfer_msg` masks the interrupt set it had unmasked, runs
`tegra_i2c_init` and returns `-ETIMEDOUT`.  The set is the one computed from
the message (`xfer_msg_int_mask`); the unmasking wrote the interrupt mask
register ORed with it, and the masking (source lines 769-772) reads the
register and writes it back with exactly these bits cleared, so that no bit
of the set is left in it, and on the DVC variant clears the done-interrupt
enable in `DVC_CTRL_REG3` the same way; these register accesses come before
the re-initialisation in the trace.  With no handler invocation at all
during the wait, the mask register after the masking is its value before
the unmasking with the bits of the set cleared.  The register window the
function leaves is the one a `tegra_i2c_init` leaves from any state of a
controller with the same configuration, under the same hardware behaviour.
Whatever the hardware does during a fresh init, the configuration,
interrupt-mask and clock-divisor registers hold the same values as after it,
and so does the FIFO-control register when the FIFO flush ends the same
way. -/
theorem C7_timeout_masks_reinits_returns_etimedout (i2c_bus : tegra_i2c_bus) (msg : i2c_msg)
    (stop : Int) (env : XferMsgEnv) (d : tegra_i2c_dev) (m : Machine) (err : Nat)
    (hout : xfer_msg_wait_outcome msg stop env d m = some (0, err)) :
    ∃ da mp int_mask db mb,
      xfer_msg_arm msg stop env d (tegra_i2c_flush_fifos env.flush d m).1
        = some ((da, tegra_i2c_unmask_irq da int_mask mp), int_mask)
      ∧ wait_for_completion_timeout env.irqs da (tegra_i2c_unmask_irq da int_mask mp)
        = some ((db, mb), 0)
      ∧ tegra_i2c_xfer_msg i2c_bus msg stop env d m
        = some ((tegra_i2c_init env.init db
            (log (Event.mem_read msg.buf 1) (xfer_msg_mask int_mask db mb))).1, - ETIMEDOUT)
      ∧ int_mask = xfer_msg_int_mask msg da.msg_buf_remaining
      ∧ (tegra_i2c_unmask_irq da int_mask mp).regs (tegra_i2c_reg_addr d I2C_INT_MASK)
          = u32 (mp.regs (tegra_i2c_reg_addr d I2C_INT_MASK) ||| int_mask)
      ∧ (xfer_msg_mask int_mask db mb).regs (tegra_i2c_reg_addr d I2C_INT_MASK)
          = u32 (mb.regs (tegra_i2c_reg_addr d I2C_INT_MASK) &&& not32 int_mask)
      ∧ (xfer_msg_mask int_mask db mb).regs (tegra_i2c_reg_addr d I2C_INT_MASK) &&& int_mask = 0
      ∧ (xfer_msg_mask int_mask db mb).trace
          = mb.trace ++ [Event.readl (tegra_i2c_reg_addr d I2C_INT_MASK),
              Event.writel (u32 (mb.regs (tegra_i2c_reg_addr d I2C_INT_MASK) &&& not32 int_mask))
                (tegra_i2c_reg_addr d I2C_INT_MASK)]
            ++ (if d.is_dvc then
                  [Event.readl DVC_CTRL_REG3,
                    Event.writel (u32 (mb.regs DVC_CTRL_REG3
                      &&& not32 DVC_CTRL_REG3_I2C_DONE_INTR_EN)) DVC_CTRL_REG3]
                else [])
      ∧ (d.is_dvc = true →
          (xfer_msg_mask int_mask db mb).regs DVC_CTRL_REG3
            &&& DVC_CTRL_REG3_I2C_DONE_INTR_EN = 0)
      ∧ (∃ ievs, (tegra_i2c_init env.init db
            (log (Event.mem_read msg.buf 1) (xfer_msg_mask int_mask db mb))).1.2.trace
          = (xfer_msg_mask int_mask db mb).trace ++ Event.mem_read msg.buf 1 :: ievs
          ∧ Event.periph_reset_assert ∈ ievs)
      ∧ (env.irqs = [] →
          db = da ∧ mb = tegra_i2c_unmask_irq da int_mask mp
          ∧ (xfer_msg_mask int_mask db mb).regs (tegra_i2c_reg_addr d I2C_INT_MASK)
              = u32 (mp.regs (tegra_i2c_reg_addr d I2C_INT_MASK) &&& not32 int_mask))
      ∧ (∀ (d1 : tegra_i2c_dev) (m1 : Machine), cfg d1 = cfg d →
          (tegra_i2c_init env.init db
            (log (Event.mem_read msg.buf 1) (xfer_msg_mask int_mask db mb))).1.2.regs
          = (tegra_i2c_init env.init d1 m1).1.2.regs)
      ∧ ∀ (e1 : InitEnv) (d1 : tegra_i2c_dev) (m1 : Machine), cfg d1 = cfg d →
          (∀ r, r = I2C_CNFG ∨ r = I2C_INT_MASK ∨ r = I2C_CLK_DIVISOR →
            (tegra_i2c_init env.init db
              (log (Event.mem_read msg.buf 1) (xfer_msg_mask int_mask db mb))).1.2.regs
              (tegra_i2c_reg_addr d r)
            = (tegra_i2c_init e1 d1 m1).1.2.regs (tegra_i2c_reg_addr d r))
          ∧ (e1.flush.completes = env.init.flush.completes →
            (tegra_i2c_init env.init db
              (log (Event.mem_read msg.buf 1) (xfer_msg_mask int_mask db mb))).1.2.regs
              (tegra_i2c_reg_addr d I2C_FIFO_CONTROL)
            = (tegra_i2c_init e1 d1 m1).1.2.regs (tegra_i2c_reg_addr d I2C_FIFO_CONTROL)) := by
  obtain ⟨hlen, dw, mw, hw, _⟩ := wait_of_outcome hout
  obtain ⟨da, ma, int_mask, mb, ha, hwt, hmw⟩ := xfer_msg_wait_inv hw
  obtain ⟨mp, hmp⟩ := arm_unmasks ha
  have hset := arm_unmask_set ha
  have hcfga := arm_cfg ha
  subst hmp hmw
  have hcfg := xfer_msg_wait_cfg hw
  have hdvc : dw.is_dvc = d.is_dvc := congrArg (fun c => c.1) hcfg
  have hdvca : da.is_dvc = d.is_dvc := congrArg (fun c => c.1) hcfga
  obtain ⟨k1, k2, k3⟩ := xfer_msg_mask_spec int_mask dw mb
  rw [reg_addr_of_is_dvc hdvc] at k1 k2
  rw [hdvc] at k2 k3
  have ku := unmask_irq_spec da int_mask mp
  rw [reg_addr_of_is_dvc hdvca] at ku
  obtain ⟨ievs, hit, hir⟩ := init_events env.init dw
    (log (Event.mem_read msg.buf 1) (xfer_msg_mask int_mask dw mb))
  refine ⟨da, mp, int_mask, dw, mb, ha, hwt, ?_, hset, ku, k1, ?_, k2, ?_, ?_, ?_, ?_, ?_⟩
  · rw [xfer_msg_of_wait i2c_bus hlen hw]
    unfold xfer_msg_result
    simp only [if_true]
  · rw [k1]
    exact masked_bits_clear _ _
  · intro hd
    rw [k3 hd]
    exact masked_bits_clear _ _
  · refine ⟨ievs, ?_, hir⟩
    rw [hit]
    simp [log]
  · intro hirq
    obtain ⟨e1, e2⟩ := wait_no_irqs hirq hwt
    refine ⟨e1, e2, ?_⟩
    rw [k1, e2, ku]
    exact unmask_then_mask _ _
  · intro d1 m1 h1
    exact (init_regs_congr env.init _ _ (h1.trans hcfg.symm)).symm
  · intro e1 d1 m1 h1
    have hdvc1 : d1.is_dvc = d.is_dvc := congrArg (fun c => c.1) h1
    refine ⟨fun r hr => ?_, fun hf => ?_⟩
    · rw [init_regs_eq_hw, init_regs_eq_hw, ← reg_addr_of_is_dvc hdvc r,
        init_hw_regs _ _ _ r hr, reg_addr_of_is_dvc hdvc r, ← reg_addr_of_is_dvc hdvc1 r,
        init_hw_regs _ _ _ r hr]
    · rw [init_regs_eq_hw, init_regs_eq_hw, ← reg_addr_of_is_dvc hdvc I2C_FIFO_CONTROL]
      exact (init_hw_regs_fifo_control_congr env.init e1 _ m1 (h1.trans hcfg.symm) hf).symm

theorem C7_witness :
    xfer_msg_wait_outcome msgW 1 envSilent dev0 machine0 = some (0, 0)
    ∧ (tegra_i2c_xfer_msg busA msgW 1 envSilent dev0 machineOnes).map
        (fun r => (r.2, writes_to 0x64 (new_events machineOnes r.1.2)))
      = some (- ETIMEDOUT, [0xFFFFFFFF, 0xFFFFFFD3, 0])
    ∧ (tegra_i2c_xfer_msg busA msgW 1 envSilent devDvc machineOnes).map
        (fun r => (r.2, writes_to 0x74 (new_events machineOnes r.1.2),
          writes_to 0x08 (new_events machineOnes r.1.2)))
      = some (- ETIMEDOUT, [0xFFFFFFFF, 0xFFFFFFD3, 0], [0xFFFFFFFF, 0xBFFFFFFF, 0x4000000])
    ∧ ∃ da mp int_mask db mb,
      xfer_msg_arm msgW 1 envSilent dev0 (tegra_i2c_flush_fifos envSilent.flush dev0 machine0).1
        = some ((da, tegra_i2c_unmask_irq da int_mask mp), int_mask)
      ∧ wait_for_completion_timeout envSilent.irqs da (tegra_i2c_unmask_irq da int_mask mp)
        = some ((db, mb), 0)
      ∧ tegra_i2c_xfer_msg busA msgW 1 envSilent dev0 machine0
        = some ((tegra_i2c_init envSilent.init db
            (log (Event.mem_read msgW.buf 1) (xfer_msg_mask int_mask db mb))).1, - ETIMEDOUT)
      ∧ int_mask = xfer_msg_int_mask msgW da.msg_buf_remaining
      ∧ (tegra_i2c_unmask_irq da int_mask mp).regs (tegra_i2c_reg_addr dev0 I2C_INT_MASK)
          = u32 (mp.regs (tegra_i2c_reg_addr dev0 I2C_INT_MASK) ||| int_mask)
      ∧ (xfer_msg_mask int_mask db mb).regs (tegra_i2c_reg_addr dev0 I2C_INT_MASK)
          = u32 (mb.regs (tegra_i2c_reg_addr dev0 I2C_INT_MASK) &&& not32 int_mask)
      ∧ (xfer_msg_mask int_mask db mb).regs (tegra_i2c_reg_addr dev0 I2C_INT_MASK)
          &&& int_mask = 0
      ∧ (xfer_msg_mask int_mask db mb).trace
          = mb.trace ++ [Event.readl (tegra_i2c_reg_addr dev0 I2C_INT_MASK),
              Event.writel
                (u32 (mb.regs (tegra_i2c_reg_addr dev0 I2C_INT_MASK) &&& not32 int_mask))
                (tegra_i2c_reg_addr dev0 I2C_INT_MASK)]
            ++ (if dev0.is_dvc then
                  [Event.readl DVC_CTRL_REG3,
                    Event.writel (u32 (mb.regs DVC_CTRL_REG3
                      &&& not32 DVC_CTRL_REG3_I2C_DONE_INTR_EN)) DVC_CTRL_REG3]
                else [])
      ∧ (dev0.is_dvc = true →
          (xfer_msg_mask int_mask db mb).regs DVC_CTRL_REG3
            &&& DVC_CTRL_REG3_I2C_DONE_INTR_EN = 0)
      ∧ (∃ ievs, (tegra_i2c_init envSilent.init db
            (log (Event.mem_read msgW.buf 1) (xfer_msg_mask int_mask db mb))).1.2.trace
          = (xfer_msg_mask int_mask db mb).trace ++ Event.mem_read msgW.buf 1 :: ievs
          ∧ Event.periph_reset_assert ∈ ievs)
      ∧ (envSilent.irqs = [] →
          db = da ∧ mb = tegra_i2c_unmask_irq da int_mask mp
          ∧ (xfer_msg_mask int_mask db mb).regs (tegra_i2c_reg_addr dev0 I2C_INT_MASK)
              = u32 (mp.regs (tegra_i2c_reg_addr dev0 I2C_INT_MASK) &&& not32 int_mask))
      ∧ (∀ (d1 : tegra_i2c_dev) (m1 : Machine), cfg d1 = cfg dev0 →
          (tegra_i2c_init envSilent.init db
            (log (Event.mem_read msgW.buf 1) (xfer_msg_mask int_mask db mb))).1.2.regs
          = (tegra_i2c_init envSilent.init d1 m1).1.2.regs)
      ∧ ∀ (e1 : InitEnv) (d1 : tegra_i2c_dev) (m1 : Machine), cfg d1 = cfg dev0 →
          (∀ r, r = I2C_CNFG ∨ r = I2C_INT_MASK ∨ r = I2C_CLK_DIVISOR →
            (tegra_i2c_init envSilent.init db
              (log (Event.mem_read msgW.buf 1) (xfer_msg_mask int_mask db mb))).1.2.regs
              (tegra_i2c_reg_addr dev0 r)
            = (tegra_i2c_init e1 d1 m1).1.2.regs (tegra_i2c_reg_addr dev0 r))
          ∧ (e1.flush.completes = envSilent.init.flush.completes →
            (tegra_i2c_init envSilent.init db
              (log (Event.mem_read msgW.buf 1) (xfer_msg_mask int_mask db mb))).1.2.regs
              (tegra_i2c_reg_addr dev0 I2C_FIFO_CONTROL)
            = (tegra_i2c_init e1 d1 m1).1.2.regs (tegra_i2c_reg_addr dev0 I2C_FIFO_CONTROL)) :=
  ⟨by decide, by decide, by decide,
    C7_timeout_masks_reinits_returns_etimedout busA msgW 1 envSilent dev0 machine0 0
      (by decide)⟩

/-- C8: for a message of length 0, `tegra_i2c_xfer_msg` returns `-EINVAL`
with the driver structure untouched (so the bookkeeping fields keep their
values) and the machine as the FIFO flush left it: the actions appended are
the flush's accesses to `I2C_FIFO_CONTROL` only, none is a write to the
transmit FIFO or to the interrupt mask, and the interrupt mask register holds
what it held. -/
theorem C8_zero_length_rejected_after_flush (i2c_bus : tegra_i2c_bus) (msg : i2c_msg)
    (stop : Int) (env : XferMsgEnv) (d : tegra_i2c_dev) (m : Machine) (hlen : msg.len = 0) :
    tegra_i2c_xfer_msg i2c_bus msg stop env d m
      = some ((d, (tegra_i2c_flush_fifos env.flush d m).1), - EINVAL)
    ∧ (∃ evs, (tegra_i2c_flush_fifos env.flush d m).1.trace = m.trace ++ evs
        ∧ (∀ e ∈ evs, e = Event.readl (tegra_i2c_reg_addr d I2C_FIFO_CONTROL)
            ∨ ∃ v, e = Event.writel v (tegra_i2c_reg_addr d I2C_FIFO_CONTROL))
        ∧ (∀ v, Event.writel v (tegra_i2c_reg_addr d I2C_TX_FIFO) ∉ evs)
        ∧ (∀ v, Event.writel v (tegra_i2c_reg_addr d I2C_INT_MASK) ∉ evs))
    ∧ (tegra_i2c_flush_fifos env.flush d m).1.regs (tegra_i2c_reg_addr d I2C_INT_MASK)
        = m.regs (tegra_i2c_reg_addr d I2C_INT_MASK) := by
  obtain ⟨htx, hmask⟩ := fifo_control_apart d
  have hev : ∀ e ∈ (Event.readl (tegra_i2c_reg_addr d I2C_FIFO_CONTROL)
        :: Event.writel (u32 (m.regs (tegra_i2c_reg_addr d I2C_FIFO_CONTROL) |||
            (I2C_FIFO_CONTROL_TX_FLUSH ||| I2C_FIFO_CONTROL_RX_FLUSH)))
            (tegra_i2c_reg_addr d I2C_FIFO_CONTROL)
        :: List.replicate (env.flush.busy_polls + 1)
            (Event.readl (tegra_i2c_reg_addr d I2C_FIFO_CONTROL))),
      e = Event.readl (tegra_i2c_reg_addr d I2C_FIFO_CONTROL)
        ∨ ∃ v, e = Event.writel v (tegra_i2c_reg_addr d I2C_FIFO_CONTROL) := by
    intro e he
    rcases List.mem_cons.mp he with h | h
    · exact Or.inl h
    · rcases List.mem_cons.mp h with h | h
      · exact Or.inr ⟨_, h⟩
      · exact Or.inl (List.eq_of_mem_replicate h)
  refine ⟨?_, ⟨_, flush_trace env.flush d m, hev, ?_, ?_⟩, flush_regs_other _ _ _ _ hmask⟩
  · unfold tegra_i2c_xfer_msg
    simp only [if_pos hlen]
  · intro v hmem
    rcases hev _ hmem with h | ⟨w, h⟩
    · exact absurd h (by simp)
    · simp only [Event.writel.injEq] at h
      exact htx h.2
  · intro v hmem
    rcases hev _ hmem with h | ⟨w, h⟩
    · exact absurd h (by simp)
    · simp only [Event.writel.injEq] at h
      exact hmask h.2

theorem C8_witness :
    ({ msgW with len := 0 } : i2c_msg).len = 0
    ∧ (tegra_i2c_xfer_msg busA { msgW with len := 0 } 1 envSilent dev0 machine0
      = some ((dev0, (tegra_i2c_flush_fifos envSilent.flush dev0 machine0).1), - EINVAL)
    ∧ (∃ evs, (tegra_i2c_flush_fifos envSilent.flush dev0 machine0).1.trace
          = machine0.trace ++ evs
        ∧ (∀ e ∈ evs, e = Event.readl (tegra_i2c_reg_addr dev0 I2C_FIFO_CONTROL)
            ∨ ∃ v, e = Event.writel v (tegra_i2c_reg_addr dev0 I2C_FIFO_CONTROL))
        ∧ (∀ v, Event.writel v (tegra_i2c_reg_addr dev0 I2C_TX_FIFO) ∉ evs)
        ∧ (∀ v, Event.writel v (tegra_i2c_reg_addr dev0 I2C_INT_MASK) ∉ evs))
    ∧ (tegra_i2c_flush_fifos envSilent.flush dev0 machine0).1.regs
          (tegra_i2c_reg_addr dev0 I2C_INT_MASK)
        = machine0.regs (tegra_i2c_reg_addr dev0 I2C_INT_MASK)) :=
  ⟨rfl, C8_zero_length_rejected_after_flush busA { msgW with len := 0 } 1 envSilent dev0
    machine0 rfl⟩

/-- C9: on a controller whose `is_suspended` flag is set, `tegra_i2c_xfer`
returns `-EBUSY` having only taken and released the lock: no call of
`tegra_i2c_xfer_msg`, the driver structure (with the cached pin configuration
and clock rate) untouched, the register window, clock and memory untouched,
and no action but the lock and unlock in the trace. -/
theorem C9_suspended_returns_ebusy (i2c_bus : tegra_i2c_bus) (msgs : List i2c_msg)
    (env : Nat → XferMsgEnv) (d : tegra_i2c_dev) (m : Machine) (hs : d.is_suspended = true) :
    tegra_i2c_xfer i2c_bus msgs env d m
      = some ⟨d, { m with trace := m.trace ++ [Event.rt_mutex_lock, Event.rt_mutex_unlock] },
          - EBUSY, []⟩ :=
  xfer_of_suspended i2c_bus msgs env d m hs

theorem C9_witness :
    ({ dev0 with is_suspended := true } : tegra_i2c_dev).is_suspended = true
    ∧ tegra_i2c_xfer busA [msgW, msgW] (fun _ => envSilent) { dev0 with is_suspended := true }
        machine0
      = some ⟨{ dev0 with is_suspended := true },
          { machine0 with
            trace := machine0.trace ++ [Event.rt_mutex_lock, Event.rt_mutex_unlock] },
          - EBUSY, []⟩ :=
  ⟨rfl, C9_suspended_returns_ebusy busA [msgW, msgW] (fun _ => envSilent) _ machine0 rfl⟩

/-- C10: when the wait of a non-empty message was signalled with an empty
`msg_err`, `tegra_i2c_xfer_msg` returns 0 and the state it returns is the one
right after the masking of the interrupt set it had unmasked: nothing runs
after the masking.  The whole call appends only data-path actions to the
trace (no peripheral reset, no clock programming), and the masking neither
writes the configuration, clock-divisor or FIFO-control register nor changes
what they hold. -/
theorem C10_success_returns_without_reinit (i2c_bus : tegra_i2c_bus) (msg : i2c_msg)
    (stop : Int) (env : XferMsgEnv) (d : tegra_i2c_dev) (m : Machine) (ret : Nat)
    (hout : xfer_msg_wait_outcome msg stop env d m = some (ret, I2C_ERR_NONE))
    (hret : ret ≠ 0) :
    ∃ da mp int_mask db mb,
      xfer_msg_arm msg stop env d (tegra_i2c_flush_fifos env.flush d m).1
        = some ((da, tegra_i2c_unmask_irq da int_mask mp), int_mask)
      ∧ wait_for_completion_timeout env.irqs da (tegra_i2c_unmask_irq da int_mask mp)
        = some ((db, mb), ret)
      ∧ tegra_i2c_xfer_msg i2c_bus msg stop env d m
        = some ((db, xfer_msg_mask int_mask db mb), 0)
      ∧ (∃ evs, (xfer_msg_mask int_mask db mb).trace = m.trace ++ evs
          ∧ Event.periph_reset_assert ∉ evs ∧ ∀ rate, Event.clk_set_rate rate ∉ evs)
      ∧ (∃ evs, (xfer_msg_mask int_mask db mb).trace = mb.trace ++ evs
          ∧ ∀ r, r = I2C_CNFG ∨ r = I2C_CLK_DIVISOR ∨ r = I2C_FIFO_CONTROL →
            ∀ v, Event.writel v (tegra_i2c_reg_addr db r) ∉ evs)
      ∧ (∀ r, r = I2C_CNFG ∨ r = I2C_CLK_DIVISOR ∨ r = I2C_FIFO_CONTROL →
          (xfer_msg_mask int_mask db mb).regs (tegra_i2c_reg_addr db r)
            = mb.regs (tegra_i2c_reg_addr db r)) := by
  obtain ⟨hlen, dw, mw, hw, herr⟩ := wait_of_outcome hout
  obtain ⟨da, ma, int_mask, mb, ha, hwt, hmw⟩ := xfer_msg_wait_inv hw
  obtain ⟨mp, hmp⟩ := arm_unmasks ha
  subst hmp hmw
  refine ⟨da, mp, int_mask, dw, mb, ha, hwt, ?_, ?_, ?_, ?_⟩
  · rw [xfer_msg_of_wait i2c_bus hlen hw]
    unfold xfer_msg_result
    simp only [if_neg hret, if_pos herr]
  · obtain ⟨evs, ht, hp⟩ := step_trans (step_flush env.flush d m) (step_xfer_msg_wait hw)
    refine ⟨evs, ht, fun hmem => ?_, fun rate hmem => ?_⟩
    · exact absurd (hp _ hmem) (by decide)
    · exact absurd (hp _ hmem) (by simp [Event.is_transfer])
  · obtain ⟨evs, ht, hp⟩ := xfer_msg_mask_trace int_mask dw mb
    refine ⟨evs, ht, fun r hr v hmem => ?_⟩
    obtain ⟨h1, h2⟩ := config_regs_apart dw r hr
    obtain ⟨a, ha1, ha2⟩ := hp _ hmem
    rcases ha2 with h | ⟨w, h⟩
    · exact absurd h (by simp)
    · simp only [Event.writel.injEq] at h
      rcases ha1 with h3 | h3
      · exact h1 (h.2.trans h3)
      · exact h2 (h.2.trans h3)
  · intro r hr
    obtain ⟨h1, h2⟩ := config_regs_apart dw r hr
    exact xfer_msg_mask_regs int_mask dw mb _ h1 h2

theorem C10_witness :
    xfer_msg_wait_outcome msgW 1 (envIrq I2C_INT_PACKET_XFER_COMPLETE) dev0 machine0
        = some (1, I2C_ERR_NONE)
    ∧ ∃ da mp int_mask db mb,
      xfer_msg_arm msgW 1 (envIrq I2C_INT_PACKET_XFER_COMPLETE) dev0
          (tegra_i2c_flush_fifos (envIrq I2C_INT_PACKET_XFER_COMPLETE).flush dev0 machine0).1
        = some ((da, tegra_i2c_unmask_irq da int_mask mp), int_mask)
      ∧ wait_for_completion_timeout (envIrq I2C_INT_PACKET_XFER_COMPLETE).irqs da
          (tegra_i2c_unmask_irq da int_mask mp) = some ((db, mb), 1)
      ∧ tegra_i2c_xfer_msg busA msgW 1 (envIrq I2C_INT_PACKET_XFER_COMPLETE) dev0 machine0
        = some ((db, xfer_msg_mask int_mask db mb), 0)
      ∧ (∃ evs, (xfer_msg_mask int_mask db mb).trace = machine0.trace ++ evs
          ∧ Event.periph_reset_assert ∉ evs ∧ ∀ rate, Event.clk_set_rate rate ∉ evs)
      ∧ (∃ evs, (xfer_msg_mask int_mask db mb).trace = mb.trace ++ evs
          ∧ ∀ r, r = I2C_CNFG ∨ r = I2C_CLK_DIVISOR ∨ r = I2C_FIFO_CONTROL →
            ∀ v, Event.writel v (tegra_i2c_reg_addr db r) ∉ evs)
      ∧ (∀ r, r = I2C_CNFG ∨ r = I2C_CLK_DIVISOR ∨ r = I2C_FIFO_CONTROL →
          (xfer_msg_mask int_mask db mb).regs (tegra_i2c_reg_addr db r)
            = mb.regs (tegra_i2c_reg_addr db r)) :=
  ⟨by decide, C10_success_returns_without_reinit busA msgW 1 _ dev0 machine0 1
    (by decide) (by decide)⟩

/-- C11, as stated, fails in both directions.  A message with
`I2C_M_IGNORE_NAK` whose transfer is not acknowledged returns 0 although
`msg_err` holds the NACK flag when the wait resolves; and a message during
whose wait no interrupt arrives has an empty `msg_err` when the wait resolves
(by timeout) and returns `-ETIMEDOUT`. -/
theorem C11_counterexample :
    msgNak.len ≠ 0
    ∧ xfer_msg_wait_outcome msgNak 1 (envIrq I2C_INT_NO_ACK) dev0 machine0
        = some (1, I2C_ERR_NO_ACK)
    ∧ I2C_ERR_NO_ACK ≠ I2C_ERR_NONE
    ∧ (tegra_i2c_xfer_msg busA msgNak 1 (envIrq I2C_INT_NO_ACK) dev0 machine0).map
        (fun r => r.2) = some 0
    ∧ msgW.len ≠ 0
    ∧ xfer_msg_wait_outcome msgW 1 envSilent dev0 machine0 = some (0, I2C_ERR_NONE)
    ∧ (tegra_i2c_xfer_msg busA msgW 1 envSilent dev0 machine0).map (fun r => r.2)
        = some (- ETIMEDOUT)
    ∧ - ETIMEDOUT ≠ 0 := by
  refine ⟨by decide, by decide, by decide, by decide, by decide, by decide, by decide, by decide⟩

/-- C11, amended: for a non-empty message whose wait resolves with result
`ret` (0 for a timeout) and error flags `err`, `tegra_i2c_xfer_msg` returns,
and it returns 0 exactly when the wait did not time out and either `err` is
empty or `err` is exactly the NACK flag and the message carries
`I2C_M_IGNORE_NAK`. -/
theorem C11_returns_zero_iff_completed_without_error_or_tolerated_nack
    (i2c_bus : tegra_i2c_bus) (msg : i2c_msg) (stop : Int) (env : XferMsgEnv)
    (d : tegra_i2c_dev) (m : Machine) (ret err : Nat)
    (hout : xfer_msg_wait_outcome msg stop env d m = some (ret, err)) :
    msg.len ≠ 0
    ∧ ∃ r, tegra_i2c_xfer_msg i2c_bus msg stop env d m = some r
      ∧ (r.2 = 0 ↔ ret ≠ 0 ∧ (err = I2C_ERR_NONE
          ∨ (err = I2C_ERR_NO_ACK ∧ msg.flags &&& I2C_M_IGNORE_NAK ≠ 0))) := by
  obtain ⟨hlen, dw, mw, hw, herr⟩ := wait_of_outcome hout
  refine ⟨hlen, _, xfer_msg_of_wait i2c_bus hlen hw, ?_⟩
  rw [result_ret, herr]
  obtain ⟨h1, h2, h3, h4, _, _⟩ := neg_errno_ne_zero
  by_cases hret : ret = 0
  · rw [if_pos hret]
    simp [h1, hret]
  · rw [if_neg hret]
    by_cases he : err = I2C_ERR_NONE
    · rw [if_pos he]
      simp [hret, he]
    · rw [if_neg he]
      by_cases hrec : err = I2C_ERR_ARBITRATION_LOST ∧ recovery_reports_success i2c_bus dw = true
      · rw [if_pos hrec]
        have : err ≠ I2C_ERR_NO_ACK := by
          rw [hrec.1]
          decide
        simp [h2, he, this]
      · rw [if_neg hrec]
        by_cases hn : err = I2C_ERR_NO_ACK
        · rw [if_pos hn]
          by_cases hi : msg.flags &&& I2C_M_IGNORE_NAK ≠ 0
          · rw [if_pos hi]
            simp [hret, hn, hi]
          · rw [if_neg hi]
            simp [h3, hi, he]
        · rw [if_neg hn]
          split_ifs <;> simp [h2, h4, he, hn]

theorem C11_witness :
    xfer_msg_wait_outcome msgNak 1 (envIrq I2C_INT_NO_ACK) dev0 machine0
        = some (1, I2C_ERR_NO_ACK)
    ∧ msgNak.len ≠ 0
    ∧ ∃ r, tegra_i2c_xfer_msg busA msgNak 1 (envIrq I2C_INT_NO_ACK) dev0 machine0 = some r
      ∧ (r.2 = 0 ↔ 1 ≠ 0 ∧ (I2C_ERR_NO_ACK = I2C_ERR_NONE
          ∨ (I2C_ERR_NO_ACK = I2C_ERR_NO_ACK ∧ msgNak.flags &&& I2C_M_IGNORE_NAK ≠ 0))) :=
  ⟨by decide,
    C11_returns_zero_iff_completed_without_error_or_tolerated_nack busA msgNak 1
      (envIrq I2C_INT_NO_ACK) dev0 machine0 1 I2C_ERR_NO_ACK (by decide)⟩

/-- C12: let the current message have `L ≥ 1` bytes left at `msg_buf`, and
let `ss` be FIFO-status readings, at least `⌈L/4⌉` of them.
(Transmit.) If each reading reports a free transmit word, the invocations of
`tegra_i2c_fill_tx_fifo`, one per reading, all return and leave
`msg_buf_remaining = 0`; every memory read they make lies inside the `L`
bytes of the buffer, memory is not written, exactly `⌈L/4⌉` words are pushed
to the transmit FIFO, and the first `L` bytes of these words, in
little-endian order, are the buffer bytes.
(Receive.) If each reading reports a filled receive word, the invocations of
`tegra_i2c_empty_rx_fifo` all return and leave `msg_buf_remaining = 0`; every
memory write they make lies inside the `L` bytes of the buffer, the buffer's
`L` bytes are the first `L` bytes of the words popped from the receive FIFO,
and memory outside the buffer is unchanged. -/
theorem C12_fill_and_drain_move_exactly_the_message (d : tegra_i2c_dev) (m : Machine)
    (ss : List Nat) (L : Nat) (hL : 1 ≤ L) (hrem : d.msg_buf_remaining = L)
    (hlen : (L + 3) / 4 ≤ ss.length) :
    ((∀ s ∈ ss, 1 ≤ tx_fifo_avail_of s) →
      ∃ d1 m1, fill_tx_fifo_repeat ss d m = some (d1, m1)
        ∧ d1.msg_buf_remaining = 0
        ∧ (∀ a k, Event.mem_read a k ∈ new_events m m1 →
            d.msg_buf ≤ a ∧ a + k ≤ d.msg_buf + L)
        ∧ (∀ a k, Event.mem_write a k ∉ new_events m m1)
        ∧ m1.mem = m.mem
        ∧ (writes_to (tegra_i2c_reg_addr d I2C_TX_FIFO) (new_events m m1)).length = (L + 3) / 4
        ∧ ∀ j, j < L →
            stream_byte (writes_to (tegra_i2c_reg_addr d I2C_TX_FIFO) (new_events m m1)) j
              = m.mem (d.msg_buf + j) % 256)
    ∧ (∀ fifo, (∀ s ∈ ss, 1 ≤ rx_fifo_avail_of s) →
      ∃ d1 m1, empty_rx_fifo_repeat ss fifo d m = some (d1, m1)
        ∧ d1.msg_buf_remaining = 0
        ∧ (∀ a k, Event.mem_write a k ∈ new_events m m1 →
            d.msg_buf ≤ a ∧ a + k ≤ d.msg_buf + L)
        ∧ (∀ j, j < L → m1.mem (d.msg_buf + j) = stream_byte fifo j)
        ∧ ∀ x, (x < d.msg_buf ∨ d.msg_buf + L ≤ x) → m1.mem x = m.mem x) := by
  refine ⟨?_, ?_⟩
  · intro hs
    obtain ⟨d1, m1, evs, hrun, ht, hm, _, hr, _, hl1, hl2, hb, hrd, hwr⟩ :=
      fill_tx_fifo_repeat_spec ss d m hs
    have h0 : d1.msg_buf_remaining = 0 := by omega
    rw [h0, hrem] at hl1 hl2 hb hrd
    refine ⟨d1, m1, hrun, h0, ?_, ?_, hm, ?_, ?_⟩
    · rw [new_events_of_trace ht]
      exact hrd
    · rw [new_events_of_trace ht]
      exact hwr
    · rw [new_events_of_trace ht]
      omega
    · rw [new_events_of_trace ht]
      exact hb
  · intro fifo hs
    obtain ⟨d1, m1, evs, hrun, ht, hr, _, hm, hwr, _⟩ :=
      empty_rx_fifo_repeat_spec ss fifo d m hs
    have h0 : d1.msg_buf_remaining = 0 := by omega
    rw [h0, hrem] at hm hwr
    refine ⟨d1, m1, hrun, h0, ?_, ?_, ?_⟩
    · rw [new_events_of_trace ht]
      exact hwr
    · intro j hj
      rw [hm, if_pos (by omega)]
      congr 1
      omega
    · intro x hx
      rw [hm, if_neg (by omega)]

theorem C12_witness :
    (∀ s ∈ [0x11, 0x11], 1 ≤ tx_fifo_avail_of s ∧ 1 ≤ rx_fifo_avail_of s)
    ∧ (fill_tx_fifo_repeat [0x11, 0x11] devTx5 machineBuf).map
        (fun r => (r.1.msg_buf_remaining,
          writes_to (tegra_i2c_reg_addr devTx5 I2C_TX_FIFO) (new_events machineBuf r.2)))
        = some (0, [0x44332211, 0xAB])
    ∧ (empty_rx_fifo_repeat [0x11, 0x11] [0x44332211, 0x998877AB] devTx5 machine0).map
        (fun r => (r.1.msg_buf_remaining,
          (List.range 6).map (fun j => r.2.mem (0x1000 + j))))
        = some (0, [0x11, 0x22, 0x33, 0x44, 0xAB, 0])
    ∧ ((∀ s ∈ [0x11, 0x11], 1 ≤ tx_fifo_avail_of s) →
      ∃ d1 m1, fill_tx_fifo_repeat [0x11, 0x11] devTx5 machineBuf = some (d1, m1)
        ∧ d1.msg_buf_remaining = 0
        ∧ (∀ a k, Event.mem_read a k ∈ new_events machineBuf m1 →
            devTx5.msg_buf ≤ a ∧ a + k ≤ devTx5.msg_buf + 5)
        ∧ (∀ a k, Event.mem_write a k ∉ new_events machineBuf m1)
        ∧ m1.mem = machineBuf.mem
        ∧ (writes_to (tegra_i2c_reg_addr devTx5 I2C_TX_FIFO) (new_events machineBuf m1)).length
            = (5 + 3) / 4
        ∧ ∀ j, j < 5 →
            stream_byte (writes_to (tegra_i2c_reg_addr devTx5 I2C_TX_FIFO)
                (new_events machineBuf m1)) j
              = machineBuf.mem (devTx5.msg_buf + j) % 256)
    ∧ (∀ fifo, (∀ s ∈ [0x11, 0x11], 1 ≤ rx_fifo_avail_of s) →
      ∃ d1 m1, empty_rx_fifo_repeat [0x11, 0x11] fifo devTx5 machineBuf = some (d1, m1)
        ∧ d1.msg_buf_remaining = 0
        ∧ (∀ a k, Event.mem_write a k ∈ new_events machineBuf m1 →
            devTx5.msg_buf ≤ a ∧ a + k ≤ devTx5.msg_buf + 5)
        ∧ (∀ j, j < 5 → m1.mem (devTx5.msg_buf + j) = stream_byte fifo j)
        ∧ ∀ x, (x < devTx5.msg_buf ∨ devTx5.msg_buf + 5 ≤ x) → m1.mem x = machineBuf.mem x) :=
  ⟨by decide, by decide, by decide,
    C12_fill_and_drain_move_exactly_the_message devTx5 machineBuf [0x11, 0x11] 5 (by decide) rfl
      (by decide)⟩

/-- C13: `tegra_i2c_fill_tx_fifo` returns for every remaining byte count and
every FIFO-status word; the free-word count it reads is at most 15, it writes
no more words than are free, and afterwards either no free word is left (free
count minus words written is 0) or `msg_buf_remaining` is 0. -/
theorem C13_fill_leaves_no_free_word_or_no_byte (s : Nat) (d : tegra_i2c_dev) (m : Machine) :
    ∃ d1 m1, tegra_i2c_fill_tx_fifo s d m = some (d1, m1)
      ∧ tx_fifo_avail_of s ≤ 15
      ∧ (writes_to (tegra_i2c_reg_addr d I2C_TX_FIFO) (new_events m m1)).length
          ≤ tx_fifo_avail_of s
      ∧ (tx_fifo_avail_of s
            - (writes_to (tegra_i2c_reg_addr d I2C_TX_FIFO) (new_events m m1)).length = 0
          ∨ d1.msg_buf_remaining = 0) := by
  obtain ⟨m1, evs, hx, ht, _, hl, _⟩ := fill_tx_fifo_spec s d m
  refine ⟨_, m1, hx, tx_fifo_avail_of_le s, ?_, ?_⟩
  · rw [new_events_of_trace ht, hl]
    omega
  · rw [new_events_of_trace ht, hl]
    simp only []
    omega

/-- C14: for a message with at least one byte, the first three words
`tegra_i2c_xfer_msg` writes to the transmit FIFO (right after the FIFO flush)
are, as 32-bit values, (1) `PROTOCOL_I2C | cont_id << 12 | 1 << 16`,
(2) `len - 1`, and (3) the OR of the interrupt-enable flag, the repeat-start
flag iff `stop` is 0 (not the final message), the raw address with the
10-bit flag for `I2C_M_TEN` and `addr << 1` otherwise, the continue-on-NACK
flag iff `I2C_M_IGNORE_NAK`, the read flag iff `I2C_M_RD`, and iff high-speed
mode is enabled the high-speed flag with `(hs_master_code & 7) << 12`.  For
values in the range of the C types (`cont_id < 2^20`, 16-bit `addr` and
`len`) the words are exactly these numbers.  For the 7-bit write to 0x50 of
length 3 that is not final, with high-speed off, word 3 is 0x000300A0 and
word 2 is 2. -/
theorem C14_header_words_written_to_tx_fifo (i2c_bus : tegra_i2c_bus) (msg : i2c_msg)
    (stop : Int) (env : XferMsgEnv) (d : tegra_i2c_dev) (m : Machine) (hlen : msg.len ≠ 0) :
    (xfer_msg_headers msg stop d (tegra_i2c_flush_fifos env.flush d m).1).2.trace
        = (tegra_i2c_flush_fifos env.flush d m).1.trace
          ++ [Event.writel (u32 (spec_packet_header d.cont_id))
                (tegra_i2c_reg_addr d I2C_TX_FIFO),
              Event.writel (u32 (spec_payload_size msg.len)) (tegra_i2c_reg_addr d I2C_TX_FIFO),
              Event.writel (u32 (spec_io_header msg.addr msg.flags (decide (stop ≠ 0))
                d.is_high_speed_enable d.hs_master_code)) (tegra_i2c_reg_addr d I2C_TX_FIFO)]
    ∧ (∀ r, tegra_i2c_xfer_msg i2c_bus msg stop env d m = some r →
        (writes_to (tegra_i2c_reg_addr d I2C_TX_FIFO) (new_events m r.1.2)).take 3
          = [u32 (spec_packet_header d.cont_id), u32 (spec_payload_size msg.len),
              u32 (spec_io_header msg.addr msg.flags (decide (stop ≠ 0))
                d.is_high_speed_enable d.hs_master_code)])
    ∧ (d.cont_id < 2 ^ 20 → msg.addr < 2 ^ 16 → msg.len ≤ 2 ^ 16 →
        u32 (spec_packet_header d.cont_id) = spec_packet_header d.cont_id
        ∧ u32 (spec_payload_size msg.len) = msg.len - 1
        ∧ u32 (spec_io_header msg.addr msg.flags (decide (stop ≠ 0))
              d.is_high_speed_enable d.hs_master_code)
            = spec_io_header msg.addr msg.flags (decide (stop ≠ 0))
              d.is_high_speed_enable d.hs_master_code)
    ∧ spec_io_header 0x50 0 false false 0 = 0x000300A0 ∧ spec_payload_size 3 = 2 := by
  refine ⟨headers_trace msg stop d _, ?_, ?_, by decide, by decide⟩
  · intro r hr
    obtain ⟨evs, ht⟩ := (xfer_msg_events hr).2 hlen
    obtain ⟨fevs, hf, hfw⟩ := flush_writes_tx_fifo env.flush d m
    rw [headers_trace, hf, List.append_assoc, List.append_assoc] at ht
    rw [new_events_of_trace ht, writes_to_append, hfw, List.nil_append, writes_to_append]
    simp [writes_to]
  · intro hc ha hl
    exact u32_spec_words _ _ _ _ _ _ _ hc ha hl

theorem C14_witness :
    msgW3.len ≠ 0
    ∧ (tegra_i2c_xfer_msg busA msgW3 0 (envIrq I2C_INT_PACKET_XFER_COMPLETE) dev0
        machineBuf).map
        (fun r => (r.2, (writes_to (tegra_i2c_reg_addr dev0 I2C_TX_FIFO)
          (new_events machineBuf r.1.2)).take 3)) = some (0, [0x10010, 2, 0x000300A0])
    ∧ ((xfer_msg_headers msgW3 0 dev0 (tegra_i2c_flush_fifos
          (envIrq I2C_INT_PACKET_XFER_COMPLETE).flush dev0 machineBuf).1).2.trace
        = (tegra_i2c_flush_fifos (envIrq I2C_INT_PACKET_XFER_COMPLETE).flush dev0
            machineBuf).1.trace
          ++ [Event.writel (u32 (spec_packet_header dev0.cont_id))
                (tegra_i2c_reg_addr dev0 I2C_TX_FIFO),
              Event.writel (u32 (spec_payload_size msgW3.len))
                (tegra_i2c_reg_addr dev0 I2C_TX_FIFO),
              Event.writel (u32 (spec_io_header msgW3.addr msgW3.flags (decide ((0 : Int) ≠ 0))
                dev0.is_high_speed_enable dev0.hs_master_code))
                (tegra_i2c_reg_addr dev0 I2C_TX_FIFO)]
      ∧ (∀ r, tegra_i2c_xfer_msg busA msgW3 0 (envIrq I2C_INT_PACKET_XFER_COMPLETE) dev0
            machineBuf = some r →
          (writes_to (tegra_i2c_reg_addr dev0 I2C_TX_FIFO) (new_events machineBuf r.1.2)).take 3
            = [u32 (spec_packet_header dev0.cont_id), u32 (spec_payload_size msgW3.len),
                u32 (spec_io_header msgW3.addr msgW3.flags (decide ((0 : Int) ≠ 0))
                  dev0.is_high_speed_enable dev0.hs_master_code)])
      ∧ (dev0.cont_id < 2 ^ 20 → msgW3.addr < 2 ^ 16 → msgW3.len ≤ 2 ^ 16 →
          u32 (spec_packet_header dev0.cont_id) = spec_packet_header dev0.cont_id
          ∧ u32 (spec_payload_size msgW3.len) = msgW3.len - 1
          ∧ u32 (spec_io_header msgW3.addr msgW3.flags (decide ((0 : Int) ≠ 0))
                dev0.is_high_speed_enable dev0.hs_master_code)
              = spec_io_header msgW3.addr msgW3.flags (decide ((0 : Int) ≠ 0))
                dev0.is_high_speed_enable dev0.hs_master_code)
      ∧ spec_io_header 0x50 0 false false 0 = 0x000300A0 ∧ spec_payload_size 3 = 2) :=
  ⟨by decide, by decide,
    C14_header_words_written_to_tx_fifo busA msgW3 0 (envIrq I2C_INT_PACKET_XFER_COMPLETE) dev0
      machineBuf (by decide)⟩

/-- C15, as stated, fails: on the DVC variant an identifier below
`I2C_TX_FIFO` is not left as it is; `I2C_CNFG` (0x000) is moved to 0x040. -/
theorem C15_counterexample :
    devDvc.is_dvc = true ∧ I2C_CNFG < I2C_TX_FIFO
    ∧ tegra_i2c_reg_addr devDvc I2C_CNFG = 0x40
    ∧ tegra_i2c_reg_addr devDvc I2C_CNFG ≠ I2C_CNFG := by
  decide

/-- C15, amended: `tegra_i2c_reg_addr` returns a register identifier
unchanged when the controller is not the DVC variant; on the DVC variant it
adds 0x10 to identifiers at or above `I2C_TX_FIFO` (0x050) and 0x40 to
identifiers below it (in `unsigned long` arithmetic).  So there the registers
the driver uses below the FIFO (`I2C_CNFG`, `I2C_STATUS`, the slave
registers) are at 0x40 upwards, and the FIFO, interrupt and clock-divisor
registers are 0x10 above their identifiers. -/
theorem C15_reg_addr_offsets_by_variant (d : tegra_i2c_dev) (reg : Nat) :
    tegra_i2c_reg_addr d reg
        = (if d.is_dvc = true then
            (if I2C_TX_FIFO ≤ reg then u32 (reg + 0x10) else reg + 0x40)
          else reg)
    ∧ (d.is_dvc = true →
        [I2C_CNFG, I2C_STATUS, I2C_SL_CNFG, I2C_SL_ADDR1, I2C_SL_ADDR2].map
            (tegra_i2c_reg_addr d) = [0x40, 0x5c, 0x60, 0x6c, 0x70]
        ∧ [I2C_TX_FIFO, I2C_RX_FIFO, I2C_PACKET_TRANSFER_STATUS, I2C_FIFO_CONTROL,
            I2C_FIFO_STATUS, I2C_INT_MASK, I2C_INT_STATUS, I2C_CLK_DIVISOR].map
            (tegra_i2c_reg_addr d) = [0x60, 0x64, 0x68, 0x6c, 0x70, 0x74, 0x78, 0x7c]) := by
  refine ⟨?_, ?_⟩
  · unfold tegra_i2c_reg_addr
    by_cases hd : d.is_dvc = true
    · rw [if_pos hd, if_pos hd]
      by_cases hr : I2C_TX_FIFO ≤ reg
      · rw [if_pos hr, if_pos (show reg ≥ I2C_TX_FIFO from hr)]
      · rw [if_neg hr, if_neg (show ¬ reg ≥ I2C_TX_FIFO from hr)]
        have : reg < 0x50 := by
          unfold I2C_TX_FIFO at hr
          omega
        unfold u32
        omega
    · rw [if_neg hd, if_neg hd]
  · intro hd
    simp only [List.map, tegra_i2c_reg_addr, hd, if_true]
    decide

theorem C15_witness :
    devDvc.is_dvc = true
    ∧ tegra_i2c_reg_addr devDvc I2C_FIFO_CONTROL
        = (if devDvc.is_dvc = true then
            (if I2C_TX_FIFO ≤ I2C_FIFO_CONTROL then u32 (I2C_FIFO_CONTROL + 0x10)
              else I2C_FIFO_CONTROL + 0x40)
          else I2C_FIFO_CONTROL) :=
  ⟨rfl, (C15_reg_addr_offsets_by_variant devDvc I2C_FIFO_CONTROL).1⟩

/-- C16: take three successful batches (each returns its `num`) on one
controller, the first on bus A and the next two on bus B, whose clock rate
differs from that of A.
(Entry of a batch, here the first, from any cached state.) After taking the
lock, `tegra_i2c_xfer` switches the pin configuration (makes the cached table
safe, applies the bus's table) if and only if the bus's `mux` differs from
`last_mux`, and sets the clock to `bus_clk_rate * 8` (in `unsigned long`
arithmetic) if and only if the bus's rate differs from `last_bus_clk_rate`;
after the batch `last_mux` and `last_bus_clk_rate` are those of the bus.
(A to B.) The second batch programs the clock exactly once at entry, to
8 times the rate of B, and switches the pins iff the tables differ.
(B again.) The third batch does nothing between taking the lock and taking
the runtime-PM reference: no pin switch, no clock programming.
In each batch the actions after the entry program the clock only as part of
a controller re-initialisation (which starts with a peripheral reset); so
without one, the second batch programs the clock exactly once and the third
not at all. -/
theorem C16_clock_and_pins_switched_only_when_bus_differs (A B : tegra_i2c_bus)
    (ms1 ms2 ms3 : List i2c_msg) (e1 e2 e3 : Nat → XferMsgEnv) (d : tegra_i2c_dev)
    (m : Machine)
    (hok : (xfer_batches [(A, ms1, e1), (B, ms2, e2), (B, ms3, e3)] d m).map
        (List.map (fun p => p.1))
      = some [(ms1.length : Int), (ms2.length : Int), (ms3.length : Int)])
    (hne : A.bus_clk_rate ≠ B.bus_clk_rate) :
    ∃ rest1 rest2 rest3 len1 len2,
      xfer_batches [(A, ms1, e1), (B, ms2, e2), (B, ms3, e3)] d m
        = some [
            ((ms1.length : Int),
              [Event.rt_mutex_lock] ++ spec_select_events A d
                ++ [Event.pm_runtime_get_sync] ++ rest1,
              (A.mux, len1, A.bus_clk_rate)),
            ((ms2.length : Int),
              [Event.rt_mutex_lock]
                ++ ((if A.mux ≠ B.mux then
                      [Event.pinmux_set_safe_pinmux_table A.mux len1,
                        Event.pinmux_config_pinmux_table B.mux B.mux_len]
                    else [])
                  ++ [Event.clk_set_rate (u32 (B.bus_clk_rate * 8))])
                ++ [Event.pm_runtime_get_sync] ++ rest2,
              (B.mux, len2, B.bus_clk_rate)),
            ((ms3.length : Int),
              [Event.rt_mutex_lock] ++ [] ++ [Event.pm_runtime_get_sync] ++ rest3,
              (B.mux, len2, B.bus_clk_rate))]
      ∧ len1 = (if d.last_mux ≠ A.mux then A.mux_len else d.last_mux_len)
      ∧ len2 = (if A.mux ≠ B.mux then B.mux_len else len1)
      ∧ clk_only_on_reset rest1 ∧ clk_only_on_reset rest2 ∧ clk_only_on_reset rest3
      ∧ (Event.periph_reset_assert ∉ rest2 →
          clk_events ([Event.rt_mutex_lock]
                ++ ((if A.mux ≠ B.mux then
                      [Event.pinmux_set_safe_pinmux_table A.mux len1,
                        Event.pinmux_config_pinmux_table B.mux B.mux_len]
                    else [])
                  ++ [Event.clk_set_rate (u32 (B.bus_clk_rate * 8))])
                ++ [Event.pm_runtime_get_sync] ++ rest2)
            = [Event.clk_set_rate (u32 (B.bus_clk_rate * 8))])
      ∧ (Event.periph_reset_assert ∉ rest3 →
          clk_events ([Event.rt_mutex_lock] ++ [] ++ [Event.pm_runtime_get_sync] ++ rest3) = [])
      ∧ (B.bus_clk_rate * 8 < 4294967296 → u32 (B.bus_clk_rate * 8) = 8 * B.bus_clk_rate) := by
  obtain ⟨r1, l1, hx1, hv1, hl1, hm1, hb1⟩ := xfer_batches_cons_inv hok
  obtain ⟨r2, l2, hx2, hv2, hl2, hm2, hb2⟩ := xfer_batches_cons_inv hm1
  obtain ⟨r3, l3, hx3, hv3, hl3, hm3, hb3⟩ := xfer_batches_cons_inv hm2
  have hnil : l3 = [] := by
    simp only [xfer_batches, Option.some.injEq] at hl3
    exact hl3.symm
  simp only [] at hx1 hx2 hx3
  have hs1 := xfer_not_suspended hx1 (by rw [hv1]; exact Int.natCast_nonneg _)
  have hs2 := xfer_not_suspended hx2 (by rw [hv2]; exact Int.natCast_nonneg _)
  have hs3 := xfer_not_suspended hx3 (by rw [hv3]; exact Int.natCast_nonneg _)
  obtain ⟨rest1, ht1, hp1, hmux1, hrate1, hlen1⟩ := xfer_events hs1 hx1
  obtain ⟨rest2, ht2, hp2, hmux2, hrate2, hlen2⟩ := xfer_events hs2 hx2
  obtain ⟨rest3, ht3, hp3, hmux3, hrate3, hlen3⟩ := xfer_events hs3 hx3
  have hsel2 : spec_select_events B r1.dev
      = (if A.mux ≠ B.mux then
            [Event.pinmux_set_safe_pinmux_table A.mux r1.dev.last_mux_len,
              Event.pinmux_config_pinmux_table B.mux B.mux_len]
          else [])
        ++ [Event.clk_set_rate (u32 (B.bus_clk_rate * 8))] := by
    unfold spec_select_events
    rw [hmux1, hrate1, if_pos hne]
  have hsel3 : spec_select_events B r2.dev = [] := by
    unfold spec_select_events
    rw [hmux2, hrate2, if_neg (by simp), if_neg (by simp)]
    rfl
  rw [hmux1] at hlen2
  rw [hmux2, if_neg (by simp)] at hlen3
  rw [hsel2] at ht2
  rw [hsel3] at ht3
  refine ⟨rest1, rest2, rest3, r1.dev.last_mux_len, r2.dev.last_mux_len, ?_, hlen1, hlen2,
    hp1, hp2, hp3, ?_, ?_, ?_⟩
  · have hl1' : l1 = (r2.ret, new_events r1.m r2.m, bus_cache r2.dev) :: l2 :=
      Option.some.inj (hl1.symm.trans hb2)
    have hl2' : l2 = (r3.ret, new_events r2.m r3.m, bus_cache r3.dev) :: l3 :=
      Option.some.inj (hl2.symm.trans hb3)
    rw [hb1, hl1', hl2', hnil, hv1, hv2, hv3, ht1, ht2, ht3]
    simp only [bus_cache, hmux1, hrate1, hmux2, hrate2, hmux3, hrate3, hlen3]
  · intro hr
    have h0 := clk_events_of_no_reset hp2 hr
    unfold clk_events at h0 ⊢
    simp only [List.filter_append, h0]
    split <;> simp
  · intro hr
    have h0 := clk_events_of_no_reset hp3 hr
    unfold clk_events at h0 ⊢
    simp only [List.filter_append, h0]
    simp
  · intro hlt
    rw [u32_of_lt hlt, Nat.mul_comm]

theorem C16_witness :
    (xfer_batches [(busA, [msgW], fun _ => envIrq I2C_INT_PACKET_XFER_COMPLETE),
        (busB, [msgW], fun _ => envIrq I2C_INT_PACKET_XFER_COMPLETE),
        (busB, [msgW], fun _ => envIrq I2C_INT_PACKET_XFER_COMPLETE)] dev0 machine0).map
        (List.map (fun p => p.1))
      = some [(([msgW] : List i2c_msg).length : Int), (([msgW] : List i2c_msg).length : Int),
          (([msgW] : List i2c_msg).length : Int)]
    ∧ busA.bus_clk_rate ≠ busB.bus_clk_rate
    ∧ (xfer_batches [(busA, [msgW], fun _ => envIrq I2C_INT_PACKET_XFER_COMPLETE),
        (busB, [msgW], fun _ => envIrq I2C_INT_PACKET_XFER_COMPLETE),
        (busB, [msgW], fun _ => envIrq I2C_INT_PACKET_XFER_COMPLETE)] dev0 machine0).map
        (List.map (fun p => (clk_events p.2.1, p.2.1.take 5, p.2.2)))
      = some [
          ([], [Event.rt_mutex_lock, Event.pm_runtime_get_sync, Event.readl 0x5c,
              Event.writel 3 0x5c, Event.readl 0x5c], (0, 0, 100000)),
          ([Event.clk_set_rate 3200000],
            [Event.rt_mutex_lock, Event.pinmux_set_safe_pinmux_table 0 0,
              Event.pinmux_config_pinmux_table 0x2000 2, Event.clk_set_rate 3200000,
              Event.pm_runtime_get_sync], (0x2000, 2, 400000)),
          ([], [Event.rt_mutex_lock, Event.pm_runtime_get_sync, Event.readl 0x5c,
              Event.writel 3 0x5c, Event.readl 0x5c], (0x2000, 2, 400000))]
    ∧ ∃ rest1 rest2 rest3 len1 len2,
      xfer_batches [(busA, [msgW], fun _ => envIrq I2C_INT_PACKET_XFER_COMPLETE),
          (busB, [msgW], fun _ => envIrq I2C_INT_PACKET_XFER_COMPLETE),
          (busB, [msgW], fun _ => envIrq I2C_INT_PACKET_XFER_COMPLETE)] dev0 machine0
        = some [
            ((([msgW] : List i2c_msg).length : Int),
              [Event.rt_mutex_lock] ++ spec_select_events busA dev0
                ++ [Event.pm_runtime_get_sync] ++ rest1,
              (busA.mux, len1, busA.bus_clk_rate)),
            ((([msgW] : List i2c_msg).length : Int),
              [Event.rt_mutex_lock]
                ++ ((if busA.mux ≠ busB.mux then
                      [Event.pinmux_set_safe_pinmux_table busA.mux len1,
                        Event.pinmux_config_pinmux_table busB.mux busB.mux_len]
                    else [])
                  ++ [Event.clk_set_rate (u32 (busB.bus_clk_rate * 8))])
                ++ [Event.pm_runtime_get_sync] ++ rest2,
              (busB.mux, len2, busB.bus_clk_rate)),
            ((([msgW] : List i2c_msg).length : Int),
              [Event.rt_mutex_lock] ++ [] ++ [Event.pm_runtime_get_sync] ++ rest3,
              (busB.mux, len2, busB.bus_clk_rate))]
      ∧ len1 = (if dev0.last_mux ≠ busA.mux then busA.mux_len else dev0.last_mux_len)
      ∧ len2 = (if busA.mux ≠ busB.mux then busB.mux_len else len1)
      ∧ clk_only_on_reset rest1 ∧ clk_only_on_reset rest2 ∧ clk_only_on_reset rest3
      ∧ (Event.periph_reset_assert ∉ rest2 →
          clk_events ([Event.rt_mutex_lock]
                ++ ((if busA.mux ≠ busB.mux then
                      [Event.pinmux_set_safe_pinmux_table busA.mux len1,
                        Event.pinmux_config_pinmux_table busB.mux busB.mux_len]
                    else [])
                  ++ [Event.clk_set_rate (u32 (busB.bus_clk_rate * 8))])
                ++ [Event.pm_runtime_get_sync] ++ rest2)
            = [Event.clk_set_rate (u32 (busB.bus_clk_rate * 8))])
      ∧ (Event.periph_reset_assert ∉ rest3 →
          clk_events ([Event.rt_mutex_lock] ++ [] ++ [Event.pm_runtime_get_sync] ++ rest3) = [])
      ∧ (busB.bus_clk_rate * 8 < 4294967296 →
          u32 (busB.bus_clk_rate * 8) = 8 * busB.bus_clk_rate) :=
  ⟨by decide, by decide, by decide,
    C16_clock_and_pins_switched_only_when_bus_differs busA busB [msgW] [msgW] [msgW]
      (fun _ => envIrq I2C_INT_PACKET_XFER_COMPLETE)
      (fun _ => envIrq I2C_INT_PACKET_XFER_COMPLETE)
      (fun _ => envIrq I2C_INT_PACKET_XFER_COMPLETE) dev0 machine0 (by decide) (by decide)⟩

/-- C18: one invocation of `tegra_i2c_fill_tx_fifo` or of
`tegra_i2c_empty_rx_fifo` returns and leaves `msg_buf_remaining` no larger
than before, for every state and FIFO-status word; so does every invocation
of `tegra_i2c_isr` that returns, for every interrupt status, controller
status, FIFO status and received words. -/
theorem C18_msg_buf_remaining_never_grows (d : tegra_i2c_dev) (m : Machine) :
    (∀ s, ∃ d1 m1, tegra_i2c_fill_tx_fifo s d m = some (d1, m1)
        ∧ d1.msg_buf_remaining ≤ d.msg_buf_remaining)
    ∧ (∀ s ws, ∃ d1 m1, tegra_i2c_empty_rx_fifo s ws d m = some (d1, m1)
        ∧ d1.msg_buf_remaining ≤ d.msg_buf_remaining)
    ∧ (∀ e d1 m1, tegra_i2c_isr e d m = some (d1, m1) →
        d1.msg_buf_remaining ≤ d.msg_buf_remaining) := by
  refine ⟨?_, ?_, ?_⟩
  · intro s
    obtain ⟨m1, evs, hx, _⟩ := fill_tx_fifo_spec s d m
    exact ⟨_, m1, hx, Nat.sub_le _ _⟩
  · intro s ws
    obtain ⟨m1, evs, hx, _⟩ := empty_rx_fifo_spec s ws d m
    exact ⟨_, m1, hx, Nat.sub_le _ _⟩
  · intro e d1 m1 h
    exact isr_remaining h

theorem C18_witness :
    (tegra_i2c_isr irqTxReq devTx5 machineBuf).map (fun r => r.1.msg_buf_remaining) = some 1
    ∧ ((∀ s, ∃ d1 m1, tegra_i2c_fill_tx_fifo s devTx5 machineBuf = some (d1, m1)
        ∧ d1.msg_buf_remaining ≤ devTx5.msg_buf_remaining)
      ∧ (∀ s ws, ∃ d1 m1, tegra_i2c_empty_rx_fifo s ws devTx5 machineBuf = some (d1, m1)
        ∧ d1.msg_buf_remaining ≤ devTx5.msg_buf_remaining)
      ∧ (∀ e d1 m1, tegra_i2c_isr e devTx5 machineBuf = some (d1, m1) →
        d1.msg_buf_remaining ≤ devTx5.msg_buf_remaining)) :=
  ⟨by decide, C18_msg_buf_remaining_never_grows devTx5 machineBuf⟩

/-- C19: the value `tegra_i2c_xfer` returns is either `num`, in which case a
call was made for every message and each returned 0, or one of `-EBUSY`,
`-EINVAL`, `-ETIMEDOUT`, `-EAGAIN`, `-EREMOTEIO`, `-EIO`; it is never a
positive count smaller than `num`. -/
theorem C19_returns_num_or_negative_errno (i2c_bus : tegra_i2c_bus) (msgs : List i2c_msg)
    (env : Nat → XferMsgEnv) (d : tegra_i2c_dev) (m : Machine) (v : Int) (cs : List XferCall)
    (hv : xfer_ret i2c_bus msgs env d m = some v)
    (hc : xfer_calls i2c_bus msgs env d m = some cs) :
    (v = (msgs.length : Int)
        ∨ v ∈ [- EBUSY, - EINVAL, - ETIMEDOUT, - EAGAIN, - EREMOTEIO, - EIO])
    ∧ (v = (msgs.length : Int) → cs.length = msgs.length ∧ ∀ c ∈ cs, c.ret = 0)
    ∧ ¬ (0 < v ∧ v < (msgs.length : Int)) := by
  obtain ⟨r, h, hrc⟩ := xfer_calls_inv hc
  have hrv : r.ret = v := by
    unfold xfer_ret at hv
    rw [h] at hv
    simpa using hv
  subst hrv
  subst hrc
  have hneg : ∀ v ∈ [- EBUSY, - EINVAL, - ETIMEDOUT, - EAGAIN, - EREMOTEIO, - EIO], v < 0 := by
    decide
  have key : (r.ret = (msgs.length : Int) ∧ r.calls.length = msgs.length
        ∧ ∀ c ∈ r.calls, c.ret = 0)
      ∨ r.ret ∈ [- EBUSY, - EINVAL, - ETIMEDOUT, - EAGAIN, - EREMOTEIO, - EIO] := by
    cases hs : d.is_suspended with
    | true =>
      rw [xfer_of_suspended i2c_bus msgs env d m hs] at h
      simp only [Option.some.injEq] at h
      rw [← h]
      right
      simp
    | false =>
      obtain ⟨d1, m1, l, hl, hlc, hlr⟩ := xfer_running hs h
      obtain ⟨_, _, _, h3, _⟩ := xfer_loop_calls i2c_bus _ env msgs 0 d1 m1 l hl
      by_cases hz : l.ret = 0
      · left
        obtain ⟨h5, h6⟩ := h3 hz
        refine ⟨?_, by rw [hlc, h5], ?_⟩
        · rw [hlr, if_neg (by simp [hz]), h6]
          simp
        · intro c hc
          rw [hlc] at hc
          by_contra hne
          obtain ⟨k, hk⟩ := List.get?_of_mem hc
          have := (xfer_loop_failure i2c_bus _ env msgs 0 d1 m1 l k c hl hk hne).2
          exact hne (this ▸ hz)
      · right
        rw [hlr, if_pos hz]
        rcases xfer_loop_ret i2c_bus _ env msgs 0 d1 m1 l hl with h0 | hmem
        · exact absurd h0 hz
        · simp only [List.mem_cons, List.mem_singleton, List.not_mem_nil, or_false] at hmem ⊢
          tauto
  refine ⟨?_, ?_, ?_⟩
  · rcases key with h1 | h1
    · exact Or.inl h1.1
    · exact Or.inr h1
  · intro hnum
    rcases key with h1 | h1
    · exact h1.2
    · have := hneg _ h1
      omega
  · rintro ⟨hpos, hlt⟩
    rcases key with h1 | h1
    · omega
    · have := hneg _ h1
      omega

theorem C19_witness :
    xfer_ret busA [msgW, msgW, msgW] (envArbLostAt 1) dev0 machine0 = some (- EIO)
    ∧ xfer_calls busA [msgW, msgW, msgW] (envArbLostAt 1) dev0 machine0
        = some [⟨0, msgW, 0, 0⟩, ⟨1, msgW, 0, - EIO⟩]
    ∧ ((- EIO = (([msgW, msgW, msgW] : List i2c_msg).length : Int)
        ∨ - EIO ∈ [- EBUSY, - EINVAL, - ETIMEDOUT, - EAGAIN, - EREMOTEIO, - EIO])
      ∧ (- EIO = (([msgW, msgW, msgW] : List i2c_msg).length : Int) →
          ([⟨0, msgW, 0, 0⟩, ⟨1, msgW, 0, - EIO⟩] : List XferCall).length
              = ([msgW, msgW, msgW] : List i2c_msg).length
            ∧ ∀ c ∈ ([⟨0, msgW, 0, 0⟩, ⟨1, msgW, 0, - EIO⟩] : List XferCall), c.ret = 0)
      ∧ ¬ (0 < - EIO ∧ - EIO < (([msgW, msgW, msgW] : List i2c_msg).length : Int))) :=
  ⟨by decide, by decide,
    C19_returns_num_or_negative_errno busA [msgW, msgW, msgW] (envArbLostAt 1) dev0 machine0
      (- EIO) [⟨0, msgW, 0, 0⟩, ⟨1, msgW, 0, - EIO⟩] (by decide) (by decide)⟩

/-- C20, as stated, fails: the tail word keeps the upper bytes of the
FIFO-status word.  With one byte 0xAB left to send and the status register
reading 0x12345610 (one free word), the word written to the transmit FIFO is
0x123456AB, not 0x000000AB. -/
theorem C20_counterexample :
    devTx1.msg_buf_remaining = 1 ∧ tx_fifo_avail_of 0x12345610 = 1
    ∧ machineAB.mem devTx1.msg_buf = 0xAB
    ∧ (tegra_i2c_fill_tx_fifo 0x12345610 devTx1 machineAB).map
        (fun r => writes_to (tegra_i2c_reg_addr devTx1 I2C_TX_FIFO) (new_events machineAB r.2))
        = some [0x123456AB]
    ∧ (0x123456AB : Nat) / 256 ^ 1 ≠ 0 := by
  refine ⟨rfl, by decide, by decide, by decide, by decide⟩

/-- C20, amended: when `r = msg_buf_remaining % 4` is not 0 and the FIFO has a
free word left after the `msg_buf_remaining / 4` whole words,
`tegra_i2c_fill_tx_fifo` writes exactly one more word after the whole words;
its low `r` bytes are the `r` remaining buffer bytes, in little-endian order,
and its upper `4 - r` bytes are those of the FIFO-status word read at the
start of the invocation.  So the word is the zero-padded tail exactly when
the status word has no bit set from bit `8 * r` upwards. -/
theorem C20_tail_word_low_bytes_buffer_high_bytes_status (s : Nat) (d : tegra_i2c_dev)
    (m : Machine) (hr : d.msg_buf_remaining % 4 ≠ 0)
    (hfree : d.msg_buf_remaining / 4 < tx_fifo_avail_of s) :
    ∃ d1 m1 whole tail,
      tegra_i2c_fill_tx_fifo s d m = some (d1, m1)
      ∧ writes_to (tegra_i2c_reg_addr d I2C_TX_FIFO) (new_events m m1) = whole ++ [tail]
      ∧ whole.length = d.msg_buf_remaining / 4
      ∧ tail % 256 ^ (d.msg_buf_remaining % 4)
          = le_bytes m.mem (d.msg_buf + d.msg_buf_remaining / 4 * 4) (d.msg_buf_remaining % 4)
      ∧ (∀ k, k < d.msg_buf_remaining % 4 →
          (tail / 256 ^ k) % 256
            = m.mem (d.msg_buf + d.msg_buf_remaining / 4 * 4 + k) % 256)
      ∧ tail / 256 ^ (d.msg_buf_remaining % 4) = u32 s / 256 ^ (d.msg_buf_remaining % 4)
      ∧ (tail = le_bytes m.mem (d.msg_buf + d.msg_buf_remaining / 4 * 4)
            (d.msg_buf_remaining % 4)
          ↔ u32 s / 256 ^ (d.msg_buf_remaining % 4) = 0) := by
  have hw : words_to_transfer d.msg_buf_remaining (tx_fifo_avail_of s)
      = d.msg_buf_remaining / 4 := by
    unfold words_to_transfer BYTES_PER_FIFO_WORD
    rw [if_neg (by omega)]
  obtain ⟨evs, ht, hm, hl, _, _, _⟩ := writesl_spec d I2C_TX_FIFO
    (d.msg_buf_remaining / 4) d.msg_buf
    (log (Event.readl (tegra_i2c_reg_addr d I2C_FIFO_STATUS)) (log Event.spin_lock_irqsave m))
  have hrem : d.msg_buf_remaining - d.msg_buf_remaining / 4 * 4 = d.msg_buf_remaining % 4 := by
    omega
  have hr3 : d.msg_buf_remaining % 4 ≤ 3 := by omega
  obtain ⟨hp1, hp2⟩ := memcpy_to_word_parts (u32 s) m.mem
    (d.msg_buf + d.msg_buf_remaining / 4 * 4) (d.msg_buf_remaining % 4) (u32_lt s) hr3
  have hx := fill_tx_fifo_eq s d m
  rw [hw, if_pos (by omega), hrem] at hx
  generalize i2c_writesl d d.msg_buf I2C_TX_FIFO (d.msg_buf_remaining / 4)
    (log (Event.readl (tegra_i2c_reg_addr d I2C_FIFO_STATUS))
      (log Event.spin_lock_irqsave m)) = m0 at ht hm hx
  have hm0 : m0.mem = m.mem := hm
  have ht0 : m0.trace = m.trace
      ++ ([Event.spin_lock_irqsave, Event.readl (tegra_i2c_reg_addr d I2C_FIFO_STATUS)] ++ evs) := by
    rw [ht]
    simp [log]
  rw [hm0] at hx
  refine ⟨_, _, writes_to (tegra_i2c_reg_addr d I2C_TX_FIFO) evs,
    memcpy_to_word (u32 s) m.mem (d.msg_buf + d.msg_buf_remaining / 4 * 4)
      (d.msg_buf_remaining % 4), hx, ?_, hl, hp1, ?_, hp2, ?_⟩
  · have htr : (log Event.spin_unlock_irqrestore
        (i2c_writel d
          (memcpy_to_word (u32 s) m.mem (d.msg_buf + d.msg_buf_remaining / 4 * 4)
            (d.msg_buf_remaining % 4))
          I2C_TX_FIFO
          (log (Event.mem_read (d.msg_buf + d.msg_buf_remaining / 4 * 4)
              (d.msg_buf_remaining % 4)) m0))).trace
        = m.trace ++ ([Event.spin_lock_irqsave,
            Event.readl (tegra_i2c_reg_addr d I2C_FIFO_STATUS)] ++ (evs ++
          [Event.mem_read (d.msg_buf + d.msg_buf_remaining / 4 * 4) (d.msg_buf_remaining % 4),
            Event.writel (u32 (memcpy_to_word (u32 s) m.mem
              (d.msg_buf + d.msg_buf_remaining / 4 * 4) (d.msg_buf_remaining % 4)))
              (tegra_i2c_reg_addr d I2C_TX_FIFO),
            Event.spin_unlock_irqrestore])) := by
      simp [log, i2c_writel, hw_writel, ht0]
    rw [new_events_of_trace htr, writes_to_append, writes_to_append,
      u32_of_lt (memcpy_to_word_lt _ _ _ _)]
    simp [writes_to]
  · intro k hk
    exact memcpy_to_word_byte _ _ _ _ _ (u32_lt s) hr3 hk
  · have hL := le_bytes_lt m.mem (d.msg_buf_remaining % 4)
      (d.msg_buf + d.msg_buf_remaining / 4 * 4)
    have hpos : 0 < 256 ^ (d.msg_buf_remaining % 4) := by positivity
    rw [← hp2]
    generalize memcpy_to_word (u32 s) m.mem (d.msg_buf + d.msg_buf_remaining / 4 * 4)
      (d.msg_buf_remaining % 4) = X at *
    constructor
    · intro h
      rw [h]
      exact Nat.div_eq_of_lt hL
    · intro h
      rw [← hp1]
      have := Nat.div_add_mod X (256 ^ (d.msg_buf_remaining % 4))
      rw [h] at this
      omega

theorem C20_witness :
    devTx5.msg_buf_remaining % 4 ≠ 0
    ∧ devTx5.msg_buf_remaining / 4 < tx_fifo_avail_of 0x12345620
    ∧ (tegra_i2c_fill_tx_fifo 0x12345620 devTx5 machineBuf).map
        (fun r => writes_to (tegra_i2c_reg_addr devTx5 I2C_TX_FIFO) (new_events machineBuf r.2))
        = some [0x44332211, 0x123456AB]
    ∧ ∃ d1 m1 whole tail,
      tegra_i2c_fill_tx_fifo 0x12345620 devTx5 machineBuf = some (d1, m1)
      ∧ writes_to (tegra_i2c_reg_addr devTx5 I2C_TX_FIFO) (new_events machineBuf m1)
          = whole ++ [tail]
      ∧ whole.length = devTx5.msg_buf_remaining / 4
      ∧ tail % 256 ^ (devTx5.msg_buf_remaining % 4)
          = le_bytes machineBuf.mem (devTx5.msg_buf + devTx5.msg_buf_remaining / 4 * 4)
              (devTx5.msg_buf_remaining % 4)
      ∧ (∀ k, k < devTx5.msg_buf_remaining % 4 →
          (tail / 256 ^ k) % 256
            = machineBuf.mem (devTx5.msg_buf + devTx5.msg_buf_remaining / 4 * 4 + k) % 256)
      ∧ tail / 256 ^ (devTx5.msg_buf_remaining % 4)
          = u32 0x12345620 / 256 ^ (devTx5.msg_buf_remaining % 4)
      ∧ (tail = le_bytes machineBuf.mem (devTx5.msg_buf + devTx5.msg_buf_remaining / 4 * 4)
            (devTx5.msg_buf_remaining % 4)
          ↔ u32 0x12345620 / 256 ^ (devTx5.msg_buf_remaining % 4) = 0) :=
  ⟨by decide, by decide, by decide,
    C20_tail_word_low_bytes_buffer_high_bytes_status 0x12345620 devTx5 machineBuf (by decide)
      (by decide)⟩

/-- C21: for every controller state, when `tegra_i2c_isr` reads an
interrupt-status word equal to 0 it returns with `I2C_ERR_UNKNOWN_INTERRUPT`
ORed into `msg_err`; `disable_irq_nosync` is called once when `irq_disabled`
was false and not at all when it was true, and `irq_disabled` is true
afterwards; `msg_buf_remaining`, `msg_buf` and memory are unchanged, nothing
is written to the transmit FIFO and nothing is read from the receive FIFO;
the interrupt mask register holds its former value with the six bits NO_ACK,
ARBITRATION_LOST, PACKET_XFER_COMPLETE, TX_FIFO_DATA_REQ, RX_FIFO_DATA_REQ
and TX_FIFO_OVERFLOW cleared; and `complete` is called once. -/
theorem C21_status_zero_flags_unknown_interrupt (e : IrqEnv) (d : tegra_i2c_dev) (m : Machine)
    (h0 : u32 e.int_status = 0) :
    ∃ d1 m1, tegra_i2c_isr e d m = some (d1, m1)
      ∧ d1.msg_err = d.msg_err ||| I2C_ERR_UNKNOWN_INTERRUPT
      ∧ d1.irq_disabled = true
      ∧ (new_events m m1).count Event.disable_irq_nosync = (if d.irq_disabled then 0 else 1)
      ∧ d1.msg_buf_remaining = d.msg_buf_remaining ∧ d1.msg_buf = d.msg_buf
      ∧ m1.mem = m.mem
      ∧ writes_to (tegra_i2c_reg_addr d I2C_TX_FIFO) (new_events m m1) = []
      ∧ reads_of (tegra_i2c_reg_addr d I2C_RX_FIFO) (new_events m m1) = 0
      ∧ m1.regs (tegra_i2c_reg_addr d I2C_INT_MASK)
          = u32 (m.regs (tegra_i2c_reg_addr d I2C_INT_MASK)
              &&& not32 (I2C_INT_NO_ACK ||| I2C_INT_ARBITRATION_LOST |||
                I2C_INT_PACKET_XFER_COMPLETE ||| I2C_INT_TX_FIFO_DATA_REQ |||
                I2C_INT_RX_FIFO_DATA_REQ ||| I2C_INT_TX_FIFO_OVERFLOW))
      ∧ m1.regs (tegra_i2c_reg_addr d I2C_INT_MASK)
          &&& (I2C_INT_NO_ACK ||| I2C_INT_ARBITRATION_LOST ||| I2C_INT_PACKET_XFER_COMPLETE
            ||| I2C_INT_TX_FIFO_DATA_REQ ||| I2C_INT_RX_FIFO_DATA_REQ
            ||| I2C_INT_TX_FIFO_OVERFLOW) = 0
      ∧ d1.msg_complete = d.msg_complete + 1
      ∧ (new_events m m1).count Event.complete = 1 := by
  have hi := isr_of_status_zero e d m h0
  obtain ⟨hd1, hdt, hdm, hdr⟩ := isr_disable_irq_spec
    { d with msg_err := d.msg_err ||| I2C_ERR_UNKNOWN_INTERRUPT }
    (log (Event.readl (tegra_i2c_reg_addr d I2C_INT_STATUS)) m)
  generalize isr_disable_irq { d with msg_err := d.msg_err ||| I2C_ERR_UNKNOWN_INTERRUPT }
    (log (Event.readl (tegra_i2c_reg_addr d I2C_INT_STATUS)) m) = r at hi hd1 hdt hdm hdr
  obtain ⟨evs, h1, h2, h3, h4, h5, h6, h7, h8, h9, h10⟩ := isr_err_spec 0 r.1 r.2
  have hra : ∀ x, tegra_i2c_reg_addr r.1 x = tegra_i2c_reg_addr d x := by
    intro x
    rw [hd1]
    rfl
  rw [hra] at h4 h5 h6 h7 h8
  generalize tegra_i2c_isr_err 0 r.1 r.2 = q at hi h1 h2 h3 h4 h5
  have hne : reads_of (tegra_i2c_reg_addr d I2C_RX_FIFO)
      [Event.readl (tegra_i2c_reg_addr d I2C_INT_STATUS)] = 0 := by
    rcases isr_reg_addrs d with ⟨-, -, a2, -, a4, -⟩ | ⟨-, -, a2, -, a4, -⟩ <;>
      rw [a2, a4] <;> decide
  have ht : q.2.trace
      = m.trace ++ ([Event.readl (tegra_i2c_reg_addr d I2C_INT_STATUS)]
          ++ (if d.irq_disabled then [] else [Event.disable_irq_nosync]) ++ evs) := by
    rw [h2, hdt]
    simp [log]
  refine ⟨q.1, q.2, hi, ?_, ?_, ?_, ?_, ?_, ?_, ?_, ?_, ?_, ?_, ?_, ?_⟩
  · rw [h1, hd1]
  · rw [h1, hd1]
  · rw [new_events_of_trace ht, List.count_append, List.count_append, h10]
    cases d.irq_disabled <;> simp
  · rw [h1, hd1]
  · rw [h1, hd1]
  · rw [h3, hdm]
    rfl
  · rw [new_events_of_trace ht, writes_to_append, writes_to_append, h7]
    cases d.irq_disabled <;> simp [writes_to]
  · rw [new_events_of_trace ht, reads_of_append, reads_of_append, h8, hne]
    cases d.irq_disabled <;> simp [reads_of]
  · rw [h4, hdr]
    rfl
  · rw [h4]
    exact masked_bits_clear _ _
  · rw [h1, hd1]
  · rw [new_events_of_trace ht, List.count_append, List.count_append, h9]
    cases d.irq_disabled <;> simp

theorem C21_witness :
    u32 irqNone.int_status = 0
    ∧ (tegra_i2c_isr irqNone devTx5 machineOnes).map
        (fun r => (r.1.msg_err, r.1.irq_disabled, r.1.msg_complete, r.1.msg_buf_remaining,
          r.2.regs 0x64, new_events machineOnes r.2))
      = some (4, true, 1, 5, 0xFFFFFF50,
          [Event.readl 0x68, Event.disable_irq_nosync, Event.readl 0x64,
            Event.writel 0xFFFFFF50 0x64, Event.writel 0 0x68, Event.complete])
    ∧ ∃ d1 m1, tegra_i2c_isr irqNone devTx5 machineOnes = some (d1, m1)
      ∧ d1.msg_err = devTx5.msg_err ||| I2C_ERR_UNKNOWN_INTERRUPT
      ∧ d1.irq_disabled = true
      ∧ (new_events machineOnes m1).count Event.disable_irq_nosync
          = (if devTx5.irq_disabled then 0 else 1)
      ∧ d1.msg_buf_remaining = devTx5.msg_buf_remaining ∧ d1.msg_buf = devTx5.msg_buf
      ∧ m1.mem = machineOnes.mem
      ∧ writes_to (tegra_i2c_reg_addr devTx5 I2C_TX_FIFO) (new_events machineOnes m1) = []
      ∧ reads_of (tegra_i2c_reg_addr devTx5 I2C_RX_FIFO) (new_events machineOnes m1) = 0
      ∧ m1.regs (tegra_i2c_reg_addr devTx5 I2C_INT_MASK)
          = u32 (machineOnes.regs (tegra_i2c_reg_addr devTx5 I2C_INT_MASK)
              &&& not32 (I2C_INT_NO_ACK ||| I2C_INT_ARBITRATION_LOST |||
                I2C_INT_PACKET_XFER_COMPLETE ||| I2C_INT_TX_FIFO_DATA_REQ |||
                I2C_INT_RX_FIFO_DATA_REQ ||| I2C_INT_TX_FIFO_OVERFLOW))
      ∧ m1.regs (tegra_i2c_reg_addr devTx5 I2C_INT_MASK)
          &&& (I2C_INT_NO_ACK ||| I2C_INT_ARBITRATION_LOST ||| I2C_INT_PACKET_XFER_COMPLETE
            ||| I2C_INT_TX_FIFO_DATA_REQ ||| I2C_INT_RX_FIFO_DATA_REQ
            ||| I2C_INT_TX_FIFO_OVERFLOW) = 0
      ∧ d1.msg_complete = devTx5.msg_complete + 1
      ∧ (new_events machineOnes m1).count Event.complete = 1 :=
  ⟨by decide, by rfl,
    C21_status_zero_flags_unknown_interrupt irqNone devTx5 machineOnes (by decide)⟩

/-- C22: for every interrupt-status word with at least one of the NO_ACK,
ARBITRATION_LOST and TX_FIFO_OVERFLOW bits set, `tegra_i2c_isr` returns with
`msg_err` equal to its former value ORed with `I2C_ERR_NO_ACK` (bit 0) iff
NO_ACK is set, `I2C_ERR_ARBITRATION_LOST` (bit 1) iff ARBITRATION_LOST is
set, and `I2C_INT_TX_FIFO_OVERFLOW` (bit 5) iff TX_FIFO_OVERFLOW is set: bit
by bit, a flag is set afterwards iff it was set before or it is the flag of
an error bit that is set, so every earlier flag is kept.  `msg_buf_remaining`,
`msg_buf` and memory are unchanged, nothing is written to the transmit FIFO
and nothing is read from the receive FIFO; the status word is written once
to the interrupt-status register; the interrupt mask register holds its
former value with the six bits NO_ACK, ARBITRATION_LOST,
PACKET_XFER_COMPLETE, TX_FIFO_DATA_REQ, RX_FIFO_DATA_REQ and
TX_FIFO_OVERFLOW cleared; and `complete` is called once. -/
theorem C22_error_bits_are_flagged_and_complete (e : IrqEnv) (d : tegra_i2c_dev) (m : Machine)
    (hse : u32 e.int_status
      &&& (I2C_INT_NO_ACK ||| I2C_INT_ARBITRATION_LOST ||| I2C_INT_TX_FIFO_OVERFLOW) ≠ 0) :
    ∃ d1 m1, tegra_i2c_isr e d m = some (d1, m1)
      ∧ d1.msg_err = d.msg_err
          ||| (if u32 e.int_status &&& I2C_INT_NO_ACK ≠ 0 then I2C_ERR_NO_ACK else 0)
          ||| (if u32 e.int_status &&& I2C_INT_ARBITRATION_LOST ≠ 0 then
                I2C_ERR_ARBITRATION_LOST else 0)
          ||| (if u32 e.int_status &&& I2C_INT_TX_FIFO_OVERFLOW ≠ 0 then
                I2C_INT_TX_FIFO_OVERFLOW else 0)
      ∧ (∀ i, d1.msg_err.testBit i
          = (d.msg_err.testBit i
            || (decide (i = 0) && decide (u32 e.int_status &&& I2C_INT_NO_ACK ≠ 0))
            || (decide (i = 1) && decide (u32 e.int_status &&& I2C_INT_ARBITRATION_LOST ≠ 0))
            || (decide (i = 5) && decide (u32 e.int_status &&& I2C_INT_TX_FIFO_OVERFLOW ≠ 0))))
      ∧ (∀ i, d.msg_err.testBit i = true → d1.msg_err.testBit i = true)
      ∧ d1.msg_buf_remaining = d.msg_buf_remaining ∧ d1.msg_buf = d.msg_buf
      ∧ m1.mem = m.mem
      ∧ writes_to (tegra_i2c_reg_addr d I2C_TX_FIFO) (new_events m m1) = []
      ∧ reads_of (tegra_i2c_reg_addr d I2C_RX_FIFO) (new_events m m1) = 0
      ∧ writes_to (tegra_i2c_reg_addr d I2C_INT_STATUS) (new_events m m1) = [u32 e.int_status]
      ∧ m1.regs (tegra_i2c_reg_addr d I2C_INT_STATUS) = u32 e.int_status
      ∧ m1.regs (tegra_i2c_reg_addr d I2C_INT_MASK)
          = u32 (m.regs (tegra_i2c_reg_addr d I2C_INT_MASK)
              &&& not32 (I2C_INT_NO_ACK ||| I2C_INT_ARBITRATION_LOST |||
                I2C_INT_PACKET_XFER_COMPLETE ||| I2C_INT_TX_FIFO_DATA_REQ |||
                I2C_INT_RX_FIFO_DATA_REQ ||| I2C_INT_TX_FIFO_OVERFLOW))
      ∧ m1.regs (tegra_i2c_reg_addr d I2C_INT_MASK)
          &&& (I2C_INT_NO_ACK ||| I2C_INT_ARBITRATION_LOST ||| I2C_INT_PACKET_XFER_COMPLETE
            ||| I2C_INT_TX_FIFO_DATA_REQ ||| I2C_INT_RX_FIFO_DATA_REQ
            ||| I2C_INT_TX_FIFO_OVERFLOW) = 0
      ∧ d1.msg_complete = d.msg_complete + 1
      ∧ (new_events m m1).count Event.complete = 1 := by
  have hi := isr_of_status_err e d m hse
  obtain ⟨k, hk⟩ := isr_status_err_reads_spec (u32 e.int_status) d
    (log (Event.readl (tegra_i2c_reg_addr d I2C_INT_STATUS)) m)
  generalize isr_status_err_reads (u32 e.int_status) d
    (log (Event.readl (tegra_i2c_reg_addr d I2C_INT_STATUS)) m) = mr at hi hk
  obtain ⟨evs, h1, h2, h3, h4, h5, h6, h7, h8, h9, h10⟩ := isr_err_spec (u32 e.int_status)
    { d with msg_err := isr_status_err_flags (u32 e.int_status) d.msg_err } mr
  have hra : ∀ x, tegra_i2c_reg_addr
      { d with msg_err := isr_status_err_flags (u32 e.int_status) d.msg_err } x
      = tegra_i2c_reg_addr d x := fun _ => rfl
  rw [hra] at h4 h5 h6 h7 h8
  rw [u32_u32] at h5 h6
  generalize tegra_i2c_isr_err (u32 e.int_status)
    { d with msg_err := isr_status_err_flags (u32 e.int_status) d.msg_err } mr = q
    at hi h1 h2 h3 h4 h5
  have hpre : writes_to (tegra_i2c_reg_addr d I2C_TX_FIFO)
        ([Event.readl (tegra_i2c_reg_addr d I2C_INT_STATUS)]
          ++ List.replicate k (Event.readl (tegra_i2c_reg_addr d I2C_PACKET_TRANSFER_STATUS)))
        = []
      ∧ writes_to (tegra_i2c_reg_addr d I2C_INT_STATUS)
        ([Event.readl (tegra_i2c_reg_addr d I2C_INT_STATUS)]
          ++ List.replicate k (Event.readl (tegra_i2c_reg_addr d I2C_PACKET_TRANSFER_STATUS)))
        = []
      ∧ reads_of (tegra_i2c_reg_addr d I2C_RX_FIFO)
        ([Event.readl (tegra_i2c_reg_addr d I2C_INT_STATUS)]
          ++ List.replicate k (Event.readl (tegra_i2c_reg_addr d I2C_PACKET_TRANSFER_STATUS)))
        = 0
      ∧ List.count Event.complete
        ([Event.readl (tegra_i2c_reg_addr d I2C_INT_STATUS)]
          ++ List.replicate k (Event.readl (tegra_i2c_reg_addr d I2C_PACKET_TRANSFER_STATUS)))
        = 0 := by
    rcases isr_reg_addrs d with ⟨-, -, a2, a3, a4, a5, -⟩ | ⟨-, -, a2, a3, a4, a5, -⟩ <;>
      rw [a2, a3, a4, a5] <;>
      simp [writes_to, reads_of, List.filterMap_replicate, List.count_replicate]
  obtain ⟨p1, p2, p3, p4⟩ := hpre
  have ht : q.2.trace
      = m.trace ++ ([Event.readl (tegra_i2c_reg_addr d I2C_INT_STATUS)]
          ++ List.replicate k (Event.readl (tegra_i2c_reg_addr d I2C_PACKET_TRANSFER_STATUS))
          ++ evs) := by
    rw [h2, hk]
    simp [log]
  refine ⟨q.1, q.2, hi, ?_, ?_, ?_, ?_, ?_, ?_, ?_, ?_, ?_, ?_, ?_, ?_, ?_, ?_⟩
  · rw [h1]
    exact isr_status_err_flags_eq _ _
  · intro i
    rw [h1]
    exact isr_status_err_flags_testBit _ _ i
  · intro i hb
    rw [h1]
    show (isr_status_err_flags (u32 e.int_status) d.msg_err).testBit i = true
    rw [isr_status_err_flags_testBit, hb]
    simp
  · rw [h1]
  · rw [h1]
  · rw [h3, hk]
    rfl
  · rw [new_events_of_trace ht, writes_to_append, p1, h7]
    rfl
  · rw [new_events_of_trace ht, reads_of_append, p3, h8]
  · rw [new_events_of_trace ht, writes_to_append, p2, h6]
    rfl
  · exact h5
  · rw [h4, hk]
    rfl
  · rw [h4]
    exact masked_bits_clear _ _
  · rw [h1]
  · rw [new_events_of_trace ht, List.count_append, p4, h9]

theorem C22_witness :
    u32 irqNakOvf.int_status
      &&& (I2C_INT_NO_ACK ||| I2C_INT_ARBITRATION_LOST ||| I2C_INT_TX_FIFO_OVERFLOW) ≠ 0
    ∧ (tegra_i2c_isr irqNakOvf devTx5Arb machineOnes).map
        (fun r => (r.1.msg_err, r.1.irq_disabled, r.1.msg_complete, r.1.msg_buf_remaining,
          r.2.regs 0x64, r.2.regs 0x68, new_events machineOnes r.2))
      = some (0x23, false, 1, 5, 0xFFFFFF50, 0x28,
          [Event.readl 0x68, Event.readl 0x58, Event.readl 0x58, Event.readl 0x64,
            Event.writel 0xFFFFFF50 0x64, Event.writel 0x28 0x68, Event.complete])
    ∧ ∃ d1 m1, tegra_i2c_isr irqNakOvf devTx5Arb machineOnes = some (d1, m1)
      ∧ d1.msg_err = devTx5Arb.msg_err
          ||| (if u32 irqNakOvf.int_status &&& I2C_INT_NO_ACK ≠ 0 then I2C_ERR_NO_ACK else 0)
          ||| (if u32 irqNakOvf.int_status &&& I2C_INT_ARBITRATION_LOST ≠ 0 then
                I2C_ERR_ARBITRATION_LOST else 0)
          ||| (if u32 irqNakOvf.int_status &&& I2C_INT_TX_FIFO_OVERFLOW ≠ 0 then
                I2C_INT_TX_FIFO_OVERFLOW else 0)
      ∧ (∀ i, d1.msg_err.testBit i
          = (devTx5Arb.msg_err.testBit i
            || (decide (i = 0) && decide (u32 irqNakOvf.int_status &&& I2C_INT_NO_ACK ≠ 0))
            || (decide (i = 1)
                && decide (u32 irqNakOvf.int_status &&& I2C_INT_ARBITRATION_LOST ≠ 0))
            || (decide (i = 5)
                && decide (u32 irqNakOvf.int_status &&& I2C_INT_TX_FIFO_OVERFLOW ≠ 0))))
      ∧ (∀ i, devTx5Arb.msg_err.testBit i = true → d1.msg_err.testBit i = true)
      ∧ d1.msg_buf_remaining = devTx5Arb.msg_buf_remaining ∧ d1.msg_buf = devTx5Arb.msg_buf
      ∧ m1.mem = machineOnes.mem
      ∧ writes_to (tegra_i2c_reg_addr devTx5Arb I2C_TX_FIFO) (new_events machineOnes m1) = []
      ∧ reads_of (tegra_i2c_reg_addr devTx5Arb I2C_RX_FIFO) (new_events machineOnes m1) = 0
      ∧ writes_to (tegra_i2c_reg_addr devTx5Arb I2C_INT_STATUS) (new_events machineOnes m1)
          = [u32 irqNakOvf.int_status]
      ∧ m1.regs (tegra_i2c_reg_addr devTx5Arb I2C_INT_STATUS) = u32 irqNakOvf.int_status
      ∧ m1.regs (tegra_i2c_reg_addr devTx5Arb I2C_INT_MASK)
          = u32 (machineOnes.regs (tegra_i2c_reg_addr devTx5Arb I2C_INT_MASK)
              &&& not32 (I2C_INT_NO_ACK ||| I2C_INT_ARBITRATION_LOST |||
                I2C_INT_PACKET_XFER_COMPLETE ||| I2C_INT_TX_FIFO_DATA_REQ |||
                I2C_INT_RX_FIFO_DATA_REQ ||| I2C_INT_TX_FIFO_OVERFLOW))
      ∧ m1.regs (tegra_i2c_reg_addr devTx5Arb I2C_INT_MASK)
          &&& (I2C_INT_NO_ACK ||| I2C_INT_ARBITRATION_LOST ||| I2C_INT_PACKET_XFER_COMPLETE
            ||| I2C_INT_TX_FIFO_DATA_REQ ||| I2C_INT_RX_FIFO_DATA_REQ
            ||| I2C_INT_TX_FIFO_OVERFLOW) = 0
      ∧ d1.msg_complete = devTx5Arb.msg_complete + 1
      ∧ (new_events machineOnes m1).count Event.complete = 1 :=
  ⟨by decide, by rfl,
    C22_error_bits_are_flagged_and_complete irqNakOvf devTx5Arb machineOnes (by decide)⟩

/-- C23, as stated, fails: on a read with no byte remaining, an interrupt
status with RX_FIFO_DATA_REQ and PACKET_XFER_COMPLETE takes none of the error
exits, the packet-complete bit is set and `msg_buf_remaining` is 0, yet the
handler stops at `BUG()` (source line 635): it signals no completion and does
not write the status back. -/
theorem C23_counterexample :
    u32 irqRxDone.int_status ≠ 0
    ∧ u32 irqRxDone.int_status
        &&& (I2C_INT_NO_ACK ||| I2C_INT_ARBITRATION_LOST ||| I2C_INT_TX_FIFO_OVERFLOW) = 0
    ∧ ¬ (u32 irqRxDone.i2c_status &&& I2C_STATUS_BUSY ≠ 0
        ∧ u32 irqRxDone.int_status = I2C_INT_TX_FIFO_DATA_REQ
        ∧ devRdDone.msg_read ≠ 0 ∧ devRdDone.msg_buf_remaining ≠ 0)
    ∧ u32 irqRxDone.int_status &&& I2C_INT_PACKET_XFER_COMPLETE ≠ 0
    ∧ devRdDone.msg_buf_remaining = 0
    ∧ (tegra_i2c_isr irqRxDone devRdDone machine0).isNone = true := by
  refine ⟨by decide, by decide, by decide, by decide, by decide, by rfl⟩

/-- C23: for every invocation of `tegra_i2c_isr` that takes none of the error
exits (status non-zero, none of NO_ACK, ARBITRATION_LOST, TX_FIFO_OVERFLOW
set, no unexpected-status condition) and is not a receive-FIFO request on a
read with no byte remaining (where the handler stops at `BUG()`), the handler
returns; `complete` is called, once, if and only if the status word has
PACKET_XFER_COMPLETE set and `msg_buf_remaining` is 0 after this invocation's
fill or drain, and is not called otherwise; `msg_err` is unchanged; and the
status word is written, once, to the interrupt-status register.  The count
left is the former one minus the bytes the drain (read with RX_FIFO_DATA_REQ)
or the fill (write with TX_FIFO_DATA_REQ) moved. -/
theorem C23_completion_iff_packet_done_and_no_bytes_left (e : IrqEnv) (d : tegra_i2c_dev)
    (m : Machine)
    (hs0 : u32 e.int_status ≠ 0)
    (hse : u32 e.int_status
      &&& (I2C_INT_NO_ACK ||| I2C_INT_ARBITRATION_LOST ||| I2C_INT_TX_FIFO_OVERFLOW) = 0)
    (hun : ¬ (u32 e.i2c_status &&& I2C_STATUS_BUSY ≠ 0
      ∧ u32 e.int_status = I2C_INT_TX_FIFO_DATA_REQ
      ∧ d.msg_read ≠ 0 ∧ d.msg_buf_remaining ≠ 0))
    (hbug : ¬ (d.msg_read ≠ 0 ∧ u32 e.int_status &&& I2C_INT_RX_FIFO_DATA_REQ ≠ 0
      ∧ d.msg_buf_remaining = 0)) :
    ∃ d1 m1, tegra_i2c_isr e d m = some (d1, m1)
      ∧ (Event.complete ∈ new_events m m1
          ↔ u32 e.int_status &&& I2C_INT_PACKET_XFER_COMPLETE ≠ 0 ∧ d1.msg_buf_remaining = 0)
      ∧ (new_events m m1).count Event.complete
          = (if u32 e.int_status &&& I2C_INT_PACKET_XFER_COMPLETE ≠ 0
                ∧ d1.msg_buf_remaining = 0 then 1 else 0)
      ∧ d1.msg_complete
          = d.msg_complete + (if u32 e.int_status &&& I2C_INT_PACKET_XFER_COMPLETE ≠ 0
                ∧ d1.msg_buf_remaining = 0 then 1 else 0)
      ∧ d1.msg_err = d.msg_err
      ∧ writes_to (tegra_i2c_reg_addr d I2C_INT_STATUS) (new_events m m1) = [u32 e.int_status]
      ∧ m1.regs (tegra_i2c_reg_addr d I2C_INT_STATUS) = u32 e.int_status
      ∧ d1.msg_buf_remaining
          = (if d.msg_read ≠ 0 ∧ u32 e.int_status &&& I2C_INT_RX_FIFO_DATA_REQ ≠ 0 then
              d.msg_buf_remaining - min d.msg_buf_remaining (4 * rx_fifo_avail_of e.fifo_status)
            else if d.msg_read = 0 ∧ u32 e.int_status &&& I2C_INT_TX_FIFO_DATA_REQ ≠ 0 then
              d.msg_buf_remaining - min d.msg_buf_remaining (4 * tx_fifo_avail_of e.fifo_status)
            else d.msg_buf_remaining) := by
  obtain ⟨R, b, m3, evs, hi, ht, hw, hc, hR⟩ := isr_normal_path e d m hs0 hse hun hbug
  obtain ⟨aevs, hat, har, haw, hac⟩ := isr_ack_spec d (u32 e.int_status) m3
  rw [u32_u32] at har haw
  generalize (if d.is_dvc then
      dvc_writel DVC_STATUS_I2C_DONE_INTR DVC_STATUS
        (i2c_writel d (u32 e.int_status) I2C_INT_STATUS m3)
    else i2c_writel d (u32 e.int_status) I2C_INT_STATUS m3) = ma at hi hat har
  have hwe : writes_to (tegra_i2c_reg_addr d I2C_INT_STATUS) evs = [] :=
    writes_to_eq_nil _ _ hw
  have hce : evs.count Event.complete = 0 := List.count_eq_zero.mpr hc
  have hca : aevs.count Event.complete = 0 := List.count_eq_zero.mpr hac
  by_cases hP : u32 e.int_status &&& I2C_INT_PACKET_XFER_COMPLETE ≠ 0 ∧ R = 0
  · rw [if_pos hP] at hi
    have htr : (log Event.complete ma).trace = m.trace ++ (evs ++ aevs ++ [Event.complete]) := by
      simp [log, hat, ht]
    refine ⟨{ d with msg_buf_remaining := R, msg_buf := b, msg_complete := d.msg_complete + 1 },
      log Event.complete ma, hi, ?_, ?_, ?_, rfl, ?_, har, hR⟩
    · rw [new_events_of_trace htr]
      simp only [List.mem_append, List.mem_singleton, or_true, true_iff]
      exact hP
    · rw [new_events_of_trace htr, if_pos hP, List.count_append, List.count_append, hce, hca]
      rfl
    · show d.msg_complete + 1 = _
      rw [if_pos hP]
    · rw [new_events_of_trace htr, writes_to_append, writes_to_append, hwe, haw]
      rfl
  · rw [if_neg hP] at hi
    have htr : ma.trace = m.trace ++ (evs ++ aevs) := by
      simp [hat, ht]
    refine ⟨{ d with msg_buf_remaining := R, msg_buf := b }, ma, hi, ?_, ?_, ?_, rfl,
      ?_, har, hR⟩
    · rw [new_events_of_trace htr]
      constructor
      · intro h
        rcases List.mem_append.mp h with h | h
        · exact absurd h hc
        · exact absurd h hac
      · intro h
        exact absurd h hP
    · rw [new_events_of_trace htr, if_neg hP, List.count_append, hce, hca]
    · show d.msg_complete = _
      rw [if_neg hP]
      rfl
    · rw [new_events_of_trace htr, writes_to_append, hwe, haw]
      rfl

theorem C23_witness :
    (u32 irqTxDone.int_status ≠ 0
      ∧ u32 irqTxDone.int_status
          &&& (I2C_INT_NO_ACK ||| I2C_INT_ARBITRATION_LOST ||| I2C_INT_TX_FIFO_OVERFLOW) = 0
      ∧ ¬ (u32 irqTxDone.i2c_status &&& I2C_STATUS_BUSY ≠ 0
          ∧ u32 irqTxDone.int_status = I2C_INT_TX_FIFO_DATA_REQ
          ∧ devTx5.msg_read ≠ 0 ∧ devTx5.msg_buf_remaining ≠ 0)
      ∧ ¬ (devTx5.msg_read ≠ 0 ∧ u32 irqTxDone.int_status &&& I2C_INT_RX_FIFO_DATA_REQ ≠ 0
          ∧ devTx5.msg_buf_remaining = 0))
    ∧ (tegra_i2c_isr irqTxDone devTx5 machineBuf).map
        (fun r => (r.1.msg_buf_remaining, r.1.msg_complete, r.1.msg_err, r.2.regs 0x68,
          new_events machineBuf r.2))
      = some (0, 1, 0, 0x82,
          [Event.readl 0x68, Event.readl 0x1c, Event.spin_lock_irqsave, Event.readl 0x60,
            Event.mem_read 0x1000 4, Event.writel 0x44332211 0x50, Event.mem_read 0x1004 1,
            Event.writel 0xAB 0x50, Event.spin_unlock_irqrestore, Event.writel 0x82 0x68,
            Event.complete])
    ∧ (tegra_i2c_isr irqTxReq devTx5 machineBuf).map
        (fun r => (r.1.msg_buf_remaining, r.1.msg_complete, r.1.msg_err, r.2.regs 0x68,
          new_events machineBuf r.2))
      = some (1, 0, 0, 2,
          [Event.readl 0x68, Event.readl 0x1c, Event.spin_lock_irqsave, Event.readl 0x60,
            Event.mem_read 0x1000 4, Event.writel 0x44332211 0x50,
            Event.spin_unlock_irqrestore, Event.writel 2 0x68])
    ∧ ∃ d1 m1, tegra_i2c_isr irqTxDone devTx5 machineBuf = some (d1, m1)
      ∧ (Event.complete ∈ new_events machineBuf m1
          ↔ u32 irqTxDone.int_status &&& I2C_INT_PACKET_XFER_COMPLETE ≠ 0
            ∧ d1.msg_buf_remaining = 0)
      ∧ (new_events machineBuf m1).count Event.complete
          = (if u32 irqTxDone.int_status &&& I2C_INT_PACKET_XFER_COMPLETE ≠ 0
                ∧ d1.msg_buf_remaining = 0 then 1 else 0)
      ∧ d1.msg_complete
          = devTx5.msg_complete
            + (if u32 irqTxDone.int_status &&& I2C_INT_PACKET_XFER_COMPLETE ≠ 0
                ∧ d1.msg_buf_remaining = 0 then 1 else 0)
      ∧ d1.msg_err = devTx5.msg_err
      ∧ writes_to (tegra_i2c_reg_addr devTx5 I2C_INT_STATUS) (new_events machineBuf m1)
          = [u32 irqTxDone.int_status]
      ∧ m1.regs (tegra_i2c_reg_addr devTx5 I2C_INT_STATUS) = u32 irqTxDone.int_status
      ∧ d1.msg_buf_remaining
          = (if devTx5.msg_read ≠ 0
                ∧ u32 irqTxDone.int_status &&& I2C_INT_RX_FIFO_DATA_REQ ≠ 0 then
              devTx5.msg_buf_remaining
                - min devTx5.msg_buf_remaining (4 * rx_fifo_avail_of irqTxDone.fifo_status)
            else if devTx5.msg_read = 0
                ∧ u32 irqTxDone.int_status &&& I2C_INT_TX_FIFO_DATA_REQ ≠ 0 then
              devTx5.msg_buf_remaining
                - min devTx5.msg_buf_remaining (4 * tx_fifo_avail_of irqTxDone.fifo_status)
            else devTx5.msg_buf_remaining) :=
  ⟨by decide, by rfl, by rfl,
    C23_completion_iff_packet_done_and_no_bytes_left irqTxDone devTx5 machineBuf (by decide)
      (by decide) (by decide) (by decide)⟩

/-- C24: for every remaining byte count and every FIFO-status word, both
`tegra_i2c_fill_tx_fifo` and `tegra_i2c_empty_rx_fifo` return, that is,
neither of the two `BUG_ON` assertions of either routine fires.  The word
count read from the status is at most 15; whenever FIFO words remain after
the whole-word transfer and bytes remain, at most 3 bytes remain; and when
the routine returns it is not the case that both a FIFO word (the count read
minus the port accesses made) and a buffer byte remain. -/
theorem C24_fifo_assertions_never_fire (s : Nat) (ws : List Nat) (d : tegra_i2c_dev)
    (m : Machine) :
    (∃ d1 m1, tegra_i2c_fill_tx_fifo s d m = some (d1, m1)
      ∧ ¬ (tx_fifo_avail_of s
              - (writes_to (tegra_i2c_reg_addr d I2C_TX_FIFO) (new_events m m1)).length > 0
            ∧ d1.msg_buf_remaining > 0))
    ∧ (∃ d1 m1, tegra_i2c_empty_rx_fifo s ws d m = some (d1, m1)
      ∧ ¬ (rx_fifo_avail_of s - reads_of (tegra_i2c_reg_addr d I2C_RX_FIFO) (new_events m m1) > 0
            ∧ d1.msg_buf_remaining > 0))
    ∧ tx_fifo_avail_of s ≤ 15 ∧ rx_fifo_avail_of s ≤ 15
    ∧ (tx_fifo_avail_of s - words_to_transfer d.msg_buf_remaining (tx_fifo_avail_of s) > 0
        ∧ d.msg_buf_remaining
            - words_to_transfer d.msg_buf_remaining (tx_fifo_avail_of s) * 4 > 0 →
        d.msg_buf_remaining
            - words_to_transfer d.msg_buf_remaining (tx_fifo_avail_of s) * 4 ≤ 3)
    ∧ (rx_fifo_avail_of s - words_to_transfer d.msg_buf_remaining (rx_fifo_avail_of s) > 0
        ∧ d.msg_buf_remaining
            - words_to_transfer d.msg_buf_remaining (rx_fifo_avail_of s) * 4 > 0 →
        d.msg_buf_remaining
            - words_to_transfer d.msg_buf_remaining (rx_fifo_avail_of s) * 4 ≤ 3) := by
  obtain ⟨m1, evs, hx, ht, _, hl, _⟩ := fill_tx_fifo_spec s d m
  obtain ⟨m2, evs2, hx2, ht2, _, hl2, _⟩ := empty_rx_fifo_spec s ws d m
  obtain ⟨_, _, ht3, _⟩ := words_to_transfer_facts d.msg_buf_remaining (tx_fifo_avail_of s)
  obtain ⟨_, _, hr3, _⟩ := words_to_transfer_facts d.msg_buf_remaining (rx_fifo_avail_of s)
  have hrx : rx_fifo_avail_of s ≤ 15 := by
    unfold rx_fifo_avail_of I2C_FIFO_STATUS_RX_MASK I2C_FIFO_STATUS_RX_SHIFT
    have h : u32 s &&& 0x0F ≤ 0x0F := Nat.and_le_right
    rw [Nat.shiftRight_eq_div_pow]
    omega
  refine ⟨⟨_, m1, hx, ?_⟩, ⟨_, m2, hx2, ?_⟩, tx_fifo_avail_of_le s, hrx, ?_, ?_⟩
  · rw [new_events_of_trace ht, hl]
    simp only []
    omega
  · rw [new_events_of_trace ht2, hl2]
    simp only []
    omega
  · intro h
    exact ht3 (by omega)
  · intro h
    exact hr3 (by omega)

/-- C25: for a message whose address fits its declared width (at most 0x3FF
with `I2C_M_TEN`, at most 0x7F without), the I2C header word built by
`tegra_i2c_xfer_msg` decodes field by field: bit 16 is set iff `stop` is 0
(the message is not the final one), bit 17 is set, bit 18 iff `I2C_M_TEN`,
bit 19 iff `I2C_M_RD`, bit 21 iff `I2C_M_IGNORE_NAK`, bit 22 iff high-speed
mode is enabled, bits 12..14 are the low three bits of the master code with
high-speed mode enabled and 0 otherwise, and the address is bits 0..9 for a
10-bit and bits 1..7 for a 7-bit message.  The address field shares no bit
with the flag bits 16..22 or the master-code bits 12..14, the rest of the word
(the header of the same message with address 0) has no bit in the address
field, and the word is stored in `io_header` and fits in 32 bits. -/
theorem C25_io_header_decodes_field_by_field (d : tegra_i2c_dev) (msg : i2c_msg)
    (stop : Int) (m : Machine)
    (haddr : if msg.flags &&& I2C_M_TEN ≠ 0 then msg.addr ≤ 0x3FF else msg.addr ≤ 0x7F) :
    ((xfer_msg_io_header d msg stop).testBit 16 = true ↔ stop = 0)
    ∧ (xfer_msg_io_header d msg stop).testBit 17 = true
    ∧ ((xfer_msg_io_header d msg stop).testBit 18 = true ↔ msg.flags &&& I2C_M_TEN ≠ 0)
    ∧ ((xfer_msg_io_header d msg stop).testBit 19 = true ↔ msg.flags &&& I2C_M_RD ≠ 0)
    ∧ ((xfer_msg_io_header d msg stop).testBit 21 = true
        ↔ msg.flags &&& I2C_M_IGNORE_NAK ≠ 0)
    ∧ ((xfer_msg_io_header d msg stop).testBit 22 = true ↔ d.is_high_speed_enable = true)
    ∧ (xfer_msg_io_header d msg stop >>> 12) &&& 7
        = (if d.is_high_speed_enable then d.hs_master_code &&& 7 else 0)
    ∧ (if msg.flags &&& I2C_M_TEN ≠ 0 then xfer_msg_io_header d msg stop &&& 0x3FF = msg.addr
        else (xfer_msg_io_header d msg stop >>> 1) &&& 0x7F = msg.addr)
    ∧ (if msg.flags &&& I2C_M_TEN ≠ 0 then msg.addr else msg.addr <<< 1) &&& 0x7F7000 = 0
    ∧ xfer_msg_io_header d msg stop
        = (if msg.flags &&& I2C_M_TEN ≠ 0 then msg.addr else msg.addr <<< 1)
            ||| xfer_msg_io_header d { msg with addr := 0 } stop
    ∧ xfer_msg_io_header d { msg with addr := 0 } stop
        &&& (if msg.flags &&& I2C_M_TEN ≠ 0 then 0x3FF else 0xFE) = 0
    ∧ (xfer_msg_headers msg stop d m).1.io_header = xfer_msg_io_header d msg stop
    ∧ u32 (xfer_msg_io_header d msg stop) = xfer_msg_io_header d msg stop := by
  obtain ⟨b16, b17, b18, b19, _, b21, b22⟩ := io_header_flag_bits d msg stop haddr
  obtain ⟨a1, a2, a3⟩ := io_header_addr_field d msg stop haddr
  have ha16 : msg.addr < 2 ^ 16 := by
    split at haddr <;> norm_num <;> omega
  refine ⟨b16, b17, b18, b19, b21, b22, io_header_master_code d msg stop haddr, a1, a2,
    io_header_split d msg stop, a3, rfl, ?_⟩
  rw [io_header_eq_spec]
  exact (u32_spec_words 0 msg.addr msg.flags 0 _ _ _ (by decide) ha16 (by decide)).2.2

theorem C25_witness :
    (if msgTenRd.flags &&& I2C_M_TEN ≠ 0 then msgTenRd.addr ≤ 0x3FF else msgTenRd.addr ≤ 0x7F)
    ∧ xfer_msg_io_header devHs msgTenRd 1 = 0x6E52A5
    ∧ (((xfer_msg_io_header devHs msgTenRd 1).testBit 16 = true ↔ (1 : Int) = 0)
      ∧ (xfer_msg_io_header devHs msgTenRd 1).testBit 17 = true
      ∧ ((xfer_msg_io_header devHs msgTenRd 1).testBit 18 = true
          ↔ msgTenRd.flags &&& I2C_M_TEN ≠ 0)
      ∧ ((xfer_msg_io_header devHs msgTenRd 1).testBit 19 = true
          ↔ msgTenRd.flags &&& I2C_M_RD ≠ 0)
      ∧ ((xfer_msg_io_header devHs msgTenRd 1).testBit 21 = true
          ↔ msgTenRd.flags &&& I2C_M_IGNORE_NAK ≠ 0)
      ∧ ((xfer_msg_io_header devHs msgTenRd 1).testBit 22 = true
          ↔ devHs.is_high_speed_enable = true)
      ∧ (xfer_msg_io_header devHs msgTenRd 1 >>> 12) &&& 7
          = (if devHs.is_high_speed_enable then devHs.hs_master_code &&& 7 else 0)
      ∧ (if msgTenRd.flags &&& I2C_M_TEN ≠ 0 then
          xfer_msg_io_header devHs msgTenRd 1 &&& 0x3FF = msgTenRd.addr
          else (xfer_msg_io_header devHs msgTenRd 1 >>> 1) &&& 0x7F = msgTenRd.addr)
      ∧ (if msgTenRd.flags &&& I2C_M_TEN ≠ 0 then msgTenRd.addr else msgTenRd.addr <<< 1)
          &&& 0x7F7000 = 0
      ∧ xfer_msg_io_header devHs msgTenRd 1
          = (if msgTenRd.flags &&& I2C_M_TEN ≠ 0 then msgTenRd.addr else msgTenRd.addr <<< 1)
              ||| xfer_msg_io_header devHs { msgTenRd with addr := 0 } 1
      ∧ xfer_msg_io_header devHs { msgTenRd with addr := 0 } 1
          &&& (if msgTenRd.flags &&& I2C_M_TEN ≠ 0 then 0x3FF else 0xFE) = 0
      ∧ (xfer_msg_headers msgTenRd 1 devHs machine0).1.io_header
          = xfer_msg_io_header devHs msgTenRd 1
      ∧ u32 (xfer_msg_io_header devHs msgTenRd 1) = xfer_msg_io_header devHs msgTenRd 1) :=
  ⟨by decide, by decide,
    C25_io_header_decodes_field_by_field devHs msgTenRd 1 machine0 (by decide)⟩

end TegraI2c
